import Mathlib

/-!
# gqlformatter: a shallow embedding of the formatting engine

The Go package `gqlformatter` renders a parsed GraphQL query document back to
text.  This file embeds `formatter.go` and `options.go`:

* the AST types of `github.com/vektah/gqlparser/v2/ast` that the formatter
  reads (only the fields it reads);
* the output emitter (`writeString`, `writeIndent`, `WriteNewline`,
  `WriteWord`, `WriteString`, ...);
* the value renderer `GetValueString`;
* the structural printer (`FormatQueryDocument` and everything below it);
* the filter specialiser (`doWhereSplitted`, `FormatWhereLogOpArgument`,
  `FormatWhereLogOpChildValue`);
* the options (`NewFormatter`, `WithMinification`, `WithIndent`).

Modelling conventions.

* Go strings are modelled by Lean `String`s (texts of Unicode scalar values).
* The `io.Writer` is a `bytes.Buffer`; the field `writer` holds the text
  written so far.
* A Go panic is a value `Except.error` of type `Fault`; a function that can
  panic returns `Except Fault _`.
* Pointers which the source compares with `nil` (`*ast.Value`,
  `*ast.ChildValue`, `*ast.QueryDocument`) are `Option`s; dereferencing `none`
  is the fault `Fault.nilDeref`.  The other pointers of the AST are never
  compared with `nil` by the source and are modelled as plain values.
* A value of the interface `ast.Selection` holds one of the three node types
  or is `Selection.other` (the nil interface, or any other type), on which
  the type switch of `FormatSelection` panics with `Fault.unknownSelection`.
* `strconv.Quote` belongs to the Go standard library; it is a parameter
  `quote : String → String` of every function that reaches it.
-/

namespace Gqlformatter

/-! ## Standard library functions used by the source -/

/-- Go `unicode.IsSpace`: the characters `strings.TrimSpace` removes. -/
def isSpace (c : Char) : Bool :=
  c = '\t' || c = '\n' || c = '\x0b' || c = '\x0c' || c = '\r' || c = ' ' ||
  c = '\u0085' || c = '\u00a0' || c = '\u1680' ||
  ('\u2000' ≤ c && c ≤ '\u200a') ||
  c = '\u2028' || c = '\u2029' || c = '\u202f' || c = '\u205f' || c = '\u3000'

/-- Go `strings.TrimSpace`: drop leading and trailing white space. -/
def TrimSpace (s : String) : String :=
  ⟨((s.data.dropWhile isSpace).reverse.dropWhile isSpace).reverse⟩

/-- Go `strings.Join`. -/
def Join : List String → String → String
  | [], _ => ""
  | [a], _ => a
  | a :: b :: rest, sep => a ++ sep ++ Join (b :: rest) sep

/-- Go `strings.Repeat` for a non-negative count. -/
def Repeat (s : String) : Nat → String
  | 0 => ""
  | n + 1 => s ++ Repeat s n

/-! ## The AST (package `ast` of gqlparser) -/

/-- The type `ast.ValueKind`; `unsupported` stands for every integer outside the
ten declared constants. -/
inductive ValueKind where
  | Variable | IntValue | FloatValue | StringValue | BlockValue
  | BooleanValue | NullValue | EnumValue | ListValue | ObjectValue
  | unsupported
  deriving DecidableEq, Repr

mutual
/-- The type `ast.Value`: raw token, children, kind. -/
inductive Value where
  | mk (Raw : String) (Children : List (Option ChildValue)) (Kind : ValueKind)
/-- The type `ast.ChildValue`: a name and a pointer to a value. -/
inductive ChildValue where
  | mk (Name : String) (Value : Option Value)
end

/-- Field `Raw` of `ast.Value`. -/
def Value.Raw : Value → String
  | .mk r _ _ => r

/-- Field `Children` of `ast.Value`. -/
def Value.Children : Value → List (Option ChildValue)
  | .mk _ c _ => c

/-- Field `Kind` of `ast.Value`. -/
def Value.Kind : Value → ValueKind
  | .mk _ _ k => k

/-- Field `Name` of `ast.ChildValue`. -/
def ChildValue.Name : ChildValue → String
  | .mk n _ => n

/-- Field `Value` of `ast.ChildValue`. -/
def ChildValue.Value : ChildValue → Option Value
  | .mk _ v => v

/-- The type `ast.Argument`. -/
structure Argument where
  Name : String
  Value : Option Value

/-- The type `ast.Directive`. -/
structure Directive where
  Name : String
  Arguments : List Argument

/-- The type `ast.VariableDefinition`; `TypeString` holds the text returned by the
library method `def.Type.String()`. -/
structure VariableDefinition where
  Variable : String
  TypeString : String
  DefaultValue : Option Value

/-- The interface `ast.Selection`: a value of the interface holds a `*ast.Field`,
a `*ast.FragmentSpread`, a `*ast.InlineFragment`, or anything else (`other`:
the nil interface, or a value of any other type that implements the
interface), which the type switch of `FormatSelection` sends to its `default`
branch. -/
inductive Selection where
  | Field (Alias Name : String) (Arguments : List Argument)
      (Directives : List Directive) (SelectionSet : List Selection)
  | FragmentSpread (Name : String) (Directives : List Directive)
  | InlineFragment (TypeCondition : String) (Directives : List Directive)
      (SelectionSet : List Selection)
  | other

/-- The type `ast.OperationDefinition`. -/
structure OperationDefinition where
  Operation : String
  Name : String
  VariableDefinitions : List VariableDefinition
  Directives : List Directive
  SelectionSet : List Selection

/-- The type `ast.FragmentDefinition`. -/
structure FragmentDefinition where
  Name : String
  VariableDefinition : List VariableDefinition
  TypeCondition : String
  Directives : List Directive
  SelectionSet : List Selection

/-- The type `ast.QueryDocument`. -/
structure QueryDocument where
  Operations : List OperationDefinition
  Fragments : List FragmentDefinition

/-! ## The formatter state and the emitter -/

/-- The ways the formatter can panic. -/
inductive Fault where
  /-- `panic(fmt.Errorf("unknown value kind %d", ...))`. -/
  | unknownKind
  /-- `panic(fmt.Errorf("unknown Selection type: %T", selection))`. -/
  | unknownSelection
  /-- A nil pointer dereference. -/
  | nilDeref
  /-- `strings.Repeat` called with a negative count. -/
  | negativeRepeat
  /-- A slice indexed outside its bounds. -/
  | indexOutOfRange
  deriving DecidableEq, Repr

/-- The struct `formatter`. -/
structure formatter where
  writer : String
  indent : Int
  padNext : Bool
  lineHead : Bool
  indentUnit : String
  colonUnit : String
  optArgumentSplitted : Bool
  optWhereLogicalOps : Bool
  optCompressed : Bool
  deriving DecidableEq, Repr

instance : DecidableEq (Except Fault formatter)
  | .ok a, .ok b => if h : a = b then isTrue (by rw [h]) else isFalse (by intro e; cases e; exact h rfl)
  | .error a, .error b => if h : a = b then isTrue (by rw [h]) else isFalse (by intro e; cases e; exact h rfl)
  | .ok _, .error _ => isFalse (by intro e; cases e)
  | .error _, .ok _ => isFalse (by intro e; cases e)

instance : DecidableEq (Except Fault String)
  | .ok a, .ok b => if h : a = b then isTrue (by rw [h]) else isFalse (by intro e; cases e; exact h rfl)
  | .error a, .error b => if h : a = b then isTrue (by rw [h]) else isFalse (by intro e; cases e; exact h rfl)
  | .ok _, .error _ => isFalse (by intro e; cases e)
  | .error _, .ok _ => isFalse (by intro e; cases e)

/-- Method `writeString`: append to the writer (write errors are ignored by
the source). -/
def formatter.writeString (f : formatter) (s : String) : formatter :=
  { f with writer := f.writer ++ s }

/-- Method `writeIndent`. -/
def formatter.writeIndent (f : formatter) : Except Fault formatter :=
  if f.lineHead && !f.optCompressed then
    if f.indent < 0 then .error .negativeRepeat
    else .ok { f.writeString (Repeat f.indentUnit f.indent.toNat) with
                lineHead := false, padNext := false }
  else .ok { f with lineHead := false, padNext := false }

/-- Method `WriteNewline`. -/
def formatter.WriteNewline (f : formatter) : formatter :=
  { (if !f.optCompressed then f.writeString "\n" else f) with
      lineHead := true, padNext := false }

/-- Method `WriteWord`. -/
def formatter.WriteWord (f : formatter) (word : String) : Except Fault formatter := do
  let f ← (if f.lineHead then f.writeIndent else .ok f)
  let f := if f.padNext then f.writeString " " else f
  let f := f.writeString (TrimSpace word)
  .ok { f with padNext := true }

/-- Method `WriteString`. -/
def formatter.WriteString (f : formatter) (s : String) : Except Fault formatter := do
  let f ← (if f.lineHead then f.writeIndent else .ok f)
  let f := if f.padNext && !f.optCompressed then f.writeString " " else f
  let f := f.writeString s
  .ok { f with padNext := false }

/-- Method `IncrementIndent`. -/
def formatter.IncrementIndent (f : formatter) : formatter :=
  { f with indent := f.indent + 1 }

/-- Method `DecrementIndent`. -/
def formatter.DecrementIndent (f : formatter) : formatter :=
  { f with indent := f.indent - 1 }

/-- Method `NoPadding`. -/
def formatter.NoPadding (f : formatter) : formatter :=
  { f with padNext := false }

/-- Method `NeedPadding`. -/
def formatter.NeedPadding (f : formatter) : formatter :=
  { f with padNext := true }

/-! ## The value renderer -/

mutual
/-- Method `GetValueString` on a non-nil value. -/
def GetValueString.value (quote : String → String) (f : formatter) : Value → Except Fault String
  | .mk raw children kind =>
    match kind with
    | .Variable => .ok ("$" ++ raw)
    | .IntValue | .FloatValue | .EnumValue | .BooleanValue | .NullValue => .ok raw
    | .StringValue | .BlockValue => .ok (quote raw)
    | .ListValue => do
        let val ← GetValueString.listLoop quote f children
        if f.optCompressed then .ok ("[" ++ Join val "," ++ "]")
        else .ok ("[ " ++ Join val ", " ++ " ]")
    | .ObjectValue => do
        let val ← GetValueString.objectLoop quote f children
        if f.optCompressed then .ok ("\x7b" ++ Join val " " ++ "\x7d")
        else .ok ("\x7b " ++ Join val ", " ++ " \x7d")
    | .unsupported => .error .unknownKind
termination_by structural v => v
/-- Method `GetValueString`: the argument is a pointer, `none` is `nil`. -/
def GetValueString (quote : String → String) (f : formatter) : Option Value → Except Fault String
  | none => .ok "<nil>"
  | some v => GetValueString.value quote f v
termination_by structural v => v
/-- The expression `f.GetValueString(elem.Value)` of the list loop, for one
element `elem` of `value.Children`. -/
def GetValueString.listElem (quote : String → String) (f : formatter) :
    Option ChildValue → Except Fault String
  | none => .error .nilDeref
  | some (.mk _ v) => GetValueString quote f v
termination_by structural c => c
/-- The expression `elem.Name + f.colonUnit + f.GetValueString(elem.Value)` of
the object loop, for one element `elem` of `value.Children`. -/
def GetValueString.objectElem (quote : String → String) (f : formatter) :
    Option ChildValue → Except Fault String
  | none => .error .nilDeref
  | some (.mk name v) => do
      let s ← GetValueString quote f v
      .ok (name ++ f.colonUnit ++ s)
termination_by structural c => c
/-- The loop `for _, elem := range value.Children` of the `ListValue` case. -/
def GetValueString.listLoop (quote : String → String) (f : formatter) :
    List (Option ChildValue) → Except Fault (List String)
  | [] => .ok []
  | elem :: rest => do
      let s ← GetValueString.listElem quote f elem
      let val ← GetValueString.listLoop quote f rest
      .ok (s :: val)
termination_by structural l => l
/-- The loop `for _, elem := range value.Children` of the `ObjectValue` case. -/
def GetValueString.objectLoop (quote : String → String) (f : formatter) :
    List (Option ChildValue) → Except Fault (List String)
  | [] => .ok []
  | elem :: rest => do
      let s ← GetValueString.objectElem quote f elem
      let val ← GetValueString.objectLoop quote f rest
      .ok (s :: val)
termination_by structural l => l
end

/-! ## The filter specialiser -/

mutual
/-- Function `doWhereSplitted` on a non-nil element. -/
def doWhereSplitted.elem : ChildValue → Bool
  | .mk name value =>
    match value with
    | none => false
    | some (.mk _ children _) =>
      match children with
      | [] => false
      | c :: rest =>
        if name = "and" ∨ name = "or" then
          decide ((c :: rest).length > 1)
        else if name = "not" then
          match rest with
          | [] => doWhereSplitted c
          | _ :: _ => false
        else false
termination_by structural e => e
/-- Function `doWhereSplitted`: the argument is a pointer, `none` is `nil`. -/
def doWhereSplitted : Option ChildValue → Bool
  | none => false
  | some e => doWhereSplitted.elem e
termination_by structural e => e
end

/-- Method `FormatValue`. -/
def formatter.FormatValue (quote : String → String) (f : formatter) (value : Option Value) :
    Except Fault formatter := do
  let s ← GetValueString quote f value
  f.WriteString s

/-- Method `FormatChildValue`, on a non-nil element. -/
def formatter.FormatChildValue (quote : String → String) (f : formatter) (elem : ChildValue) :
    Except Fault formatter := do
  let s ← GetValueString quote f elem.Value
  f.WriteString (elem.Name ++ f.colonUnit ++ s)

mutual
/-- Method `FormatWhereLogOpChildValue`, on a non-nil element (the source
reads `elem.Name` first). -/
def formatter.FormatWhereLogOpChildValue (quote : String → String) (f : formatter) :
    ChildValue → Except Fault formatter
  | .mk name value => do
    let f ← f.WriteString name
    let f ← f.NoPadding.WriteString f.colonUnit
    match value with
    | none => f.WriteString "<nil>"
    | some (.mk raw children kind) =>
      match kind with
      | .Variable => f.WriteString ("$" ++ raw)
      | .IntValue | .FloatValue | .EnumValue | .BooleanValue | .NullValue => f.WriteString raw
      | .StringValue | .BlockValue => f.WriteString (quote raw)
      | .ListValue => do
          let val ← GetValueString.listLoop quote f children
          if f.optCompressed then f.WriteString ("[" ++ Join val "," ++ "]")
          else do
            let f ← f.WriteString ("[ " ++ Join val ", " ++ " ]")
            .ok f.WriteNewline.NeedPadding
      | .ObjectValue =>
          match children with
          | [] => do
              let f ← f.WriteString "\x7b\x7d"
              if !f.optCompressed then .ok f.WriteNewline.NeedPadding else .ok f
          | [c] =>
              match c with
              | none => .error .nilDeref
              | some c =>
                if c.Name = "and" ∨ c.Name = "or" ∨ c.Name = "not" then do
                  let f ← f.WriteString "\x7b"
                  let f := f.WriteNewline.NeedPadding
                  let f := f.IncrementIndent
                  let f ← formatter.FormatWhereLogOpChildValue quote f c
                  let f := f.DecrementIndent
                  let f ← f.WriteString "\x7d"
                  .ok f.WriteNewline.NeedPadding
                else if f.optCompressed then do
                  let f ← f.WriteString "\x7b"
                  let f ← f.FormatChildValue quote c
                  let f ← f.WriteString "\x7d"
                  .ok f.NeedPadding
                else do
                  let f ← f.WriteString "\x7b "
                  let f ← f.FormatChildValue quote c
                  let f ← f.WriteString " \x7d"
                  .ok f.WriteNewline.NeedPadding
          | c₀ :: c₁ :: rest => do
              let f ← f.WriteString "\x7b"
              let f := f.WriteNewline.NeedPadding
              let f := f.IncrementIndent
              let f ← formatter.FormatWhereLogOpChildValue.loop quote f (c₀ :: c₁ :: rest)
              let f := f.DecrementIndent
              let f ← f.WriteString "\x7d"
              .ok f.WriteNewline.NeedPadding
      | .unsupported => .error .unknownKind
termination_by structural e => e
/-- The loop `for _, c := range v.Children` of the `default` case of
`FormatWhereLogOpChildValue`. -/
def formatter.FormatWhereLogOpChildValue.loop (quote : String → String) (f : formatter) :
    List (Option ChildValue) → Except Fault formatter
  | [] => .ok f
  | none :: _ => .error .nilDeref
  | some c :: rest => do
      let f ←
        (if c.Name = "and" ∨ c.Name = "or" ∨ c.Name = "not" then
           formatter.FormatWhereLogOpChildValue quote f c
         else do
           let f ← f.FormatChildValue quote c
           .ok f.WriteNewline.NeedPadding)
      formatter.FormatWhereLogOpChildValue.loop quote f rest
termination_by structural l => l
end

/-- Method `FormatWhereLogOpArgument`. -/
def formatter.FormatWhereLogOpArgument (quote : String → String) (f : formatter)
    (arg : Argument) : Except Fault formatter := do
  let f ← f.WriteWord arg.Name
  let f := f.NoPadding
  let f ← (if f.optCompressed then f.WriteString ":\x7b" else f.WriteString ": \x7b")
  let f := f.NeedPadding
  let f := f.WriteNewline
  let f := f.IncrementIndent
  let f ←
    (match arg.Value with
     | none => .error .nilDeref
     | some v =>
       match v.Children with
       | [] => .error .indexOutOfRange
       | none :: _ => .error .nilDeref
       | some c :: _ => f.FormatWhereLogOpChildValue quote c)
  let f := f.DecrementIndent
  let f ← f.WriteString "\x7d"
  .ok f.NeedPadding

/-- The test of `FormatWhereArgument` that selects the filter layout: `true`
when the method calls `FormatWhereLogOpArgument` and returns. -/
def formatter.FormatWhereArgument.useLogOp (f : formatter) (arg : Argument) :
    Except Fault Bool :=
  if f.optWhereLogicalOps then
    match arg.Value with
    | none => .error .nilDeref
    | some v =>
      match v.Children with
      | [c] =>
        match c with
        | none => .error .nilDeref
        | some c =>
          if c.Name = "and" ∨ c.Name = "or" then
            match c.Value with
            | none => .error .nilDeref
            | some cv => .ok (decide (cv.Children.length > 1))
          else if c.Name = "not" then .ok (doWhereSplitted (some c))
          else .ok false
      | _ => .ok false
  else .ok false

/-- Method `FormatWhereArgument`. -/
def formatter.FormatWhereArgument (quote : String → String) (f : formatter)
    (arg : Argument) : Except Fault formatter := do
  if (← formatter.FormatWhereArgument.useLogOp f arg) then
    f.FormatWhereLogOpArgument quote arg
  else do
    let f ← f.WriteWord arg.Name
    let f ← f.NoPadding.WriteString f.colonUnit
    f.FormatValue quote arg.Value

/-- Method `FormatArgument`. -/
def formatter.FormatArgument (quote : String → String) (f : formatter)
    (arg : Argument) : Except Fault formatter :=
  if arg.Name = "where" then f.FormatWhereArgument quote arg
  else do
    let f ← f.WriteWord arg.Name
    let f ← f.NoPadding.WriteString f.colonUnit
    f.FormatValue quote arg.Value

/-- The computation of the local variable `doSplitted` of
`FormatArgumentList`, for a non-empty list. -/
def formatter.FormatArgumentList.doSplitted (f : formatter) (lists : List Argument) :
    Except Fault Bool :=
  if f.optArgumentSplitted then
    if lists.length > 1 then .ok true
    else
      match lists with
      | [] => .error .indexOutOfRange
      | a :: _ =>
        if a.Name = "where" then
          match a.Value with
          | none => .error .nilDeref
          | some v =>
            match v.Children with
            | [c] =>
              match c with
              | none => .error .nilDeref
              | some c =>
                if c.Name = "and" ∨ c.Name = "or" then
                  match c.Value with
                  | none => .error .nilDeref
                  | some cv => .ok (decide (cv.Children.length > 1))
                else if c.Name = "not" then .ok (doWhereSplitted (some c))
                else .ok false
            | _ => .ok false
        else .ok false
  else .ok false

/-- The loop of the split branch of `FormatArgumentList`. -/
def formatter.FormatArgumentList.splitLoop (quote : String → String) (f : formatter) :
    List Argument → Except Fault formatter
  | [] => .ok f
  | arg :: rest => do
      let f ← f.FormatArgument quote arg
      let f := f.WriteNewline
      formatter.FormatArgumentList.splitLoop quote f rest

/-- The loop of the inline branch of `FormatArgumentList`; `idx != len(lists)-1`
holds when arguments remain. -/
def formatter.FormatArgumentList.inlineLoop (quote : String → String) (f : formatter) :
    List Argument → Except Fault formatter
  | [] => .ok f
  | arg :: rest => do
      let f ← f.FormatArgument quote arg
      let f ←
        (if !rest.isEmpty then
           if f.optCompressed then f.NoPadding.WriteString " "
           else f.NoPadding.WriteWord ","
         else .ok f)
      formatter.FormatArgumentList.inlineLoop quote f rest

/-- Method `FormatArgumentList`. -/
def formatter.FormatArgumentList (quote : String → String) (f : formatter)
    (lists : List Argument) : Except Fault formatter :=
  if lists.length = 0 then .ok f
  else do
    let doSplitted ← formatter.FormatArgumentList.doSplitted f lists
    let f ← f.NoPadding.WriteString "("
    let f ←
      (if doSplitted then do
         let f := f.WriteNewline
         let f := f.IncrementIndent
         let f ← formatter.FormatArgumentList.splitLoop quote f lists
         .ok f.DecrementIndent
       else formatter.FormatArgumentList.inlineLoop quote f lists)
    let f ← f.WriteString ")"
    .ok f.NeedPadding

/-- Method `FormatDirective`. -/
def formatter.FormatDirective (quote : String → String) (f : formatter)
    (dir : Directive) : Except Fault formatter := do
  let f ← f.WriteString "@"
  let f ← f.WriteWord dir.Name
  f.FormatArgumentList quote dir.Arguments

/-- Method `FormatDirectiveList`. -/
def formatter.FormatDirectiveList (quote : String → String) (f : formatter) :
    List Directive → Except Fault formatter
  | [] => .ok f
  | dir :: rest => do
      let f ← f.FormatDirective quote dir
      formatter.FormatDirectiveList quote f rest

/-- Method `FormatType`; the argument is the text of `t.String()`. -/
def formatter.FormatType (f : formatter) (t : String) : Except Fault formatter :=
  if f.optCompressed then f.WriteString t else f.WriteWord t

/-- Method `FormatVariableDefinition`. -/
def formatter.FormatVariableDefinition (quote : String → String) (f : formatter)
    (d : VariableDefinition) : Except Fault formatter := do
  let f ← f.WriteString "$"
  let f ← f.WriteWord d.Variable
  let f ← f.NoPadding.WriteString ":"
  let f ← f.FormatType d.TypeString
  match d.DefaultValue with
  | none => .ok f
  | some v => do
      let f ← f.WriteWord "="
      f.FormatValue quote (some v)

/-- The loop of `FormatVariableDefinitionList`. -/
def formatter.FormatVariableDefinitionList.loop (quote : String → String) (f : formatter) :
    List VariableDefinition → Except Fault formatter
  | [] => .ok f
  | d :: rest => do
      let f ← f.FormatVariableDefinition quote d
      let f ←
        (if !rest.isEmpty then
           if f.optCompressed then f.NoPadding.WriteString ","
           else f.NoPadding.WriteWord ","
         else .ok f)
      formatter.FormatVariableDefinitionList.loop quote f rest

/-- Method `FormatVariableDefinitionList`. -/
def formatter.FormatVariableDefinitionList (quote : String → String) (f : formatter)
    (lists : List VariableDefinition) : Except Fault formatter :=
  if lists.length = 0 then .ok f
  else do
    let f ← f.WriteString "("
    let f ← formatter.FormatVariableDefinitionList.loop quote f lists
    let f ← f.NoPadding.WriteString ")"
    .ok f.NeedPadding

/-- Method `FormatFragmentSpread`. -/
def formatter.FormatFragmentSpread (quote : String → String) (f : formatter)
    (name : String) (directives : List Directive) : Except Fault formatter := do
  let f ← f.WriteWord "..."
  let f ← f.WriteWord name
  f.FormatDirectiveList quote directives

/-- The body of `FormatSelectionSet` around its loop: nothing for an empty
set, otherwise `{`, newline, deeper indent, the loop `body`, back, `}`. -/
def formatter.FormatSelectionSet.frame (f : formatter) (sets : List Selection)
    (body : formatter → Except Fault formatter) : Except Fault formatter :=
  if sets.length = 0 then .ok f
  else do
    let f ← f.WriteString "\x7b"
    let f := f.WriteNewline
    let f := f.IncrementIndent
    let f ← body f
    let f := f.DecrementIndent
    f.WriteString "\x7d"

mutual
/-- Method `FormatSelection`, with `FormatField` and `FormatInlineFragment`
unfolded in its type switch, and their calls of `FormatSelectionSet` unfolded
to the frame around the loop. -/
def formatter.FormatSelection (quote : String → String) (f : formatter) :
    Selection → Except Fault formatter
  | .Field fieldAlias name arguments directives selectionSet => do
      let f ←
        (if fieldAlias ≠ "" ∧ fieldAlias ≠ name then do
           let f ← f.WriteWord fieldAlias
           f.NoPadding.WriteString f.colonUnit
         else .ok f)
      let f ← f.WriteWord name
      let f ←
        (if arguments.length ≠ 0 then do
           let f := f.NoPadding
           let f ← f.FormatArgumentList quote arguments
           .ok f.NeedPadding
         else .ok f)
      let f ← f.FormatDirectiveList quote directives
      formatter.FormatSelectionSet.frame f selectionSet
        (fun f => formatter.FormatSelectionSet.loop quote f selectionSet)
  | .FragmentSpread name directives => f.FormatFragmentSpread quote name directives
  | .InlineFragment typeCondition directives selectionSet => do
      let f ← f.WriteWord "..."
      let f ←
        (if typeCondition ≠ "" then do
           let f ← f.WriteWord "on"
           f.WriteWord typeCondition
         else .ok f)
      let f ← f.FormatDirectiveList quote directives
      formatter.FormatSelectionSet.frame f selectionSet
        (fun f => formatter.FormatSelectionSet.loop quote f selectionSet)
  | .other => .error .unknownSelection
termination_by structural s => s
/-- The loop `for idx, sel := range sets` of `FormatSelectionSet`;
`idx != len(sets)-1` holds when selections remain. -/
def formatter.FormatSelectionSet.loop (quote : String → String) (f : formatter) :
    List Selection → Except Fault formatter
  | [] => .ok f
  | sel :: rest => do
      let f ← formatter.FormatSelection quote f sel
      let f ←
        (if f.optCompressed then
           if !rest.isEmpty then
             if f.optCompressed then f.NoPadding.WriteString " "
             else f.NoPadding.WriteWord ","
           else .ok f
         else .ok f.WriteNewline)
      formatter.FormatSelectionSet.loop quote f rest
termination_by structural l => l
end

/-- Method `FormatSelectionSet`. -/
def formatter.FormatSelectionSet (quote : String → String) (f : formatter)
    (sets : List Selection) : Except Fault formatter :=
  formatter.FormatSelectionSet.frame f sets
    (fun f => formatter.FormatSelectionSet.loop quote f sets)

/-- Method `FormatField`. -/
def formatter.FormatField (quote : String → String) (f : formatter)
    (fieldAlias name : String) (arguments : List Argument) (directives : List Directive)
    (selectionSet : List Selection) : Except Fault formatter :=
  f.FormatSelection quote (.Field fieldAlias name arguments directives selectionSet)

/-- Method `FormatInlineFragment`. -/
def formatter.FormatInlineFragment (quote : String → String) (f : formatter)
    (typeCondition : String) (directives : List Directive)
    (selectionSet : List Selection) : Except Fault formatter :=
  f.FormatSelection quote (.InlineFragment typeCondition directives selectionSet)

/-- Method `FormatOperationDefinition`. -/
def formatter.FormatOperationDefinition (quote : String → String) (f : formatter)
    (d : OperationDefinition) : Except Fault formatter := do
  let f ← f.WriteWord d.Operation
  let f ← (if d.Name ≠ "" then f.WriteWord d.Name else .ok f)
  let f ← f.FormatVariableDefinitionList quote d.VariableDefinitions
  let f ← f.FormatDirectiveList quote d.Directives
  if d.SelectionSet.length ≠ 0 then do
    let f ← f.FormatSelectionSet quote d.SelectionSet
    .ok f.WriteNewline
  else .ok f

/-- Method `FormatOperationList`. -/
def formatter.FormatOperationList (quote : String → String) (f : formatter) :
    List OperationDefinition → Except Fault formatter
  | [] => .ok f
  | d :: rest => do
      let f ← f.FormatOperationDefinition quote d
      formatter.FormatOperationList quote f rest

/-- Method `FormatFragmentDefinition`. -/
def formatter.FormatFragmentDefinition (quote : String → String) (f : formatter)
    (d : FragmentDefinition) : Except Fault formatter := do
  let f ← f.WriteWord "fragment"
  let f ← f.WriteWord d.Name
  let f ← f.FormatVariableDefinitionList quote d.VariableDefinition
  let f ← f.WriteWord "on"
  let f ← f.WriteWord d.TypeCondition
  let f ← f.FormatDirectiveList quote d.Directives
  if d.SelectionSet.length ≠ 0 then do
    let f ← f.FormatSelectionSet quote d.SelectionSet
    .ok f.WriteNewline
  else .ok f

/-- Method `FormatFragmentDefinitionList`. -/
def formatter.FormatFragmentDefinitionList (quote : String → String) (f : formatter) :
    List FragmentDefinition → Except Fault formatter
  | [] => .ok f
  | d :: rest => do
      let f ← f.FormatFragmentDefinition quote d
      formatter.FormatFragmentDefinitionList quote f rest

/-- Method `FormatQueryDocument`: the argument is a pointer, `none` is `nil`. -/
def formatter.FormatQueryDocument (quote : String → String) (f : formatter) :
    Option QueryDocument → Except Fault formatter
  | none => .ok f
  | some doc => do
      let f ← f.FormatOperationList quote doc.Operations
      f.FormatFragmentDefinitionList quote doc.Fragments

/-! ## Options (`options.go`) -/

/-- The interface `Option` of the source: its implementations are the values
returned by `WithMinification` and `WithIndent`, and the list type `Options`. -/
inductive FormatOption where
  | WithMinification
  | WithIndent (indent : String)
  | Options (o : List FormatOption)

mutual
/-- Method `apply` of the interface `Option`. -/
def FormatOption.apply : FormatOption → formatter → formatter
  | .WithMinification, f =>
      { f with colonUnit := ":", optArgumentSplitted := false,
               optWhereLogicalOps := false, optCompressed := true }
  | .WithIndent indent, f => { f with indentUnit := indent }
  | .Options o, f => FormatOption.applyAll o f
termination_by structural o => o
/-- The loop `for _, opt := range opts { opt.apply(f) }`. -/
def FormatOption.applyAll : List FormatOption → formatter → formatter
  | [], f => f
  | opt :: rest, f => FormatOption.applyAll rest (opt.apply f)
termination_by structural l => l
end

/-- Function `NewFormatter`; `w` is the content of the writer passed in. -/
def NewFormatter (w : String) (opts : List FormatOption) : formatter :=
  FormatOption.applyAll opts
    { writer := w, indent := 0, padNext := false, lineHead := false,
      indentUnit := "  ", colonUnit := ": ",
      optArgumentSplitted := true, optWhereLogicalOps := true, optCompressed := false }

/-! ## Well-formedness of values and the rendering of a value in words -/

mutual
/-- Every node of the value has one of the ten declared kinds and no element
of a `Children` slice is a nil pointer (the `Value` of a child may be nil). -/
def Value.recognised : Value → Bool
  | .mk _ children kind => kind != .unsupported && recognisedList children
termination_by structural v => v
/-- The predicate `Value.recognised` for a pointer; `nil` holds no node. -/
def recognisedOpt : Option Value → Bool
  | none => true
  | some v => v.recognised
termination_by structural v => v
/-- The predicate `Value.recognised` for one element of a `Children` slice. -/
def recognisedChild : Option ChildValue → Bool
  | none => false
  | some (.mk _ v) => recognisedOpt v
termination_by structural c => c
/-- The predicate `Value.recognised` for a `Children` slice. -/
def recognisedList : List (Option ChildValue) → Bool
  | [] => true
  | c :: rest => recognisedChild c && recognisedList rest
termination_by structural l => l
end

mutual
/-- The text of a value as the specification words it (section 4.2): by
kind, with `minified` choosing the separators and `colon` the colon
separator. -/
def renderValue (quote : String → String) (minified : Bool) (colon : String) : Value → String
  | .mk raw children kind =>
    match kind with
    | .Variable => "$" ++ raw
    | .IntValue | .FloatValue | .EnumValue | .BooleanValue | .NullValue => raw
    | .StringValue | .BlockValue => quote raw
    | .ListValue =>
        if minified then "[" ++ Join (renderElems quote minified colon children) "," ++ "]"
        else "[ " ++ Join (renderElems quote minified colon children) ", " ++ " ]"
    | .ObjectValue =>
        if minified then "\x7b" ++ Join (renderPairs quote minified colon children) " " ++ "\x7d"
        else "\x7b " ++ Join (renderPairs quote minified colon children) ", " ++ " \x7d"
    | .unsupported => ""
termination_by structural v => v
/-- The text of a value pointer; an absent value is the placeholder. -/
def renderOptValue (quote : String → String) (minified : Bool) (colon : String) :
    Option Value → String
  | none => "<nil>"
  | some v => renderValue quote minified colon v
termination_by structural v => v
/-- The text of one list element: the text of its value. -/
def renderElem (quote : String → String) (minified : Bool) (colon : String) :
    Option ChildValue → String
  | none => ""
  | some (.mk _ v) => renderOptValue quote minified colon v
termination_by structural c => c
/-- The text of one object pair: name, colon separator, text of the value. -/
def renderPair (quote : String → String) (minified : Bool) (colon : String) :
    Option ChildValue → String
  | none => ""
  | some (.mk name v) => name ++ colon ++ renderOptValue quote minified colon v
termination_by structural c => c
/-- The texts of the elements of a list, in input order. -/
def renderElems (quote : String → String) (minified : Bool) (colon : String) :
    List (Option ChildValue) → List String
  | [] => []
  | c :: rest => renderElem quote minified colon c :: renderElems quote minified colon rest
termination_by structural l => l
/-- The texts of the pairs of an object, in input order. -/
def renderPairs (quote : String → String) (minified : Bool) (colon : String) :
    List (Option ChildValue) → List String
  | [] => []
  | c :: rest => renderPair quote minified colon c :: renderPairs quote minified colon rest
termination_by structural l => l
end

/-! ## The applicability test in words -/

/-- The sub-conditions of a combinator: the children of its value (none when
the value is absent). -/
def ChildValue.subConditions (c : ChildValue) : List (Option ChildValue) :=
  match c.Value with
  | none => []
  | some v => v.Children

/-- A chain of zero or more single-child `not` nodes that ends in an `and` or
`or` with at least two children. -/
inductive ReachesSplit : ChildValue → Prop where
  | combinator (name raw : String) (children : List (Option ChildValue)) (kind : ValueKind) :
      (name = "and" ∨ name = "or") → 1 < children.length →
      ReachesSplit (.mk name (some (.mk raw children kind)))
  | negation (raw : String) (kind : ValueKind) (c : ChildValue) :
      ReachesSplit c → ReachesSplit (.mk "not" (some (.mk raw [some c] kind)))

/-- The applicability test of section 4.4: the value has exactly one child and
that child satisfies `doWhereSplitted`. -/
def whereQualifies : Option Value → Bool
  | none => false
  | some v =>
    match v.Children with
    | [c] => doWhereSplitted c
    | _ => false

/-- The pointers which the applicability test of `FormatWhereArgument` and of
`FormatArgumentList` dereferences are present: the value of the argument, its
single child if it has exactly one, and the value of that child if the child
is named `and` or `or`. -/
def Argument.derefOk (arg : Argument) : Bool :=
  match arg.Value with
  | none => false
  | some v =>
    match v.Children with
    | [c] =>
      match c with
      | none => false
      | some c => if c.Name = "and" ∨ c.Name = "or" then c.Value.isSome else true
    | _ => true

/-! ## Relations used to state what a method leaves unchanged -/

/-- The state `f'` extends the state `f`: same configuration, indent depth
moved by `k`, and the writer of `f` is a prefix of the writer of `f'`. -/
structure Ext (k : Int) (f f' : formatter) : Prop where
  indentUnit : f'.indentUnit = f.indentUnit
  colonUnit : f'.colonUnit = f.colonUnit
  optArgumentSplitted : f'.optArgumentSplitted = f.optArgumentSplitted
  optWhereLogicalOps : f'.optWhereLogicalOps = f.optWhereLogicalOps
  optCompressed : f'.optCompressed = f.optCompressed
  indent : f'.indent = f.indent + k
  writer : ∃ s, f'.writer = f.writer ++ s

/-- Partial correctness: if the computation completes, the result satisfies `Q`. -/
def Post (x : Except Fault formatter) (Q : formatter → Prop) : Prop :=
  ∀ f', x = .ok f' → Q f'


/-- The generic rendering of an argument in words: the name, the colon
separator and the inline text of the value. -/
def formatter.inlineArgument (quote : String → String) (f : formatter) (arg : Argument) :
    Except Fault formatter := do
  let f ← f.WriteWord arg.Name
  let f ← f.NoPadding.WriteString f.colonUnit
  f.FormatValue quote arg.Value

/-- The argument `where:{and:{a:{eq:1}}}` of the specification (section 8). -/
def sampleSingleCondition : Argument :=
  ⟨"where", some (.mk "" [some (.mk "and" (some (.mk "" [some (.mk "a" (some (.mk ""
    [some (.mk "eq" (some (.mk "1" [] .IntValue)))] .ObjectValue)))] .ObjectValue)))]
    .ObjectValue)⟩


/-- The list holds exactly one argument, named `where`, whose value qualifies
for the filter layout. -/
def singleWhereQualifies : List Argument → Bool
  | [a] => decide (a.Name = "where") && whereQualifies a.Value
  | _ => false

/-- The layout choice of an argument list in words: splitting is enabled and the
list has more than one argument, or its single argument qualifies for
filter-splitting. -/
def formatter.splitsArguments (f : formatter) (lists : List Argument) : Bool :=
  f.optArgumentSplitted && (decide (1 < lists.length) || singleWhereQualifies lists)

/-- The inline text of one argument in minified mode. -/
def argumentText (quote : String → String) (colon : String) (a : Argument) : String :=
  TrimSpace a.Name ++ colon ++ renderOptValue quote true colon a.Value

/-- The argument list `(x: 1, y: 2)`. -/
def sampleTwoArguments : List Argument :=
  [⟨"x", some (.mk "1" [] .IntValue)⟩, ⟨"y", some (.mk "2" [] .IntValue)⟩]


/-- No child of the list is a nil pointer or is named `and`, `or` or `not`. -/
def plainConditions : List (Option ChildValue) → Bool
  | [] => true
  | none :: _ => false
  | some c :: rest =>
    !(decide (c.Name = "and") || decide (c.Name = "or") || decide (c.Name = "not")) &&
      plainConditions rest

/-- The lines of the conditions under a combinator: each pair at the given
depth, followed by a newline. -/
def conditionLines (quote : String → String) (unit : String) (depth : Nat) :
    List (Option ChildValue) → String
  | [] => ""
  | c :: rest =>
    Repeat unit depth ++ renderPair quote false ": " c ++ "\n" ++
      conditionLines quote unit depth rest

/-- The `where` argument of C2: one combinator `op` over the conditions
`children`. -/
def whereArgument (raw₀ raw₁ : String) (kind₀ : ValueKind) (op : String)
    (children : List (Option ChildValue)) : Argument :=
  ⟨"where", some (.mk raw₀ [some (.mk op (some (.mk raw₁ children .ObjectValue)))] kind₀)⟩

/-- The document `query{products(where:{and:{id:{greater_or_equals:20}
id:{lt:28}}}){id name price}}` of `TestFormatQueryWithIndent`, as the parser
builds it (the alias of a field without alias is its name). -/
def testQuery : QueryDocument :=
  ⟨[⟨"query", "", [], [],
      [.Field "products" "products"
        [⟨"where", some (.mk "" [some (.mk "and" (some (.mk ""
          [some (.mk "id" (some (.mk ""
            [some (.mk "greater_or_equals" (some (.mk "20" [] .IntValue)))] .ObjectValue))),
           some (.mk "id" (some (.mk ""
            [some (.mk "lt" (some (.mk "28" [] .IntValue)))] .ObjectValue)))]
          .ObjectValue)))] .ObjectValue)⟩]
        []
        [.Field "id" "id" [] [] [], .Field "name" "name" [] [] [],
         .Field "price" "price" [] [] []]]⟩],
   []⟩

/-- The two conditions `id:{greater_or_equals:20}` and `id:{lt:28}`. -/
def testConditions : List (Option ChildValue) :=
  [some (.mk "id" (some (.mk ""
    [some (.mk "greater_or_equals" (some (.mk "20" [] .IntValue)))] .ObjectValue))),
   some (.mk "id" (some (.mk ""
    [some (.mk "lt" (some (.mk "28" [] .IntValue)))] .ObjectValue)))]


/-- The readable layout of the selections in words: each selection in input
order, followed by a newline. -/
def selectionLines (quote : String → String) (f : formatter) :
    List Selection → Except Fault formatter
  | [] => .ok f
  | sel :: rest => do
      let f ← f.FormatSelection quote sel
      selectionLines quote f.WriteNewline rest

/-- The minified layout of the selections in words: the selections in input
order, separated by one space. -/
def selectionSpaced (quote : String → String) (f : formatter) :
    List Selection → Except Fault formatter
  | [] => .ok f
  | [sel] => f.FormatSelection quote sel
  | sel :: next :: rest => do
      let f ← f.FormatSelection quote sel
      let f ← f.NoPadding.WriteString " "
      selectionSpaced quote f (next :: rest)

/-- Every selection of the list is rendered from a line head at indent depth
`k`, and the next one starts after a newline. -/
def RendersLines (quote : String → String) (k : Int) :
    formatter → List Selection → formatter → Prop
  | g, [], g' => g' = g
  | g, sel :: rest, g' =>
    g.lineHead = true ∧ g.indent = k ∧
      ∃ g₁, g.FormatSelection quote sel = .ok g₁ ∧ RendersLines quote k g₁.WriteNewline rest g'


/-! ## Families of states that differ in the indent unit -/

/-- A family of formatter states `conc i a`, indexed by `i` and described by
an abstract state `a`, with the action of the emitter on abstract states. -/
structure Uniform (ι : Type) (A : Type) where
  conc : ι → A → formatter
  compressed : A → Bool
  argumentSplitted : A → Bool
  whereLogicalOps : A → Bool
  colon : A → String
  writeString : A → String → Except Fault A
  writeWord : A → String → Except Fault A
  newline : A → A
  increment : A → A
  decrement : A → A
  noPadding : A → A
  needPadding : A → A

/-- The emitter acts on the family uniformly in the index: each primitive maps
`conc i a` to `conc i a1` for an `a1` that does not depend on `i`, and the
fields read by the printer do not depend on `i`. -/
structure Uniform.Lawful {ι A : Type} (S : Uniform ι A) : Prop where
  conc_compressed : ∀ i a, (S.conc i a).optCompressed = S.compressed a
  conc_argumentSplitted : ∀ i a, (S.conc i a).optArgumentSplitted = S.argumentSplitted a
  conc_whereLogicalOps : ∀ i a, (S.conc i a).optWhereLogicalOps = S.whereLogicalOps a
  conc_colon : ∀ i a, (S.conc i a).colonUnit = S.colon a
  conc_writeString : ∀ i a s, (S.conc i a).WriteString s = (S.writeString a s).map (S.conc i)
  conc_writeWord : ∀ i a s, (S.conc i a).WriteWord s = (S.writeWord a s).map (S.conc i)
  conc_newline : ∀ i a, (S.conc i a).WriteNewline = S.conc i (S.newline a)
  conc_increment : ∀ i a, (S.conc i a).IncrementIndent = S.conc i (S.increment a)
  conc_decrement : ∀ i a, (S.conc i a).DecrementIndent = S.conc i (S.decrement a)
  conc_noPadding : ∀ i a, (S.conc i a).NoPadding = S.conc i (S.noPadding a)
  conc_needPadding : ∀ i a, (S.conc i a).NeedPadding = S.conc i (S.needPadding a)

/-- The computations `x i` all fault alike or all complete, in states described
by one abstract state. -/
def Uniformly {ι A : Type} (S : Uniform ι A) (x : ι → Except Fault formatter) : Prop :=
  ∃ r : Except Fault A, ∀ i, x i = r.map (S.conc i)

/-- The minified states that differ in the indent unit only: the abstract state
is a minified formatter state, read up to its indent unit. -/
def minifiedFamily : Uniform String { g : formatter // g.optCompressed = true } where
  conc u a := { a.val with indentUnit := u }
  compressed _ := true
  argumentSplitted a := a.val.optArgumentSplitted
  whereLogicalOps a := a.val.optWhereLogicalOps
  colon a := a.val.colonUnit
  writeString a s :=
    .ok ⟨{ a.val with writer := a.val.writer ++ s, lineHead := false, padNext := false },
      a.property⟩
  writeWord a s :=
    .ok ⟨{ a.val with
            writer := a.val.writer ++
              (if a.val.lineHead = false ∧ a.val.padNext = true then " " else "") ++ TrimSpace s,
            lineHead := false, padNext := true },
      a.property⟩
  newline a := ⟨{ a.val with lineHead := true, padNext := false }, a.property⟩
  increment a := ⟨{ a.val with indent := a.val.indent + 1 }, a.property⟩
  decrement a := ⟨{ a.val with indent := a.val.indent - 1 }, a.property⟩
  noPadding a := ⟨{ a.val with padNext := false }, a.property⟩
  needPadding a := ⟨{ a.val with padNext := true }, a.property⟩

/-- The content of the writer after `NewFormatter(w, opts...).FormatQueryDocument(doc)`,
or the fault of the run. -/
def formatted (quote : String → String) (w : String) (opts : List FormatOption)
    (doc : Option QueryDocument) : Except Fault String :=
  ((NewFormatter w opts).FormatQueryDocument quote doc).map (fun f => f.writer)

/-- The text of complete lines `(depth, text)` for the indent unit `u`: each is
the unit repeated `depth` times, the text and a newline. -/
def linesText (u : String) : List (Nat × String) → String
  | [] => ""
  | l :: rest => Repeat u l.1 ++ l.2 ++ "\n" ++ linesText u rest

/-- The text of the line being written, which has no newline yet; `none` at a
line head. -/
def lastLineText (u : String) : Option (Nat × String) → String
  | none => ""
  | some l => Repeat u l.1 ++ l.2

/-- A readable emitter state read up to its indent unit: the lines written so
far and the line being written, in place of the writer. -/
structure LineState where
  done : List (Nat × String)
  cur : Option (Nat × String)
  indent : Int
  padNext : Bool
  colonUnit : String
  optArgumentSplitted : Bool
  optWhereLogicalOps : Bool

/-- The readable states that differ in the indent unit only. -/
def readableFamily : Uniform String LineState where
  conc u a :=
    { writer := linesText u a.done ++ lastLineText u a.cur, indent := a.indent,
      padNext := a.padNext, lineHead := a.cur.isNone, indentUnit := u,
      colonUnit := a.colonUnit, optArgumentSplitted := a.optArgumentSplitted,
      optWhereLogicalOps := a.optWhereLogicalOps, optCompressed := false }
  compressed _ := false
  argumentSplitted a := a.optArgumentSplitted
  whereLogicalOps a := a.optWhereLogicalOps
  colon a := a.colonUnit
  writeString a s :=
    match a.cur with
    | none =>
      if a.indent < 0 then .error .negativeRepeat
      else .ok { a with cur := some (a.indent.toNat, s), padNext := false }
    | some l =>
      .ok { a with cur := some (l.1, l.2 ++ (if a.padNext = true then " " else "") ++ s),
                   padNext := false }
  writeWord a s :=
    match a.cur with
    | none =>
      if a.indent < 0 then .error .negativeRepeat
      else .ok { a with cur := some (a.indent.toNat, TrimSpace s), padNext := true }
    | some l =>
      .ok { a with
        cur := some (l.1, l.2 ++ (if a.padNext = true then " " else "") ++ TrimSpace s),
        padNext := true }
  newline a := { a with done := a.done ++ [a.cur.getD (0, "")], cur := none, padNext := false }
  increment a := { a with indent := a.indent + 1 }
  decrement a := { a with indent := a.indent - 1 }
  noPadding a := { a with padNext := false }
  needPadding a := { a with padNext := true }

/-- The document `query{a{b}}`, as the parser builds it. -/
def nestedQuery : QueryDocument :=
  ⟨[⟨"query", "", [], [], [.Field "a" "a" [] [] [.Field "b" "b" [] [] []]]⟩], []⟩

/-- The document of one `query` operation with an empty selection set. -/
def bareQuery : QueryDocument :=
  ⟨[⟨"query", "", [], [], []⟩], []⟩


/-! ## Documents without newlines -/

/-- The string holds no newline character. -/
def noNewline (s : String) : Bool := s.data.all (fun c => c != '\n')

mutual
/-- No name in the value and no raw token of a kind other than string or block
string holds a newline. -/
def Value.newlineFree : Value → Bool
  | .mk raw children kind =>
    (match kind with
     | .StringValue | .BlockValue => true
     | _ => noNewline raw) && newlineFreeList children
termination_by structural v => v
/-- The predicate `Value.newlineFree` for a pointer. -/
def newlineFreeOpt : Option Value → Bool
  | none => true
  | some v => v.newlineFree
termination_by structural v => v
/-- The predicate `Value.newlineFree` for one element of a `Children` slice. -/
def newlineFreeChild : Option ChildValue → Bool
  | none => true
  | some (.mk name v) => noNewline name && newlineFreeOpt v
termination_by structural c => c
/-- The predicate `Value.newlineFree` for a `Children` slice. -/
def newlineFreeList : List (Option ChildValue) → Bool
  | [] => true
  | c :: rest => newlineFreeChild c && newlineFreeList rest
termination_by structural l => l
end

/-- The name and the value of the argument hold no newline. -/
def Argument.newlineFree (a : Argument) : Bool :=
  noNewline a.Name && newlineFreeOpt a.Value

/-- The name and the arguments of the directive hold no newline. -/
def Directive.newlineFree (d : Directive) : Bool :=
  noNewline d.Name && d.Arguments.all Argument.newlineFree

/-- The name, the type and the default value of the variable definition hold no
newline. -/
def VariableDefinition.newlineFree (d : VariableDefinition) : Bool :=
  noNewline d.Variable && noNewline d.TypeString && newlineFreeOpt d.DefaultValue

mutual
/-- No name and no raw token other than a string holds a newline, in the
selection and the selections below it. -/
def Selection.newlineFree : Selection → Bool
  | .Field fieldAlias name arguments directives selectionSet =>
    noNewline fieldAlias && noNewline name && arguments.all Argument.newlineFree &&
      directives.all Directive.newlineFree && selectionsNewlineFree selectionSet
  | .FragmentSpread name directives =>
    noNewline name && directives.all Directive.newlineFree
  | .InlineFragment typeCondition directives selectionSet =>
    noNewline typeCondition && directives.all Directive.newlineFree &&
      selectionsNewlineFree selectionSet
  | .other => true
termination_by structural s => s
/-- The predicate `Selection.newlineFree` for a selection set. -/
def selectionsNewlineFree : List Selection → Bool
  | [] => true
  | s :: rest => s.newlineFree && selectionsNewlineFree rest
termination_by structural l => l
end

/-- No name and no raw token other than a string holds a newline, in the operation. -/
def OperationDefinition.newlineFree (d : OperationDefinition) : Bool :=
  noNewline d.Operation && noNewline d.Name &&
    d.VariableDefinitions.all VariableDefinition.newlineFree &&
    d.Directives.all Directive.newlineFree && selectionsNewlineFree d.SelectionSet

/-- No name and no raw token other than a string holds a newline, in the fragment. -/
def FragmentDefinition.newlineFree (d : FragmentDefinition) : Bool :=
  noNewline d.Name && d.VariableDefinition.all VariableDefinition.newlineFree &&
    noNewline d.TypeCondition && d.Directives.all Directive.newlineFree &&
    selectionsNewlineFree d.SelectionSet

/-- No name and no raw token other than a string holds a newline, in the
document; `nil` holds nothing. -/
def newlineFreeDocument : Option QueryDocument → Bool
  | none => true
  | some doc =>
    doc.Operations.all OperationDefinition.newlineFree &&
      doc.Fragments.all FragmentDefinition.newlineFree

/-- A minified emitter state that has written no newline. -/
structure Clean (f : formatter) : Prop where
  compressed : f.optCompressed = true
  writer : noNewline f.writer = true
  colon : noNewline f.colonUnit = true

/-- A stand-in for `strconv.Quote` on texts of letters and newlines: the text
between double quotes, each newline written as a backslash and `n`. -/
def sampleQuote (s : String) : String :=
  "\x22" ++ ⟨s.data.flatMap fun c => if c = '\n' then [Char.ofNat 92, 'n'] else [c]⟩ ++ "\x22"

/-- The document `query{a(s:"x<newline>y")}`, whose string literal holds a newline. -/
def stringQuery : QueryDocument :=
  ⟨[⟨"query", "", [], [],
      [.Field "a" "a" [⟨"s", some (.mk "x\ny" [] .StringValue)⟩] [] []]⟩], []⟩


/-! ## Texts up to white space and commas -/

/-- The text without its spaces, tabs and newlines. -/
def stripWhitespace (s : String) : String :=
  ⟨s.data.filter fun c => !(c == ' ' || c == '\t' || c == '\n')⟩

/-- The text without its white space (the characters of `unicode.IsSpace`) and
without its commas. -/
def squeeze (s : String) : String :=
  ⟨s.data.filter fun c => !(isSpace c || c == ',')⟩

/-- The texts of the list, each without white space and commas, one after the other. -/
def squeezeAll : List String → String
  | [] => ""
  | a :: rest => squeeze a ++ squeezeAll rest

/-- The configuration class of the comparison: a readable (`m = false`) or
minified (`m = true`) emitter state whose colon separator is a colon up to
white space; a readable one has an indent unit of white space, a minified one
is set up as `WithMinification` does. -/
structure Layout (m : Bool) (f : formatter) : Prop where
  compressed : f.optCompressed = m
  colon : squeeze f.colonUnit = ":"
  indentUnit : m = false → squeeze f.indentUnit = ""
  argumentSplitted : m = true → f.optArgumentSplitted = false
  whereLogicalOps : m = true → f.optWhereLogicalOps = false

/-- The state `f` is in the configuration class `m` and its writer is the
writer of `f₀` followed by a text that is `X` up to white space and commas. -/
structure Wrote (m : Bool) (f₀ : formatter) (X : String) (f : formatter) : Prop where
  cfg : Layout m f
  text : squeeze f.writer = squeeze f₀.writer ++ X

/-- A readable and a minified state whose writers agree up to white space and
commas. -/
structure Rel (f g : formatter) : Prop where
  left : Layout false f
  right : Layout true g
  text : squeeze f.writer = squeeze g.writer

/-- Both computations completing, their results are related by `Q`. -/
def Post2 (x y : Except Fault formatter) (Q : formatter → formatter → Prop) : Prop :=
  ∀ f' g', x = .ok f' → y = .ok g' → Q f' g'

/-- The value of a `where` argument that qualifies for the filter layout is an
object value (as in every document the parser builds, where only object values
have named children). -/
def Argument.filterIsObject (a : Argument) : Bool :=
  match a.Value with
  | none => true
  | some v => !(decide (a.Name = "where") && whereQualifies (some v)) || decide (v.Kind = .ObjectValue)

/-- Every argument of the directive satisfies `p`. -/
def Directive.allArguments (p : Argument → Bool) (d : Directive) : Bool :=
  d.Arguments.all p

mutual
/-- Every argument of the selection and of the selections below it satisfies `p`. -/
def Selection.allArguments (p : Argument → Bool) : Selection → Bool
  | .Field _ _ arguments directives selectionSet =>
    arguments.all p && directives.all (Directive.allArguments p) &&
      selectionsAllArguments p selectionSet
  | .FragmentSpread _ directives => directives.all (Directive.allArguments p)
  | .InlineFragment _ directives selectionSet =>
    directives.all (Directive.allArguments p) && selectionsAllArguments p selectionSet
  | .other => true
termination_by structural s => s
/-- Every argument of the selection set satisfies `p`. -/
def selectionsAllArguments (p : Argument → Bool) : List Selection → Bool
  | [] => true
  | s :: rest => s.allArguments p && selectionsAllArguments p rest
termination_by structural l => l
end

/-- Every argument of the operation satisfies `p`. -/
def OperationDefinition.allArguments (p : Argument → Bool) (d : OperationDefinition) : Bool :=
  d.Directives.all (Directive.allArguments p) && selectionsAllArguments p d.SelectionSet

/-- Every argument of the fragment satisfies `p`. -/
def FragmentDefinition.allArguments (p : Argument → Bool) (d : FragmentDefinition) : Bool :=
  d.Directives.all (Directive.allArguments p) && selectionsAllArguments p d.SelectionSet

/-- Every argument of the document satisfies `p`; `nil` holds none. -/
def documentAllArguments (p : Argument → Bool) : Option QueryDocument → Bool
  | none => true
  | some doc =>
    doc.Operations.all (OperationDefinition.allArguments p) &&
      doc.Fragments.all (FragmentDefinition.allArguments p)

/-- The document `query{f(x:{a:1,b:2})}`, as the parser builds it. -/
def objectQuery : QueryDocument :=
  ⟨[⟨"query", "", [], [],
      [.Field "f" "f"
        [⟨"x", some (.mk "" [some (.mk "a" (some (.mk "1" [] .IntValue))),
          some (.mk "b" (some (.mk "2" [] .IntValue)))] .ObjectValue)⟩] [] []]⟩], []⟩

/-- A document whose `where` argument has a list value with the single child
`and: {a: 1, b: 2}`; the parser builds no such value (the children of a list
have no name). -/
def whereListQuery : QueryDocument :=
  ⟨[⟨"query", "", [], [],
      [.Field "f" "f"
        [⟨"where", some (.mk "" [some (.mk "and" (some (.mk ""
          [some (.mk "a" (some (.mk "1" [] .IntValue))),
           some (.mk "b" (some (.mk "2" [] .IntValue)))] .ObjectValue)))] .ListValue)⟩]
        [] []]⟩], []⟩


/-! ## Well-formed documents and runs that complete -/

/-- The value of the argument has declared kinds and no nil child, and the
pointers the applicability test dereferences are present when the argument is
named `where`. -/
def Argument.wellFormed (a : Argument) : Bool :=
  recognisedOpt a.Value && (!decide (a.Name = "where") || a.derefOk)

/-- Every variable definition of the document satisfies `p`; `nil` holds none. -/
def documentAllVariables (p : VariableDefinition → Bool) : Option QueryDocument → Bool
  | none => true
  | some doc =>
    doc.Operations.all (fun d => d.VariableDefinitions.all p) &&
      doc.Fragments.all (fun d => d.VariableDefinition.all p)

mutual
/-- The selection and the selections below it are fields, fragment spreads and
inline fragments: none reaches the `default` branch of `FormatSelection`. -/
def Selection.known : Selection → Bool
  | .Field _ _ _ _ selectionSet => selectionsKnown selectionSet
  | .FragmentSpread _ _ => true
  | .InlineFragment _ _ selectionSet => selectionsKnown selectionSet
  | .other => false
termination_by structural s => s
/-- The predicate `Selection.known` for a selection set. -/
def selectionsKnown : List Selection → Bool
  | [] => true
  | s :: rest => s.known && selectionsKnown rest
termination_by structural l => l
end

/-- Every selection of the document is a field, a fragment spread or an inline
fragment; `nil` holds none. -/
def documentKnownSelections : Option QueryDocument → Bool
  | none => true
  | some doc =>
    doc.Operations.all (fun d => selectionsKnown d.SelectionSet) &&
      doc.Fragments.all (fun d => selectionsKnown d.SelectionSet)

/-- The document holds nothing on which the formatter panics: every selection
is a field, a fragment spread or an inline fragment, every value of an
argument and every default value has declared kinds and no nil child, and the
pointers the applicability test dereferences in a `where` argument are
present. -/
def wellFormedDocument (doc : Option QueryDocument) : Bool :=
  documentKnownSelections doc &&
    documentAllArguments Argument.wellFormed doc &&
    documentAllVariables (fun d => recognisedOpt d.DefaultValue) doc

/-- The computation completes, in a state that satisfies `Q`. -/
def Run (x : Except Fault formatter) (Q : formatter → Prop) : Prop :=
  ∃ f', x = .ok f' ∧ Q f'

/-- The state `f` extends `g` at `k ≥ 0` levels below it, and no write from a
state at or below the depth of `g` can fault: `g` is minified or its indent
depth is not negative. -/
structure Sound (k : Int) (g f : formatter) : Prop where
  ext : Ext k g f
  base : g.optCompressed = true ∨ 0 ≤ g.indent
  nonneg : 0 ≤ k


/-! ## Fields, operations, spreads and the emitter in words -/

/-- The text a word is preceded by when written from state `f`: the
indentation at a line head in readable mode, one space when padding is due
away from a line head. -/
def formatter.wordLead (f : formatter) : String :=
  (if f.lineHead = true ∧ f.optCompressed = false then Repeat f.indentUnit f.indent.toNat
   else "") ++
  (if f.lineHead = false ∧ f.padNext = true then " " else "")

/-- The statements of `FormatField` after the name is written: the argument
list, the directives and the selection set. -/
def formatter.FormatField.rest (quote : String → String) (f : formatter)
    (arguments : List Argument) (directives : List Directive)
    (selectionSet : List Selection) : Except Fault formatter := do
  let f ←
    (if arguments.length ≠ 0 then do
       let f := f.NoPadding
       let f ← f.FormatArgumentList quote arguments
       .ok f.NeedPadding
     else .ok f)
  let f ← f.FormatDirectiveList quote directives
  f.FormatSelectionSet quote selectionSet

/-- The document `query{a:b c:c d}`: a field with a differing alias, a field
whose alias is its name and a field without alias. -/
def aliasQuery : QueryDocument :=
  ⟨[⟨"query", "", [], [],
      [.Field "a" "b" [] [] [], .Field "c" "c" [] [] [], .Field "" "d" [] [] []]⟩], []⟩

/-- The document `query Q @d`: an operation with a name and a directive and
an empty selection set. -/
def namedBareQuery : QueryDocument :=
  ⟨[⟨"query", "Q", [], [⟨"d", []⟩], []⟩], []⟩

/-- The document `query{...F}`: a selection set with one fragment spread. -/
def spreadQuery : QueryDocument :=
  ⟨[⟨"query", "", [], [], [.FragmentSpread "F" []]⟩], []⟩

/-- The method `writeWord` as the specification words it: at a line head the
indentation (nothing in minified mode) and line-head cleared; then a space if
pad-next is set; then the trimmed word; pad-next set. -/
def writeWordSpec (f : formatter) (word : String) : formatter :=
  let f₁ :=
    if f.lineHead then
      { f with
        writer := f.writer ++
          (if f.optCompressed then "" else Repeat f.indentUnit f.indent.toNat),
        lineHead := false }
    else f
  let f₂ := if f₁.padNext then { f₁ with writer := f₁.writer ++ " " } else f₁
  { f₂ with writer := f₂.writer ++ TrimSpace word, padNext := true }

/-- The state of the default formatter at depth 1 after `WriteNewline` and
`NeedPadding`: line-head and pad-next are both set. -/
def lineHeadPadded : formatter :=
  (NewFormatter "" []).IncrementIndent.WriteNewline.NeedPadding

/-- The method `writeNewline` as the specification words it: in minified mode
only pad-next is cleared. -/
def writeNewlineSpec (f : formatter) : formatter :=
  if f.optCompressed then { f with padNext := false }
  else { f with writer := f.writer ++ "\n", lineHead := true, padNext := false }


/-- The document `query{f(where:{and:{or:5,a:1}})}`, as the parser builds it:
the filter object has two children, the first named `or` with an integer
value. -/
def logicalScalarQuery : QueryDocument :=
  ⟨[⟨"query", "", [], [],
      [.Field "f" "f"
        [⟨"where", some (.mk "" [some (.mk "and" (some (.mk ""
          [some (.mk "or" (some (.mk "5" [] .IntValue))),
           some (.mk "a" (some (.mk "1" [] .IntValue)))] .ObjectValue)))] .ObjectValue)⟩]
        [] []]⟩], []⟩

/-- The document `query{f(where:{and:{a:1,not:$v}})}`, as the parser builds it:
the last child of the filter object is named `not` and has a variable as value. -/
def logicalLastQuery : QueryDocument :=
  ⟨[⟨"query", "", [], [],
      [.Field "f" "f"
        [⟨"where", some (.mk "" [some (.mk "and" (some (.mk ""
          [some (.mk "a" (some (.mk "1" [] .IntValue))),
           some (.mk "not" (some (.mk "v" [] .Variable)))] .ObjectValue)))] .ObjectValue)⟩]
        [] []]⟩], []⟩


/-! ## Values whose kind the formatter examines -/

mutual
/-- Every node of the value whose kind `GetValueString` examines has a
declared kind: the value itself and, below a list or an object, the values of
its children (the children of a value of another kind are not visited). -/
def Value.examinedKnown : Value → Bool
  | .mk _ children kind =>
    match kind with
    | .unsupported => false
    | .ListValue | .ObjectValue => examinedKnownList children
    | _ => true
termination_by structural v => v
/-- The predicate `Value.examinedKnown` for a pointer; `nil` has no kind. -/
def examinedKnownOpt : Option Value → Bool
  | none => true
  | some v => v.examinedKnown
termination_by structural v => v
/-- The predicate `Value.examinedKnown` for one element of a `Children` slice. -/
def examinedKnownChild : Option ChildValue → Bool
  | none => true
  | some (.mk _ v) => examinedKnownOpt v
termination_by structural c => c
/-- The predicate `Value.examinedKnown` for a `Children` slice. -/
def examinedKnownList : List (Option ChildValue) → Bool
  | [] => true
  | c :: rest => examinedKnownChild c && examinedKnownList rest
termination_by structural l => l
end

/-- Every value whose kind the rendering of the argument examines has a
declared kind.  With the filter layout enabled, the value of a qualifying
`where` argument is rendered child by child and its own kind is not examined. -/
def Argument.examinedKnown (filterLayout : Bool) (a : Argument) : Bool :=
  if filterLayout && decide (a.Name = "where") && whereQualifies a.Value then
    match a.Value with
    | none => true
    | some v => examinedKnownList v.Children
  else examinedKnownOpt a.Value

/-- A document whose `where` argument has a value of no declared kind, with
the single child `and: {a: 1, b: 2}`; the parser builds no such value. -/
def whereUnknownKindQuery : QueryDocument :=
  ⟨[⟨"query", "", [], [],
      [.Field "f" "f"
        [⟨"where", some (.mk "" [some (.mk "and" (some (.mk ""
          [some (.mk "a" (some (.mk "1" [] .IntValue))),
           some (.mk "b" (some (.mk "2" [] .IntValue)))] .ObjectValue)))] .unsupported)⟩]
        [] []]⟩], []⟩

/-- A document with a variable definition without default value, an argument
whose value is nil, an object whose child has a nil value, a list of length
zero and an operation with an empty selection set. -/
def absentValuesQuery : QueryDocument :=
  ⟨[⟨"query", "Q", [⟨"v", "Int", none⟩], [],
      [.Field "f" "f"
        [⟨"x", none⟩,
         ⟨"y", some (.mk "" [some (.mk "a" none)] .ObjectValue)⟩,
         ⟨"z", some (.mk "" [] .ListValue)⟩] [] []]⟩,
    ⟨"mutation", "", [], [], []⟩], []⟩

/-- A document whose `where` argument has a nil value. -/
def whereNilQuery : QueryDocument :=
  ⟨[⟨"query", "", [], [], [.Field "f" "f" [⟨"where", none⟩] [] []]⟩], []⟩


/-! ## The printer with a record of the least indent depth -/

/-- The formatter together with the least indent depth it has had since the
run started. -/
structure Tracked where
  state : formatter
  low : Int

/-- The result of a computation that reads the state, as a step of the tracked
run: a panic carries the least depth up to it. -/
def Tracked.read {α : Type} (t : Tracked) (x : Except Fault α) : Except (Fault × Int) α :=
  match x with
  | .ok a => .ok a
  | .error e => .error (e, t.low)

/-- A panic of the tracked run. -/
def Tracked.fault (t : Tracked) (e : Fault) : Except (Fault × Int) Tracked :=
  .error (e, t.low)

/-- The result of an emitter method that keeps the depth, as a step of the
tracked run. -/
def Tracked.write (t : Tracked) (x : Except Fault formatter) : Except (Fault × Int) Tracked :=
  match x with
  | .ok f => .ok ⟨f, t.low⟩
  | .error e => .error (e, t.low)

/-- Tracked run of method `WriteString`. -/
def Tracked.WriteString (t : Tracked) (s : String) : Except (Fault × Int) Tracked :=
  t.write (t.state.WriteString s)

/-- Tracked run of method `WriteWord`. -/
def Tracked.WriteWord (t : Tracked) (s : String) : Except (Fault × Int) Tracked :=
  t.write (t.state.WriteWord s)

/-- Tracked run of method `WriteNewline`. -/
def Tracked.WriteNewline (t : Tracked) : Tracked :=
  ⟨t.state.WriteNewline, t.low⟩

/-- Tracked run of method `NoPadding`. -/
def Tracked.NoPadding (t : Tracked) : Tracked :=
  ⟨t.state.NoPadding, t.low⟩

/-- Tracked run of method `NeedPadding`. -/
def Tracked.NeedPadding (t : Tracked) : Tracked :=
  ⟨t.state.NeedPadding, t.low⟩

/-- Tracked run of method `IncrementIndent`: the new depth is recorded. -/
def Tracked.IncrementIndent (t : Tracked) : Tracked :=
  ⟨t.state.IncrementIndent, min t.low t.state.IncrementIndent.indent⟩

/-- Tracked run of method `DecrementIndent`: the new depth is recorded. -/
def Tracked.DecrementIndent (t : Tracked) : Tracked :=
  ⟨t.state.DecrementIndent, min t.low t.state.DecrementIndent.indent⟩

/-- Tracked run of method `FormatValue`. -/
def Tracked.FormatValue (quote : String → String) (f : Tracked) (value : Option Value) :
    Except (Fault × Int) Tracked := do
  let s ← f.read (GetValueString quote f.state value)
  f.WriteString s

/-- Tracked run of method `FormatChildValue`, on a non-nil element. -/
def Tracked.FormatChildValue (quote : String → String) (f : Tracked) (elem : ChildValue) :
    Except (Fault × Int) Tracked := do
  let s ← f.read (GetValueString quote f.state elem.Value)
  f.WriteString (elem.Name ++ f.state.colonUnit ++ s)

mutual
/-- Tracked run of method `FormatWhereLogOpChildValue`, on a non-nil element (the source
reads `elem.Name` first). -/
def Tracked.FormatWhereLogOpChildValue (quote : String → String) (f : Tracked) :
    ChildValue → Except (Fault × Int) Tracked
  | .mk name value => do
    let f ← f.WriteString name
    let f ← f.NoPadding.WriteString f.state.colonUnit
    match value with
    | none => f.WriteString "<nil>"
    | some (.mk raw children kind) =>
      match kind with
      | .Variable => f.WriteString ("$" ++ raw)
      | .IntValue | .FloatValue | .EnumValue | .BooleanValue | .NullValue => f.WriteString raw
      | .StringValue | .BlockValue => f.WriteString (quote raw)
      | .ListValue => do
          let val ← f.read (GetValueString.listLoop quote f.state children)
          if f.state.optCompressed then f.WriteString ("[" ++ Join val "," ++ "]")
          else do
            let f ← f.WriteString ("[ " ++ Join val ", " ++ " ]")
            .ok f.WriteNewline.NeedPadding
      | .ObjectValue =>
          match children with
          | [] => do
              let f ← f.WriteString "\x7b\x7d"
              if !f.state.optCompressed then .ok f.WriteNewline.NeedPadding else .ok f
          | [c] =>
              match c with
              | none => f.fault .nilDeref
              | some c =>
                if c.Name = "and" ∨ c.Name = "or" ∨ c.Name = "not" then do
                  let f ← f.WriteString "\x7b"
                  let f := f.WriteNewline.NeedPadding
                  let f := f.IncrementIndent
                  let f ← Tracked.FormatWhereLogOpChildValue quote f c
                  let f := f.DecrementIndent
                  let f ← f.WriteString "\x7d"
                  .ok f.WriteNewline.NeedPadding
                else if f.state.optCompressed then do
                  let f ← f.WriteString "\x7b"
                  let f ← f.FormatChildValue quote c
                  let f ← f.WriteString "\x7d"
                  .ok f.NeedPadding
                else do
                  let f ← f.WriteString "\x7b "
                  let f ← f.FormatChildValue quote c
                  let f ← f.WriteString " \x7d"
                  .ok f.WriteNewline.NeedPadding
          | c₀ :: c₁ :: rest => do
              let f ← f.WriteString "\x7b"
              let f := f.WriteNewline.NeedPadding
              let f := f.IncrementIndent
              let f ← Tracked.FormatWhereLogOpChildValue.loop quote f (c₀ :: c₁ :: rest)
              let f := f.DecrementIndent
              let f ← f.WriteString "\x7d"
              .ok f.WriteNewline.NeedPadding
      | .unsupported => f.fault .unknownKind
termination_by structural e => e
/-- Tracked run of the loop `for _, c := range v.Children` of the `default` case of
`FormatWhereLogOpChildValue`. -/
def Tracked.FormatWhereLogOpChildValue.loop (quote : String → String) (f : Tracked) :
    List (Option ChildValue) → Except (Fault × Int) Tracked
  | [] => .ok f
  | none :: _ => f.fault .nilDeref
  | some c :: rest => do
      let f ←
        (if c.Name = "and" ∨ c.Name = "or" ∨ c.Name = "not" then
           Tracked.FormatWhereLogOpChildValue quote f c
         else do
           let f ← f.FormatChildValue quote c
           .ok f.WriteNewline.NeedPadding)
      Tracked.FormatWhereLogOpChildValue.loop quote f rest
termination_by structural l => l
end

/-- Tracked run of method `FormatWhereLogOpArgument`. -/
def Tracked.FormatWhereLogOpArgument (quote : String → String) (f : Tracked)
    (arg : Argument) : Except (Fault × Int) Tracked := do
  let f ← f.WriteWord arg.Name
  let f := f.NoPadding
  let f ← (if f.state.optCompressed then f.WriteString ":\x7b" else f.WriteString ": \x7b")
  let f := f.NeedPadding
  let f := f.WriteNewline
  let f := f.IncrementIndent
  let f ←
    (match arg.Value with
     | none => f.fault .nilDeref
     | some v =>
       match v.Children with
       | [] => f.fault .indexOutOfRange
       | none :: _ => f.fault .nilDeref
       | some c :: _ => f.FormatWhereLogOpChildValue quote c)
  let f := f.DecrementIndent
  let f ← f.WriteString "\x7d"
  .ok f.NeedPadding

/-- Tracked run of method `FormatWhereArgument`. -/
def Tracked.FormatWhereArgument (quote : String → String) (f : Tracked)
    (arg : Argument) : Except (Fault × Int) Tracked := do
  if (← f.read (formatter.FormatWhereArgument.useLogOp f.state arg)) then
    f.FormatWhereLogOpArgument quote arg
  else do
    let f ← f.WriteWord arg.Name
    let f ← f.NoPadding.WriteString f.state.colonUnit
    f.FormatValue quote arg.Value

/-- Tracked run of method `FormatArgument`. -/
def Tracked.FormatArgument (quote : String → String) (f : Tracked)
    (arg : Argument) : Except (Fault × Int) Tracked :=
  if arg.Name = "where" then f.FormatWhereArgument quote arg
  else do
    let f ← f.WriteWord arg.Name
    let f ← f.NoPadding.WriteString f.state.colonUnit
    f.FormatValue quote arg.Value

/-- Tracked run of the loop of the split branch of `FormatArgumentList`. -/
def Tracked.FormatArgumentList.splitLoop (quote : String → String) (f : Tracked) :
    List Argument → Except (Fault × Int) Tracked
  | [] => .ok f
  | arg :: rest => do
      let f ← f.FormatArgument quote arg
      let f := f.WriteNewline
      Tracked.FormatArgumentList.splitLoop quote f rest

/-- Tracked run of the loop of the inline branch of `FormatArgumentList`; `idx != len(lists)-1`
holds when arguments remain. -/
def Tracked.FormatArgumentList.inlineLoop (quote : String → String) (f : Tracked) :
    List Argument → Except (Fault × Int) Tracked
  | [] => .ok f
  | arg :: rest => do
      let f ← f.FormatArgument quote arg
      let f ←
        (if !rest.isEmpty then
           if f.state.optCompressed then f.NoPadding.WriteString " "
           else f.NoPadding.WriteWord ","
         else .ok f)
      Tracked.FormatArgumentList.inlineLoop quote f rest

/-- Tracked run of method `FormatArgumentList`. -/
def Tracked.FormatArgumentList (quote : String → String) (f : Tracked)
    (lists : List Argument) : Except (Fault × Int) Tracked :=
  if lists.length = 0 then .ok f
  else do
    let doSplitted ← f.read (formatter.FormatArgumentList.doSplitted f.state lists)
    let f ← f.NoPadding.WriteString "("
    let f ←
      (if doSplitted then do
         let f := f.WriteNewline
         let f := f.IncrementIndent
         let f ← Tracked.FormatArgumentList.splitLoop quote f lists
         .ok f.DecrementIndent
       else Tracked.FormatArgumentList.inlineLoop quote f lists)
    let f ← f.WriteString ")"
    .ok f.NeedPadding

/-- Tracked run of method `FormatDirective`. -/
def Tracked.FormatDirective (quote : String → String) (f : Tracked)
    (dir : Directive) : Except (Fault × Int) Tracked := do
  let f ← f.WriteString "@"
  let f ← f.WriteWord dir.Name
  f.FormatArgumentList quote dir.Arguments

/-- Tracked run of method `FormatDirectiveList`. -/
def Tracked.FormatDirectiveList (quote : String → String) (f : Tracked) :
    List Directive → Except (Fault × Int) Tracked
  | [] => .ok f
  | dir :: rest => do
      let f ← f.FormatDirective quote dir
      Tracked.FormatDirectiveList quote f rest

/-- Tracked run of method `FormatType`; the argument is the text of `t.String()`. -/
def Tracked.FormatType (f : Tracked) (t : String) : Except (Fault × Int) Tracked :=
  if f.state.optCompressed then f.WriteString t else f.WriteWord t

/-- Tracked run of method `FormatVariableDefinition`. -/
def Tracked.FormatVariableDefinition (quote : String → String) (f : Tracked)
    (d : VariableDefinition) : Except (Fault × Int) Tracked := do
  let f ← f.WriteString "$"
  let f ← f.WriteWord d.Variable
  let f ← f.NoPadding.WriteString ":"
  let f ← f.FormatType d.TypeString
  match d.DefaultValue with
  | none => .ok f
  | some v => do
      let f ← f.WriteWord "="
      f.FormatValue quote (some v)

/-- Tracked run of the loop of `FormatVariableDefinitionList`. -/
def Tracked.FormatVariableDefinitionList.loop (quote : String → String) (f : Tracked) :
    List VariableDefinition → Except (Fault × Int) Tracked
  | [] => .ok f
  | d :: rest => do
      let f ← f.FormatVariableDefinition quote d
      let f ←
        (if !rest.isEmpty then
           if f.state.optCompressed then f.NoPadding.WriteString ","
           else f.NoPadding.WriteWord ","
         else .ok f)
      Tracked.FormatVariableDefinitionList.loop quote f rest

/-- Tracked run of method `FormatVariableDefinitionList`. -/
def Tracked.FormatVariableDefinitionList (quote : String → String) (f : Tracked)
    (lists : List VariableDefinition) : Except (Fault × Int) Tracked :=
  if lists.length = 0 then .ok f
  else do
    let f ← f.WriteString "("
    let f ← Tracked.FormatVariableDefinitionList.loop quote f lists
    let f ← f.NoPadding.WriteString ")"
    .ok f.NeedPadding

/-- Tracked run of method `FormatFragmentSpread`. -/
def Tracked.FormatFragmentSpread (quote : String → String) (f : Tracked)
    (name : String) (directives : List Directive) : Except (Fault × Int) Tracked := do
  let f ← f.WriteWord "..."
  let f ← f.WriteWord name
  f.FormatDirectiveList quote directives

/-- Tracked run of the body of `FormatSelectionSet` around its loop: nothing for an empty
set, otherwise `{`, newline, deeper indent, the loop `body`, back, `}`. -/
def Tracked.FormatSelectionSet.frame (f : Tracked) (sets : List Selection)
    (body : Tracked → Except (Fault × Int) Tracked) : Except (Fault × Int) Tracked :=
  if sets.length = 0 then .ok f
  else do
    let f ← f.WriteString "\x7b"
    let f := f.WriteNewline
    let f := f.IncrementIndent
    let f ← body f
    let f := f.DecrementIndent
    f.WriteString "\x7d"

mutual
/-- Tracked run of method `FormatSelection`, with `FormatField` and `FormatInlineFragment`
unfolded in its type switch, and their calls of `FormatSelectionSet` unfolded
to the frame around the loop. -/
def Tracked.FormatSelection (quote : String → String) (f : Tracked) :
    Selection → Except (Fault × Int) Tracked
  | .Field fieldAlias name arguments directives selectionSet => do
      let f ←
        (if fieldAlias ≠ "" ∧ fieldAlias ≠ name then do
           let f ← f.WriteWord fieldAlias
           f.NoPadding.WriteString f.state.colonUnit
         else .ok f)
      let f ← f.WriteWord name
      let f ←
        (if arguments.length ≠ 0 then do
           let f := f.NoPadding
           let f ← f.FormatArgumentList quote arguments
           .ok f.NeedPadding
         else .ok f)
      let f ← f.FormatDirectiveList quote directives
      Tracked.FormatSelectionSet.frame f selectionSet
        (fun f => Tracked.FormatSelectionSet.loop quote f selectionSet)
  | .FragmentSpread name directives => f.FormatFragmentSpread quote name directives
  | .InlineFragment typeCondition directives selectionSet => do
      let f ← f.WriteWord "..."
      let f ←
        (if typeCondition ≠ "" then do
           let f ← f.WriteWord "on"
           f.WriteWord typeCondition
         else .ok f)
      let f ← f.FormatDirectiveList quote directives
      Tracked.FormatSelectionSet.frame f selectionSet
        (fun f => Tracked.FormatSelectionSet.loop quote f selectionSet)
  | .other => f.fault .unknownSelection
termination_by structural s => s
/-- Tracked run of the loop `for idx, sel := range sets` of `FormatSelectionSet`;
`idx != len(sets)-1` holds when selections remain. -/
def Tracked.FormatSelectionSet.loop (quote : String → String) (f : Tracked) :
    List Selection → Except (Fault × Int) Tracked
  | [] => .ok f
  | sel :: rest => do
      let f ← Tracked.FormatSelection quote f sel
      let f ←
        (if f.state.optCompressed then
           if !rest.isEmpty then
             if f.state.optCompressed then f.NoPadding.WriteString " "
             else f.NoPadding.WriteWord ","
           else .ok f
         else .ok f.WriteNewline)
      Tracked.FormatSelectionSet.loop quote f rest
termination_by structural l => l
end

/-- Tracked run of method `FormatSelectionSet`. -/
def Tracked.FormatSelectionSet (quote : String → String) (f : Tracked)
    (sets : List Selection) : Except (Fault × Int) Tracked :=
  Tracked.FormatSelectionSet.frame f sets
    (fun f => Tracked.FormatSelectionSet.loop quote f sets)

/-- Tracked run of method `FormatOperationDefinition`. -/
def Tracked.FormatOperationDefinition (quote : String → String) (f : Tracked)
    (d : OperationDefinition) : Except (Fault × Int) Tracked := do
  let f ← f.WriteWord d.Operation
  let f ← (if d.Name ≠ "" then f.WriteWord d.Name else .ok f)
  let f ← f.FormatVariableDefinitionList quote d.VariableDefinitions
  let f ← f.FormatDirectiveList quote d.Directives
  if d.SelectionSet.length ≠ 0 then do
    let f ← f.FormatSelectionSet quote d.SelectionSet
    .ok f.WriteNewline
  else .ok f

/-- Tracked run of method `FormatOperationList`. -/
def Tracked.FormatOperationList (quote : String → String) (f : Tracked) :
    List OperationDefinition → Except (Fault × Int) Tracked
  | [] => .ok f
  | d :: rest => do
      let f ← f.FormatOperationDefinition quote d
      Tracked.FormatOperationList quote f rest

/-- Tracked run of method `FormatFragmentDefinition`. -/
def Tracked.FormatFragmentDefinition (quote : String → String) (f : Tracked)
    (d : FragmentDefinition) : Except (Fault × Int) Tracked := do
  let f ← f.WriteWord "fragment"
  let f ← f.WriteWord d.Name
  let f ← f.FormatVariableDefinitionList quote d.VariableDefinition
  let f ← f.WriteWord "on"
  let f ← f.WriteWord d.TypeCondition
  let f ← f.FormatDirectiveList quote d.Directives
  if d.SelectionSet.length ≠ 0 then do
    let f ← f.FormatSelectionSet quote d.SelectionSet
    .ok f.WriteNewline
  else .ok f

/-- Tracked run of method `FormatFragmentDefinitionList`. -/
def Tracked.FormatFragmentDefinitionList (quote : String → String) (f : Tracked) :
    List FragmentDefinition → Except (Fault × Int) Tracked
  | [] => .ok f
  | d :: rest => do
      let f ← f.FormatFragmentDefinition quote d
      Tracked.FormatFragmentDefinitionList quote f rest

/-- Tracked run of method `FormatQueryDocument`: the argument is a pointer, `none` is `nil`. -/
def Tracked.FormatQueryDocument (quote : String → String) (f : Tracked) :
    Option QueryDocument → Except (Fault × Int) Tracked
  | none => .ok f
  | some doc => do
      let f ← f.FormatOperationList quote doc.Operations
      f.FormatFragmentDefinitionList quote doc.Fragments

/-- The result of a run of the formatter as the result of a tracked run whose
least depth is `l`, at the end or at the panic. -/
def withLow (l : Int) (x : Except Fault formatter) : Except (Fault × Int) Tracked :=
  match x with
  | .ok f => .ok ⟨f, l⟩
  | .error e => .error (e, l)

/-- The tracked computation `y` is the computation `x` with the least depth
`l` unchanged, a panic included, and `x` ends at depth `d`. -/
def Lifts (l d : Int) (y : Except (Fault × Int) Tracked) (x : Except Fault formatter) : Prop :=
  match x with
  | .ok f => y = .ok ⟨f, l⟩ ∧ f.indent = d
  | .error e => y = .error (e, l)


/-- The argument `where` of `whereListQuery`: its value is a list with the
single child `and: {a: 1, b: 2}`; the parser builds no such value. -/
def whereListArgument : Argument :=
  ⟨"where", some (.mk "" [some (.mk "and" (some (.mk ""
    [some (.mk "a" (some (.mk "1" [] .IntValue))),
     some (.mk "b" (some (.mk "2" [] .IntValue)))] .ObjectValue)))] .ListValue)⟩

/-- The argument `where:{and:{id:{greater_or_equals:20} id:{lt:28}}}` of the
query of `TestFormatQueryWithIndent`, as the parser builds it. -/
def testWhereArgument : Argument :=
  whereArgument "" "" .ObjectValue "and" testConditions


/-! ## Selections of unknown type -/

/-- The document `query{<selection of no known type>}`: a selection set
holding one value of the interface that is no field, fragment spread or inline
fragment (the nil interface, for one); it holds no value at all. -/
def unknownSelectionQuery : QueryDocument :=
  ⟨[⟨"query", "", [], [], [.other]⟩], []⟩


/-! ## A filter argument with a nil pointer -/

/-- The argument `where` with a nil value. -/
def whereNilArgument : Argument := ⟨"where", none⟩

/-- The argument `where:{and:<nil>}`: the single child `and` has a nil value. -/
def whereAndNilArgument : Argument :=
  ⟨"where", some (.mk "" [some (.mk "and" none)] .ObjectValue)⟩

/-- The argument `filter` with a nil value. -/
def filterNilArgument : Argument := ⟨"filter", none⟩


/-! ## The readable printer on lines

The printer of the source in readable mode with the options of `NewFormatter`
without `WithMinification`, written over lines in place of the writer: a line
is a depth and a text, and the indent depth is a parameter `d` of each method,
so that what is nested is rendered with `d + 1`.  The lemmas `lines_...` below
prove each method equal to the method of the source it follows, for every
indent unit. -/

/-- The output of the readable emitter read up to the indent unit: the lines
written so far, each with its depth, the line being written (`none` at a line
head) and the padding flag. -/
structure Lines where
  done : List (Nat × String)
  cur : Option (Nat × String)
  padNext : Bool
  deriving DecidableEq, Repr

/-- The readable emitter state with indent unit `u` and indent depth `d` whose
output is the lines of `a`; the options are those of `NewFormatter` without
`WithMinification`. -/
def Lines.conc (u : String) (d : Nat) (a : Lines) : formatter :=
  { writer := linesText u a.done ++ lastLineText u a.cur, indent := d, padNext := a.padNext,
    lineHead := a.cur.isNone, indentUnit := u, colonUnit := ": ",
    optArgumentSplitted := true, optWhereLogicalOps := true, optCompressed := false }

/-- The options of the readable emitter, for the methods that only read them. -/
def Lines.view : formatter := Lines.conc "" 0 ⟨[], none, false⟩

/-- Method `WriteString` in readable mode at depth `d`: at a line head the text
starts a line of depth `d`, otherwise it is appended to the line being
written, after one space when padding is due. -/
def Lines.WriteString (d : Nat) (a : Lines) (s : String) : Lines :=
  match a.cur with
  | none => { a with cur := some (d, s), padNext := false }
  | some l =>
    { a with cur := some (l.1, l.2 ++ (if a.padNext = true then " " else "") ++ s),
             padNext := false }

/-- Method `WriteWord` in readable mode at depth `d`: as `WriteString` for the
trimmed word, and padding is due afterwards. -/
def Lines.WriteWord (d : Nat) (a : Lines) (s : String) : Lines :=
  match a.cur with
  | none => { a with cur := some (d, TrimSpace s), padNext := true }
  | some l =>
    { a with cur := some (l.1, l.2 ++ (if a.padNext = true then " " else "") ++ TrimSpace s),
             padNext := true }

/-- Method `WriteNewline` in readable mode: the line being written is complete (at a
line head an empty line is), and the emitter is at a line head. -/
def Lines.WriteNewline (a : Lines) : Lines :=
  { done := a.done ++ [a.cur.getD (0, "")], cur := none, padNext := false }

/-- Method `NoPadding`. -/
def Lines.NoPadding (a : Lines) : Lines := { a with padNext := false }

/-- Method `NeedPadding`. -/
def Lines.NeedPadding (a : Lines) : Lines := { a with padNext := true }

/-- Method `FormatValue` in readable mode at depth `d`. -/
def Lines.FormatValue (quote : String → String) (d : Nat) (a : Lines)
    (value : Option Value) : Except Fault Lines := do
  let s ← GetValueString quote Lines.view value
  .ok (a.WriteString d s)

/-- Method `FormatChildValue` in readable mode at depth `d`. -/
def Lines.FormatChildValue (quote : String → String) (d : Nat) (a : Lines)
    (elem : ChildValue) : Except Fault Lines := do
  let s ← GetValueString quote Lines.view elem.Value
  .ok (a.WriteString d (elem.Name ++ ": " ++ s))

mutual
/-- Method `FormatWhereLogOpChildValue` in readable mode at depth `d`: the children
of an object with a single combinator child or with several children are
rendered at depth `d + 1`, and the closing brace at depth `d`. -/
def Lines.FormatWhereLogOpChildValue (quote : String → String) (d : Nat) (a : Lines) :
    ChildValue → Except Fault Lines
  | .mk name value =>
    match value with
    | none => .ok ((((a.WriteString d name).NoPadding.WriteString d ": ")).WriteString d "<nil>")
    | some (.mk raw children kind) =>
      match kind with
      | .Variable =>
          .ok (((a.WriteString d name).NoPadding.WriteString d ": ").WriteString d ("$" ++ raw))
      | .IntValue | .FloatValue | .EnumValue | .BooleanValue | .NullValue =>
          .ok (((a.WriteString d name).NoPadding.WriteString d ": ").WriteString d raw)
      | .StringValue | .BlockValue =>
          .ok (((a.WriteString d name).NoPadding.WriteString d ": ").WriteString d (quote raw))
      | .ListValue => do
          let val ← GetValueString.listLoop quote Lines.view children
          .ok (((a.WriteString d name).NoPadding.WriteString d ": ").WriteString d
            ("[ " ++ Join val ", " ++ " ]")).WriteNewline.NeedPadding
      | .ObjectValue =>
          match children with
          | [] =>
              .ok (((a.WriteString d name).NoPadding.WriteString d ": ").WriteString d
                "\x7b\x7d").WriteNewline.NeedPadding
          | [c] =>
              match c with
              | none => .error .nilDeref
              | some c =>
                if c.Name = "and" ∨ c.Name = "or" ∨ c.Name = "not" then do
                  let a ← Lines.FormatWhereLogOpChildValue quote (d + 1)
                    (((a.WriteString d name).NoPadding.WriteString d ": ").WriteString d
                      "\x7b").WriteNewline.NeedPadding c
                  .ok (a.WriteString d "\x7d").WriteNewline.NeedPadding
                else do
                  let a ← Lines.FormatChildValue quote d
                    (((a.WriteString d name).NoPadding.WriteString d ": ").WriteString d "\x7b ") c
                  .ok (a.WriteString d " \x7d").WriteNewline.NeedPadding
          | c₀ :: c₁ :: rest => do
              let a ← Lines.FormatWhereLogOpChildValue.loop quote (d + 1)
                (((a.WriteString d name).NoPadding.WriteString d ": ").WriteString d
                  "\x7b").WriteNewline.NeedPadding (c₀ :: c₁ :: rest)
              .ok (a.WriteString d "\x7d").WriteNewline.NeedPadding
      | .unsupported => .error .unknownKind
termination_by structural e => e
/-- The loop over the children of an object in `FormatWhereLogOpChildValue`,
in readable mode at depth `d`. -/
def Lines.FormatWhereLogOpChildValue.loop (quote : String → String) (d : Nat) (a : Lines) :
    List (Option ChildValue) → Except Fault Lines
  | [] => .ok a
  | none :: _ => .error .nilDeref
  | some c :: rest => do
      let a ←
        (if c.Name = "and" ∨ c.Name = "or" ∨ c.Name = "not" then
           Lines.FormatWhereLogOpChildValue quote d a c
         else do
           let a ← Lines.FormatChildValue quote d a c
           .ok a.WriteNewline.NeedPadding)
      Lines.FormatWhereLogOpChildValue.loop quote d a rest
termination_by structural l => l
end

/-- Method `FormatWhereLogOpArgument` in readable mode at depth `d`: the name and
`: {` end a line, the single child is rendered at depth `d + 1`, and the
closing brace is written at depth `d`. -/
def Lines.FormatWhereLogOpArgument (quote : String → String) (d : Nat) (a : Lines)
    (arg : Argument) : Except Fault Lines := do
  let a ←
    (match arg.Value with
     | none => .error .nilDeref
     | some v =>
       match v.Children with
       | [] => .error .indexOutOfRange
       | none :: _ => .error .nilDeref
       | some c :: _ =>
         Lines.FormatWhereLogOpChildValue quote (d + 1)
           ((a.WriteWord d arg.Name).NoPadding.WriteString d ": \x7b").NeedPadding.WriteNewline c)
  .ok (a.WriteString d "\x7d").NeedPadding

/-- The inline rendering of an argument in readable mode at depth `d`: the
name, the colon separator and the inline text of the value. -/
def Lines.inlineArgument (quote : String → String) (d : Nat) (a : Lines)
    (arg : Argument) : Except Fault Lines :=
  Lines.FormatValue quote d ((a.WriteWord d arg.Name).NoPadding.WriteString d ": ") arg.Value

/-- Method `FormatWhereArgument` in readable mode at depth `d`. -/
def Lines.FormatWhereArgument (quote : String → String) (d : Nat) (a : Lines)
    (arg : Argument) : Except Fault Lines := do
  if (← formatter.FormatWhereArgument.useLogOp Lines.view arg) then
    Lines.FormatWhereLogOpArgument quote d a arg
  else Lines.inlineArgument quote d a arg

/-- Method `FormatArgument` in readable mode at depth `d`. -/
def Lines.FormatArgument (quote : String → String) (d : Nat) (a : Lines)
    (arg : Argument) : Except Fault Lines :=
  if arg.Name = "where" then Lines.FormatWhereArgument quote d a arg
  else Lines.inlineArgument quote d a arg

/-- The loop of the split branch of `FormatArgumentList` at depth `d`: each
argument is followed by a newline. -/
def Lines.FormatArgumentList.splitLoop (quote : String → String) (d : Nat) (a : Lines) :
    List Argument → Except Fault Lines
  | [] => .ok a
  | arg :: rest => do
      let a ← Lines.FormatArgument quote d a arg
      Lines.FormatArgumentList.splitLoop quote d a.WriteNewline rest

/-- The loop of the inline branch of `FormatArgumentList` in readable mode at
depth `d`: the arguments are separated by a comma. -/
def Lines.FormatArgumentList.inlineLoop (quote : String → String) (d : Nat) (a : Lines) :
    List Argument → Except Fault Lines
  | [] => .ok a
  | arg :: rest => do
      let a ← Lines.FormatArgument quote d a arg
      Lines.FormatArgumentList.inlineLoop quote d
        (if !rest.isEmpty then a.NoPadding.WriteWord d "," else a) rest

/-- Method `FormatArgumentList` in readable mode at depth `d`: a list that is split
ends the line after `(`, has its arguments at depth `d + 1` and writes `)` at
depth `d`. -/
def Lines.FormatArgumentList (quote : String → String) (d : Nat) (a : Lines)
    (lists : List Argument) : Except Fault Lines :=
  if lists.length = 0 then .ok a
  else do
    let doSplitted ← formatter.FormatArgumentList.doSplitted Lines.view lists
    let a ←
      (if doSplitted then
         Lines.FormatArgumentList.splitLoop quote (d + 1)
           (a.NoPadding.WriteString d "(").WriteNewline lists
       else Lines.FormatArgumentList.inlineLoop quote d (a.NoPadding.WriteString d "(") lists)
    .ok (a.WriteString d ")").NeedPadding

/-- Method `FormatDirective` in readable mode at depth `d`. -/
def Lines.FormatDirective (quote : String → String) (d : Nat) (a : Lines)
    (dir : Directive) : Except Fault Lines :=
  Lines.FormatArgumentList quote d ((a.WriteString d "@").WriteWord d dir.Name) dir.Arguments

/-- Method `FormatDirectiveList` in readable mode at depth `d`. -/
def Lines.FormatDirectiveList (quote : String → String) (d : Nat) (a : Lines) :
    List Directive → Except Fault Lines
  | [] => .ok a
  | dir :: rest => do
      let a ← Lines.FormatDirective quote d a dir
      Lines.FormatDirectiveList quote d a rest

/-- Method `FormatVariableDefinition` in readable mode at depth `d`. -/
def Lines.FormatVariableDefinition (quote : String → String) (d : Nat) (a : Lines)
    (v : VariableDefinition) : Except Fault Lines :=
  match v.DefaultValue with
  | none =>
    .ok ((((a.WriteString d "$").WriteWord d v.Variable).NoPadding.WriteString d ":").WriteWord d
      v.TypeString)
  | some x =>
    Lines.FormatValue quote d
      (((((a.WriteString d "$").WriteWord d v.Variable).NoPadding.WriteString d ":").WriteWord d
        v.TypeString).WriteWord d "=") (some x)

/-- The loop of `FormatVariableDefinitionList` in readable mode at depth `d`. -/
def Lines.FormatVariableDefinitionList.loop (quote : String → String) (d : Nat) (a : Lines) :
    List VariableDefinition → Except Fault Lines
  | [] => .ok a
  | v :: rest => do
      let a ← Lines.FormatVariableDefinition quote d a v
      Lines.FormatVariableDefinitionList.loop quote d
        (if !rest.isEmpty then a.NoPadding.WriteWord d "," else a) rest

/-- Method `FormatVariableDefinitionList` in readable mode at depth `d`. -/
def Lines.FormatVariableDefinitionList (quote : String → String) (d : Nat) (a : Lines)
    (lists : List VariableDefinition) : Except Fault Lines :=
  if lists.length = 0 then .ok a
  else do
    let a ← Lines.FormatVariableDefinitionList.loop quote d (a.WriteString d "(") lists
    .ok (a.NoPadding.WriteString d ")").NeedPadding

/-- Method `FormatFragmentSpread` in readable mode at depth `d`. -/
def Lines.FormatFragmentSpread (quote : String → String) (d : Nat) (a : Lines)
    (name : String) (directives : List Directive) : Except Fault Lines :=
  Lines.FormatDirectiveList quote d ((a.WriteWord d "...").WriteWord d name) directives

/-- The body of `FormatSelectionSet` around its loop, in readable mode at depth
`d`: nothing for an empty set, otherwise `{` ends the line, the loop `body`
runs one level deeper, and `}` is written at depth `d`. -/
def Lines.FormatSelectionSet.frame (d : Nat) (a : Lines) (sets : List Selection)
    (body : Lines → Except Fault Lines) : Except Fault Lines :=
  if sets.length = 0 then .ok a
  else do
    let a ← body (a.WriteString d "\x7b").WriteNewline
    .ok (a.WriteString d "\x7d")

mutual
/-- Method `FormatSelection` in readable mode at depth `d`: the selections of the
selection set of a field or of an inline fragment are rendered at depth
`d + 1`. -/
def Lines.FormatSelection (quote : String → String) (d : Nat) (a : Lines) :
    Selection → Except Fault Lines
  | .Field fieldAlias name arguments directives selectionSet => do
      let a ←
        (if arguments.length ≠ 0 then do
           let a ← Lines.FormatArgumentList quote d
             ((if fieldAlias ≠ "" ∧ fieldAlias ≠ name then
                 (a.WriteWord d fieldAlias).NoPadding.WriteString d ": "
               else a).WriteWord d name).NoPadding arguments
           .ok a.NeedPadding
         else
           .ok ((if fieldAlias ≠ "" ∧ fieldAlias ≠ name then
                 (a.WriteWord d fieldAlias).NoPadding.WriteString d ": "
               else a).WriteWord d name))
      let a ← Lines.FormatDirectiveList quote d a directives
      Lines.FormatSelectionSet.frame d a selectionSet
        (fun a => Lines.FormatSelectionSet.loop quote (d + 1) a selectionSet)
  | .FragmentSpread name directives => Lines.FormatFragmentSpread quote d a name directives
  | .InlineFragment typeCondition directives selectionSet => do
      let a ← Lines.FormatDirectiveList quote d
        (if typeCondition ≠ "" then ((a.WriteWord d "...").WriteWord d "on").WriteWord d typeCondition
         else a.WriteWord d "...") directives
      Lines.FormatSelectionSet.frame d a selectionSet
        (fun a => Lines.FormatSelectionSet.loop quote (d + 1) a selectionSet)
  | .other => .error .unknownSelection
termination_by structural s => s
/-- The loop of `FormatSelectionSet` in readable mode at depth `d`: each
selection is followed by a newline. -/
def Lines.FormatSelectionSet.loop (quote : String → String) (d : Nat) (a : Lines) :
    List Selection → Except Fault Lines
  | [] => .ok a
  | sel :: rest => do
      let a ← Lines.FormatSelection quote d a sel
      Lines.FormatSelectionSet.loop quote d a.WriteNewline rest
termination_by structural l => l
end

/-- Method `FormatSelectionSet` in readable mode, entered at depth `d`. -/
def Lines.FormatSelectionSet (quote : String → String) (d : Nat) (a : Lines)
    (sets : List Selection) : Except Fault Lines :=
  Lines.FormatSelectionSet.frame d a sets
    (fun a => Lines.FormatSelectionSet.loop quote (d + 1) a sets)

/-- Method `FormatOperationDefinition` in readable mode at depth `d`. -/
def Lines.FormatOperationDefinition (quote : String → String) (d : Nat) (a : Lines)
    (o : OperationDefinition) : Except Fault Lines := do
  let a ← Lines.FormatVariableDefinitionList quote d
    (if o.Name ≠ "" then (a.WriteWord d o.Operation).WriteWord d o.Name
     else a.WriteWord d o.Operation) o.VariableDefinitions
  let a ← Lines.FormatDirectiveList quote d a o.Directives
  if o.SelectionSet.length ≠ 0 then do
    let a ← Lines.FormatSelectionSet quote d a o.SelectionSet
    .ok a.WriteNewline
  else .ok a

/-- Method `FormatOperationList` in readable mode at depth `d`. -/
def Lines.FormatOperationList (quote : String → String) (d : Nat) (a : Lines) :
    List OperationDefinition → Except Fault Lines
  | [] => .ok a
  | o :: rest => do
      let a ← Lines.FormatOperationDefinition quote d a o
      Lines.FormatOperationList quote d a rest

/-- Method `FormatFragmentDefinition` in readable mode at depth `d`. -/
def Lines.FormatFragmentDefinition (quote : String → String) (d : Nat) (a : Lines)
    (o : FragmentDefinition) : Except Fault Lines := do
  let a ← Lines.FormatVariableDefinitionList quote d
    ((a.WriteWord d "fragment").WriteWord d o.Name) o.VariableDefinition
  let a ← Lines.FormatDirectiveList quote d
    ((a.WriteWord d "on").WriteWord d o.TypeCondition) o.Directives
  if o.SelectionSet.length ≠ 0 then do
    let a ← Lines.FormatSelectionSet quote d a o.SelectionSet
    .ok a.WriteNewline
  else .ok a

/-- Method `FormatFragmentDefinitionList` in readable mode at depth `d`. -/
def Lines.FormatFragmentDefinitionList (quote : String → String) (d : Nat) (a : Lines) :
    List FragmentDefinition → Except Fault Lines
  | [] => .ok a
  | o :: rest => do
      let a ← Lines.FormatFragmentDefinition quote d a o
      Lines.FormatFragmentDefinitionList quote d a rest

/-- Method `FormatQueryDocument` in readable mode at depth `d`. -/
def Lines.FormatQueryDocument (quote : String → String) (d : Nat) (a : Lines) :
    Option QueryDocument → Except Fault Lines
  | none => .ok a
  | some doc => do
      let a ← Lines.FormatOperationList quote d a doc.Operations
      Lines.FormatFragmentDefinitionList quote d a doc.Fragments

/-- The lines of the readable output for a document: the run of the readable
printer at depth 0 from the empty output, in which a line of depth 0 is being
written (a new formatter is not at a line head). -/
def documentLines (quote : String → String) (doc : Option QueryDocument) :
    Except Fault (List (Nat × String) × Option (Nat × String)) :=
  (Lines.FormatQueryDocument quote 0 ⟨[], some (0, ""), false⟩ doc).map
    (fun a => (a.done, a.cur))

/-- The output `a'` continues the output `a`: the complete lines of `a` are
kept, and the line being written in `a`, if there is one, keeps its depth and
has text appended, whether it is still being written or is the first complete
new line. -/
def Lines.Continues (a a' : Lines) : Prop :=
  ∃ more, a'.done = a.done ++ more ∧
    ∀ l, a.cur = some l →
      (more = [] ∧ ∃ t, a'.cur = some (l.1, l.2 ++ t)) ∨
      ∃ t rest, more = (l.1, l.2 ++ t) :: rest

/-- The result of the computation, if there is one, continues `a`. -/
def Lines.Keeps (a : Lines) (x : Except Fault Lines) : Prop :=
  ∀ a', x = .ok a' → a.Continues a'

/-- Every selection of the list is rendered from a line head at depth `k`, and
the next one starts after a newline. -/
def Lines.selectionsEach (quote : String → String) (k : Nat) :
    Lines → List Selection → Lines → Prop
  | a, [], b => b = a
  | a, sel :: rest, b =>
    a.cur = none ∧
      ∃ a₁, Lines.FormatSelection quote k a sel = .ok a₁ ∧
        Lines.selectionsEach quote k a₁.WriteNewline rest b

/-- Every argument of the list is rendered from a line head at depth `k`, and
the next one starts after a newline. -/
def Lines.argumentsEach (quote : String → String) (k : Nat) :
    Lines → List Argument → Lines → Prop
  | a, [], b => b = a
  | a, arg :: rest, b =>
    a.cur = none ∧
      ∃ a₁, Lines.FormatArgument quote k a arg = .ok a₁ ∧
        Lines.argumentsEach quote k a₁.WriteNewline rest b


/-! ## Lemmas -/

@[simp] theorem bind_ok {α β : Type} (a : α) (k : α → Except Fault β) :
    (Except.ok a >>= k) = k a := rfl

@[simp] theorem bind_error {α β : Type} (e : Fault) (k : α → Except Fault β) :
    (Except.error e >>= k) = Except.error e := rfl

theorem renderElems_eq_map (quote : String → String) (m : Bool) (colon : String)
    (l : List (Option ChildValue)) :
    renderElems quote m colon l = l.map (renderElem quote m colon) := by
  induction l with
  | nil => simp [renderElems]
  | cons c rest ih => simp [renderElems, ih]

theorem renderPairs_eq_map (quote : String → String) (m : Bool) (colon : String)
    (l : List (Option ChildValue)) :
    renderPairs quote m colon l = l.map (renderPair quote m colon) := by
  induction l with
  | nil => simp [renderPairs]
  | cons c rest ih => simp [renderPairs, ih]

mutual
theorem GetValueString.value_eq (quote : String → String) (f : formatter) :
    ∀ v : Value, v.recognised = true →
      GetValueString.value quote f v = .ok (renderValue quote f.optCompressed f.colonUnit v)
  | .mk raw children kind, h => by
    cases kind <;>
      simp [Value.recognised] at h <;>
      simp [GetValueString.value, renderValue]
    · rw [GetValueString.listLoop_eq quote f children h]; cases f.optCompressed <;> simp
    · rw [GetValueString.objectLoop_eq quote f children h]; cases f.optCompressed <;> simp
termination_by structural v => v
theorem GetValueString_eq (quote : String → String) (f : formatter) :
    ∀ v : Option Value, recognisedOpt v = true →
      GetValueString quote f v = .ok (renderOptValue quote f.optCompressed f.colonUnit v)
  | none, _ => by simp [GetValueString, renderOptValue]
  | some v, h => by
    simp [recognisedOpt] at h
    simp [GetValueString, renderOptValue, GetValueString.value_eq quote f v h]
termination_by structural v => v
theorem GetValueString.listElem_eq (quote : String → String) (f : formatter) :
    ∀ c : Option ChildValue, recognisedChild c = true →
      GetValueString.listElem quote f c = .ok (renderElem quote f.optCompressed f.colonUnit c)
  | none, h => by simp [recognisedChild] at h
  | some (.mk _ v), h => by
    simp [recognisedChild] at h
    simp [GetValueString.listElem, renderElem, GetValueString_eq quote f v h]
termination_by structural c => c
theorem GetValueString.objectElem_eq (quote : String → String) (f : formatter) :
    ∀ c : Option ChildValue, recognisedChild c = true →
      GetValueString.objectElem quote f c = .ok (renderPair quote f.optCompressed f.colonUnit c)
  | none, h => by simp [recognisedChild] at h
  | some (.mk _ v), h => by
    simp [recognisedChild] at h
    simp [GetValueString.objectElem, renderPair, GetValueString_eq quote f v h]
termination_by structural c => c
theorem GetValueString.listLoop_eq (quote : String → String) (f : formatter) :
    ∀ l : List (Option ChildValue), recognisedList l = true →
      GetValueString.listLoop quote f l = .ok (renderElems quote f.optCompressed f.colonUnit l)
  | [], _ => by simp [GetValueString.listLoop, renderElems]
  | c :: rest, h => by
    simp [recognisedList] at h
    simp [GetValueString.listLoop, renderElems, GetValueString.listElem_eq quote f c h.1,
      GetValueString.listLoop_eq quote f rest h.2]
termination_by structural l => l
theorem GetValueString.objectLoop_eq (quote : String → String) (f : formatter) :
    ∀ l : List (Option ChildValue), recognisedList l = true →
      GetValueString.objectLoop quote f l = .ok (renderPairs quote f.optCompressed f.colonUnit l)
  | [], _ => by simp [GetValueString.objectLoop, renderPairs]
  | c :: rest, h => by
    simp [recognisedList] at h
    simp [GetValueString.objectLoop, renderPairs, GetValueString.objectElem_eq quote f c h.1,
      GetValueString.objectLoop_eq quote f rest h.2]
termination_by structural l => l
end

theorem recognisedChild_of_mem :
    ∀ (l : List (Option ChildValue)) (c : Option ChildValue),
      recognisedList l = true → c ∈ l → recognisedChild c = true
  | [], _, _, hc => by simp at hc
  | d :: rest, c, h, hc => by
    simp [recognisedList] at h
    rcases List.mem_cons.mp hc with rfl | hc
    · exact h.1
    · exact recognisedChild_of_mem rest c h.2 hc

theorem doWhereSplitted_some_iff (c : ChildValue) :
    doWhereSplitted (some c) = true ↔
      ((c.Name = "and" ∨ c.Name = "or") ∧ 1 < c.subConditions.length) ∨
      (c.Name = "not" ∧ ∃ c', c.subConditions = [c'] ∧ doWhereSplitted c' = true) := by
  obtain ⟨name, value⟩ := c
  cases value with
  | none => simp [doWhereSplitted, doWhereSplitted.elem, ChildValue.subConditions, ChildValue.Value]
  | some v =>
    obtain ⟨raw, children, kind⟩ := v
    cases children with
    | nil =>
      simp [doWhereSplitted, doWhereSplitted.elem, ChildValue.subConditions, ChildValue.Value,
        Value.Children]
    | cons c₀ rest =>
      by_cases h1 : name = "and" ∨ name = "or"
      · have h2 : name ≠ "not" := by rintro rfl; simp at h1
        simp [doWhereSplitted, doWhereSplitted.elem, ChildValue.subConditions, ChildValue.Value,
          Value.Children, ChildValue.Name, h1, h2]
      · by_cases h2 : name = "not"
        · subst h2
          cases rest with
          | nil =>
            simp [doWhereSplitted, doWhereSplitted.elem, ChildValue.subConditions,
              ChildValue.Value, Value.Children, ChildValue.Name]
          | cons c₁ rest =>
            simp [doWhereSplitted, doWhereSplitted.elem, ChildValue.subConditions,
              ChildValue.Value, Value.Children, ChildValue.Name]
        · simp [doWhereSplitted, doWhereSplitted.elem, ChildValue.subConditions,
            ChildValue.Value, Value.Children, ChildValue.Name, h1, h2]

theorem doWhereSplitted_of_reachesSplit {c : ChildValue} (h : ReachesSplit c) :
    doWhereSplitted (some c) = true := by
  induction h with
  | combinator name raw children kind hn hl =>
    rw [doWhereSplitted_some_iff]; left
    exact ⟨hn, hl⟩
  | negation raw kind c _ ih =>
    rw [doWhereSplitted_some_iff]; right
    exact ⟨rfl, some c, rfl, ih⟩

theorem reachesSplit_of_elem : ∀ c : ChildValue, doWhereSplitted.elem c = true → ReachesSplit c
  | .mk name value, h => by
    cases value with
    | none => simp [doWhereSplitted.elem] at h
    | some v =>
      obtain ⟨raw, children, kind⟩ := v
      cases children with
      | nil => simp [doWhereSplitted.elem] at h
      | cons c₀ rest =>
        by_cases h1 : name = "and" ∨ name = "or"
        · simp [doWhereSplitted.elem, h1] at h
          exact .combinator name raw _ kind h1 (by simpa using h)
        · by_cases h2 : name = "not"
          · subst h2
            cases rest with
            | nil =>
              simp [doWhereSplitted.elem] at h
              cases c₀ with
              | none => simp [doWhereSplitted] at h
              | some c' =>
                exact .negation raw kind c'
                  (reachesSplit_of_elem c' (by simpa [doWhereSplitted] using h))
            | cons c₁ rest => simp [doWhereSplitted.elem] at h
          · simp [doWhereSplitted.elem, h1, h2] at h
termination_by structural c => c

theorem useLogOp_eq (f : formatter) (arg : Argument) (h : arg.derefOk = true) :
    formatter.FormatWhereArgument.useLogOp f arg =
      .ok (f.optWhereLogicalOps && whereQualifies arg.Value) := by
  obtain ⟨name, value⟩ := arg
  cases value with
  | none => simp [Argument.derefOk] at h
  | some v =>
    obtain ⟨raw, children, kind⟩ := v
    cases hf : f.optWhereLogicalOps
    · simp [formatter.FormatWhereArgument.useLogOp, hf]
    · match children, h with
      | [], _ => simp [formatter.FormatWhereArgument.useLogOp, hf, whereQualifies, Value.Children]
      | _ :: _ :: _, _ =>
        simp [formatter.FormatWhereArgument.useLogOp, hf, whereQualifies, Value.Children]
      | [none], h => simp [Argument.derefOk, Value.Children] at h
      | [some c], h =>
        obtain ⟨cn, cv⟩ := c
        by_cases h1 : cn = "and" ∨ cn = "or"
        · cases cv with
          | none => simp [Argument.derefOk, Value.Children, ChildValue.Name, ChildValue.Value, h1] at h
          | some w =>
            obtain ⟨r2, ch2, k2⟩ := w
            have h2 : cn ≠ "not" := by rintro rfl; simp at h1
            cases ch2 with
            | nil =>
              simp [formatter.FormatWhereArgument.useLogOp, hf, whereQualifies, Value.Children,
                ChildValue.Name, ChildValue.Value, h1, doWhereSplitted, doWhereSplitted.elem]
            | cons a b =>
              simp [formatter.FormatWhereArgument.useLogOp, hf, whereQualifies, Value.Children,
                ChildValue.Name, ChildValue.Value, h1, doWhereSplitted, doWhereSplitted.elem]
        · by_cases h2 : cn = "not"
          · simp [formatter.FormatWhereArgument.useLogOp, hf, whereQualifies, Value.Children,
              ChildValue.Name, h1, h2]
          · have h3 : doWhereSplitted (some (ChildValue.mk cn cv)) = false := by
              cases hb : doWhereSplitted (some (ChildValue.mk cn cv)) with
              | false => rfl
              | true =>
                rw [doWhereSplitted_some_iff] at hb
                simp [ChildValue.Name, h1, h2] at hb
            simp [formatter.FormatWhereArgument.useLogOp, hf, whereQualifies, Value.Children,
              ChildValue.Name, h1, h2, h3]

theorem bind_eq_ok {α β : Type} {x : Except Fault α} {k : α → Except Fault β} {b : β} :
    (x >>= k) = .ok b ↔ ∃ a, x = .ok a ∧ k a = .ok b := by
  cases x with
  | error e => simp
  | ok a => simp

theorem post_ok {f : formatter} {Q : formatter → Prop} (h : Q f) : Post (.ok f) Q := by
  intro f' e; cases e; exact h

theorem post_error {e : Fault} {Q : formatter → Prop} : Post (.error e) Q := by
  intro f' h; cases h

theorem post_bind {x : Except Fault formatter} {k : formatter → Except Fault formatter}
    {Q : formatter → Prop} (h : Post x (fun a => Post (k a) Q)) : Post (x >>= k) Q := by
  intro f' e
  obtain ⟨a, h1, h2⟩ := bind_eq_ok.mp e
  exact h a h1 f' h2

theorem post_bind_val {α : Type} {x : Except Fault α} {k : α → Except Fault formatter}
    {Q : formatter → Prop} (h : ∀ a, x = .ok a → Post (k a) Q) : Post (x >>= k) Q := by
  intro f' e
  obtain ⟨a, h1, h2⟩ := bind_eq_ok.mp e
  exact h a h1 f' h2

theorem post_mono {x : Except Fault formatter} {P Q : formatter → Prop}
    (h : Post x P) (hPQ : ∀ f, P f → Q f) : Post x Q :=
  fun f' e => hPQ f' (h f' e)

theorem post_ite {c : Prop} [Decidable c] {a b : Except Fault formatter} {Q : formatter → Prop}
    (ha : c → Post a Q) (hb : ¬c → Post b Q) : Post (if c then a else b) Q := by
  split
  · exact ha ‹_›
  · exact hb ‹_›

theorem WriteString_eq (f : formatter) (s : String) :
    f.WriteString s =
      if f.lineHead = true ∧ f.optCompressed = false ∧ f.indent < 0 then .error .negativeRepeat
      else .ok { f with
        writer := f.writer ++
          (if f.lineHead = true ∧ f.optCompressed = false then Repeat f.indentUnit f.indent.toNat
           else "") ++
          (if f.lineHead = false ∧ f.padNext = true ∧ f.optCompressed = false then " " else "") ++ s,
        lineHead := false, padNext := false } := by
  obtain ⟨w, i, p, l, iu, cu, o1, o2, c⟩ := f
  cases l <;> cases c <;> cases p <;> by_cases hi : i < 0 <;>
    simp [formatter.WriteString, formatter.writeIndent, formatter.writeString, hi,
      String.append_assoc]

theorem WriteWord_eq (f : formatter) (s : String) :
    f.WriteWord s =
      if f.lineHead = true ∧ f.optCompressed = false ∧ f.indent < 0 then .error .negativeRepeat
      else .ok { f with
        writer := f.writer ++
          (if f.lineHead = true ∧ f.optCompressed = false then Repeat f.indentUnit f.indent.toNat
           else "") ++
          (if f.lineHead = false ∧ f.padNext = true then " " else "") ++ TrimSpace s,
        lineHead := false, padNext := true } := by
  obtain ⟨w, i, p, l, iu, cu, o1, o2, c⟩ := f
  cases l <;> cases c <;> cases p <;> by_cases hi : i < 0 <;>
    simp [formatter.WriteWord, formatter.writeIndent, formatter.writeString, hi,
      String.append_assoc]

theorem Ext.refl (f : formatter) : Ext 0 f f :=
  ⟨rfl, rfl, rfl, rfl, rfl, by simp, "", by simp⟩

theorem Ext.cast {a b : Int} {f g : formatter} (h1 : Ext a f g) (h : a = b) : Ext b f g := h ▸ h1

theorem Ext.WriteString {k : Int} {g f : formatter} (h : Ext k g f) (s : String) :
    Post (f.WriteString s) (Ext k g) := by
  intro f' e
  rw [WriteString_eq] at e
  split at e
  · cases e
  · cases e
    obtain ⟨s1, e1⟩ := h.writer
    exact ⟨h.indentUnit, h.colonUnit, h.optArgumentSplitted, h.optWhereLogicalOps, h.optCompressed,
      h.indent, _, by simp only [e1, String.append_assoc]; rfl⟩

theorem Ext.WriteWord {k : Int} {g f : formatter} (h : Ext k g f) (s : String) :
    Post (f.WriteWord s) (Ext k g) := by
  intro f' e
  rw [WriteWord_eq] at e
  split at e
  · cases e
  · cases e
    obtain ⟨s1, e1⟩ := h.writer
    exact ⟨h.indentUnit, h.colonUnit, h.optArgumentSplitted, h.optWhereLogicalOps, h.optCompressed,
      h.indent, _, by simp only [e1, String.append_assoc]; rfl⟩

theorem Ext.WriteNewline {k : Int} {g f : formatter} (h : Ext k g f) : Ext k g f.WriteNewline := by
  obtain ⟨s1, e1⟩ := h.writer
  refine ⟨?_, ?_, ?_, ?_, ?_, ?_, ?_⟩ <;>
    try (simp only [formatter.WriteNewline, formatter.writeString]; split <;> first | exact h.indentUnit | exact h.colonUnit | exact h.optArgumentSplitted | exact h.optWhereLogicalOps | exact h.optCompressed | exact h.indent)
  simp only [formatter.WriteNewline, formatter.writeString]
  split
  · exact ⟨s1 ++ "\n", by simp only [e1, String.append_assoc]⟩
  · exact ⟨s1, e1⟩

theorem Ext.NoPadding {k : Int} {g f : formatter} (h : Ext k g f) : Ext k g f.NoPadding :=
  ⟨h.indentUnit, h.colonUnit, h.optArgumentSplitted, h.optWhereLogicalOps, h.optCompressed,
    h.indent, h.writer⟩

theorem Ext.NeedPadding {k : Int} {g f : formatter} (h : Ext k g f) : Ext k g f.NeedPadding :=
  ⟨h.indentUnit, h.colonUnit, h.optArgumentSplitted, h.optWhereLogicalOps, h.optCompressed,
    h.indent, h.writer⟩

theorem Ext.IncrementIndent {k : Int} {g f : formatter} (h : Ext k g f) :
    Ext (k + 1) g f.IncrementIndent :=
  ⟨h.indentUnit, h.colonUnit, h.optArgumentSplitted, h.optWhereLogicalOps, h.optCompressed,
    by simp only [formatter.IncrementIndent, h.indent]; ring, h.writer⟩

theorem Ext.DecrementIndent {k : Int} {g f : formatter} (h : Ext (k + 1) g f) :
    Ext k g f.DecrementIndent :=
  ⟨h.indentUnit, h.colonUnit, h.optArgumentSplitted, h.optWhereLogicalOps, h.optCompressed,
    by simp only [formatter.DecrementIndent, h.indent]; ring, h.writer⟩

theorem Ext.FormatValue (quote : String → String) {k : Int} {g f : formatter} (h : Ext k g f)
    (v : Option Value) : Post (f.FormatValue quote v) (Ext k g) := by
  unfold formatter.FormatValue
  exact post_bind_val fun s _ => h.WriteString s

theorem Ext.FormatChildValue (quote : String → String) {k : Int} {g f : formatter}
    (h : Ext k g f) (c : ChildValue) : Post (f.FormatChildValue quote c) (Ext k g) := by
  unfold formatter.FormatChildValue
  exact post_bind_val fun s _ => h.WriteString _

mutual
theorem Ext.FormatWhereLogOpChildValue (quote : String → String) {k : Int} {g : formatter} :
    ∀ (c : ChildValue) (f : formatter), Ext k g f →
      Post (f.FormatWhereLogOpChildValue quote c) (Ext k g)
  | .mk name value, f, h => by
    unfold formatter.FormatWhereLogOpChildValue
    refine post_bind (post_mono (h.WriteString name) fun f1 h1 => ?_)
    refine post_bind (post_mono (h1.NoPadding.WriteString _) fun f2 h2 => ?_)
    cases value with
    | none => exact h2.WriteString _
    | some v =>
      obtain ⟨raw, children, kind⟩ := v
      cases kind <;> simp only
      case unsupported => exact post_error
      case ListValue =>
        refine post_bind_val fun val _ => ?_
        refine post_ite (fun _ => h2.WriteString _) fun _ => ?_
        exact post_bind (post_mono (h2.WriteString _) fun f3 h3 =>
          post_ok h3.WriteNewline.NeedPadding)
      case ObjectValue =>
        match children with
        | [] =>
          simp only
          refine post_bind (post_mono (h2.WriteString _) fun f3 h3 => ?_)
          exact post_ite (fun _ => post_ok h3.WriteNewline.NeedPadding) (fun _ => post_ok h3)
        | [none] => exact post_error
        | [some c] =>
          simp only
          refine post_ite (fun _ => ?_) fun _ => post_ite (fun _ => ?_) fun _ => ?_
          · refine post_bind (post_mono (h2.WriteString _) fun f3 h3 => ?_)
            refine post_bind (post_mono
              (Ext.FormatWhereLogOpChildValue quote c _ h3.WriteNewline.NeedPadding.IncrementIndent)
              fun f4 h4 => ?_)
            exact post_bind (post_mono (h4.DecrementIndent.WriteString _) fun f5 h5 =>
              post_ok h5.WriteNewline.NeedPadding)
          · refine post_bind (post_mono (h2.WriteString _) fun f3 h3 => ?_)
            refine post_bind (post_mono (h3.FormatChildValue quote c) fun f4 h4 => ?_)
            exact post_bind (post_mono (h4.WriteString _) fun f5 h5 => post_ok h5.NeedPadding)
          · refine post_bind (post_mono (h2.WriteString _) fun f3 h3 => ?_)
            refine post_bind (post_mono (h3.FormatChildValue quote c) fun f4 h4 => ?_)
            exact post_bind (post_mono (h4.WriteString _) fun f5 h5 =>
              post_ok h5.WriteNewline.NeedPadding)
        | c₀ :: c₁ :: rest =>
          simp only
          refine post_bind (post_mono (h2.WriteString _) fun f3 h3 => ?_)
          refine post_bind (post_mono
            (Ext.whereLoop quote (c₀ :: c₁ :: rest) _
              h3.WriteNewline.NeedPadding.IncrementIndent)
            fun f4 h4 => ?_)
          exact post_bind (post_mono (h4.DecrementIndent.WriteString _) fun f5 h5 =>
            post_ok h5.WriteNewline.NeedPadding)
      all_goals exact h2.WriteString _
termination_by structural c => c
theorem Ext.whereLoop (quote : String → String) {k : Int} {g : formatter} :
    ∀ (l : List (Option ChildValue)) (f : formatter), Ext k g f →
      Post (formatter.FormatWhereLogOpChildValue.loop quote f l) (Ext k g)
  | [], f, h => by
    unfold formatter.FormatWhereLogOpChildValue.loop
    exact post_ok h
  | none :: _, f, h => by
    unfold formatter.FormatWhereLogOpChildValue.loop
    exact post_error
  | some c :: rest, f, h => by
    unfold formatter.FormatWhereLogOpChildValue.loop
    refine post_bind (post_mono (post_ite (fun _ => ?_) fun _ => ?_) fun f1 h1 =>
      Ext.whereLoop quote rest f1 h1)
    · exact Ext.FormatWhereLogOpChildValue quote c f h
    · exact post_bind (post_mono (h.FormatChildValue quote c) fun f2 h2 =>
        post_ok h2.WriteNewline.NeedPadding)
termination_by structural l => l
end

theorem Ext.FormatWhereLogOpArgument (quote : String → String) {k : Int} {g f : formatter}
    (h : Ext k g f) (arg : Argument) : Post (f.FormatWhereLogOpArgument quote arg) (Ext k g) := by
  unfold formatter.FormatWhereLogOpArgument
  refine post_bind (post_mono (h.WriteWord _) fun f1 h1 => ?_)
  refine post_bind (post_mono
    (post_ite (fun _ => h1.NoPadding.WriteString _) fun _ => h1.NoPadding.WriteString _)
    fun f2 h2 => ?_)
  have h3 := h2.NeedPadding.WriteNewline.IncrementIndent
  refine post_bind (post_mono (?_ : Post _ (Ext (k + 1) g)) fun f4 h4 =>
    post_bind (post_mono (h4.DecrementIndent.WriteString _) fun f5 h5 => post_ok h5.NeedPadding))
  cases arg.Value with
  | none => exact post_error
  | some v =>
    simp only
    match v.Children with
    | [] => exact post_error
    | none :: _ => exact post_error
    | some c :: _ => exact Ext.FormatWhereLogOpChildValue quote c _ h3

theorem Ext.inlineArgument (quote : String → String) {k : Int} {g f : formatter}
    (h : Ext k g f) (arg : Argument) :
    Post (do
      let f ← f.WriteWord arg.Name
      let f ← f.NoPadding.WriteString f.colonUnit
      f.FormatValue quote arg.Value) (Ext k g) :=
  post_bind (post_mono (h.WriteWord _) fun _ h1 =>
    post_bind (post_mono (h1.NoPadding.WriteString _) fun _ h2 => h2.FormatValue quote _))

theorem Ext.FormatWhereArgument (quote : String → String) {k : Int} {g f : formatter}
    (h : Ext k g f) (arg : Argument) : Post (f.FormatWhereArgument quote arg) (Ext k g) := by
  unfold formatter.FormatWhereArgument
  refine post_bind_val fun b _ => ?_
  exact post_ite (fun _ => h.FormatWhereLogOpArgument quote arg) fun _ => h.inlineArgument quote arg

theorem Ext.FormatArgument (quote : String → String) {k : Int} {g f : formatter}
    (h : Ext k g f) (arg : Argument) : Post (f.FormatArgument quote arg) (Ext k g) := by
  unfold formatter.FormatArgument
  exact post_ite (fun _ => h.FormatWhereArgument quote arg) fun _ => h.inlineArgument quote arg

theorem Ext.splitLoop (quote : String → String) {k : Int} {g : formatter} :
    ∀ (l : List Argument) (f : formatter), Ext k g f →
      Post (formatter.FormatArgumentList.splitLoop quote f l) (Ext k g)
  | [], f, h => post_ok h
  | arg :: rest, f, h => by
    unfold formatter.FormatArgumentList.splitLoop
    exact post_bind (post_mono (h.FormatArgument quote arg) fun f1 h1 =>
      Ext.splitLoop quote rest _ h1.WriteNewline)

theorem Ext.inlineLoop (quote : String → String) {k : Int} {g : formatter} :
    ∀ (l : List Argument) (f : formatter), Ext k g f →
      Post (formatter.FormatArgumentList.inlineLoop quote f l) (Ext k g)
  | [], f, h => post_ok h
  | arg :: rest, f, h => by
    unfold formatter.FormatArgumentList.inlineLoop
    refine post_bind (post_mono (h.FormatArgument quote arg) fun f1 h1 => ?_)
    refine post_bind (post_mono (?_ : Post _ (Ext k g)) fun f2 h2 => Ext.inlineLoop quote rest _ h2)
    exact post_ite (fun _ => post_ite (fun _ => h1.NoPadding.WriteString _)
      fun _ => h1.NoPadding.WriteWord _) fun _ => post_ok h1

theorem Ext.FormatArgumentList (quote : String → String) {k : Int} {g f : formatter}
    (h : Ext k g f) (l : List Argument) : Post (f.FormatArgumentList quote l) (Ext k g) := by
  unfold formatter.FormatArgumentList
  refine post_ite (fun _ => post_ok h) fun _ => ?_
  refine post_bind_val fun b _ => ?_
  refine post_bind (post_mono (h.NoPadding.WriteString _) fun f1 h1 => ?_)
  refine post_bind (post_mono (?_ : Post _ (Ext k g)) fun f2 h2 =>
    post_bind (post_mono (h2.WriteString _) fun f3 h3 => post_ok h3.NeedPadding))
  refine post_ite (fun _ => ?_) fun _ => h1.inlineLoop quote l
  exact post_bind (post_mono (Ext.splitLoop quote l _ h1.WriteNewline.IncrementIndent)
    fun f2 h2 => post_ok h2.DecrementIndent)

theorem Ext.FormatDirective (quote : String → String) {k : Int} {g f : formatter}
    (h : Ext k g f) (d : Directive) : Post (f.FormatDirective quote d) (Ext k g) := by
  unfold formatter.FormatDirective
  exact post_bind (post_mono (h.WriteString _) fun f1 h1 =>
    post_bind (post_mono (h1.WriteWord _) fun f2 h2 => h2.FormatArgumentList quote _))

theorem Ext.FormatDirectiveList (quote : String → String) {k : Int} {g : formatter} :
    ∀ (l : List Directive) (f : formatter), Ext k g f →
      Post (f.FormatDirectiveList quote l) (Ext k g)
  | [], f, h => post_ok h
  | d :: rest, f, h => by
    unfold formatter.FormatDirectiveList
    exact post_bind (post_mono (h.FormatDirective quote d) fun f1 h1 =>
      Ext.FormatDirectiveList quote rest f1 h1)

theorem Ext.FormatType {k : Int} {g f : formatter} (h : Ext k g f) (t : String) :
    Post (f.FormatType t) (Ext k g) := by
  unfold formatter.FormatType
  exact post_ite (fun _ => h.WriteString t) fun _ => h.WriteWord t

theorem Ext.FormatVariableDefinition (quote : String → String) {k : Int} {g f : formatter}
    (h : Ext k g f) (d : VariableDefinition) :
    Post (f.FormatVariableDefinition quote d) (Ext k g) := by
  unfold formatter.FormatVariableDefinition
  refine post_bind (post_mono (h.WriteString _) fun f1 h1 => ?_)
  refine post_bind (post_mono (h1.WriteWord _) fun f2 h2 => ?_)
  refine post_bind (post_mono (h2.NoPadding.WriteString _) fun f3 h3 => ?_)
  refine post_bind (post_mono (h3.FormatType _) fun f4 h4 => ?_)
  cases d.DefaultValue with
  | none => exact post_ok h4
  | some v => exact post_bind (post_mono (h4.WriteWord _) fun f5 h5 => h5.FormatValue quote _)

theorem Ext.variableLoop (quote : String → String) {k : Int}
    {g : formatter} :
    ∀ (l : List VariableDefinition) (f : formatter), Ext k g f →
      Post (formatter.FormatVariableDefinitionList.loop quote f l) (Ext k g)
  | [], f, h => post_ok h
  | d :: rest, f, h => by
    unfold formatter.FormatVariableDefinitionList.loop
    refine post_bind (post_mono (h.FormatVariableDefinition quote d) fun f1 h1 => ?_)
    refine post_bind (post_mono (?_ : Post _ (Ext k g)) fun f2 h2 =>
      Ext.variableLoop quote rest _ h2)
    exact post_ite (fun _ => post_ite (fun _ => h1.NoPadding.WriteString _)
      fun _ => h1.NoPadding.WriteWord _) fun _ => post_ok h1

theorem Ext.FormatVariableDefinitionList (quote : String → String) {k : Int} {g f : formatter}
    (h : Ext k g f) (l : List VariableDefinition) :
    Post (f.FormatVariableDefinitionList quote l) (Ext k g) := by
  unfold formatter.FormatVariableDefinitionList
  refine post_ite (fun _ => post_ok h) fun _ => ?_
  refine post_bind (post_mono (h.WriteString _) fun f1 h1 => ?_)
  refine post_bind (post_mono (Ext.variableLoop quote l _ h1) fun f2 h2 => ?_)
  exact post_bind (post_mono (h2.NoPadding.WriteString _) fun f3 h3 => post_ok h3.NeedPadding)

theorem Ext.FormatFragmentSpread (quote : String → String) {k : Int} {g f : formatter}
    (h : Ext k g f) (name : String) (ds : List Directive) :
    Post (f.FormatFragmentSpread quote name ds) (Ext k g) := by
  unfold formatter.FormatFragmentSpread
  exact post_bind (post_mono (h.WriteWord _) fun f1 h1 =>
    post_bind (post_mono (h1.WriteWord _) fun f2 h2 => Ext.FormatDirectiveList quote ds f2 h2))

theorem Ext.frame {k : Int} {g f : formatter} (h : Ext k g f) (sets : List Selection)
    (body : formatter → Except Fault formatter)
    (hb : ∀ f1, Ext (k + 1) g f1 → Post (body f1) (Ext (k + 1) g)) :
    Post (formatter.FormatSelectionSet.frame f sets body) (Ext k g) := by
  unfold formatter.FormatSelectionSet.frame
  refine post_ite (fun _ => post_ok h) fun _ => ?_
  refine post_bind (post_mono (h.WriteString _) fun f1 h1 => ?_)
  refine post_bind (post_mono (hb _ h1.WriteNewline.IncrementIndent) fun f2 h2 => ?_)
  exact h2.DecrementIndent.WriteString _

mutual
theorem Ext.FormatSelection (quote : String → String) {g : formatter} :
    ∀ (s : Selection) (k : Int) (f : formatter), Ext k g f →
      Post (f.FormatSelection quote s) (Ext k g)
  | .Field fieldAlias name arguments directives selectionSet, k, f, h => by
    unfold formatter.FormatSelection
    refine post_bind (post_mono (?_ : Post _ (Ext k g)) fun f1 h1 => ?_)
    · exact post_ite (fun _ => post_bind (post_mono (h.WriteWord _) fun f1 h1 =>
        h1.NoPadding.WriteString _)) fun _ => post_ok h
    refine post_bind (post_mono (h1.WriteWord _) fun f2 h2 => ?_)
    refine post_bind (post_mono (?_ : Post _ (Ext k g)) fun f3 h3 => ?_)
    · exact post_ite (fun _ => post_bind (post_mono (h2.NoPadding.FormatArgumentList quote _)
        fun f3 h3 => post_ok h3.NeedPadding)) fun _ => post_ok h2
    refine post_bind (post_mono (Ext.FormatDirectiveList quote directives f3 h3) fun f4 h4 => ?_)
    exact h4.frame selectionSet _ fun f5 h5 => Ext.selectionLoop quote selectionSet _ f5 h5
  | .FragmentSpread name directives, k, f, h => by
    unfold formatter.FormatSelection
    exact h.FormatFragmentSpread quote name directives
  | .InlineFragment typeCondition directives selectionSet, k, f, h => by
    unfold formatter.FormatSelection
    refine post_bind (post_mono (h.WriteWord _) fun f1 h1 => ?_)
    refine post_bind (post_mono (?_ : Post _ (Ext k g)) fun f2 h2 => ?_)
    · exact post_ite (fun _ => post_bind (post_mono (h1.WriteWord _) fun f2 h2 =>
        h2.WriteWord _)) fun _ => post_ok h1
    refine post_bind (post_mono (Ext.FormatDirectiveList quote directives f2 h2) fun f4 h4 => ?_)
    exact h4.frame selectionSet _ fun f5 h5 => Ext.selectionLoop quote selectionSet _ f5 h5
  | .other, k, f, h => by
    unfold formatter.FormatSelection
    exact post_error
termination_by structural s => s
theorem Ext.selectionLoop (quote : String → String) {g : formatter} :
    ∀ (l : List Selection) (k : Int) (f : formatter), Ext k g f →
      Post (formatter.FormatSelectionSet.loop quote f l) (Ext k g)
  | [], k, f, h => by
    unfold formatter.FormatSelectionSet.loop
    exact post_ok h
  | sel :: rest, k, f, h => by
    unfold formatter.FormatSelectionSet.loop
    refine post_bind (post_mono (Ext.FormatSelection quote sel k f h) fun f1 h1 => ?_)
    refine post_bind (post_mono (?_ : Post _ (Ext k g)) fun f2 h2 =>
      Ext.selectionLoop quote rest k f2 h2)
    exact post_ite (fun _ => post_ite (fun _ => post_ite (fun _ => h1.NoPadding.WriteString _)
      fun _ => h1.NoPadding.WriteWord _) fun _ => post_ok h1) fun _ => post_ok h1.WriteNewline
termination_by structural l => l
end

theorem Ext.FormatSelectionSet (quote : String → String) {k : Int} {g f : formatter}
    (h : Ext k g f) (sets : List Selection) :
    Post (f.FormatSelectionSet quote sets) (Ext k g) :=
  h.frame sets _ fun f5 h5 => Ext.selectionLoop quote sets _ f5 h5

theorem Ext.FormatOperationDefinition (quote : String → String) {k : Int} {g f : formatter}
    (h : Ext k g f) (d : OperationDefinition) :
    Post (f.FormatOperationDefinition quote d) (Ext k g) := by
  unfold formatter.FormatOperationDefinition
  refine post_bind (post_mono (h.WriteWord _) fun f1 h1 => ?_)
  refine post_bind (post_mono (?_ : Post _ (Ext k g)) fun f2 h2 => ?_)
  · exact post_ite (fun _ => h1.WriteWord _) fun _ => post_ok h1
  refine post_bind (post_mono (h2.FormatVariableDefinitionList quote _) fun f3 h3 => ?_)
  refine post_bind (post_mono (Ext.FormatDirectiveList quote _ f3 h3) fun f4 h4 => ?_)
  exact post_ite (fun _ => post_bind (post_mono (h4.FormatSelectionSet quote _) fun f5 h5 =>
    post_ok h5.WriteNewline)) fun _ => post_ok h4

theorem Ext.FormatOperationList (quote : String → String) {k : Int} {g : formatter} :
    ∀ (l : List OperationDefinition) (f : formatter), Ext k g f →
      Post (f.FormatOperationList quote l) (Ext k g)
  | [], f, h => post_ok h
  | d :: rest, f, h => by
    unfold formatter.FormatOperationList
    exact post_bind (post_mono (h.FormatOperationDefinition quote d) fun f1 h1 =>
      Ext.FormatOperationList quote rest f1 h1)

theorem Ext.FormatFragmentDefinition (quote : String → String) {k : Int} {g f : formatter}
    (h : Ext k g f) (d : FragmentDefinition) :
    Post (f.FormatFragmentDefinition quote d) (Ext k g) := by
  unfold formatter.FormatFragmentDefinition
  refine post_bind (post_mono (h.WriteWord _) fun f1 h1 => ?_)
  refine post_bind (post_mono (h1.WriteWord _) fun f2 h2 => ?_)
  refine post_bind (post_mono (h2.FormatVariableDefinitionList quote _) fun f3 h3 => ?_)
  refine post_bind (post_mono (h3.WriteWord _) fun f4 h4 => ?_)
  refine post_bind (post_mono (h4.WriteWord _) fun f5 h5 => ?_)
  refine post_bind (post_mono (Ext.FormatDirectiveList quote _ f5 h5) fun f6 h6 => ?_)
  exact post_ite (fun _ => post_bind (post_mono (h6.FormatSelectionSet quote _) fun f7 h7 =>
    post_ok h7.WriteNewline)) fun _ => post_ok h6

theorem Ext.FormatFragmentDefinitionList (quote : String → String) {k : Int} {g : formatter} :
    ∀ (l : List FragmentDefinition) (f : formatter), Ext k g f →
      Post (f.FormatFragmentDefinitionList quote l) (Ext k g)
  | [], f, h => post_ok h
  | d :: rest, f, h => by
    unfold formatter.FormatFragmentDefinitionList
    exact post_bind (post_mono (h.FormatFragmentDefinition quote d) fun f1 h1 =>
      Ext.FormatFragmentDefinitionList quote rest f1 h1)

theorem Ext.FormatQueryDocument (quote : String → String) {k : Int} {g f : formatter}
    (h : Ext k g f) (doc : Option QueryDocument) :
    Post (f.FormatQueryDocument quote doc) (Ext k g) := by
  cases doc with
  | none => exact post_ok h
  | some doc =>
    unfold formatter.FormatQueryDocument
    exact post_bind (post_mono (Ext.FormatOperationList quote _ f h) fun f1 h1 =>
      Ext.FormatFragmentDefinitionList quote _ f1 h1)


theorem FormatArgument_eq (quote : String → String) (f : formatter) (arg : Argument)
    (h : arg.Name = "where" → f.optWhereLogicalOps = true → arg.derefOk = true) :
    f.FormatArgument quote arg =
      (if arg.Name = "where" ∧ f.optWhereLogicalOps = true ∧ whereQualifies arg.Value = true
       then f.FormatWhereLogOpArgument quote arg else f.inlineArgument quote arg) := by
  unfold formatter.FormatArgument formatter.inlineArgument
  by_cases hn : arg.Name = "where"
  · simp only [hn, if_true, true_and]
    unfold formatter.FormatWhereArgument
    cases ho : f.optWhereLogicalOps
    · simp [formatter.FormatWhereArgument.useLogOp, ho, hn]
    · rw [useLogOp_eq f arg (h hn ho)]
      simp only [ho, Bool.true_and, bind_ok, true_and, hn]
  · simp [hn]

theorem inlineArgument_eq (quote : String → String) (f : formatter) (arg : Argument)
    (hl : f.lineHead = false) (hr : recognisedOpt arg.Value = true) :
    f.inlineArgument quote arg = .ok { f with
      writer := f.writer ++ (if f.padNext = true then " " else "") ++ TrimSpace arg.Name ++
        f.colonUnit ++ renderOptValue quote f.optCompressed f.colonUnit arg.Value,
      padNext := false } := by
  simp [formatter.inlineArgument, formatter.FormatValue, WriteWord_eq, WriteString_eq, hl,
    formatter.NoPadding, fun g => GetValueString_eq quote g _ hr, String.append_assoc]

theorem FormatWhereLogOpArgument_prefix (quote : String → String) (f f' : formatter)
    (arg : Argument) (hl : f.lineHead = false) (hc : f.optCompressed = false)
    (h : f.FormatWhereLogOpArgument quote arg = .ok f') :
    ∃ rest, f'.writer = f.writer ++ (if f.padNext = true then " " else "") ++
      TrimSpace arg.Name ++ ": \x7b\n" ++ rest := by
  unfold formatter.FormatWhereLogOpArgument at h
  obtain ⟨f1, h1, h⟩ := bind_eq_ok.mp h
  obtain ⟨f2, h2, h⟩ := bind_eq_ok.mp h
  obtain ⟨f3, h3, h⟩ := bind_eq_ok.mp h
  obtain ⟨f4, h4, h⟩ := bind_eq_ok.mp h
  cases h
  have e3 : Ext (0 + 1) f2.NeedPadding.WriteNewline f3 := by
    have hb := (Ext.refl f2.NeedPadding.WriteNewline).IncrementIndent
    cases hv : arg.Value with
    | none => simp [hv] at h3
    | some v =>
      simp only [hv] at h3
      match hch : v.Children, h3 with
      | [], h3 => simp at h3
      | none :: _, h3 => simp at h3
      | some c :: _, h3 => exact Ext.FormatWhereLogOpChildValue quote c _ hb _ h3
  obtain ⟨s, hs⟩ := (e3.DecrementIndent.WriteString "\x7d" f4 h4).writer
  refine ⟨s, ?_⟩
  rw [WriteWord_eq] at h1
  simp only [hl, hc, Bool.false_eq_true, false_and, if_false, true_and] at h1
  cases h1
  simp only [formatter.NoPadding, hc, Bool.false_eq_true, if_false, WriteString_eq, false_and,
    and_false] at h2
  cases h2
  simp only [formatter.NeedPadding, hs, formatter.WriteNewline, formatter.writeString, hc]
  simp [String.append_assoc]


theorem sample_render (q : String → String) :
    renderOptValue q false ": " sampleSingleCondition.Value = "\x7b and: \x7b a: \x7b eq: 1 \x7d \x7d \x7d" := by
  simp only [sampleSingleCondition, renderOptValue, renderValue, renderPairs, renderPair, Join]
  decide


theorem doSplitted_single (f : formatter) (a : Argument) :
    formatter.FormatArgumentList.doSplitted f [a] =
      if f.optArgumentSplitted = true then
        if a.Name = "where" then
          formatter.FormatWhereArgument.useLogOp { f with optWhereLogicalOps := true } a
        else .ok false
      else .ok false := by
  simp only [formatter.FormatArgumentList.doSplitted, formatter.FormatWhereArgument.useLogOp,
    List.length_singleton, lt_self_iff_false, if_false, if_true]

theorem doSplitted_eq (f : formatter) (lists : List Argument) (hne : lists ≠ [])
    (h : ∀ a, lists = [a] → a.Name = "where" → f.optArgumentSplitted = true →
      a.derefOk = true) :
    formatter.FormatArgumentList.doSplitted f lists = .ok (f.splitsArguments lists) := by
  match lists, hne, h with
  | [a], _, h =>
    rw [doSplitted_single]
    cases ho : f.optArgumentSplitted
    · simp [formatter.splitsArguments, singleWhereQualifies, ho]
    · by_cases hn : a.Name = "where"
      · rw [if_pos rfl, if_pos hn, useLogOp_eq _ _ (h a rfl hn ho)]
        simp [formatter.splitsArguments, singleWhereQualifies, ho, hn]
      · simp [formatter.splitsArguments, singleWhereQualifies, ho, hn]
  | a :: b :: rest, _, _ =>
    cases ho : f.optArgumentSplitted <;>
      simp [formatter.FormatArgumentList.doSplitted, formatter.splitsArguments, singleWhereQualifies, ho]

theorem FormatArgumentList_eq (quote : String → String) (f : formatter) (lists : List Argument)
    (hne : lists ≠ [])
    (h : ∀ a, lists = [a] → a.Name = "where" → f.optArgumentSplitted = true →
      a.derefOk = true) :
    f.FormatArgumentList quote lists = (do
      let f1 ← f.NoPadding.WriteString "("
      let f2 ← (if f.splitsArguments lists = true then
          (formatter.FormatArgumentList.splitLoop quote f1.WriteNewline.IncrementIndent lists).map
            formatter.DecrementIndent
        else formatter.FormatArgumentList.inlineLoop quote f1 lists)
      let f3 ← f2.WriteString ")"
      .ok f3.NeedPadding) := by
  have hl : ¬ lists.length = 0 := by
    intro e; exact hne (List.length_eq_zero.mp e)
  unfold formatter.FormatArgumentList
  rw [if_neg hl, doSplitted_eq f lists hne h, bind_ok]
  cases hs : f.splitsArguments lists
  · simp
  · simp only [if_true]
    cases hw : f.NoPadding.WriteString "(" with
    | error e => rfl
    | ok f1 =>
      simp only [bind_ok]
      cases formatter.FormatArgumentList.splitLoop quote f1.WriteNewline.IncrementIndent lists <;> rfl

theorem inlineLoop_minified (quote : String → String) :
    ∀ (lists : List Argument) (f : formatter), f.optCompressed = true →
      f.optWhereLogicalOps = false → f.lineHead = false → f.padNext = false →
      (∀ a ∈ lists, recognisedOpt a.Value = true) →
      formatter.FormatArgumentList.inlineLoop quote f lists = .ok { f with
        writer := f.writer ++ Join (lists.map (argumentText quote f.colonUnit)) " ",
        padNext := false, lineHead := false }
  | [], f, _, _, hl, hp, _ => by
    obtain ⟨w, i, p, l, iu, cu, o1, o2, c⟩ := f
    simp only at hl hp
    simp [formatter.FormatArgumentList.inlineLoop, Join, hl, hp]
  | a :: rest, f, hc, hw, hl, hp, hr => by
    have ha : ∀ g : formatter, g.optCompressed = true → g.optWhereLogicalOps = false →
        g.lineHead = false → g.padNext = false → g.FormatArgument quote a = .ok { g with
        writer := g.writer ++ argumentText quote g.colonUnit a,
        padNext := false, lineHead := false } := by
      intro g hc hw hl hp
      rw [FormatArgument_eq quote g a (by simp [hw]), if_neg (by simp [hw]),
        inlineArgument_eq quote g a hl (hr a (List.mem_cons_self _ _))]
      simp [hp, hc, hl, argumentText, String.append_assoc]
    unfold formatter.FormatArgumentList.inlineLoop
    rw [ha f hc hw hl hp, bind_ok]
    cases rest with
    | nil => simp [formatter.FormatArgumentList.inlineLoop, Join]
    | cons b rest =>
      simp only [List.isEmpty_cons, Bool.not_false, if_true, hc, formatter.NoPadding,
        WriteString_eq]
      simp only [Bool.false_eq_true, false_and, if_false, bind_ok, and_false, Bool.true_eq_false]
      refine (inlineLoop_minified quote (b :: rest) _ ?_ ?_ ?_ ?_
        (fun x hx => hr x (List.mem_cons_of_mem _ hx))).trans ?_
      · rfl
      · exact hw
      · rfl
      · rfl
      · simp [Join, String.append_assoc]


theorem Ext.trans {a b : Int} {f g h : formatter} (h1 : Ext a f g) (h2 : Ext b g h) :
    Ext (a + b) f h := by
  obtain ⟨s1, e1⟩ := h1.writer
  obtain ⟨s2, e2⟩ := h2.writer
  exact ⟨h2.indentUnit.trans h1.indentUnit, h2.colonUnit.trans h1.colonUnit,
    h2.optArgumentSplitted.trans h1.optArgumentSplitted,
    h2.optWhereLogicalOps.trans h1.optWhereLogicalOps,
    h2.optCompressed.trans h1.optCompressed,
    by rw [h2.indent, h1.indent]; ring,
    s1 ++ s2, by rw [e2, e1, String.append_assoc]⟩

theorem map_eq_ok {α β : Type} {x : Except Fault α} {g : α → β} {b : β} :
    Except.map g x = .ok b ↔ ∃ a, x = .ok a ∧ b = g a := by
  cases x with
  | error e => simp [Except.map]
  | ok a => simp [Except.map, eq_comm]

theorem splitLoop_ends_with_newline (quote : String → String) :
    ∀ (lists : List Argument) (f f' : formatter), lists ≠ [] →
      formatter.FormatArgumentList.splitLoop quote f lists = .ok f' →
      ∃ g, Ext 0 f g ∧ f' = g.WriteNewline
  | [], _, _, hne, _ => absurd rfl hne
  | [a], f, f', _, h => by
    unfold formatter.FormatArgumentList.splitLoop at h
    obtain ⟨f1, h1, h2⟩ := bind_eq_ok.mp h
    simp only [formatter.FormatArgumentList.splitLoop] at h2
    cases h2
    exact ⟨f1, Ext.FormatArgument quote (Ext.refl f) a f1 h1, rfl⟩
  | a :: b :: rest, f, f', _, h => by
    unfold formatter.FormatArgumentList.splitLoop at h
    obtain ⟨f1, h1, h2⟩ := bind_eq_ok.mp h
    obtain ⟨g, hg, e⟩ := splitLoop_ends_with_newline quote (b :: rest) _ f' (by simp) h2
    have e1 := (Ext.FormatArgument quote (Ext.refl f) a f1 h1).WriteNewline
    exact ⟨g, (e1.trans hg).cast (by simp), e⟩

theorem FormatArgumentList_minified (quote : String → String) (f : formatter)
    (lists : List Argument) (hne : lists ≠ []) (hc : f.optCompressed = true)
    (hs : f.optArgumentSplitted = false) (hw : f.optWhereLogicalOps = false)
    (hr : ∀ a ∈ lists, recognisedOpt a.Value = true) :
    f.FormatArgumentList quote lists = .ok { f with
      writer := f.writer ++ "(" ++ Join (lists.map (argumentText quote f.colonUnit)) " " ++ ")",
      lineHead := false, padNext := true } := by
  rw [FormatArgumentList_eq quote f lists hne (by simp [hs])]
  simp only [formatter.splitsArguments, hs, Bool.false_and, Bool.false_eq_true, if_false,
    formatter.NoPadding, WriteString_eq, hc]
  simp only [Bool.true_eq_false, and_false, false_and, if_false, bind_ok]
  refine (congrArg (· >>= _) (inlineLoop_minified quote lists _ ?_ ?_ ?_ ?_ hr)).trans ?_
  · rfl
  · exact hw
  · rfl
  · rfl
  · simp [WriteString_eq, formatter.NeedPadding, String.append_assoc]

theorem FormatArgumentList_split_shape (quote : String → String) (f f' : formatter)
    (lists : List Argument) (hne : lists ≠ [])
    (h : ∀ a, lists = [a] → a.Name = "where" → f.optArgumentSplitted = true →
      a.derefOk = true)
    (hc : f.optCompressed = false) (hl : f.lineHead = false)
    (hs : f.splitsArguments lists = true)
    (hf : f.FormatArgumentList quote lists = .ok f') :
    ∃ body, f'.writer = f.writer ++ "(\n" ++ body ++ "\n" ++
      Repeat f.indentUnit f.indent.toNat ++ ")" := by
  rw [FormatArgumentList_eq quote f lists hne h] at hf
  obtain ⟨f1, h1, hf⟩ := bind_eq_ok.mp hf
  obtain ⟨f2, h2, hf⟩ := bind_eq_ok.mp hf
  obtain ⟨f3, h3, hf⟩ := bind_eq_ok.mp hf
  cases hf
  simp only [formatter.NoPadding, WriteString_eq, hc, hl, Bool.false_eq_true, false_and,
    if_false, and_false] at h1
  cases h1
  simp only [hs, if_true] at h2
  obtain ⟨f1, hsl, e2⟩ := map_eq_ok.mp h2
  subst e2
  obtain ⟨g, hg, e⟩ := splitLoop_ends_with_newline quote lists _ f1 hne hsl
  subst e
  obtain ⟨body, hb⟩ := hg.writer
  have hgc : g.optCompressed = false := by
    rw [hg.optCompressed]; simp [formatter.IncrementIndent, formatter.WriteNewline,
      formatter.writeString]
  have hgi : g.indent = f.indent + 1 := by
    rw [hg.indent]; simp [formatter.IncrementIndent, formatter.WriteNewline,
      formatter.writeString]
  have hgu : g.indentUnit = f.indentUnit := by
    rw [hg.indentUnit]; simp [formatter.IncrementIndent, formatter.WriteNewline,
      formatter.writeString]
  have hb : g.writer = f.writer ++ "(\n" ++ body := by
    rw [hb]; simp [formatter.IncrementIndent, formatter.WriteNewline,
      formatter.writeString, String.append_assoc]
  rw [WriteString_eq] at h3
  split at h3
  · cases h3
  · cases h3
    refine ⟨body, ?_⟩
    simp [formatter.NeedPadding, formatter.DecrementIndent, formatter.WriteNewline,
      formatter.writeString, hgc, hb, hgi, hgu, hc, formatter.IncrementIndent,
      String.append_assoc]


theorem sampleTwoArguments_layout :
    (do
        let f1 ← (NewFormatter "" []).NoPadding.WriteString "("
        let f2 ← (if (NewFormatter "" []).splitsArguments sampleTwoArguments = true then
            (formatter.FormatArgumentList.splitLoop id f1.WriteNewline.IncrementIndent
              sampleTwoArguments).map formatter.DecrementIndent
          else formatter.FormatArgumentList.inlineLoop id f1 sampleTwoArguments)
        let f3 ← f2.WriteString ")"
        .ok f3.NeedPadding) =
      .ok { NewFormatter "" [] with writer := "(\n  x: 1\n  y: 2\n)", padNext := true } := by
  decide!


theorem toNat_cast_add (d k : Nat) : ((d : Int) + (k : Int)).toNat = d + k := by
  omega

theorem whereLoop_plain (quote : String → String) (d : Nat) :
    ∀ (l : List (Option ChildValue)) (f : formatter), plainConditions l = true →
      recognisedList l = true → f.optCompressed = false → f.colonUnit = ": " →
      f.lineHead = true → f.indent = d →
      formatter.FormatWhereLogOpChildValue.loop quote f l = .ok { f with
        writer := f.writer ++ conditionLines quote f.indentUnit d l,
        lineHead := true, padNext := if l.isEmpty then f.padNext else true }
  | [], f, _, _, _, _, hl, _ => by
    obtain ⟨w, i, p, l, iu, cu, o1, o2, c⟩ := f
    simp only at hl
    simp [formatter.FormatWhereLogOpChildValue.loop, conditionLines, hl]
  | none :: _, f, hp, _, _, _, _, _ => by simp [plainConditions] at hp
  | some c :: rest, f, hp, hr, hc, hcu, hl, hi => by
    obtain ⟨name, v⟩ := c
    simp only [plainConditions, ChildValue.Name, Bool.and_eq_true, Bool.not_eq_true',
      Bool.or_eq_false_iff, decide_eq_false_iff_not] at hp
    simp only [recognisedList, recognisedChild, Bool.and_eq_true] at hr
    unfold formatter.FormatWhereLogOpChildValue.loop
    simp only [ChildValue.Name, hp.1.1.1, hp.1.1.2, hp.1.2, or_self, if_false,
      formatter.FormatChildValue, ChildValue.Value, GetValueString_eq quote f v hr.1, bind_ok,
      WriteString_eq, hl, hc, hi]
    simp only [true_and, Int.natCast_nonneg, not_lt.mpr, if_false, if_true, bind_ok,
      Bool.true_eq_false, false_and]
    refine (whereLoop_plain quote d rest _ hp.2 hr.2 ?_ ?_ ?_ ?_).trans ?_
    · simp [formatter.NeedPadding, formatter.WriteNewline, formatter.writeString]
    · simp [formatter.NeedPadding, formatter.WriteNewline, formatter.writeString, hcu]
    · simp [formatter.NeedPadding, formatter.WriteNewline, formatter.writeString]
    · simp [formatter.NeedPadding, formatter.WriteNewline, formatter.writeString, hi]
    · simp [formatter.NeedPadding, formatter.WriteNewline, formatter.writeString,
        conditionLines, renderPair, hcu, String.append_assoc]


theorem combinator_layout (quote : String → String) (d : Nat) (op raw₁ : String)
    (children : List (Option ChildValue)) (f : formatter)
    (hn : 2 ≤ children.length) (hp : plainConditions children = true)
    (hr : recognisedList children = true) (hc : f.optCompressed = false)
    (hcu : f.colonUnit = ": ") (hl : f.lineHead = true) (hi : f.indent = d) :
    f.FormatWhereLogOpChildValue quote (.mk op (some (.mk raw₁ children .ObjectValue))) =
      .ok { f with
        writer := f.writer ++ Repeat f.indentUnit d ++ op ++ ": \x7b\n" ++
          conditionLines quote f.indentUnit (d + 1) children ++
          Repeat f.indentUnit d ++ "\x7d\n",
        lineHead := true, padNext := true } := by
  have hd : ¬ ((d : Int) < 0) := by omega
  match children, hn with
  | c₀ :: c₁ :: rest, _ =>
    unfold formatter.FormatWhereLogOpChildValue
    simp only [WriteString_eq, hl, hc, hi, formatter.NoPadding, hcu]
    simp only [true_and, hd, if_false, if_true, bind_ok,
      Bool.true_eq_false, false_and, Bool.false_eq_true, and_false]
    refine (congrArg (· >>= _) (whereLoop_plain quote (d + 1) (c₀ :: c₁ :: rest) _ hp hr
      ?_ ?_ ?_ ?_)).trans ?_
    · simp [formatter.NeedPadding, formatter.WriteNewline, formatter.writeString,
        formatter.IncrementIndent]
    · simp [formatter.NeedPadding, formatter.WriteNewline, formatter.writeString,
        formatter.IncrementIndent, hcu]
    · simp [formatter.NeedPadding, formatter.WriteNewline, formatter.writeString,
        formatter.IncrementIndent]
    · simp [formatter.NeedPadding, formatter.WriteNewline, formatter.writeString,
        formatter.IncrementIndent, hi]
    · simp [formatter.NeedPadding, formatter.WriteNewline, formatter.writeString,
        formatter.IncrementIndent, formatter.DecrementIndent, WriteString_eq, hi, hd, hc, hcu,
        String.append_assoc]


theorem where_argument_list_layout (quote : String → String) (f : formatter) (d : Nat)
    (raw₀ raw₁ : String) (kind₀ : ValueKind) (op : String)
    (children : List (Option ChildValue))
    (hop : op = "and" ∨ op = "or") (hn : 2 ≤ children.length)
    (hp : plainConditions children = true) (hr : recognisedList children = true)
    (hc : f.optCompressed = false) (hs : f.optArgumentSplitted = true)
    (hw : f.optWhereLogicalOps = true) (hcu : f.colonUnit = ": ")
    (hl : f.lineHead = false) (hi : f.indent = d) :
    f.FormatArgumentList quote [whereArgument raw₀ raw₁ kind₀ op children] = .ok { f with
      writer := f.writer ++ "(\n" ++
        Repeat f.indentUnit (d + 1) ++ "where: \x7b\n" ++
        Repeat f.indentUnit (d + 2) ++ op ++ ": \x7b\n" ++
        conditionLines quote f.indentUnit (d + 3) children ++
        Repeat f.indentUnit (d + 2) ++ "\x7d\n" ++
        Repeat f.indentUnit (d + 1) ++ "\x7d\n" ++
        Repeat f.indentUnit d ++ ")",
      lineHead := false, padNext := true } := by
  have hd : ¬ ((d : Int) < 0) := by omega
  have hd1 : ¬ ((d : Int) + 1 < 0) := by omega
  have hd2 : ¬ ((d : Int) + 1 - 1 < 0) := by omega
  have hd3 : ¬ ((d : Int) + 1 + 1 - 1 < 0) := by omega
  have hlen : 1 < children.length := hn
  have hnot : op ≠ "not" := by rcases hop with rfl | rfl <;> decide
  have tw : TrimSpace "where" = "where" := by decide!
  simp only [formatter.FormatArgumentList, whereArgument, List.length_singleton, one_ne_zero,
    if_false, formatter.FormatArgumentList.doSplitted, hs, if_true, lt_self_iff_false,
    Value.Children, ChildValue.Name, ChildValue.Value, hop, hlen, decide_True, bind_ok,
    formatter.NoPadding, WriteString_eq, hl, hc, formatter.FormatArgumentList.splitLoop,
    formatter.FormatArgument, formatter.FormatWhereArgument,
    formatter.FormatWhereArgument.useLogOp, hw, formatter.FormatWhereLogOpArgument,
    WriteWord_eq, formatter.WriteNewline, formatter.writeString, formatter.IncrementIndent,
    formatter.NeedPadding, hi, tw]
  simp only [Bool.false_eq_true, false_and, if_false, bind_ok, and_false, Bool.not_false,
    if_true, true_and, hd1, and_self, Bool.true_eq_false, gt_iff_lt, hlen, decide_True]
  rw [combinator_layout quote (d + 2) op raw₁ children _ hn hp hr]
  · simp only [bind_ok, formatter.DecrementIndent, WriteString_eq, formatter.NeedPadding,
      formatter.WriteNewline, formatter.writeString]
    simp [hd, hd1, hd2, hd3, toNat_cast_add, String.append_assoc]
  · rfl
  · exact hcu
  · rfl
  · simp; ring


theorem trim_query : TrimSpace "query" = "query" := by decide!
theorem trim_products : TrimSpace "products" = "products" := by decide!
theorem trim_where : TrimSpace "where" = "where" := by decide!
theorem trim_id : TrimSpace "id" = "id" := by decide!
theorem trim_name : TrimSpace "name" = "name" := by decide!
theorem trim_price : TrimSpace "price" = "price" := by decide!

set_option maxRecDepth 10000 in
theorem testQuery_output (quote : String → String) (u : String) :
    ((NewFormatter "" [.WithIndent u]).FormatQueryDocument quote (some testQuery)).map
        (fun f => f.writer) =
      .ok ("query \x7b\n" ++ u ++ "products(\n" ++ u ++ u ++ "where: \x7b\n" ++
        u ++ u ++ u ++ "and: \x7b\n" ++
        u ++ u ++ u ++ u ++ "id: \x7b greater_or_equals: 20 \x7d\n" ++
        u ++ u ++ u ++ u ++ "id: \x7b lt: 28 \x7d\n" ++
        u ++ u ++ u ++ "\x7d\n" ++ u ++ u ++ "\x7d\n" ++ u ++ ") \x7b\n" ++
        u ++ u ++ "id\n" ++ u ++ u ++ "name\n" ++ u ++ u ++ "price\n" ++
        u ++ "\x7d\n\x7d\n") := by
  simp [testQuery, NewFormatter, FormatOption.applyAll, FormatOption.apply,
    formatter.FormatQueryDocument, formatter.FormatOperationList,
    formatter.FormatOperationDefinition, formatter.FormatVariableDefinitionList,
    formatter.FormatDirectiveList, formatter.FormatSelectionSet, formatter.FormatSelectionSet.frame,
    formatter.FormatSelectionSet.loop, formatter.FormatSelection,
    formatter.FormatFragmentDefinitionList,
    formatter.FormatArgumentList, formatter.FormatArgumentList.doSplitted,
    formatter.FormatArgumentList.splitLoop, formatter.FormatArgument, formatter.FormatWhereArgument,
    formatter.FormatWhereArgument.useLogOp, formatter.FormatWhereLogOpArgument,
    formatter.FormatWhereLogOpChildValue, formatter.FormatWhereLogOpChildValue.loop,
    formatter.FormatChildValue, GetValueString, GetValueString.value, GetValueString.objectLoop,
    GetValueString.objectElem, Join, ChildValue.Name, ChildValue.Value, Value.Children,
    WriteWord_eq, WriteString_eq, formatter.WriteNewline, formatter.IncrementIndent,
    formatter.DecrementIndent, formatter.writeString, formatter.NoPadding, formatter.NeedPadding,
    trim_query, trim_products, trim_where, trim_id, trim_name, trim_price, Repeat, Except.map,
    String.append_assoc]
  apply String.ext
  simp [String.data_append]

theorem testConditions_layout :
    (Except.ok { NewFormatter "" [] with
      writer := (NewFormatter "" []).writer ++ "(\n" ++
        Repeat (NewFormatter "" []).indentUnit (0 + 1) ++ "where: \x7b\n" ++
        Repeat (NewFormatter "" []).indentUnit (0 + 2) ++ "and" ++ ": \x7b\n" ++
        conditionLines id (NewFormatter "" []).indentUnit (0 + 3) testConditions ++
        Repeat (NewFormatter "" []).indentUnit (0 + 2) ++ "\x7d\n" ++
        Repeat (NewFormatter "" []).indentUnit (0 + 1) ++ "\x7d\n" ++
        Repeat (NewFormatter "" []).indentUnit 0 ++ ")",
      lineHead := false, padNext := true } : Except Fault formatter) =
    .ok { NewFormatter "" [] with
      writer := "(\n  where: \x7b\n    and: \x7b\n      id: \x7b greater_or_equals: 20 \x7d\n      id: \x7b lt: 28 \x7d\n    \x7d\n  \x7d\n)",
      padNext := true } := by
  decide!


theorem selectionLoop_readable (quote : String → String) :
    ∀ (l : List Selection) (f : formatter), f.optCompressed = false →
      formatter.FormatSelectionSet.loop quote f l = selectionLines quote f l
  | [], f, _ => by simp [formatter.FormatSelectionSet.loop, selectionLines]
  | sel :: rest, f, hc => by
    unfold formatter.FormatSelectionSet.loop selectionLines
    cases h1 : f.FormatSelection quote sel with
    | error e => rfl
    | ok f1 =>
      have e1 := Ext.FormatSelection quote sel 0 f (Ext.refl f) f1 h1
      have hc1 : f1.optCompressed = false := e1.optCompressed.trans hc
      simp only [bind_ok, hc1, Bool.false_eq_true, if_false]
      exact selectionLoop_readable quote rest _ (by simp [formatter.WriteNewline, formatter.writeString, hc1])

theorem selectionLoop_minified (quote : String → String) :
    ∀ (l : List Selection) (f : formatter), f.optCompressed = true →
      formatter.FormatSelectionSet.loop quote f l = selectionSpaced quote f l
  | [], f, _ => by simp [formatter.FormatSelectionSet.loop, selectionSpaced]
  | [sel], f, hc => by
    unfold formatter.FormatSelectionSet.loop selectionSpaced
    cases h1 : f.FormatSelection quote sel with
    | error e => rfl
    | ok f1 =>
      have e1 := Ext.FormatSelection quote sel 0 f (Ext.refl f) f1 h1
      have hc1 : f1.optCompressed = true := e1.optCompressed.trans hc
      simp [hc1, formatter.FormatSelectionSet.loop]
  | sel :: next :: rest, f, hc => by
    unfold formatter.FormatSelectionSet.loop selectionSpaced
    cases h1 : f.FormatSelection quote sel with
    | error e => rfl
    | ok f1 =>
      have e1 := Ext.FormatSelection quote sel 0 f (Ext.refl f) f1 h1
      have hc1 : f1.optCompressed = true := e1.optCompressed.trans hc
      simp only [bind_ok, hc1, if_true, List.isEmpty_cons, Bool.not_false]
      cases h2 : f1.NoPadding.WriteString " " with
      | error e => rfl
      | ok f2 =>
        have e2 := (Ext.refl f1).NoPadding.WriteString " " f2 h2
        simp only [bind_ok]
        exact selectionLoop_minified quote (next :: rest) f2 (e2.optCompressed.trans hc1)

theorem rendersLines_of_selectionLines (quote : String → String) :
    ∀ (l : List Selection) (g g' : formatter), g.lineHead = true →
      selectionLines quote g l = .ok g' →
      RendersLines quote g.indent g l g' ∧ g'.lineHead = true ∧ Ext 0 g g'
  | [], g, g', hl, h => by
    simp only [selectionLines] at h
    cases h
    exact ⟨rfl, hl, Ext.refl g⟩
  | sel :: rest, g, g', hl, h => by
    unfold selectionLines at h
    obtain ⟨g1, h1, h2⟩ := bind_eq_ok.mp h
    have e1 := (Ext.FormatSelection quote sel 0 g (Ext.refl g) g1 h1).WriteNewline
    obtain ⟨r, l', e⟩ := rendersLines_of_selectionLines quote rest g1.WriteNewline g'
      (by simp [formatter.WriteNewline]) h2
    have hi : g1.WriteNewline.indent = g.indent := by rw [e1.indent]; simp
    rw [hi] at r
    exact ⟨⟨hl, rfl, g1, h1, r⟩, l', (e1.trans e).cast (by simp)⟩


theorem FormatSelectionSet_readable (quote : String → String) (f : formatter)
    (sets : List Selection) (hne : sets ≠ []) (hc : f.optCompressed = false) :
    f.FormatSelectionSet quote sets = (do
      let f₁ ← f.WriteString "\x7b"
      let g ← selectionLines quote f₁.WriteNewline.IncrementIndent sets
      g.DecrementIndent.WriteString "\x7d") := by
  have hl : ¬ sets.length = 0 := fun e => hne (List.length_eq_zero.mp e)
  unfold formatter.FormatSelectionSet formatter.FormatSelectionSet.frame
  rw [if_neg hl]
  cases h1 : f.WriteString "\x7b" with
  | error e => rfl
  | ok f1 =>
    have e1 := (Ext.refl f).WriteString "\x7b" f1 h1
    simp only [bind_ok]
    rw [selectionLoop_readable quote sets _ (by
      simp [formatter.IncrementIndent, formatter.WriteNewline, formatter.writeString,
        e1.optCompressed.trans hc])]

theorem FormatSelectionSet_minified (quote : String → String) (f : formatter)
    (sets : List Selection) (hne : sets ≠ []) (hc : f.optCompressed = true) :
    f.FormatSelectionSet quote sets = (do
      let f₁ ← f.WriteString "\x7b"
      let g ← selectionSpaced quote f₁.WriteNewline.IncrementIndent sets
      g.DecrementIndent.WriteString "\x7d") := by
  have hl : ¬ sets.length = 0 := fun e => hne (List.length_eq_zero.mp e)
  unfold formatter.FormatSelectionSet formatter.FormatSelectionSet.frame
  rw [if_neg hl]
  cases h1 : f.WriteString "\x7b" with
  | error e => rfl
  | ok f1 =>
    have e1 := (Ext.refl f).WriteString "\x7b" f1 h1
    simp only [bind_ok]
    rw [selectionLoop_minified quote sets _ (by
      simp [formatter.IncrementIndent, formatter.WriteNewline, formatter.writeString,
        e1.optCompressed.trans hc])]

theorem FormatSelectionSet_readable_shape (quote : String → String) (f f' : formatter)
    (sets : List Selection) (hne : sets ≠ []) (hc : f.optCompressed = false)
    (hl : f.lineHead = false) (h : f.FormatSelectionSet quote sets = .ok f') :
    ∃ g₀ g', g₀.writer = f.writer ++ (if f.padNext = true then " " else "") ++ "\x7b\n" ∧
      g₀.lineHead = true ∧
      RendersLines quote (f.indent + 1) g₀ sets g' ∧
      g'.lineHead = true ∧ g'.indent = f.indent + 1 ∧
      f'.writer = g'.writer ++ Repeat f.indentUnit f.indent.toNat ++ "\x7d" := by
  rw [FormatSelectionSet_readable quote f sets hne hc] at h
  obtain ⟨f1, h1, h⟩ := bind_eq_ok.mp h
  obtain ⟨g', h2, h3⟩ := bind_eq_ok.mp h
  have e1 := (Ext.refl f).WriteString "\x7b" f1 h1
  have hw1 : f1.writer = f.writer ++ (if f.padNext = true then " " else "") ++ "\x7b" := by
    simp only [WriteString_eq, hl, hc, Bool.false_eq_true, false_and, if_false, true_and,
      and_true] at h1
    cases h1
    simp [String.append_assoc]
  have hc1 : f1.optCompressed = false := e1.optCompressed.trans hc
  have hi1 : f1.indent = f.indent := by rw [e1.indent]; simp
  obtain ⟨r, l', e⟩ := rendersLines_of_selectionLines quote sets _ g'
    (by simp [formatter.IncrementIndent, formatter.WriteNewline]) h2
  have hi : g'.indent = f.indent + 1 := by
    rw [e.indent]
    simp [formatter.IncrementIndent, formatter.WriteNewline, formatter.writeString, hc1, hi1]
  have hu : g'.indentUnit = f.indentUnit := by
    rw [e.indentUnit]
    simp [formatter.IncrementIndent, formatter.WriteNewline, formatter.writeString, hc1,
      e1.indentUnit]
  have hc' : g'.optCompressed = false := by
    rw [e.optCompressed]
    simp [formatter.IncrementIndent, formatter.WriteNewline, formatter.writeString, hc1]
  refine ⟨f1.WriteNewline.IncrementIndent, g', ?_, ?_, ?_, l', hi, ?_⟩
  · simp [formatter.IncrementIndent, formatter.WriteNewline, formatter.writeString, hc1, hw1,
      String.append_assoc]
  · simp [formatter.IncrementIndent, formatter.WriteNewline]
  · have : (f1.WriteNewline.IncrementIndent).indent = f.indent + 1 := by
      simp [formatter.IncrementIndent, formatter.WriteNewline, formatter.writeString, hc1, hi1]
    rw [this] at r
    exact r
  · rw [WriteString_eq] at h3
    split at h3
    · cases h3
    · cases h3
      simp [formatter.DecrementIndent, l', hc', hi, hu]


theorem WriteString_minified (f : formatter) (s : String) (hc : f.optCompressed = true) :
    f.WriteString s =
      .ok { f with writer := f.writer ++ s, lineHead := false, padNext := false } := by
  simp [WriteString_eq, hc]


/-! ## The printer acts uniformly on a lawful family -/

theorem uniformly_ok {ι A : Type} [Inhabited ι] (S : Uniform ι A) (_ : S.Lawful)
    (a : A) : Uniformly S (fun i => .ok (S.conc i a)) :=
  ⟨.ok a, fun _ => rfl⟩

theorem uniformly_error {ι A : Type} [Inhabited ι] (S : Uniform ι A) (_ : S.Lawful)
    (e : Fault) : Uniformly S (fun _ => .error e) :=
  ⟨.error e, fun _ => rfl⟩

theorem uniformly_bind {ι A : Type} [Inhabited ι] (S : Uniform ι A) (_ : S.Lawful)
    {x : ι → Except Fault formatter} {k : formatter → Except Fault formatter}
    (hx : Uniformly S x) (hk : ∀ a, Uniformly S (fun i => k (S.conc i a))) :
    Uniformly S (fun i => x i >>= k) := by
  obtain ⟨r, hr⟩ := hx
  cases r with
  | error e => exact ⟨.error e, fun i => by show x i >>= k = _; rw [hr i]; rfl⟩
  | ok a =>
    obtain ⟨r', hr'⟩ := hk a
    exact ⟨r', fun i => by show x i >>= k = _; rw [hr i]; exact hr' i⟩

theorem uniformly_bind_val {ι A : Type} [Inhabited ι] (S : Uniform ι A) (_ : S.Lawful)
    {α : Type} {x : ι → Except Fault α}
    {k : ι → α → Except Fault formatter}
    (hx : ∀ i j, x i = x j) (hk : ∀ s, Uniformly S (fun i => k i s)) :
    Uniformly S (fun i => x i >>= k i) := by
  cases h : x default with
  | error e => exact ⟨.error e, fun i => by show x i >>= k i = _; rw [hx i default, h]; rfl⟩
  | ok s =>
    obtain ⟨r', hr'⟩ := hk s
    exact ⟨r', fun i => by show x i >>= k i = _; rw [hx i default, h]; exact hr' i⟩

theorem uniformly_ite {ι A : Type} [Inhabited ι] (S : Uniform ι A) (_ : S.Lawful)
    {c : Prop} [Decidable c] {x y : ι → Except Fault formatter}
    (hx : c → Uniformly S x) (hy : ¬c → Uniformly S y) :
    Uniformly S (fun i => if c then x i else y i) := by
  by_cases h : c
  · simpa [h] using hx h
  · simpa [h] using hy h

theorem uniformly_WriteString {ι A : Type} [Inhabited ι] (S : Uniform ι A) (hS : S.Lawful)
    (a : A) (s : String) :
    Uniformly S (fun i => (S.conc i a).WriteString s) :=
  ⟨S.writeString a s, fun i => hS.conc_writeString i a s⟩

theorem uniformly_WriteWord {ι A : Type} [Inhabited ι] (S : Uniform ι A) (hS : S.Lawful)
    (a : A) (s : String) :
    Uniformly S (fun i => (S.conc i a).WriteWord s) :=
  ⟨S.writeWord a s, fun i => hS.conc_writeWord i a s⟩

mutual
theorem GetValueString.value_congr (quote : String → String) (f g : formatter)
    (hc : f.optCompressed = g.optCompressed) (hu : f.colonUnit = g.colonUnit) :
    ∀ v : Value, GetValueString.value quote f v = GetValueString.value quote g v
  | .mk raw children kind => by
    cases kind <;> simp only [GetValueString.value]
    · rw [GetValueString.listLoop_congr quote f g hc hu children, hc]
    · rw [GetValueString.objectLoop_congr quote f g hc hu children, hc]
termination_by structural v => v
theorem GetValueString_congr (quote : String → String) (f g : formatter)
    (hc : f.optCompressed = g.optCompressed) (hu : f.colonUnit = g.colonUnit) :
    ∀ v : Option Value, GetValueString quote f v = GetValueString quote g v
  | none => by simp only [GetValueString]
  | some v => by
    simp only [GetValueString]
    exact GetValueString.value_congr quote f g hc hu v
termination_by structural v => v
theorem GetValueString.listElem_congr (quote : String → String) (f g : formatter)
    (hc : f.optCompressed = g.optCompressed) (hu : f.colonUnit = g.colonUnit) :
    ∀ c : Option ChildValue,
      GetValueString.listElem quote f c = GetValueString.listElem quote g c
  | none => by simp only [GetValueString.listElem]
  | some (.mk _ v) => by
    simp only [GetValueString.listElem]
    exact GetValueString_congr quote f g hc hu v
termination_by structural c => c
theorem GetValueString.objectElem_congr (quote : String → String) (f g : formatter)
    (hc : f.optCompressed = g.optCompressed) (hu : f.colonUnit = g.colonUnit) :
    ∀ c : Option ChildValue,
      GetValueString.objectElem quote f c = GetValueString.objectElem quote g c
  | none => by simp only [GetValueString.objectElem]
  | some (.mk _ v) => by
    simp only [GetValueString.objectElem]
    rw [GetValueString_congr quote f g hc hu v, hu]
termination_by structural c => c
theorem GetValueString.listLoop_congr (quote : String → String) (f g : formatter)
    (hc : f.optCompressed = g.optCompressed) (hu : f.colonUnit = g.colonUnit) :
    ∀ l : List (Option ChildValue),
      GetValueString.listLoop quote f l = GetValueString.listLoop quote g l
  | [] => by simp only [GetValueString.listLoop]
  | c :: rest => by
    simp only [GetValueString.listLoop]
    rw [GetValueString.listElem_congr quote f g hc hu c,
      GetValueString.listLoop_congr quote f g hc hu rest]
termination_by structural l => l
theorem GetValueString.objectLoop_congr (quote : String → String) (f g : formatter)
    (hc : f.optCompressed = g.optCompressed) (hu : f.colonUnit = g.colonUnit) :
    ∀ l : List (Option ChildValue),
      GetValueString.objectLoop quote f l = GetValueString.objectLoop quote g l
  | [] => by simp only [GetValueString.objectLoop]
  | c :: rest => by
    simp only [GetValueString.objectLoop]
    rw [GetValueString.objectElem_congr quote f g hc hu c,
      GetValueString.objectLoop_congr quote f g hc hu rest]
termination_by structural l => l
end

theorem conc_GetValueString {ι A : Type} [Inhabited ι] (S : Uniform ι A) (hS : S.Lawful)
    (quote : String → String) (a : A) (v : Option Value) (i j : ι) :
    GetValueString quote (S.conc i a) v = GetValueString quote (S.conc j a) v :=
  GetValueString_congr quote _ _ (by rw [hS.conc_compressed, hS.conc_compressed])
    (by rw [hS.conc_colon, hS.conc_colon]) v

theorem conc_listLoop {ι A : Type} [Inhabited ι] (S : Uniform ι A) (hS : S.Lawful)
    (quote : String → String) (a : A) (l : List (Option ChildValue))
    (i j : ι) :
    GetValueString.listLoop quote (S.conc i a) l = GetValueString.listLoop quote (S.conc j a) l :=
  GetValueString.listLoop_congr quote _ _ (by rw [hS.conc_compressed, hS.conc_compressed])
    (by rw [hS.conc_colon, hS.conc_colon]) l

theorem uniformly_FormatValue {ι A : Type} [Inhabited ι] (S : Uniform ι A) (hS : S.Lawful)
    (quote : String → String) (v : Option Value) (a : A) :
    Uniformly S (fun i => (S.conc i a).FormatValue quote v) := by
  unfold formatter.FormatValue
  exact uniformly_bind_val S hS (conc_GetValueString S hS quote a v) fun s =>
    uniformly_WriteString S hS a s

theorem uniformly_FormatChildValue {ι A : Type} [Inhabited ι] (S : Uniform ι A) (hS : S.Lawful)
    (quote : String → String) (c : ChildValue) (a : A) :
    Uniformly S (fun i => (S.conc i a).FormatChildValue quote c) := by
  unfold formatter.FormatChildValue
  simp only [hS.conc_colon]
  exact uniformly_bind_val S hS (conc_GetValueString S hS quote a _) fun s =>
    uniformly_WriteString S hS a _

mutual
theorem uniformly_FormatWhereLogOpChildValue
    {ι A : Type} [Inhabited ι] (S : Uniform ι A) (hS : S.Lawful)
    (quote : String → String) :
    ∀ (c : ChildValue) (a : A),
      Uniformly S (fun i => (S.conc i a).FormatWhereLogOpChildValue quote c)
  | .mk name value, a => by
    unfold formatter.FormatWhereLogOpChildValue
    refine uniformly_bind S hS (uniformly_WriteString S hS a _) fun a1 => ?_
    beta_reduce
    try simp only [hS.conc_compressed, hS.conc_argumentSplitted,
      hS.conc_whereLogicalOps, hS.conc_colon, hS.conc_newline, hS.conc_increment,
      hS.conc_decrement, hS.conc_noPadding, hS.conc_needPadding]
    refine uniformly_bind S hS (uniformly_WriteString S hS _ _) fun a2 => ?_
    beta_reduce
    try simp only [hS.conc_compressed, hS.conc_argumentSplitted,
      hS.conc_whereLogicalOps, hS.conc_colon, hS.conc_newline, hS.conc_increment,
      hS.conc_decrement, hS.conc_noPadding, hS.conc_needPadding]
    cases value with
    | none => exact uniformly_WriteString S hS _ _
    | some v =>
      obtain ⟨raw, children, kind⟩ := v
      cases kind <;> simp only
      case unsupported => exact uniformly_error S hS _
      case ListValue =>
        refine uniformly_bind_val S hS (conc_listLoop S hS quote a2 children) fun val => ?_
        refine uniformly_ite S hS (fun _ => uniformly_WriteString S hS _ _) fun _ => ?_
        refine uniformly_bind S hS (uniformly_WriteString S hS _ _) fun a3 => ?_
        beta_reduce
        try simp only [hS.conc_compressed, hS.conc_argumentSplitted,
          hS.conc_whereLogicalOps, hS.conc_colon, hS.conc_newline, hS.conc_increment,
          hS.conc_decrement, hS.conc_noPadding, hS.conc_needPadding]
        exact uniformly_ok S hS _
      case ObjectValue =>
        match children with
        | [] =>
          simp only
          refine uniformly_bind S hS (uniformly_WriteString S hS _ _) fun a3 => ?_
          beta_reduce
          try simp only [hS.conc_compressed, hS.conc_argumentSplitted,
            hS.conc_whereLogicalOps, hS.conc_colon, hS.conc_newline, hS.conc_increment,
            hS.conc_decrement, hS.conc_noPadding, hS.conc_needPadding]
          exact uniformly_ite S hS (fun _ => uniformly_ok S hS _) (fun _ => uniformly_ok S hS _)
        | [none] => exact uniformly_error S hS _
        | [some c] =>
          simp only
          refine uniformly_ite S hS (fun _ => ?_) fun _ =>
            uniformly_ite S hS (fun _ => ?_) fun _ => ?_
          · refine uniformly_bind S hS (uniformly_WriteString S hS _ _) fun a3 => ?_
            beta_reduce
            try simp only [hS.conc_compressed, hS.conc_argumentSplitted,
              hS.conc_whereLogicalOps, hS.conc_colon, hS.conc_newline, hS.conc_increment,
              hS.conc_decrement, hS.conc_noPadding, hS.conc_needPadding]
            refine uniformly_bind S hS
              (uniformly_FormatWhereLogOpChildValue S hS quote c _) fun a4 => ?_
            beta_reduce
            try simp only [hS.conc_compressed, hS.conc_argumentSplitted,
              hS.conc_whereLogicalOps, hS.conc_colon, hS.conc_newline, hS.conc_increment,
              hS.conc_decrement, hS.conc_noPadding, hS.conc_needPadding]
            refine uniformly_bind S hS (uniformly_WriteString S hS _ _) fun a5 => ?_
            beta_reduce
            try simp only [hS.conc_compressed, hS.conc_argumentSplitted,
              hS.conc_whereLogicalOps, hS.conc_colon, hS.conc_newline, hS.conc_increment,
              hS.conc_decrement, hS.conc_noPadding, hS.conc_needPadding]
            exact uniformly_ok S hS _
          · refine uniformly_bind S hS (uniformly_WriteString S hS _ _) fun a3 => ?_
            refine uniformly_bind S hS (uniformly_FormatChildValue S hS quote c _) fun a4 => ?_
            refine uniformly_bind S hS (uniformly_WriteString S hS _ _) fun a5 => ?_
            beta_reduce
            try simp only [hS.conc_compressed, hS.conc_argumentSplitted,
              hS.conc_whereLogicalOps, hS.conc_colon, hS.conc_newline, hS.conc_increment,
              hS.conc_decrement, hS.conc_noPadding, hS.conc_needPadding]
            exact uniformly_ok S hS _
          · refine uniformly_bind S hS (uniformly_WriteString S hS _ _) fun a3 => ?_
            refine uniformly_bind S hS (uniformly_FormatChildValue S hS quote c _) fun a4 => ?_
            refine uniformly_bind S hS (uniformly_WriteString S hS _ _) fun a5 => ?_
            beta_reduce
            try simp only [hS.conc_compressed, hS.conc_argumentSplitted,
              hS.conc_whereLogicalOps, hS.conc_colon, hS.conc_newline, hS.conc_increment,
              hS.conc_decrement, hS.conc_noPadding, hS.conc_needPadding]
            exact uniformly_ok S hS _
        | c₀ :: c₁ :: rest =>
          simp only
          refine uniformly_bind S hS (uniformly_WriteString S hS _ _) fun a3 => ?_
          beta_reduce
          try simp only [hS.conc_compressed, hS.conc_argumentSplitted,
            hS.conc_whereLogicalOps, hS.conc_colon, hS.conc_newline, hS.conc_increment,
            hS.conc_decrement, hS.conc_noPadding, hS.conc_needPadding]
          refine uniformly_bind S hS
            (uniformly_whereLoop S hS quote (c₀ :: c₁ :: rest) _) fun a4 => ?_
          beta_reduce
          try simp only [hS.conc_compressed, hS.conc_argumentSplitted,
            hS.conc_whereLogicalOps, hS.conc_colon, hS.conc_newline, hS.conc_increment,
            hS.conc_decrement, hS.conc_noPadding, hS.conc_needPadding]
          refine uniformly_bind S hS (uniformly_WriteString S hS _ _) fun a5 => ?_
          beta_reduce
          try simp only [hS.conc_compressed, hS.conc_argumentSplitted,
            hS.conc_whereLogicalOps, hS.conc_colon, hS.conc_newline, hS.conc_increment,
            hS.conc_decrement, hS.conc_noPadding, hS.conc_needPadding]
          exact uniformly_ok S hS _
      all_goals exact uniformly_WriteString S hS _ _
termination_by structural c => c
theorem uniformly_whereLoop {ι A : Type} [Inhabited ι] (S : Uniform ι A) (hS : S.Lawful)
    (quote : String → String) :
    ∀ (l : List (Option ChildValue)) (a : A),
      Uniformly S (fun i => formatter.FormatWhereLogOpChildValue.loop quote (S.conc i a) l)
  | [], a => by
    unfold formatter.FormatWhereLogOpChildValue.loop
    exact uniformly_ok S hS a
  | none :: _, a => by
    unfold formatter.FormatWhereLogOpChildValue.loop
    exact uniformly_error S hS _
  | some c :: rest, a => by
    unfold formatter.FormatWhereLogOpChildValue.loop
    refine uniformly_bind S hS (uniformly_ite S hS (fun _ => ?_) fun _ => ?_) fun a1 =>
      uniformly_whereLoop S hS quote rest a1
    · exact uniformly_FormatWhereLogOpChildValue S hS quote c a
    · refine uniformly_bind S hS (uniformly_FormatChildValue S hS quote c a) fun a2 => ?_
      beta_reduce
      try simp only [hS.conc_compressed, hS.conc_argumentSplitted,
        hS.conc_whereLogicalOps, hS.conc_colon, hS.conc_newline, hS.conc_increment,
        hS.conc_decrement, hS.conc_noPadding, hS.conc_needPadding]
      exact uniformly_ok S hS _
termination_by structural l => l
end

theorem uniformly_FormatWhereLogOpArgument
    {ι A : Type} [Inhabited ι] (S : Uniform ι A) (hS : S.Lawful)
    (quote : String → String) (arg : Argument) (a : A) :
    Uniformly S (fun i => (S.conc i a).FormatWhereLogOpArgument quote arg) := by
  unfold formatter.FormatWhereLogOpArgument
  refine uniformly_bind S hS (uniformly_WriteWord S hS a _) fun a1 => ?_
  beta_reduce
  try simp only [hS.conc_compressed, hS.conc_argumentSplitted,
    hS.conc_whereLogicalOps, hS.conc_colon, hS.conc_newline, hS.conc_increment,
    hS.conc_decrement, hS.conc_noPadding, hS.conc_needPadding]
  refine uniformly_bind S hS (uniformly_ite S hS (fun _ => uniformly_WriteString S hS _ _)
    fun _ => uniformly_WriteString S hS _ _) fun a2 => ?_
  beta_reduce
  try simp only [hS.conc_compressed, hS.conc_argumentSplitted,
    hS.conc_whereLogicalOps, hS.conc_colon, hS.conc_newline, hS.conc_increment,
    hS.conc_decrement, hS.conc_noPadding, hS.conc_needPadding]
  refine uniformly_bind S hS ?_ fun a3 => ?_
  · cases arg.Value with
    | none => exact uniformly_error S hS _
    | some v =>
      simp only
      match v.Children with
      | [] => exact uniformly_error S hS _
      | none :: _ => exact uniformly_error S hS _
      | some c :: _ => exact uniformly_FormatWhereLogOpChildValue S hS quote c _
  · beta_reduce
    try simp only [hS.conc_compressed, hS.conc_argumentSplitted,
      hS.conc_whereLogicalOps, hS.conc_colon, hS.conc_newline, hS.conc_increment,
      hS.conc_decrement, hS.conc_noPadding, hS.conc_needPadding]
    refine uniformly_bind S hS (uniformly_WriteString S hS _ _) fun a4 => ?_
    beta_reduce
    try simp only [hS.conc_compressed, hS.conc_argumentSplitted,
      hS.conc_whereLogicalOps, hS.conc_colon, hS.conc_newline, hS.conc_increment,
      hS.conc_decrement, hS.conc_noPadding, hS.conc_needPadding]
    exact uniformly_ok S hS _

theorem uniformly_inlineArgument {ι A : Type} [Inhabited ι] (S : Uniform ι A) (hS : S.Lawful)
    (quote : String → String) (arg : Argument) (a : A) :
    Uniformly S (fun i => (do
      let f ← (S.conc i a).WriteWord arg.Name
      let f ← f.NoPadding.WriteString f.colonUnit
      f.FormatValue quote arg.Value)) := by
  refine uniformly_bind S hS (uniformly_WriteWord S hS a _) fun a1 => ?_
  beta_reduce
  try simp only [hS.conc_compressed, hS.conc_argumentSplitted,
    hS.conc_whereLogicalOps, hS.conc_colon, hS.conc_newline, hS.conc_increment,
    hS.conc_decrement, hS.conc_noPadding, hS.conc_needPadding]
  refine uniformly_bind S hS (uniformly_WriteString S hS _ _) fun a2 => ?_
  exact uniformly_FormatValue S hS quote _ a2

theorem conc_useLogOp {ι A : Type} [Inhabited ι] (S : Uniform ι A) (hS : S.Lawful)
    (arg : Argument) (a : A) (i j : ι) :
    formatter.FormatWhereArgument.useLogOp (S.conc i a) arg =
      formatter.FormatWhereArgument.useLogOp (S.conc j a) arg := by
  simp only [formatter.FormatWhereArgument.useLogOp, hS.conc_whereLogicalOps]

theorem conc_doSplitted {ι A : Type} [Inhabited ι] (S : Uniform ι A) (hS : S.Lawful)
    (lists : List Argument) (a : A) (i j : ι) :
    formatter.FormatArgumentList.doSplitted (S.conc i a) lists =
      formatter.FormatArgumentList.doSplitted (S.conc j a) lists := by
  simp only [formatter.FormatArgumentList.doSplitted, hS.conc_argumentSplitted]

theorem uniformly_FormatWhereArgument {ι A : Type} [Inhabited ι] (S : Uniform ι A) (hS : S.Lawful)
    (quote : String → String) (arg : Argument) (a : A) :
    Uniformly S (fun i => (S.conc i a).FormatWhereArgument quote arg) := by
  unfold formatter.FormatWhereArgument
  refine uniformly_bind_val S hS (conc_useLogOp S hS arg a) fun b => ?_
  exact uniformly_ite S hS (fun _ => uniformly_FormatWhereLogOpArgument S hS quote arg a)
    fun _ => uniformly_inlineArgument S hS quote arg a

theorem uniformly_FormatArgument {ι A : Type} [Inhabited ι] (S : Uniform ι A) (hS : S.Lawful)
    (quote : String → String) (arg : Argument) (a : A) :
    Uniformly S (fun i => (S.conc i a).FormatArgument quote arg) := by
  unfold formatter.FormatArgument
  exact uniformly_ite S hS (fun _ => uniformly_FormatWhereArgument S hS quote arg a)
    fun _ => uniformly_inlineArgument S hS quote arg a

theorem uniformly_splitLoop {ι A : Type} [Inhabited ι] (S : Uniform ι A) (hS : S.Lawful)
    (quote : String → String) :
    ∀ (l : List Argument) (a : A),
      Uniformly S (fun i => formatter.FormatArgumentList.splitLoop quote (S.conc i a) l)
  | [], a => uniformly_ok S hS a
  | arg :: rest, a => by
    unfold formatter.FormatArgumentList.splitLoop
    refine uniformly_bind S hS (uniformly_FormatArgument S hS quote arg a) fun a1 => ?_
    beta_reduce
    try simp only [hS.conc_compressed, hS.conc_argumentSplitted,
      hS.conc_whereLogicalOps, hS.conc_colon, hS.conc_newline, hS.conc_increment,
      hS.conc_decrement, hS.conc_noPadding, hS.conc_needPadding]
    exact uniformly_splitLoop S hS quote rest _

theorem uniformly_inlineLoop {ι A : Type} [Inhabited ι] (S : Uniform ι A) (hS : S.Lawful)
    (quote : String → String) :
    ∀ (l : List Argument) (a : A),
      Uniformly S (fun i => formatter.FormatArgumentList.inlineLoop quote (S.conc i a) l)
  | [], a => uniformly_ok S hS a
  | arg :: rest, a => by
    unfold formatter.FormatArgumentList.inlineLoop
    refine uniformly_bind S hS (uniformly_FormatArgument S hS quote arg a) fun a1 => ?_
    beta_reduce
    try simp only [hS.conc_compressed, hS.conc_argumentSplitted,
      hS.conc_whereLogicalOps, hS.conc_colon, hS.conc_newline, hS.conc_increment,
      hS.conc_decrement, hS.conc_noPadding, hS.conc_needPadding]
    refine uniformly_bind S hS ?_ fun a2 => uniformly_inlineLoop S hS quote rest a2
    exact uniformly_ite S hS (fun _ => uniformly_ite S hS (fun _ => uniformly_WriteString S hS _ _)
      fun _ => uniformly_WriteWord S hS _ _) fun _ => uniformly_ok S hS _

theorem uniformly_FormatArgumentList {ι A : Type} [Inhabited ι] (S : Uniform ι A) (hS : S.Lawful)
    (quote : String → String) (l : List Argument) (a : A) :
    Uniformly S (fun i => (S.conc i a).FormatArgumentList quote l) := by
  unfold formatter.FormatArgumentList
  refine uniformly_ite S hS (fun _ => uniformly_ok S hS a) fun _ => ?_
  refine uniformly_bind_val S hS (conc_doSplitted S hS l a) fun b => ?_
  beta_reduce
  try simp only [hS.conc_compressed, hS.conc_argumentSplitted,
    hS.conc_whereLogicalOps, hS.conc_colon, hS.conc_newline, hS.conc_increment,
    hS.conc_decrement, hS.conc_noPadding, hS.conc_needPadding]
  refine uniformly_bind S hS (uniformly_WriteString S hS _ _) fun a1 => ?_
  beta_reduce
  try simp only [hS.conc_compressed, hS.conc_argumentSplitted,
    hS.conc_whereLogicalOps, hS.conc_colon, hS.conc_newline, hS.conc_increment,
    hS.conc_decrement, hS.conc_noPadding, hS.conc_needPadding]
  refine uniformly_bind S hS ?_ fun a2 => ?_
  · refine uniformly_ite S hS (fun _ => ?_) fun _ => uniformly_inlineLoop S hS quote l a1
    refine uniformly_bind S hS (uniformly_splitLoop S hS quote l _) fun a3 => ?_
    beta_reduce
    try simp only [hS.conc_compressed, hS.conc_argumentSplitted,
      hS.conc_whereLogicalOps, hS.conc_colon, hS.conc_newline, hS.conc_increment,
      hS.conc_decrement, hS.conc_noPadding, hS.conc_needPadding]
    exact uniformly_ok S hS _
  · refine uniformly_bind S hS (uniformly_WriteString S hS _ _) fun a3 => ?_
    beta_reduce
    try simp only [hS.conc_compressed, hS.conc_argumentSplitted,
      hS.conc_whereLogicalOps, hS.conc_colon, hS.conc_newline, hS.conc_increment,
      hS.conc_decrement, hS.conc_noPadding, hS.conc_needPadding]
    exact uniformly_ok S hS _

theorem uniformly_FormatDirective {ι A : Type} [Inhabited ι] (S : Uniform ι A) (hS : S.Lawful)
    (quote : String → String) (d : Directive) (a : A) :
    Uniformly S (fun i => (S.conc i a).FormatDirective quote d) := by
  unfold formatter.FormatDirective
  refine uniformly_bind S hS (uniformly_WriteString S hS a _) fun a1 => ?_
  refine uniformly_bind S hS (uniformly_WriteWord S hS a1 _) fun a2 => ?_
  exact uniformly_FormatArgumentList S hS quote _ a2

theorem uniformly_FormatDirectiveList {ι A : Type} [Inhabited ι] (S : Uniform ι A) (hS : S.Lawful)
    (quote : String → String) :
    ∀ (l : List Directive) (a : A),
      Uniformly S (fun i => (S.conc i a).FormatDirectiveList quote l)
  | [], a => uniformly_ok S hS a
  | d :: rest, a => by
    unfold formatter.FormatDirectiveList
    exact uniformly_bind S hS (uniformly_FormatDirective S hS quote d a) fun a1 =>
      uniformly_FormatDirectiveList S hS quote rest a1

theorem uniformly_FormatType {ι A : Type} [Inhabited ι] (S : Uniform ι A) (hS : S.Lawful)
    (t : String) (a : A) :
    Uniformly S (fun i => (S.conc i a).FormatType t) := by
  unfold formatter.FormatType
  simp only [hS.conc_compressed]
  exact uniformly_ite S hS (fun _ => uniformly_WriteString S hS a t) fun _ =>
    uniformly_WriteWord S hS a t

theorem uniformly_FormatVariableDefinition
    {ι A : Type} [Inhabited ι] (S : Uniform ι A) (hS : S.Lawful)
    (quote : String → String) (d : VariableDefinition)
    (a : A) : Uniformly S (fun i => (S.conc i a).FormatVariableDefinition quote d) := by
  unfold formatter.FormatVariableDefinition
  refine uniformly_bind S hS (uniformly_WriteString S hS a _) fun a1 => ?_
  refine uniformly_bind S hS (uniformly_WriteWord S hS a1 _) fun a2 => ?_
  beta_reduce
  try simp only [hS.conc_compressed, hS.conc_argumentSplitted,
    hS.conc_whereLogicalOps, hS.conc_colon, hS.conc_newline, hS.conc_increment,
    hS.conc_decrement, hS.conc_noPadding, hS.conc_needPadding]
  refine uniformly_bind S hS (uniformly_WriteString S hS _ _) fun a3 => ?_
  refine uniformly_bind S hS (uniformly_FormatType S hS _ a3) fun a4 => ?_
  cases d.DefaultValue with
  | none => exact uniformly_ok S hS a4
  | some v =>
    exact uniformly_bind S hS (uniformly_WriteWord S hS a4 _) fun a5 =>
      uniformly_FormatValue S hS quote _ a5

theorem uniformly_variableLoop {ι A : Type} [Inhabited ι] (S : Uniform ι A) (hS : S.Lawful)
    (quote : String → String) :
    ∀ (l : List VariableDefinition) (a : A),
      Uniformly S (fun i => formatter.FormatVariableDefinitionList.loop quote (S.conc i a) l)
  | [], a => uniformly_ok S hS a
  | d :: rest, a => by
    unfold formatter.FormatVariableDefinitionList.loop
    refine uniformly_bind S hS (uniformly_FormatVariableDefinition S hS quote d a) fun a1 => ?_
    beta_reduce
    try simp only [hS.conc_compressed, hS.conc_argumentSplitted,
      hS.conc_whereLogicalOps, hS.conc_colon, hS.conc_newline, hS.conc_increment,
      hS.conc_decrement, hS.conc_noPadding, hS.conc_needPadding]
    refine uniformly_bind S hS ?_ fun a2 => uniformly_variableLoop S hS quote rest a2
    exact uniformly_ite S hS (fun _ => uniformly_ite S hS (fun _ => uniformly_WriteString S hS _ _)
      fun _ => uniformly_WriteWord S hS _ _) fun _ => uniformly_ok S hS _

theorem uniformly_FormatVariableDefinitionList
    {ι A : Type} [Inhabited ι] (S : Uniform ι A) (hS : S.Lawful)
    (quote : String → String)
    (l : List VariableDefinition) (a : A) :
    Uniformly S (fun i => (S.conc i a).FormatVariableDefinitionList quote l) := by
  unfold formatter.FormatVariableDefinitionList
  refine uniformly_ite S hS (fun _ => uniformly_ok S hS a) fun _ => ?_
  refine uniformly_bind S hS (uniformly_WriteString S hS a _) fun a1 => ?_
  refine uniformly_bind S hS (uniformly_variableLoop S hS quote l a1) fun a2 => ?_
  beta_reduce
  try simp only [hS.conc_compressed, hS.conc_argumentSplitted,
    hS.conc_whereLogicalOps, hS.conc_colon, hS.conc_newline, hS.conc_increment,
    hS.conc_decrement, hS.conc_noPadding, hS.conc_needPadding]
  refine uniformly_bind S hS (uniformly_WriteString S hS _ _) fun a3 => ?_
  beta_reduce
  try simp only [hS.conc_compressed, hS.conc_argumentSplitted,
    hS.conc_whereLogicalOps, hS.conc_colon, hS.conc_newline, hS.conc_increment,
    hS.conc_decrement, hS.conc_noPadding, hS.conc_needPadding]
  exact uniformly_ok S hS _

theorem uniformly_FormatFragmentSpread {ι A : Type} [Inhabited ι] (S : Uniform ι A) (hS : S.Lawful)
    (quote : String → String) (name : String)
    (ds : List Directive) (a : A) :
    Uniformly S (fun i => (S.conc i a).FormatFragmentSpread quote name ds) := by
  unfold formatter.FormatFragmentSpread
  refine uniformly_bind S hS (uniformly_WriteWord S hS a _) fun a1 => ?_
  refine uniformly_bind S hS (uniformly_WriteWord S hS a1 _) fun a2 => ?_
  exact uniformly_FormatDirectiveList S hS quote ds a2

theorem uniformly_frame {ι A : Type} [Inhabited ι] (S : Uniform ι A) (hS : S.Lawful)
    (sets : List Selection) (body : formatter → Except Fault formatter)
    (hb : ∀ a, Uniformly S (fun i => body (S.conc i a))) (a : A) :
    Uniformly S (fun i => formatter.FormatSelectionSet.frame (S.conc i a) sets body) := by
  unfold formatter.FormatSelectionSet.frame
  refine uniformly_ite S hS (fun _ => uniformly_ok S hS a) fun _ => ?_
  refine uniformly_bind S hS (uniformly_WriteString S hS a _) fun a1 => ?_
  beta_reduce
  try simp only [hS.conc_compressed, hS.conc_argumentSplitted,
    hS.conc_whereLogicalOps, hS.conc_colon, hS.conc_newline, hS.conc_increment,
    hS.conc_decrement, hS.conc_noPadding, hS.conc_needPadding]
  refine uniformly_bind S hS (hb _) fun a2 => ?_
  beta_reduce
  try simp only [hS.conc_compressed, hS.conc_argumentSplitted,
    hS.conc_whereLogicalOps, hS.conc_colon, hS.conc_newline, hS.conc_increment,
    hS.conc_decrement, hS.conc_noPadding, hS.conc_needPadding]
  exact uniformly_WriteString S hS _ _

mutual
theorem uniformly_FormatSelection {ι A : Type} [Inhabited ι] (S : Uniform ι A) (hS : S.Lawful)
    (quote : String → String) :
    ∀ (s : Selection) (a : A), Uniformly S (fun i => (S.conc i a).FormatSelection quote s)
  | .Field fieldAlias name arguments directives selectionSet, a => by
    unfold formatter.FormatSelection
    refine uniformly_bind S hS ?_ fun a1 => ?_
    · refine uniformly_ite S hS (fun _ => ?_) fun _ => uniformly_ok S hS a
      refine uniformly_bind S hS (uniformly_WriteWord S hS a _) fun a1 => ?_
      beta_reduce
      try simp only [hS.conc_compressed, hS.conc_argumentSplitted,
        hS.conc_whereLogicalOps, hS.conc_colon, hS.conc_newline, hS.conc_increment,
        hS.conc_decrement, hS.conc_noPadding, hS.conc_needPadding]
      exact uniformly_WriteString S hS _ _
    refine uniformly_bind S hS (uniformly_WriteWord S hS a1 _) fun a2 => ?_
    refine uniformly_bind S hS ?_ fun a3 => ?_
    · refine uniformly_ite S hS (fun _ => ?_) fun _ => uniformly_ok S hS a2
      beta_reduce
      try simp only [hS.conc_compressed, hS.conc_argumentSplitted,
        hS.conc_whereLogicalOps, hS.conc_colon, hS.conc_newline, hS.conc_increment,
        hS.conc_decrement, hS.conc_noPadding, hS.conc_needPadding]
      refine uniformly_bind S hS (uniformly_FormatArgumentList S hS quote _ _) fun a3 => ?_
      beta_reduce
      try simp only [hS.conc_compressed, hS.conc_argumentSplitted,
        hS.conc_whereLogicalOps, hS.conc_colon, hS.conc_newline, hS.conc_increment,
        hS.conc_decrement, hS.conc_noPadding, hS.conc_needPadding]
      exact uniformly_ok S hS _
    refine uniformly_bind S hS (uniformly_FormatDirectiveList S hS quote directives a3) fun a4 => ?_
    exact uniformly_frame S hS selectionSet _
      (fun a5 => uniformly_selectionLoop S hS quote selectionSet a5) a4
  | .FragmentSpread name directives, a => by
    unfold formatter.FormatSelection
    exact uniformly_FormatFragmentSpread S hS quote name directives a
  | .InlineFragment typeCondition directives selectionSet, a => by
    unfold formatter.FormatSelection
    refine uniformly_bind S hS (uniformly_WriteWord S hS a _) fun a1 => ?_
    refine uniformly_bind S hS ?_ fun a2 => ?_
    · refine uniformly_ite S hS (fun _ => ?_) fun _ => uniformly_ok S hS a1
      exact uniformly_bind S hS (uniformly_WriteWord S hS a1 _) fun a2 =>
        uniformly_WriteWord S hS a2 _
    refine uniformly_bind S hS (uniformly_FormatDirectiveList S hS quote directives a2) fun a4 => ?_
    exact uniformly_frame S hS selectionSet _
      (fun a5 => uniformly_selectionLoop S hS quote selectionSet a5) a4
  | .other, a => by
    unfold formatter.FormatSelection
    exact uniformly_error S hS _
termination_by structural s => s
theorem uniformly_selectionLoop {ι A : Type} [Inhabited ι] (S : Uniform ι A) (hS : S.Lawful)
    (quote : String → String) :
    ∀ (l : List Selection) (a : A),
      Uniformly S (fun i => formatter.FormatSelectionSet.loop quote (S.conc i a) l)
  | [], a => by
    unfold formatter.FormatSelectionSet.loop
    exact uniformly_ok S hS a
  | sel :: rest, a => by
    unfold formatter.FormatSelectionSet.loop
    refine uniformly_bind S hS (uniformly_FormatSelection S hS quote sel a) fun a1 => ?_
    beta_reduce
    try simp only [hS.conc_compressed, hS.conc_argumentSplitted,
      hS.conc_whereLogicalOps, hS.conc_colon, hS.conc_newline, hS.conc_increment,
      hS.conc_decrement, hS.conc_noPadding, hS.conc_needPadding]
    refine uniformly_bind S hS ?_ fun a2 => uniformly_selectionLoop S hS quote rest a2
    exact uniformly_ite S hS (fun _ => uniformly_ite S hS (fun _ => uniformly_ite S hS
      (fun _ => uniformly_WriteString S hS _ _) fun _ => uniformly_WriteWord S hS _ _)
      fun _ => uniformly_ok S hS _) fun _ => uniformly_ok S hS _
termination_by structural l => l
end

theorem uniformly_FormatSelectionSet {ι A : Type} [Inhabited ι] (S : Uniform ι A) (hS : S.Lawful)
    (quote : String → String) (sets : List Selection) (a : A) :
    Uniformly S (fun i => (S.conc i a).FormatSelectionSet quote sets) :=
  uniformly_frame S hS sets _ (fun a5 => uniformly_selectionLoop S hS quote sets a5) a

theorem uniformly_FormatOperationDefinition
    {ι A : Type} [Inhabited ι] (S : Uniform ι A) (hS : S.Lawful)
    (quote : String → String)
    (d : OperationDefinition) (a : A) :
    Uniformly S (fun i => (S.conc i a).FormatOperationDefinition quote d) := by
  unfold formatter.FormatOperationDefinition
  refine uniformly_bind S hS (uniformly_WriteWord S hS a _) fun a1 => ?_
  refine uniformly_bind S hS (uniformly_ite S hS (fun _ => uniformly_WriteWord S hS a1 _)
    fun _ => uniformly_ok S hS a1) fun a2 => ?_
  refine uniformly_bind S hS (uniformly_FormatVariableDefinitionList S hS quote _ a2) fun a3 => ?_
  refine uniformly_bind S hS (uniformly_FormatDirectiveList S hS quote _ a3) fun a4 => ?_
  refine uniformly_ite S hS (fun _ => ?_) fun _ => uniformly_ok S hS a4
  refine uniformly_bind S hS (uniformly_FormatSelectionSet S hS quote _ a4) fun a5 => ?_
  beta_reduce
  try simp only [hS.conc_compressed, hS.conc_argumentSplitted,
    hS.conc_whereLogicalOps, hS.conc_colon, hS.conc_newline, hS.conc_increment,
    hS.conc_decrement, hS.conc_noPadding, hS.conc_needPadding]
  exact uniformly_ok S hS _

theorem uniformly_FormatOperationList {ι A : Type} [Inhabited ι] (S : Uniform ι A) (hS : S.Lawful)
    (quote : String → String) :
    ∀ (l : List OperationDefinition) (a : A),
      Uniformly S (fun i => (S.conc i a).FormatOperationList quote l)
  | [], a => uniformly_ok S hS a
  | d :: rest, a => by
    unfold formatter.FormatOperationList
    exact uniformly_bind S hS (uniformly_FormatOperationDefinition S hS quote d a) fun a1 =>
      uniformly_FormatOperationList S hS quote rest a1

theorem uniformly_FormatFragmentDefinition
    {ι A : Type} [Inhabited ι] (S : Uniform ι A) (hS : S.Lawful)
    (quote : String → String)
    (d : FragmentDefinition) (a : A) :
    Uniformly S (fun i => (S.conc i a).FormatFragmentDefinition quote d) := by
  unfold formatter.FormatFragmentDefinition
  refine uniformly_bind S hS (uniformly_WriteWord S hS a _) fun a1 => ?_
  refine uniformly_bind S hS (uniformly_WriteWord S hS a1 _) fun a2 => ?_
  refine uniformly_bind S hS (uniformly_FormatVariableDefinitionList S hS quote _ a2) fun a3 => ?_
  refine uniformly_bind S hS (uniformly_WriteWord S hS a3 _) fun a4 => ?_
  refine uniformly_bind S hS (uniformly_WriteWord S hS a4 _) fun a5 => ?_
  refine uniformly_bind S hS (uniformly_FormatDirectiveList S hS quote _ a5) fun a6 => ?_
  refine uniformly_ite S hS (fun _ => ?_) fun _ => uniformly_ok S hS a6
  refine uniformly_bind S hS (uniformly_FormatSelectionSet S hS quote _ a6) fun a7 => ?_
  beta_reduce
  try simp only [hS.conc_compressed, hS.conc_argumentSplitted,
    hS.conc_whereLogicalOps, hS.conc_colon, hS.conc_newline, hS.conc_increment,
    hS.conc_decrement, hS.conc_noPadding, hS.conc_needPadding]
  exact uniformly_ok S hS _

theorem uniformly_FormatFragmentDefinitionList
    {ι A : Type} [Inhabited ι] (S : Uniform ι A) (hS : S.Lawful)
    (quote : String → String) :
    ∀ (l : List FragmentDefinition) (a : A),
      Uniformly S (fun i => (S.conc i a).FormatFragmentDefinitionList quote l)
  | [], a => uniformly_ok S hS a
  | d :: rest, a => by
    unfold formatter.FormatFragmentDefinitionList
    exact uniformly_bind S hS (uniformly_FormatFragmentDefinition S hS quote d a) fun a1 =>
      uniformly_FormatFragmentDefinitionList S hS quote rest a1

theorem uniformly_FormatQueryDocument {ι A : Type} [Inhabited ι] (S : Uniform ι A) (hS : S.Lawful)
    (quote : String → String) (doc : Option QueryDocument)
    (a : A) : Uniformly S (fun i => (S.conc i a).FormatQueryDocument quote doc) := by
  cases doc with
  | none => exact uniformly_ok S hS a
  | some doc =>
    unfold formatter.FormatQueryDocument
    exact uniformly_bind S hS (uniformly_FormatOperationList S hS quote _ a) fun a1 =>
      uniformly_FormatFragmentDefinitionList S hS quote _ a1

theorem minifiedFamily_lawful : minifiedFamily.Lawful where
  conc_compressed _ a := a.property
  conc_argumentSplitted _ _ := rfl
  conc_whereLogicalOps _ _ := rfl
  conc_colon _ _ := rfl
  conc_writeString u a s := by
    rw [WriteString_eq]
    simp [minifiedFamily, a.property, Except.map]
  conc_writeWord u a s := by
    rw [WriteWord_eq]
    simp [minifiedFamily, a.property, Except.map]
  conc_newline u a := by
    simp [minifiedFamily, formatter.WriteNewline, a.property]
  conc_increment _ _ := rfl
  conc_decrement _ _ := rfl
  conc_noPadding _ _ := rfl
  conc_needPadding _ _ := rfl

theorem minified_output_indent_free (quote : String → String) (w : String)
    (doc : Option QueryDocument) (u₁ u₂ : String) :
    ((NewFormatter w [.WithMinification, .WithIndent u₁]).FormatQueryDocument quote doc).map
        (fun f => f.writer) =
      ((NewFormatter w [.WithMinification, .WithIndent u₂]).FormatQueryDocument quote doc).map
        (fun f => f.writer) := by
  obtain ⟨r, hr⟩ := uniformly_FormatQueryDocument minifiedFamily minifiedFamily_lawful quote doc
    ⟨NewFormatter w [.WithMinification], rfl⟩
  have h₁ := hr u₁
  have h₂ := hr u₂
  have e : ∀ u, minifiedFamily.conc u ⟨NewFormatter w [.WithMinification], rfl⟩ =
      NewFormatter w [.WithMinification, .WithIndent u] := fun _ => rfl
  simp only [e] at h₁ h₂
  rw [h₁, h₂]
  cases r <;> rfl

theorem linesText_append (u : String) (l₁ l₂ : List (Nat × String)) :
    linesText u (l₁ ++ l₂) = linesText u l₁ ++ linesText u l₂ := by
  induction l₁ with
  | nil => simp [linesText]
  | cons l rest ih => simp [linesText, ih, String.append_assoc]

theorem readableFamily_lawful : readableFamily.Lawful where
  conc_compressed _ _ := rfl
  conc_argumentSplitted _ _ := rfl
  conc_whereLogicalOps _ _ := rfl
  conc_colon _ _ := rfl
  conc_writeString u a s := by
    rw [WriteString_eq]
    obtain ⟨done, cur, indent, padNext, cu, o₁, o₂⟩ := a
    cases cur with
    | none =>
      by_cases h : indent < 0
      · simp [readableFamily, h, Except.map]
      · simp [readableFamily, h, Except.map, lastLineText, String.append_assoc]
    | some l =>
      cases padNext <;>
        simp [readableFamily, Except.map, lastLineText, String.append_assoc]
  conc_writeWord u a s := by
    rw [WriteWord_eq]
    obtain ⟨done, cur, indent, padNext, cu, o₁, o₂⟩ := a
    cases cur with
    | none =>
      by_cases h : indent < 0
      · simp [readableFamily, h, Except.map]
      · simp [readableFamily, h, Except.map, lastLineText, String.append_assoc]
    | some l =>
      cases padNext <;>
        simp [readableFamily, Except.map, lastLineText, String.append_assoc]
  conc_newline u a := by
    obtain ⟨done, cur, indent, padNext, cu, o₁, o₂⟩ := a
    cases cur <;>
      simp [readableFamily, formatter.WriteNewline, formatter.writeString, linesText_append,
        linesText, lastLineText, Repeat, String.append_assoc]
  conc_increment _ _ := rfl
  conc_decrement _ _ := rfl
  conc_noPadding _ _ := rfl
  conc_needPadding _ _ := rfl

theorem readable_output_lines (quote : String → String) (doc : Option QueryDocument) :
    ∃ r : Except Fault (List (Nat × String) × Option (Nat × String)), ∀ u,
      formatted quote "" [.WithIndent u] doc =
        r.map (fun p => linesText u p.1 ++ lastLineText u p.2) := by
  obtain ⟨r, hr⟩ := uniformly_FormatQueryDocument readableFamily readableFamily_lawful quote doc
    ⟨[], some (0, ""), 0, false, ": ", true, true⟩
  refine ⟨r.map (fun a => (a.done, a.cur)), fun u => ?_⟩
  have e : readableFamily.conc u ⟨[], some (0, ""), 0, false, ": ", true, true⟩ =
      NewFormatter "" [.WithIndent u] := by
    simp [readableFamily, NewFormatter, FormatOption.applyAll, FormatOption.apply, linesText,
      lastLineText, Repeat]
  have h := hr u
  simp only [e] at h
  unfold formatted
  rw [h]
  cases r <;> rfl

theorem trim_a : TrimSpace "a" = "a" := by decide!
theorem trim_b : TrimSpace "b" = "b" := by decide!

set_option maxRecDepth 10000 in
theorem nestedQuery_output (quote : String → String) (u : String) :
    formatted quote "" [.WithIndent u] (some nestedQuery) =
      .ok (linesText u [(0, "query \x7b"), (1, "a \x7b"), (2, "b"), (1, "\x7d"), (0, "\x7d")]) := by
  simp [formatted, nestedQuery, NewFormatter, FormatOption.applyAll, FormatOption.apply,
    formatter.FormatQueryDocument, formatter.FormatOperationList,
    formatter.FormatOperationDefinition, formatter.FormatVariableDefinitionList,
    formatter.FormatDirectiveList, formatter.FormatSelectionSet, formatter.FormatSelectionSet.frame,
    formatter.FormatSelectionSet.loop, formatter.FormatSelection,
    formatter.FormatFragmentDefinitionList, formatter.FormatArgumentList,
    WriteWord_eq, WriteString_eq, formatter.WriteNewline, formatter.IncrementIndent,
    formatter.DecrementIndent, formatter.writeString, formatter.NoPadding, formatter.NeedPadding,
    trim_query, trim_a, trim_b, Repeat, Except.map, linesText, String.append_assoc]

theorem bareQuery_output : formatted id "" [.WithIndent "\t"] (some bareQuery) = .ok "query" := by
  decide!

theorem linesText_ends_with_newline (u : String) :
    ∀ L : List (Nat × String), L ≠ [] → ∃ s, linesText u L = s ++ "\n"
  | [], h => absurd rfl h
  | [l], _ => ⟨Repeat u l.1 ++ l.2, by simp [linesText]⟩
  | l :: l' :: rest, _ => by
    obtain ⟨s, hs⟩ := linesText_ends_with_newline u (l' :: rest) (by simp)
    refine ⟨Repeat u l.1 ++ l.2 ++ "\n" ++ s, ?_⟩
    rw [linesText, hs]
    simp [String.append_assoc]

theorem linesText_ne_query (u : String) (L : List (Nat × String)) : linesText u L ≠ "query" := by
  intro h
  cases L with
  | nil =>
    rw [linesText] at h
    exact absurd h (by decide)
  | cons l rest =>
    obtain ⟨s, hs⟩ := linesText_ends_with_newline u (l :: rest) (by simp)
    rw [hs] at h
    have h' := congrArg (fun t : String => t.data.getLast?) h
    simp [String.data_append] at h'


/-! ## A minified emitter writes no newline -/

theorem noNewline_empty : noNewline "" = true := rfl

theorem noNewline_append (a b : String) :
    noNewline (a ++ b) = (noNewline a && noNewline b) := by
  simp [noNewline, String.data_append, List.all_append]

theorem noNewline_TrimSpace (s : String) (h : noNewline s = true) :
    noNewline (TrimSpace s) = true := by
  simp only [noNewline, TrimSpace, List.all_eq_true] at h ⊢
  intro c hc
  apply h
  have h1 := (List.dropWhile_sublist isSpace).subset (List.mem_reverse.mp hc)
  exact (List.dropWhile_sublist isSpace).subset (List.mem_reverse.mp h1)

theorem noNewline_Join (sep : String) (hsep : noNewline sep = true) :
    ∀ l : List String, (∀ s ∈ l, noNewline s = true) → noNewline (Join l sep) = true
  | [], _ => rfl
  | [a], h => by simpa [Join] using h a (by simp)
  | a :: b :: rest, h => by
    rw [Join, noNewline_append, noNewline_append, h a (by simp), hsep,
      noNewline_Join sep hsep (b :: rest) fun s hs => h s (by simp [hs])]
    rfl

theorem Clean.WriteString_clean {f : formatter} (h : Clean f) (s : String)
    (hs : noNewline s = true) : Post (f.WriteString s) Clean := by
  intro f' e
  rw [WriteString_eq] at e
  simp only [h.compressed, Bool.true_eq_false, and_false, false_and, if_false] at e
  cases e
  refine ⟨rfl, ?_, h.colon⟩
  show noNewline (f.writer ++ "" ++ "" ++ s) = true
  simp only [noNewline_append, h.writer, hs, noNewline_empty, Bool.and_self]

theorem Clean.WriteWord_clean {f : formatter} (h : Clean f) (s : String)
    (hs : noNewline s = true) : Post (f.WriteWord s) Clean := by
  intro f' e
  rw [WriteWord_eq] at e
  simp only [h.compressed, Bool.true_eq_false, and_false, false_and, if_false] at e
  cases e
  refine ⟨rfl, ?_, h.colon⟩
  show noNewline (f.writer ++ "" ++ (if f.lineHead = false ∧ f.padNext = true then " " else "") ++
    TrimSpace s) = true
  simp only [noNewline_append, h.writer, noNewline_TrimSpace s hs, noNewline_empty, Bool.and_true,
    Bool.true_and]
  split <;> rfl

theorem Clean.WriteNewline_clean {f : formatter} (h : Clean f) : Clean f.WriteNewline := by
  simp only [formatter.WriteNewline, h.compressed]
  exact ⟨h.compressed, h.writer, h.colon⟩

theorem Clean.NoPadding_clean {f : formatter} (h : Clean f) : Clean f.NoPadding :=
  ⟨h.compressed, h.writer, h.colon⟩

theorem Clean.NeedPadding_clean {f : formatter} (h : Clean f) : Clean f.NeedPadding :=
  ⟨h.compressed, h.writer, h.colon⟩

theorem Clean.IncrementIndent_clean {f : formatter} (h : Clean f) : Clean f.IncrementIndent :=
  ⟨h.compressed, h.writer, h.colon⟩

theorem Clean.DecrementIndent_clean {f : formatter} (h : Clean f) : Clean f.DecrementIndent :=
  ⟨h.compressed, h.writer, h.colon⟩

mutual
theorem GetValueString.value_noNewline (quote : String → String)
    (hq : ∀ s, noNewline (quote s) = true) (f : formatter) (hc : f.optCompressed = true)
    (hu : noNewline f.colonUnit = true) :
    ∀ v : Value, v.newlineFree = true → ∀ s, GetValueString.value quote f v = .ok s →
      noNewline s = true
  | .mk raw children kind, hv, s, e => by
    cases kind <;> simp only [Value.newlineFree, Bool.and_eq_true, Bool.true_and] at hv <;>
      simp only [GetValueString.value, hc, if_true] at e
    case Variable =>
      cases e
      rw [noNewline_append, hv.1]; rfl
    case ListValue =>
      obtain ⟨val, e1, e2⟩ := bind_eq_ok.mp e
      cases e2
      have := GetValueString.listLoop_noNewline quote hq f hc hu children hv.2 val e1
      rw [noNewline_append, noNewline_append, noNewline_Join "," rfl val this]; rfl
    case ObjectValue =>
      obtain ⟨val, e1, e2⟩ := bind_eq_ok.mp e
      cases e2
      have := GetValueString.objectLoop_noNewline quote hq f hc hu children hv.2 val e1
      rw [noNewline_append, noNewline_append, noNewline_Join " " rfl val this]; rfl
    case StringValue => cases e; exact hq raw
    case BlockValue => cases e; exact hq raw
    case unsupported => cases e
    all_goals cases e; exact hv.1
termination_by structural v => v
theorem GetValueString_noNewline (quote : String → String)
    (hq : ∀ s, noNewline (quote s) = true) (f : formatter) (hc : f.optCompressed = true)
    (hu : noNewline f.colonUnit = true) :
    ∀ v : Option Value, newlineFreeOpt v = true → ∀ s, GetValueString quote f v = .ok s →
      noNewline s = true
  | none, _, s, e => by
    simp only [GetValueString] at e
    cases e; rfl
  | some v, hv, s, e => by
    simp only [GetValueString] at e
    simp only [newlineFreeOpt] at hv
    exact GetValueString.value_noNewline quote hq f hc hu v hv s e
termination_by structural v => v
theorem GetValueString.listElem_noNewline (quote : String → String)
    (hq : ∀ s, noNewline (quote s) = true) (f : formatter) (hc : f.optCompressed = true)
    (hu : noNewline f.colonUnit = true) :
    ∀ c : Option ChildValue, newlineFreeChild c = true → ∀ s,
      GetValueString.listElem quote f c = .ok s → noNewline s = true
  | none, _, s, e => by
    simp only [GetValueString.listElem] at e
    cases e
  | some (.mk _ v), hv, s, e => by
    simp only [GetValueString.listElem] at e
    simp only [newlineFreeChild, Bool.and_eq_true] at hv
    exact GetValueString_noNewline quote hq f hc hu v hv.2 s e
termination_by structural c => c
theorem GetValueString.objectElem_noNewline (quote : String → String)
    (hq : ∀ s, noNewline (quote s) = true) (f : formatter) (hc : f.optCompressed = true)
    (hu : noNewline f.colonUnit = true) :
    ∀ c : Option ChildValue, newlineFreeChild c = true → ∀ s,
      GetValueString.objectElem quote f c = .ok s → noNewline s = true
  | none, _, s, e => by
    simp only [GetValueString.objectElem] at e
    cases e
  | some (.mk name v), hv, s, e => by
    simp only [GetValueString.objectElem] at e
    simp only [newlineFreeChild, Bool.and_eq_true] at hv
    obtain ⟨t, e1, e2⟩ := bind_eq_ok.mp e
    cases e2
    rw [noNewline_append, noNewline_append, hv.1, hu,
      GetValueString_noNewline quote hq f hc hu v hv.2 t e1]
    rfl
termination_by structural c => c
theorem GetValueString.listLoop_noNewline (quote : String → String)
    (hq : ∀ s, noNewline (quote s) = true) (f : formatter) (hc : f.optCompressed = true)
    (hu : noNewline f.colonUnit = true) :
    ∀ l : List (Option ChildValue), newlineFreeList l = true → ∀ val,
      GetValueString.listLoop quote f l = .ok val → ∀ s ∈ val, noNewline s = true
  | [], _, val, e => by
    simp only [GetValueString.listLoop] at e
    cases e
    simp
  | c :: rest, hv, val, e => by
    simp only [GetValueString.listLoop] at e
    simp only [newlineFreeList, Bool.and_eq_true] at hv
    obtain ⟨t, e1, e2⟩ := bind_eq_ok.mp e
    obtain ⟨val', e3, e4⟩ := bind_eq_ok.mp e2
    cases e4
    intro s hs
    rcases List.mem_cons.mp hs with rfl | hs
    · exact GetValueString.listElem_noNewline quote hq f hc hu c hv.1 _ e1
    · exact GetValueString.listLoop_noNewline quote hq f hc hu rest hv.2 val' e3 s hs
termination_by structural l => l
theorem GetValueString.objectLoop_noNewline (quote : String → String)
    (hq : ∀ s, noNewline (quote s) = true) (f : formatter) (hc : f.optCompressed = true)
    (hu : noNewline f.colonUnit = true) :
    ∀ l : List (Option ChildValue), newlineFreeList l = true → ∀ val,
      GetValueString.objectLoop quote f l = .ok val → ∀ s ∈ val, noNewline s = true
  | [], _, val, e => by
    simp only [GetValueString.objectLoop] at e
    cases e
    simp
  | c :: rest, hv, val, e => by
    simp only [GetValueString.objectLoop] at e
    simp only [newlineFreeList, Bool.and_eq_true] at hv
    obtain ⟨t, e1, e2⟩ := bind_eq_ok.mp e
    obtain ⟨val', e3, e4⟩ := bind_eq_ok.mp e2
    cases e4
    intro s hs
    rcases List.mem_cons.mp hs with rfl | hs
    · exact GetValueString.objectElem_noNewline quote hq f hc hu c hv.1 _ e1
    · exact GetValueString.objectLoop_noNewline quote hq f hc hu rest hv.2 val' e3 s hs
termination_by structural l => l
end

theorem Clean.FormatValue_clean (quote : String → String) (hq : ∀ s, noNewline (quote s) = true)
    {f : formatter} (h : Clean f) (v : Option Value) (hv : newlineFreeOpt v = true) :
    Post (f.FormatValue quote v) Clean := by
  unfold formatter.FormatValue
  exact post_bind_val fun s e =>
    h.WriteString_clean s (GetValueString_noNewline quote hq f h.compressed h.colon v hv s e)

theorem Clean.FormatChildValue_clean (quote : String → String)
    (hq : ∀ s, noNewline (quote s) = true) {f : formatter} (h : Clean f) (c : ChildValue)
    (hv : newlineFreeChild (some c) = true) : Post (f.FormatChildValue quote c) Clean := by
  obtain ⟨name, v⟩ := c
  simp only [newlineFreeChild, Bool.and_eq_true] at hv
  unfold formatter.FormatChildValue
  refine post_bind_val fun s e => h.WriteString_clean _ ?_
  rw [noNewline_append, noNewline_append, h.colon,
    GetValueString_noNewline quote hq f h.compressed h.colon _ hv.2 s e]
  simp only [ChildValue.Name, hv.1, Bool.and_self]

mutual
theorem Clean.FormatWhereLogOpChildValue_clean (quote : String → String)
    (hq : ∀ s, noNewline (quote s) = true) :
    ∀ (c : ChildValue) (f : formatter), Clean f → newlineFreeChild (some c) = true →
      Post (f.FormatWhereLogOpChildValue quote c) Clean
  | .mk name value, f, h, hv => by
    simp only [newlineFreeChild, Bool.and_eq_true] at hv
    obtain ⟨hn, hv⟩ := hv
    unfold formatter.FormatWhereLogOpChildValue
    refine post_bind (post_mono (h.WriteString_clean name hn) fun f1 h1 => ?_)
    refine post_bind (post_mono (h1.NoPadding_clean.WriteString_clean _ h1.colon) fun f2 h2 => ?_)
    cases value with
    | none => exact h2.WriteString_clean _ (by decide)
    | some v =>
      obtain ⟨raw, children, kind⟩ := v
      cases kind <;>
        simp only [newlineFreeOpt, Value.newlineFree, Bool.and_eq_true, Bool.true_and] at hv <;>
        simp only
      case unsupported => exact post_error
      case Variable =>
        exact h2.WriteString_clean _ (by rw [noNewline_append, hv.1]; rfl)
      case StringValue => exact h2.WriteString_clean _ (hq raw)
      case BlockValue => exact h2.WriteString_clean _ (hq raw)
      case ListValue =>
        refine post_bind_val fun val e => ?_
        have hval := GetValueString.listLoop_noNewline quote hq f2 h2.compressed h2.colon
          children hv.2 val e
        refine post_ite (fun _ => h2.WriteString_clean _ ?_) fun hn => absurd h2.compressed hn
        rw [noNewline_append, noNewline_append, noNewline_Join "," rfl val hval]; rfl
      case ObjectValue =>
        match children, hv with
        | [], _ =>
          simp only
          refine post_bind (post_mono (h2.WriteString_clean _ (by decide)) fun f3 h3 => ?_)
          exact post_ite (fun _ => post_ok h3.WriteNewline_clean.NeedPadding_clean) (fun _ => post_ok h3)
        | [none], _ => exact post_error
        | [some c], hv =>
          simp only
          have hc : newlineFreeChild (some c) = true := by
            simpa [newlineFreeList] using hv.2
          refine post_ite (fun _ => ?_) fun _ => post_ite (fun _ => ?_) fun _ => ?_
          · refine post_bind (post_mono (h2.WriteString_clean _ (by decide)) fun f3 h3 => ?_)
            refine post_bind (post_mono
              (Clean.FormatWhereLogOpChildValue_clean quote hq c _
                h3.WriteNewline_clean.NeedPadding_clean.IncrementIndent_clean hc)
              fun f4 h4 => ?_)
            exact post_bind (post_mono (h4.DecrementIndent_clean.WriteString_clean _ (by decide))
              fun f5 h5 => post_ok h5.WriteNewline_clean.NeedPadding_clean)
          · refine post_bind (post_mono (h2.WriteString_clean _ (by decide)) fun f3 h3 => ?_)
            refine post_bind (post_mono (h3.FormatChildValue_clean quote hq c hc) fun f4 h4 => ?_)
            exact post_bind (post_mono (h4.WriteString_clean _ (by decide)) fun f5 h5 =>
              post_ok h5.NeedPadding_clean)
          · refine post_bind (post_mono (h2.WriteString_clean _ (by decide)) fun f3 h3 => ?_)
            refine post_bind (post_mono (h3.FormatChildValue_clean quote hq c hc) fun f4 h4 => ?_)
            exact post_bind (post_mono (h4.WriteString_clean _ (by decide)) fun f5 h5 =>
              post_ok h5.WriteNewline_clean.NeedPadding_clean)
        | c₀ :: c₁ :: rest, hv =>
          simp only
          refine post_bind (post_mono (h2.WriteString_clean _ (by decide)) fun f3 h3 => ?_)
          refine post_bind (post_mono
            (Clean.whereLoop_clean quote hq (c₀ :: c₁ :: rest) _
              h3.WriteNewline_clean.NeedPadding_clean.IncrementIndent_clean hv.2)
            fun f4 h4 => ?_)
          exact post_bind (post_mono (h4.DecrementIndent_clean.WriteString_clean _ (by decide))
            fun f5 h5 => post_ok h5.WriteNewline_clean.NeedPadding_clean)
      all_goals exact h2.WriteString_clean _ hv.1
termination_by structural c => c
theorem Clean.whereLoop_clean (quote : String → String) (hq : ∀ s, noNewline (quote s) = true) :
    ∀ (l : List (Option ChildValue)) (f : formatter), Clean f → newlineFreeList l = true →
      Post (formatter.FormatWhereLogOpChildValue.loop quote f l) Clean
  | [], f, h, _ => by
    unfold formatter.FormatWhereLogOpChildValue.loop
    exact post_ok h
  | none :: _, f, h, _ => by
    unfold formatter.FormatWhereLogOpChildValue.loop
    exact post_error
  | some c :: rest, f, h, hv => by
    simp only [newlineFreeList, Bool.and_eq_true] at hv
    unfold formatter.FormatWhereLogOpChildValue.loop
    refine post_bind (post_mono (post_ite (fun _ => ?_) fun _ => ?_) fun f1 h1 =>
      Clean.whereLoop_clean quote hq rest f1 h1 hv.2)
    · exact Clean.FormatWhereLogOpChildValue_clean quote hq c f h hv.1
    · exact post_bind (post_mono (h.FormatChildValue_clean quote hq c hv.1) fun f2 h2 =>
        post_ok h2.WriteNewline_clean.NeedPadding_clean)
termination_by structural l => l
end

theorem Clean.FormatWhereLogOpArgument_clean (quote : String → String)
    (hq : ∀ s, noNewline (quote s) = true) {f : formatter} (h : Clean f) (arg : Argument)
    (ha : arg.newlineFree = true) : Post (f.FormatWhereLogOpArgument quote arg) Clean := by
  simp only [Argument.newlineFree, Bool.and_eq_true] at ha
  unfold formatter.FormatWhereLogOpArgument
  refine post_bind (post_mono (h.WriteWord_clean _ ha.1) fun f1 h1 => ?_)
  refine post_bind (post_mono
    (post_ite (fun _ => h1.NoPadding_clean.WriteString_clean _ (by decide))
      fun _ => h1.NoPadding_clean.WriteString_clean _ (by decide))
    fun f2 h2 => ?_)
  have h3 := h2.NeedPadding_clean.WriteNewline_clean.IncrementIndent_clean
  refine post_bind (post_mono (?_ : Post _ Clean) fun f4 h4 =>
    post_bind (post_mono (h4.DecrementIndent_clean.WriteString_clean _ (by decide)) fun f5 h5 =>
      post_ok h5.NeedPadding_clean))
  obtain ⟨name, value⟩ := arg
  cases value with
  | none => exact post_error
  | some v =>
    obtain ⟨raw, children, kind⟩ := v
    simp only [Value.Children]
    have hl : newlineFreeList children = true := by
      simp only [newlineFreeOpt, Value.newlineFree, Bool.and_eq_true] at ha
      exact ha.2.2
    match children, hl with
    | [], _ => exact post_error
    | none :: _, _ => exact post_error
    | some c :: _, hl =>
      simp only [newlineFreeList, Bool.and_eq_true] at hl
      exact Clean.FormatWhereLogOpChildValue_clean quote hq c _ h3 hl.1

theorem Clean.inlineArgument_clean (quote : String → String)
    (hq : ∀ s, noNewline (quote s) = true) {f : formatter} (h : Clean f) (arg : Argument)
    (ha : arg.newlineFree = true) :
    Post (do
      let f ← f.WriteWord arg.Name
      let f ← f.NoPadding.WriteString f.colonUnit
      f.FormatValue quote arg.Value) Clean := by
  simp only [Argument.newlineFree, Bool.and_eq_true] at ha
  exact post_bind (post_mono (h.WriteWord_clean _ ha.1) fun _ h1 =>
    post_bind (post_mono (h1.NoPadding_clean.WriteString_clean _ h1.colon) fun _ h2 =>
      h2.FormatValue_clean quote hq _ ha.2))

theorem Clean.FormatWhereArgument_clean (quote : String → String)
    (hq : ∀ s, noNewline (quote s) = true) {f : formatter} (h : Clean f) (arg : Argument)
    (ha : arg.newlineFree = true) : Post (f.FormatWhereArgument quote arg) Clean := by
  unfold formatter.FormatWhereArgument
  refine post_bind_val fun b _ => ?_
  exact post_ite (fun _ => h.FormatWhereLogOpArgument_clean quote hq arg ha)
    fun _ => h.inlineArgument_clean quote hq arg ha

theorem Clean.FormatArgument_clean (quote : String → String)
    (hq : ∀ s, noNewline (quote s) = true) {f : formatter} (h : Clean f) (arg : Argument)
    (ha : arg.newlineFree = true) : Post (f.FormatArgument quote arg) Clean := by
  unfold formatter.FormatArgument
  exact post_ite (fun _ => h.FormatWhereArgument_clean quote hq arg ha)
    fun _ => h.inlineArgument_clean quote hq arg ha

theorem Clean.splitLoop_clean (quote : String → String) (hq : ∀ s, noNewline (quote s) = true) :
    ∀ (l : List Argument) (f : formatter), Clean f → l.all Argument.newlineFree = true →
      Post (formatter.FormatArgumentList.splitLoop quote f l) Clean
  | [], f, h, _ => post_ok h
  | arg :: rest, f, h, hl => by
    simp only [List.all_cons, Bool.and_eq_true] at hl
    unfold formatter.FormatArgumentList.splitLoop
    exact post_bind (post_mono (h.FormatArgument_clean quote hq arg hl.1) fun f1 h1 =>
      Clean.splitLoop_clean quote hq rest _ h1.WriteNewline_clean hl.2)

theorem Clean.inlineLoop_clean (quote : String → String) (hq : ∀ s, noNewline (quote s) = true) :
    ∀ (l : List Argument) (f : formatter), Clean f → l.all Argument.newlineFree = true →
      Post (formatter.FormatArgumentList.inlineLoop quote f l) Clean
  | [], f, h, _ => post_ok h
  | arg :: rest, f, h, hl => by
    simp only [List.all_cons, Bool.and_eq_true] at hl
    unfold formatter.FormatArgumentList.inlineLoop
    refine post_bind (post_mono (h.FormatArgument_clean quote hq arg hl.1) fun f1 h1 => ?_)
    refine post_bind (post_mono (?_ : Post _ Clean) fun f2 h2 =>
      Clean.inlineLoop_clean quote hq rest _ h2 hl.2)
    exact post_ite (fun _ => post_ite (fun _ => h1.NoPadding_clean.WriteString_clean _ (by decide))
      fun _ => h1.NoPadding_clean.WriteWord_clean _ (by decide)) fun _ => post_ok h1

theorem Clean.FormatArgumentList_clean (quote : String → String)
    (hq : ∀ s, noNewline (quote s) = true) {f : formatter} (h : Clean f) (l : List Argument)
    (hl : l.all Argument.newlineFree = true) : Post (f.FormatArgumentList quote l) Clean := by
  unfold formatter.FormatArgumentList
  refine post_ite (fun _ => post_ok h) fun _ => ?_
  refine post_bind_val fun b _ => ?_
  refine post_bind (post_mono (h.NoPadding_clean.WriteString_clean _ (by decide)) fun f1 h1 => ?_)
  refine post_bind (post_mono (?_ : Post _ Clean) fun f2 h2 =>
    post_bind (post_mono (h2.WriteString_clean _ (by decide)) fun f3 h3 => post_ok h3.NeedPadding_clean))
  refine post_ite (fun _ => ?_) fun _ => Clean.inlineLoop_clean quote hq l _ h1 hl
  exact post_bind (post_mono (Clean.splitLoop_clean quote hq l _ h1.WriteNewline_clean.IncrementIndent_clean hl)
    fun f2 h2 => post_ok h2.DecrementIndent_clean)

theorem Clean.FormatDirective_clean (quote : String → String)
    (hq : ∀ s, noNewline (quote s) = true) {f : formatter} (h : Clean f) (d : Directive)
    (hd : d.newlineFree = true) : Post (f.FormatDirective quote d) Clean := by
  simp only [Directive.newlineFree, Bool.and_eq_true] at hd
  unfold formatter.FormatDirective
  exact post_bind (post_mono (h.WriteString_clean _ (by decide)) fun f1 h1 =>
    post_bind (post_mono (h1.WriteWord_clean _ hd.1) fun f2 h2 =>
      h2.FormatArgumentList_clean quote hq _ hd.2))

theorem Clean.FormatDirectiveList_clean (quote : String → String)
    (hq : ∀ s, noNewline (quote s) = true) :
    ∀ (l : List Directive) (f : formatter), Clean f → l.all Directive.newlineFree = true →
      Post (f.FormatDirectiveList quote l) Clean
  | [], f, h, _ => post_ok h
  | d :: rest, f, h, hl => by
    simp only [List.all_cons, Bool.and_eq_true] at hl
    unfold formatter.FormatDirectiveList
    exact post_bind (post_mono (h.FormatDirective_clean quote hq d hl.1) fun f1 h1 =>
      Clean.FormatDirectiveList_clean quote hq rest f1 h1 hl.2)

theorem Clean.FormatType_clean {f : formatter} (h : Clean f) (t : String)
    (ht : noNewline t = true) : Post (f.FormatType t) Clean := by
  unfold formatter.FormatType
  exact post_ite (fun _ => h.WriteString_clean t ht) fun _ => h.WriteWord_clean t ht

theorem Clean.FormatVariableDefinition_clean (quote : String → String)
    (hq : ∀ s, noNewline (quote s) = true) {f : formatter} (h : Clean f)
    (d : VariableDefinition) (hd : d.newlineFree = true) :
    Post (f.FormatVariableDefinition quote d) Clean := by
  simp only [VariableDefinition.newlineFree, Bool.and_eq_true] at hd
  unfold formatter.FormatVariableDefinition
  refine post_bind (post_mono (h.WriteString_clean _ (by decide)) fun f1 h1 => ?_)
  refine post_bind (post_mono (h1.WriteWord_clean _ hd.1.1) fun f2 h2 => ?_)
  refine post_bind (post_mono (h2.NoPadding_clean.WriteString_clean _ (by decide)) fun f3 h3 => ?_)
  refine post_bind (post_mono (h3.FormatType_clean _ hd.1.2) fun f4 h4 => ?_)
  obtain ⟨name, ty, dv⟩ := d
  cases dv with
  | none => exact post_ok h4
  | some v =>
    exact post_bind (post_mono (h4.WriteWord_clean _ (by decide)) fun f5 h5 =>
      h5.FormatValue_clean quote hq _ hd.2)

theorem Clean.variableLoop_clean (quote : String → String) (hq : ∀ s, noNewline (quote s) = true) :
    ∀ (l : List VariableDefinition) (f : formatter), Clean f →
      l.all VariableDefinition.newlineFree = true →
      Post (formatter.FormatVariableDefinitionList.loop quote f l) Clean
  | [], f, h, _ => post_ok h
  | d :: rest, f, h, hl => by
    simp only [List.all_cons, Bool.and_eq_true] at hl
    unfold formatter.FormatVariableDefinitionList.loop
    refine post_bind (post_mono (h.FormatVariableDefinition_clean quote hq d hl.1) fun f1 h1 => ?_)
    refine post_bind (post_mono (?_ : Post _ Clean) fun f2 h2 =>
      Clean.variableLoop_clean quote hq rest _ h2 hl.2)
    exact post_ite (fun _ => post_ite (fun _ => h1.NoPadding_clean.WriteString_clean _ (by decide))
      fun _ => h1.NoPadding_clean.WriteWord_clean _ (by decide)) fun _ => post_ok h1

theorem Clean.FormatVariableDefinitionList_clean (quote : String → String)
    (hq : ∀ s, noNewline (quote s) = true) {f : formatter} (h : Clean f)
    (l : List VariableDefinition) (hl : l.all VariableDefinition.newlineFree = true) :
    Post (f.FormatVariableDefinitionList quote l) Clean := by
  unfold formatter.FormatVariableDefinitionList
  refine post_ite (fun _ => post_ok h) fun _ => ?_
  refine post_bind (post_mono (h.WriteString_clean _ (by decide)) fun f1 h1 => ?_)
  refine post_bind (post_mono (Clean.variableLoop_clean quote hq l _ h1 hl) fun f2 h2 => ?_)
  exact post_bind (post_mono (h2.NoPadding_clean.WriteString_clean _ (by decide)) fun f3 h3 =>
    post_ok h3.NeedPadding_clean)

theorem Clean.FormatFragmentSpread_clean (quote : String → String)
    (hq : ∀ s, noNewline (quote s) = true) {f : formatter} (h : Clean f) (name : String)
    (ds : List Directive) (hn : noNewline name = true)
    (hd : ds.all Directive.newlineFree = true) :
    Post (f.FormatFragmentSpread quote name ds) Clean := by
  unfold formatter.FormatFragmentSpread
  exact post_bind (post_mono (h.WriteWord_clean _ (by decide)) fun f1 h1 =>
    post_bind (post_mono (h1.WriteWord_clean _ hn) fun f2 h2 =>
      Clean.FormatDirectiveList_clean quote hq ds f2 h2 hd))

theorem Clean.frame_clean {f : formatter} (h : Clean f) (sets : List Selection)
    (body : formatter → Except Fault formatter)
    (hb : ∀ f1, Clean f1 → Post (body f1) Clean) :
    Post (formatter.FormatSelectionSet.frame f sets body) Clean := by
  unfold formatter.FormatSelectionSet.frame
  refine post_ite (fun _ => post_ok h) fun _ => ?_
  refine post_bind (post_mono (h.WriteString_clean _ (by decide)) fun f1 h1 => ?_)
  refine post_bind (post_mono (hb _ h1.WriteNewline_clean.IncrementIndent_clean) fun f2 h2 => ?_)
  exact h2.DecrementIndent_clean.WriteString_clean _ (by decide)

mutual
theorem Clean.FormatSelection_clean (quote : String → String)
    (hq : ∀ s, noNewline (quote s) = true) :
    ∀ (s : Selection) (f : formatter), Clean f → s.newlineFree = true →
      Post (f.FormatSelection quote s) Clean
  | .Field fieldAlias name arguments directives selectionSet, f, h, hs => by
    simp only [Selection.newlineFree, Bool.and_eq_true] at hs
    obtain ⟨⟨⟨⟨ha, hn⟩, hargs⟩, hdirs⟩, hsel⟩ := hs
    unfold formatter.FormatSelection
    refine post_bind (post_mono (?_ : Post _ Clean) fun f1 h1 => ?_)
    · exact post_ite (fun _ => post_bind (post_mono (h.WriteWord_clean _ ha) fun f1 h1 =>
        h1.NoPadding_clean.WriteString_clean _ h1.colon)) fun _ => post_ok h
    refine post_bind (post_mono (h1.WriteWord_clean _ hn) fun f2 h2 => ?_)
    refine post_bind (post_mono (?_ : Post _ Clean) fun f3 h3 => ?_)
    · exact post_ite (fun _ => post_bind (post_mono
        (h2.NoPadding_clean.FormatArgumentList_clean quote hq _ hargs)
        fun f3 h3 => post_ok h3.NeedPadding_clean)) fun _ => post_ok h2
    refine post_bind (post_mono (Clean.FormatDirectiveList_clean quote hq directives f3 h3 hdirs)
      fun f4 h4 => ?_)
    exact h4.frame_clean selectionSet _ fun f5 h5 =>
      Clean.selectionLoop_clean quote hq selectionSet f5 h5 hsel
  | .FragmentSpread name directives, f, h, hs => by
    simp only [Selection.newlineFree, Bool.and_eq_true] at hs
    unfold formatter.FormatSelection
    exact h.FormatFragmentSpread_clean quote hq name directives hs.1 hs.2
  | .InlineFragment typeCondition directives selectionSet, f, h, hs => by
    simp only [Selection.newlineFree, Bool.and_eq_true] at hs
    obtain ⟨⟨ht, hdirs⟩, hsel⟩ := hs
    unfold formatter.FormatSelection
    refine post_bind (post_mono (h.WriteWord_clean _ (by decide)) fun f1 h1 => ?_)
    refine post_bind (post_mono (?_ : Post _ Clean) fun f2 h2 => ?_)
    · exact post_ite (fun _ => post_bind (post_mono (h1.WriteWord_clean _ (by decide)) fun f2 h2 =>
        h2.WriteWord_clean _ ht)) fun _ => post_ok h1
    refine post_bind (post_mono (Clean.FormatDirectiveList_clean quote hq directives f2 h2 hdirs)
      fun f4 h4 => ?_)
    exact h4.frame_clean selectionSet _ fun f5 h5 =>
      Clean.selectionLoop_clean quote hq selectionSet f5 h5 hsel
  | .other, f, h, hs => by
    unfold formatter.FormatSelection
    exact post_error
termination_by structural s => s
theorem Clean.selectionLoop_clean (quote : String → String)
    (hq : ∀ s, noNewline (quote s) = true) :
    ∀ (l : List Selection) (f : formatter), Clean f → selectionsNewlineFree l = true →
      Post (formatter.FormatSelectionSet.loop quote f l) Clean
  | [], f, h, _ => by
    unfold formatter.FormatSelectionSet.loop
    exact post_ok h
  | sel :: rest, f, h, hl => by
    simp only [selectionsNewlineFree, Bool.and_eq_true] at hl
    unfold formatter.FormatSelectionSet.loop
    refine post_bind (post_mono (Clean.FormatSelection_clean quote hq sel f h hl.1) fun f1 h1 => ?_)
    refine post_bind (post_mono (?_ : Post _ Clean) fun f2 h2 =>
      Clean.selectionLoop_clean quote hq rest f2 h2 hl.2)
    exact post_ite (fun _ => post_ite (fun _ => post_ite
      (fun _ => h1.NoPadding_clean.WriteString_clean _ (by decide))
      fun _ => h1.NoPadding_clean.WriteWord_clean _ (by decide)) fun _ => post_ok h1)
      fun _ => post_ok h1.WriteNewline_clean
termination_by structural l => l
end

theorem Clean.FormatSelectionSet_clean (quote : String → String)
    (hq : ∀ s, noNewline (quote s) = true) {f : formatter} (h : Clean f)
    (sets : List Selection) (hs : selectionsNewlineFree sets = true) :
    Post (f.FormatSelectionSet quote sets) Clean :=
  h.frame_clean sets _ fun f5 h5 => Clean.selectionLoop_clean quote hq sets f5 h5 hs

theorem Clean.FormatOperationDefinition_clean (quote : String → String)
    (hq : ∀ s, noNewline (quote s) = true) {f : formatter} (h : Clean f)
    (d : OperationDefinition) (hd : d.newlineFree = true) :
    Post (f.FormatOperationDefinition quote d) Clean := by
  simp only [OperationDefinition.newlineFree, Bool.and_eq_true] at hd
  obtain ⟨⟨⟨⟨ho, hn⟩, hvars⟩, hdirs⟩, hsel⟩ := hd
  unfold formatter.FormatOperationDefinition
  refine post_bind (post_mono (h.WriteWord_clean _ ho) fun f1 h1 => ?_)
  refine post_bind (post_mono (?_ : Post _ Clean) fun f2 h2 => ?_)
  · exact post_ite (fun _ => h1.WriteWord_clean _ hn) fun _ => post_ok h1
  refine post_bind (post_mono (h2.FormatVariableDefinitionList_clean quote hq _ hvars) fun f3 h3 => ?_)
  refine post_bind (post_mono (Clean.FormatDirectiveList_clean quote hq _ f3 h3 hdirs) fun f4 h4 => ?_)
  exact post_ite (fun _ => post_bind (post_mono (h4.FormatSelectionSet_clean quote hq _ hsel)
    fun f5 h5 => post_ok h5.WriteNewline_clean)) fun _ => post_ok h4

theorem Clean.FormatOperationList_clean (quote : String → String)
    (hq : ∀ s, noNewline (quote s) = true) :
    ∀ (l : List OperationDefinition) (f : formatter), Clean f →
      l.all OperationDefinition.newlineFree = true →
      Post (f.FormatOperationList quote l) Clean
  | [], f, h, _ => post_ok h
  | d :: rest, f, h, hl => by
    simp only [List.all_cons, Bool.and_eq_true] at hl
    unfold formatter.FormatOperationList
    exact post_bind (post_mono (h.FormatOperationDefinition_clean quote hq d hl.1) fun f1 h1 =>
      Clean.FormatOperationList_clean quote hq rest f1 h1 hl.2)

theorem Clean.FormatFragmentDefinition_clean (quote : String → String)
    (hq : ∀ s, noNewline (quote s) = true) {f : formatter} (h : Clean f)
    (d : FragmentDefinition) (hd : d.newlineFree = true) :
    Post (f.FormatFragmentDefinition quote d) Clean := by
  simp only [FragmentDefinition.newlineFree, Bool.and_eq_true] at hd
  obtain ⟨⟨⟨⟨hn, hvars⟩, ht⟩, hdirs⟩, hsel⟩ := hd
  unfold formatter.FormatFragmentDefinition
  refine post_bind (post_mono (h.WriteWord_clean _ (by decide)) fun f1 h1 => ?_)
  refine post_bind (post_mono (h1.WriteWord_clean _ hn) fun f2 h2 => ?_)
  refine post_bind (post_mono (h2.FormatVariableDefinitionList_clean quote hq _ hvars) fun f3 h3 => ?_)
  refine post_bind (post_mono (h3.WriteWord_clean _ (by decide)) fun f4 h4 => ?_)
  refine post_bind (post_mono (h4.WriteWord_clean _ ht) fun f5 h5 => ?_)
  refine post_bind (post_mono (Clean.FormatDirectiveList_clean quote hq _ f5 h5 hdirs) fun f6 h6 => ?_)
  exact post_ite (fun _ => post_bind (post_mono (h6.FormatSelectionSet_clean quote hq _ hsel)
    fun f7 h7 => post_ok h7.WriteNewline_clean)) fun _ => post_ok h6

theorem Clean.FormatFragmentDefinitionList_clean (quote : String → String)
    (hq : ∀ s, noNewline (quote s) = true) :
    ∀ (l : List FragmentDefinition) (f : formatter), Clean f →
      l.all FragmentDefinition.newlineFree = true →
      Post (f.FormatFragmentDefinitionList quote l) Clean
  | [], f, h, _ => post_ok h
  | d :: rest, f, h, hl => by
    simp only [List.all_cons, Bool.and_eq_true] at hl
    unfold formatter.FormatFragmentDefinitionList
    exact post_bind (post_mono (h.FormatFragmentDefinition_clean quote hq d hl.1) fun f1 h1 =>
      Clean.FormatFragmentDefinitionList_clean quote hq rest f1 h1 hl.2)

theorem Clean.FormatQueryDocument_clean (quote : String → String)
    (hq : ∀ s, noNewline (quote s) = true) {f : formatter} (h : Clean f)
    (doc : Option QueryDocument) (hd : newlineFreeDocument doc = true) :
    Post (f.FormatQueryDocument quote doc) Clean := by
  cases doc with
  | none => exact post_ok h
  | some doc =>
    simp only [newlineFreeDocument, Bool.and_eq_true] at hd
    unfold formatter.FormatQueryDocument
    exact post_bind (post_mono (Clean.FormatOperationList_clean quote hq _ f h hd.1) fun f1 h1 =>
      Clean.FormatFragmentDefinitionList_clean quote hq _ f1 h1 hd.2)

theorem sampleQuote_noNewline (s : String) : noNewline (sampleQuote s) = true := by
  simp only [noNewline, sampleQuote, String.data_append, List.all_append, Bool.and_eq_true,
    List.all_eq_true, List.mem_flatMap]
  refine ⟨⟨by decide, ?_⟩, by decide⟩
  rintro c ⟨d, _, hc⟩
  split at hc
  · rcases List.mem_cons.mp hc with rfl | hc
    · decide
    · rcases List.mem_cons.mp hc with rfl | hc
      · decide
      · cases hc
  · rcases List.mem_cons.mp hc with rfl | hc
    · simpa using ‹¬ _›
    · cases hc

theorem stringQuery_output :
    formatted sampleQuote "" [.WithMinification] (some stringQuery) =
      .ok "query\x7ba(s:\x22x\\ny\x22)\x7d" := by
  decide!


/-! ## The readable and the minified run write the same text up to white space and commas -/

theorem squeeze_empty : squeeze "" = "" := rfl

theorem squeeze_append (a b : String) : squeeze (a ++ b) = squeeze a ++ squeeze b := by
  apply String.ext
  simp [squeeze, String.data_append]

theorem filter_dropWhile_isSpace (l : List Char) :
    (l.dropWhile isSpace).filter (fun c => !(isSpace c || c == ',')) =
      l.filter (fun c => !(isSpace c || c == ',')) := by
  induction l with
  | nil => rfl
  | cons c rest ih =>
    cases h : isSpace c
    · simp [List.dropWhile, h]
    · simpa [List.dropWhile, h] using ih

theorem squeeze_TrimSpace (s : String) : squeeze (TrimSpace s) = squeeze s := by
  apply String.ext
  simp only [squeeze, TrimSpace, List.filter_reverse, filter_dropWhile_isSpace, List.reverse_reverse]

theorem squeeze_Repeat (u : String) (h : squeeze u = "") : ∀ n, squeeze (Repeat u n) = ""
  | 0 => rfl
  | n + 1 => by rw [Repeat, squeeze_append, h, squeeze_Repeat u h n]; rfl

theorem squeeze_Join (sep : String) (h : squeeze sep = "") :
    ∀ l : List String, squeeze (Join l sep) = squeezeAll l
  | [] => rfl
  | [a] => by simp [Join, squeezeAll]
  | a :: b :: rest => by
    rw [Join, squeeze_append, squeeze_append, h, squeeze_Join sep h (b :: rest)]
    simp [squeezeAll]

theorem post2_ok {a b : formatter} {Q : formatter → formatter → Prop} (h : Q a b) :
    Post2 (.ok a) (.ok b) Q := by
  intro f' g' e₁ e₂; cases e₁; cases e₂; exact h

theorem post2_error_left {e : Fault} {y : Except Fault formatter}
    {Q : formatter → formatter → Prop} : Post2 (.error e) y Q := by
  intro f' g' e₁; cases e₁

theorem post2_error_right {e : Fault} {x : Except Fault formatter}
    {Q : formatter → formatter → Prop} : Post2 x (.error e) Q := by
  intro f' g' _ e₂; cases e₂

theorem post2_mono {x y : Except Fault formatter} {P Q : formatter → formatter → Prop}
    (h : Post2 x y P) (hPQ : ∀ a b, P a b → Q a b) : Post2 x y Q :=
  fun f' g' e₁ e₂ => hPQ f' g' (h f' g' e₁ e₂)

theorem post2_bind {x y : Except Fault formatter} {k k' : formatter → Except Fault formatter}
    {Q : formatter → formatter → Prop} (h : Post2 x y (fun a b => Post2 (k a) (k' b) Q)) :
    Post2 (x >>= k) (y >>= k') Q := by
  intro f' g' e₁ e₂
  obtain ⟨a, h₁, h₂⟩ := bind_eq_ok.mp e₁
  obtain ⟨b, h₃, h₄⟩ := bind_eq_ok.mp e₂
  exact h a b h₁ h₃ f' g' h₂ h₄

theorem post2_bind_left {x y : Except Fault formatter} {k : formatter → Except Fault formatter}
    {Q : formatter → formatter → Prop} (h : Post x (fun a => Post2 (k a) y Q)) :
    Post2 (x >>= k) y Q := by
  intro f' g' e₁ e₂
  obtain ⟨a, h₁, h₂⟩ := bind_eq_ok.mp e₁
  exact h a h₁ f' g' h₂ e₂

theorem post2_bind_right {x y : Except Fault formatter} {k : formatter → Except Fault formatter}
    {Q : formatter → formatter → Prop} (h : Post y (fun b => Post2 x (k b) Q)) :
    Post2 x (y >>= k) Q := by
  intro f' g' e₁ e₂
  obtain ⟨b, h₁, h₂⟩ := bind_eq_ok.mp e₂
  exact h b h₁ f' g' e₁ h₂

theorem post2_bind_val {α β : Type} {x : Except Fault α} {y : Except Fault β}
    {k : α → Except Fault formatter} {k' : β → Except Fault formatter}
    {Q : formatter → formatter → Prop}
    (h : ∀ a b, x = .ok a → y = .ok b → Post2 (k a) (k' b) Q) :
    Post2 (x >>= k) (y >>= k') Q := by
  intro f' g' e₁ e₂
  obtain ⟨a, h₁, h₂⟩ := bind_eq_ok.mp e₁
  obtain ⟨b, h₃, h₄⟩ := bind_eq_ok.mp e₂
  exact h a b h₁ h₃ f' g' h₂ h₄

theorem post2_ite {c : Prop} [Decidable c] {a b a' b' : Except Fault formatter}
    {Q : formatter → formatter → Prop} (ha : c → Post2 a a' Q) (hb : ¬c → Post2 b b' Q) :
    Post2 (if c then a else b) (if c then a' else b') Q := by
  split
  · exact ha ‹_›
  · exact hb ‹_›

theorem post2_ite_left {c : Prop} [Decidable c] {a b y : Except Fault formatter}
    {Q : formatter → formatter → Prop} (ha : c → Post2 a y Q) (hb : ¬c → Post2 b y Q) :
    Post2 (if c then a else b) y Q := by
  split
  · exact ha ‹_›
  · exact hb ‹_›

theorem post2_of_left {x : Except Fault formatter} {b : formatter}
    {Q : formatter → formatter → Prop} (h : Post x (fun a => Q a b)) : Post2 x (.ok b) Q := by
  intro f' g' e₁ e₂; cases e₂; exact h f' e₁

theorem post2_of_right {y : Except Fault formatter} {a : formatter}
    {Q : formatter → formatter → Prop} (h : Post y (fun b => Q a b)) : Post2 (.ok a) y Q := by
  intro f' g' e₁ e₂; cases e₁; exact h g' e₂

theorem post2_of_posts {x y : Except Fault formatter} {P₁ P₂ : formatter → Prop}
    {Q : formatter → formatter → Prop} (hx : Post x P₁) (hy : Post y P₂)
    (h : ∀ a b, P₁ a → P₂ b → Q a b) : Post2 x y Q :=
  fun f' g' e₁ e₂ => h f' g' (hx f' e₁) (hy g' e₂)

theorem Layout.of_config {m : Bool} {f f' : formatter} (e₁ : f'.optCompressed = f.optCompressed)
    (e₂ : f'.colonUnit = f.colonUnit) (e₃ : f'.indentUnit = f.indentUnit)
    (e₄ : f'.optArgumentSplitted = f.optArgumentSplitted)
    (e₅ : f'.optWhereLogicalOps = f.optWhereLogicalOps) : Layout m f' ↔ Layout m f :=
  ⟨fun h => ⟨e₁ ▸ h.compressed, e₂ ▸ h.colon, e₃ ▸ h.indentUnit, e₄ ▸ h.argumentSplitted,
      e₅ ▸ h.whereLogicalOps⟩,
    fun h => ⟨e₁ ▸ h.compressed, e₂ ▸ h.colon, e₃ ▸ h.indentUnit, e₄ ▸ h.argumentSplitted,
      e₅ ▸ h.whereLogicalOps⟩⟩

theorem Wrote.of_congr {m : Bool} {f₀ f f' : formatter} {X : String}
    (hc : Layout m f' ↔ Layout m f) (hw : squeeze f'.writer = squeeze f.writer) :
    Wrote m f₀ X f' ↔ Wrote m f₀ X f :=
  ⟨fun h => ⟨hc.mp h.cfg, hw ▸ h.text⟩, fun h => ⟨hc.mpr h.cfg, hw ▸ h.text⟩⟩

theorem Rel.congr_left {f f' g : formatter}
    (hc : Layout false f' ↔ Layout false f) (hw : squeeze f'.writer = squeeze f.writer) :
    Rel f' g ↔ Rel f g :=
  ⟨fun h => ⟨hc.mp h.left, h.right, hw ▸ h.text⟩, fun h => ⟨hc.mpr h.left, h.right, hw ▸ h.text⟩⟩

theorem Rel.congr_right {f g g' : formatter}
    (hc : Layout true g' ↔ Layout true g) (hw : squeeze g'.writer = squeeze g.writer) :
    Rel f g' ↔ Rel f g :=
  ⟨fun h => ⟨h.left, hc.mp h.right, hw ▸ h.text⟩, fun h => ⟨h.left, hc.mpr h.right, hw ▸ h.text⟩⟩

theorem squeeze_WriteNewline (f : formatter) : squeeze f.WriteNewline.writer = squeeze f.writer := by
  have e : squeeze "\n" = "" := rfl
  cases h : f.optCompressed <;>
    simp [formatter.WriteNewline, formatter.writeString, h, squeeze_append, e]

theorem Layout_WriteNewline (m : Bool) (f : formatter) :
    Layout m f.WriteNewline ↔ Layout m f := by
  cases h : f.optCompressed <;>
    exact Layout.of_config (by simp [formatter.WriteNewline, formatter.writeString, h])
      (by simp [formatter.WriteNewline, formatter.writeString, h])
      (by simp [formatter.WriteNewline, formatter.writeString, h])
      (by simp [formatter.WriteNewline, formatter.writeString, h])
      (by simp [formatter.WriteNewline, formatter.writeString, h])

theorem Layout_NoPadding (m : Bool) (f : formatter) : Layout m f.NoPadding ↔ Layout m f :=
  Layout.of_config rfl rfl rfl rfl rfl

theorem Layout_NeedPadding (m : Bool) (f : formatter) : Layout m f.NeedPadding ↔ Layout m f :=
  Layout.of_config rfl rfl rfl rfl rfl

theorem Layout_IncrementIndent (m : Bool) (f : formatter) :
    Layout m f.IncrementIndent ↔ Layout m f :=
  Layout.of_config rfl rfl rfl rfl rfl

theorem Layout_DecrementIndent (m : Bool) (f : formatter) :
    Layout m f.DecrementIndent ↔ Layout m f :=
  Layout.of_config rfl rfl rfl rfl rfl

@[simp] theorem Wrote_WriteNewline (m : Bool) (f₀ f : formatter) (X : String) :
    Wrote m f₀ X f.WriteNewline ↔ Wrote m f₀ X f :=
  Wrote.of_congr (Layout_WriteNewline m f) (squeeze_WriteNewline f)

@[simp] theorem Rel_WriteNewline_left (f g : formatter) : Rel f.WriteNewline g ↔ Rel f g :=
  Rel.congr_left (Layout_WriteNewline false f) (squeeze_WriteNewline f)

@[simp] theorem Rel_WriteNewline_right (f g : formatter) : Rel f g.WriteNewline ↔ Rel f g :=
  Rel.congr_right (Layout_WriteNewline true g) (squeeze_WriteNewline g)

@[simp] theorem Wrote_NoPadding (m : Bool) (f₀ f : formatter) (X : String) :
    Wrote m f₀ X f.NoPadding ↔ Wrote m f₀ X f :=
  Wrote.of_congr (Layout_NoPadding m f) rfl

@[simp] theorem Rel_NoPadding_left (f g : formatter) : Rel f.NoPadding g ↔ Rel f g :=
  Rel.congr_left (Layout_NoPadding false f) rfl

@[simp] theorem Rel_NoPadding_right (f g : formatter) : Rel f g.NoPadding ↔ Rel f g :=
  Rel.congr_right (Layout_NoPadding true g) rfl

@[simp] theorem Wrote_NeedPadding (m : Bool) (f₀ f : formatter) (X : String) :
    Wrote m f₀ X f.NeedPadding ↔ Wrote m f₀ X f :=
  Wrote.of_congr (Layout_NeedPadding m f) rfl

@[simp] theorem Rel_NeedPadding_left (f g : formatter) : Rel f.NeedPadding g ↔ Rel f g :=
  Rel.congr_left (Layout_NeedPadding false f) rfl

@[simp] theorem Rel_NeedPadding_right (f g : formatter) : Rel f g.NeedPadding ↔ Rel f g :=
  Rel.congr_right (Layout_NeedPadding true g) rfl

@[simp] theorem Wrote_IncrementIndent (m : Bool) (f₀ f : formatter) (X : String) :
    Wrote m f₀ X f.IncrementIndent ↔ Wrote m f₀ X f :=
  Wrote.of_congr (Layout_IncrementIndent m f) rfl

@[simp] theorem Rel_IncrementIndent_left (f g : formatter) : Rel f.IncrementIndent g ↔ Rel f g :=
  Rel.congr_left (Layout_IncrementIndent false f) rfl

@[simp] theorem Rel_IncrementIndent_right (f g : formatter) : Rel f g.IncrementIndent ↔ Rel f g :=
  Rel.congr_right (Layout_IncrementIndent true g) rfl

@[simp] theorem Wrote_DecrementIndent (m : Bool) (f₀ f : formatter) (X : String) :
    Wrote m f₀ X f.DecrementIndent ↔ Wrote m f₀ X f :=
  Wrote.of_congr (Layout_DecrementIndent m f) rfl

@[simp] theorem Rel_DecrementIndent_left (f g : formatter) : Rel f.DecrementIndent g ↔ Rel f g :=
  Rel.congr_left (Layout_DecrementIndent false f) rfl

@[simp] theorem Rel_DecrementIndent_right (f g : formatter) : Rel f g.DecrementIndent ↔ Rel f g :=
  Rel.congr_right (Layout_DecrementIndent true g) rfl

theorem Wrote.start {m : Bool} {f : formatter} (h : Layout m f) : Wrote m f "" f :=
  ⟨h, by simp⟩

theorem Wrote.cast_text {m : Bool} {f₀ f : formatter} {X Y : String}
    (h : Wrote m f₀ X f) (e : X = Y) : Wrote m f₀ Y f := e ▸ h

theorem Rel.of_wrote {f g f' g' : formatter} {X : String} (h : Rel f g)
    (hl : Wrote false f X f') (hr : Wrote true g X g') : Rel f' g' :=
  ⟨hl.cfg, hr.cfg, by rw [hl.text, hr.text, h.text]⟩

theorem Wrote.WriteString_wrote {m : Bool} {f₀ f : formatter} {X : String}
    (h : Wrote m f₀ X f) (s : String) :
    Post (f.WriteString s) (Wrote m f₀ (X ++ squeeze s)) := by
  intro f' e
  rw [WriteString_eq] at e
  split at e
  · cases e
  · cases e
    refine ⟨⟨h.cfg.compressed, h.cfg.colon, h.cfg.indentUnit, h.cfg.argumentSplitted,
      h.cfg.whereLogicalOps⟩, ?_⟩
    show squeeze (f.writer ++ _ ++ _ ++ s) = _
    rw [squeeze_append, squeeze_append, squeeze_append, h.text]
    have e₁ : squeeze (if f.lineHead = true ∧ f.optCompressed = false then
        Repeat f.indentUnit f.indent.toNat else "") = "" := by
      split
      · next hc => exact squeeze_Repeat _ (h.cfg.indentUnit (h.cfg.compressed ▸ hc.2)) _
      · rfl
    have e₂ : squeeze (if f.lineHead = false ∧ f.padNext = true ∧ f.optCompressed = false then
        " " else "") = "" := by
      split <;> rfl
    rw [e₁, e₂]
    simp [String.append_assoc]

theorem Wrote.WriteWord_wrote {m : Bool} {f₀ f : formatter} {X : String}
    (h : Wrote m f₀ X f) (s : String) :
    Post (f.WriteWord s) (Wrote m f₀ (X ++ squeeze s)) := by
  intro f' e
  rw [WriteWord_eq] at e
  split at e
  · cases e
  · cases e
    refine ⟨⟨h.cfg.compressed, h.cfg.colon, h.cfg.indentUnit, h.cfg.argumentSplitted,
      h.cfg.whereLogicalOps⟩, ?_⟩
    show squeeze (f.writer ++ _ ++ _ ++ TrimSpace s) = _
    rw [squeeze_append, squeeze_append, squeeze_append, h.text, squeeze_TrimSpace]
    have e₁ : squeeze (if f.lineHead = true ∧ f.optCompressed = false then
        Repeat f.indentUnit f.indent.toNat else "") = "" := by
      split
      · next hc => exact squeeze_Repeat _ (h.cfg.indentUnit (h.cfg.compressed ▸ hc.2)) _
      · rfl
    have e₂ : squeeze (if f.lineHead = false ∧ f.padNext = true then " " else "") = "" := by
      split <;> rfl
    rw [e₁, e₂]
    simp [String.append_assoc]

/-- The two writes put texts that agree up to white space and commas. -/
theorem Rel.write {f g : formatter} (h : Rel f g) {x y : Except Fault formatter} {X Y : String}
    (hx : Post x (Wrote false f X)) (hy : Post y (Wrote true g Y)) (e : X = Y) :
    Post2 x y Rel :=
  post2_of_posts hx hy fun _ _ h₁ h₂ => h.of_wrote h₁ (e ▸ h₂)

theorem squeeze_list_text {c : Bool} {val : List String} {s : String}
    (e : (if c = true then Except.ok ("[" ++ Join val "," ++ "]")
      else .ok ("[ " ++ Join val ", " ++ " ]") : Except Fault String) = .ok s) :
    squeeze s = "[" ++ squeezeAll val ++ "]" := by
  have e₁ : squeeze "[" = "[" := rfl
  have e₂ : squeeze "]" = "]" := rfl
  have e₃ : squeeze "[ " = "[" := rfl
  have e₄ : squeeze " ]" = "]" := rfl
  split at e <;> cases e
  · rw [squeeze_append, squeeze_append, squeeze_Join "," rfl, e₁, e₂]
  · rw [squeeze_append, squeeze_append, squeeze_Join ", " rfl, e₃, e₄]

theorem squeeze_object_text {c : Bool} {val : List String} {s : String}
    (e : (if c = true then Except.ok ("\x7b" ++ Join val " " ++ "\x7d")
      else .ok ("\x7b " ++ Join val ", " ++ " \x7d") : Except Fault String) = .ok s) :
    squeeze s = "\x7b" ++ squeezeAll val ++ "\x7d" := by
  have e₁ : squeeze "\x7b" = "\x7b" := rfl
  have e₂ : squeeze "\x7d" = "\x7d" := rfl
  have e₃ : squeeze "\x7b " = "\x7b" := rfl
  have e₄ : squeeze " \x7d" = "\x7d" := rfl
  split at e <;> cases e
  · rw [squeeze_append, squeeze_append, squeeze_Join " " rfl, e₁, e₂]
  · rw [squeeze_append, squeeze_append, squeeze_Join ", " rfl, e₃, e₄]

mutual
theorem GetValueString.value_squeeze (quote : String → String) (f g : formatter)
    (hu : squeeze f.colonUnit = squeeze g.colonUnit) :
    ∀ (v : Value) (s t : String), GetValueString.value quote f v = .ok s →
      GetValueString.value quote g v = .ok t → squeeze s = squeeze t
  | .mk raw children kind, s, t, e₁, e₂ => by
    cases kind <;> simp only [GetValueString.value] at e₁ e₂
    case ListValue =>
      obtain ⟨val, h₁, h₂⟩ := bind_eq_ok.mp e₁
      obtain ⟨val', h₃, h₄⟩ := bind_eq_ok.mp e₂
      rw [squeeze_list_text h₂, squeeze_list_text h₄,
        GetValueString.listLoop_squeeze quote f g hu children val val' h₁ h₃]
    case ObjectValue =>
      obtain ⟨val, h₁, h₂⟩ := bind_eq_ok.mp e₁
      obtain ⟨val', h₃, h₄⟩ := bind_eq_ok.mp e₂
      rw [squeeze_object_text h₂, squeeze_object_text h₄,
        GetValueString.objectLoop_squeeze quote f g hu children val val' h₁ h₃]
    case unsupported => cases e₁
    all_goals cases e₁; cases e₂; rfl
termination_by structural v => v
theorem GetValueString_squeeze (quote : String → String) (f g : formatter)
    (hu : squeeze f.colonUnit = squeeze g.colonUnit) :
    ∀ (v : Option Value) (s t : String), GetValueString quote f v = .ok s →
      GetValueString quote g v = .ok t → squeeze s = squeeze t
  | none, s, t, e₁, e₂ => by
    simp only [GetValueString] at e₁ e₂
    cases e₁; cases e₂; rfl
  | some v, s, t, e₁, e₂ => by
    simp only [GetValueString] at e₁ e₂
    exact GetValueString.value_squeeze quote f g hu v s t e₁ e₂
termination_by structural v => v
theorem GetValueString.listElem_squeeze (quote : String → String) (f g : formatter)
    (hu : squeeze f.colonUnit = squeeze g.colonUnit) :
    ∀ (c : Option ChildValue) (s t : String), GetValueString.listElem quote f c = .ok s →
      GetValueString.listElem quote g c = .ok t → squeeze s = squeeze t
  | none, s, t, e₁, _ => by
    simp only [GetValueString.listElem] at e₁
    cases e₁
  | some (.mk _ v), s, t, e₁, e₂ => by
    simp only [GetValueString.listElem] at e₁ e₂
    exact GetValueString_squeeze quote f g hu v s t e₁ e₂
termination_by structural c => c
theorem GetValueString.objectElem_squeeze (quote : String → String) (f g : formatter)
    (hu : squeeze f.colonUnit = squeeze g.colonUnit) :
    ∀ (c : Option ChildValue) (s t : String), GetValueString.objectElem quote f c = .ok s →
      GetValueString.objectElem quote g c = .ok t → squeeze s = squeeze t
  | none, s, t, e₁, _ => by
    simp only [GetValueString.objectElem] at e₁
    cases e₁
  | some (.mk name v), s, t, e₁, e₂ => by
    simp only [GetValueString.objectElem] at e₁ e₂
    obtain ⟨s', h₁, h₂⟩ := bind_eq_ok.mp e₁
    obtain ⟨t', h₃, h₄⟩ := bind_eq_ok.mp e₂
    cases h₂; cases h₄
    rw [squeeze_append, squeeze_append, squeeze_append, squeeze_append, hu,
      GetValueString_squeeze quote f g hu v s' t' h₁ h₃]
termination_by structural c => c
theorem GetValueString.listLoop_squeeze (quote : String → String) (f g : formatter)
    (hu : squeeze f.colonUnit = squeeze g.colonUnit) :
    ∀ (l : List (Option ChildValue)) (val val' : List String),
      GetValueString.listLoop quote f l = .ok val →
      GetValueString.listLoop quote g l = .ok val' → squeezeAll val = squeezeAll val'
  | [], val, val', e₁, e₂ => by
    simp only [GetValueString.listLoop] at e₁ e₂
    cases e₁; cases e₂; rfl
  | c :: rest, val, val', e₁, e₂ => by
    simp only [GetValueString.listLoop] at e₁ e₂
    obtain ⟨s, h₁, h₂⟩ := bind_eq_ok.mp e₁
    obtain ⟨v₁, h₃, h₄⟩ := bind_eq_ok.mp h₂
    obtain ⟨t, h₅, h₆⟩ := bind_eq_ok.mp e₂
    obtain ⟨v₂, h₇, h₈⟩ := bind_eq_ok.mp h₆
    cases h₄; cases h₈
    rw [squeezeAll, squeezeAll, GetValueString.listElem_squeeze quote f g hu c s t h₁ h₅,
      GetValueString.listLoop_squeeze quote f g hu rest v₁ v₂ h₃ h₇]
termination_by structural l => l
theorem GetValueString.objectLoop_squeeze (quote : String → String) (f g : formatter)
    (hu : squeeze f.colonUnit = squeeze g.colonUnit) :
    ∀ (l : List (Option ChildValue)) (val val' : List String),
      GetValueString.objectLoop quote f l = .ok val →
      GetValueString.objectLoop quote g l = .ok val' → squeezeAll val = squeezeAll val'
  | [], val, val', e₁, e₂ => by
    simp only [GetValueString.objectLoop] at e₁ e₂
    cases e₁; cases e₂; rfl
  | c :: rest, val, val', e₁, e₂ => by
    simp only [GetValueString.objectLoop] at e₁ e₂
    obtain ⟨s, h₁, h₂⟩ := bind_eq_ok.mp e₁
    obtain ⟨v₁, h₃, h₄⟩ := bind_eq_ok.mp h₂
    obtain ⟨t, h₅, h₆⟩ := bind_eq_ok.mp e₂
    obtain ⟨v₂, h₇, h₈⟩ := bind_eq_ok.mp h₆
    cases h₄; cases h₈
    rw [squeezeAll, squeezeAll, GetValueString.objectElem_squeeze quote f g hu c s t h₁ h₅,
      GetValueString.objectLoop_squeeze quote f g hu rest v₁ v₂ h₃ h₇]
termination_by structural l => l
end

theorem Wrote.NoPadding_wrote {m : Bool} {f₀ f : formatter} {X : String} (h : Wrote m f₀ X f) :
    Wrote m f₀ X f.NoPadding := (Wrote_NoPadding m f₀ f X).mpr h

theorem Wrote.NeedPadding_wrote {m : Bool} {f₀ f : formatter} {X : String} (h : Wrote m f₀ X f) :
    Wrote m f₀ X f.NeedPadding := (Wrote_NeedPadding m f₀ f X).mpr h

theorem Wrote.WriteNewline_wrote {m : Bool} {f₀ f : formatter} {X : String} (h : Wrote m f₀ X f) :
    Wrote m f₀ X f.WriteNewline := (Wrote_WriteNewline m f₀ f X).mpr h

theorem Wrote.IncrementIndent_wrote {m : Bool} {f₀ f : formatter} {X : String} (h : Wrote m f₀ X f) :
    Wrote m f₀ X f.IncrementIndent := (Wrote_IncrementIndent m f₀ f X).mpr h

theorem Wrote.DecrementIndent_wrote {m : Bool} {f₀ f : formatter} {X : String} (h : Wrote m f₀ X f) :
    Wrote m f₀ X f.DecrementIndent := (Wrote_DecrementIndent m f₀ f X).mpr h

/-- A write of a text that is `Y` up to white space and commas. -/
theorem Wrote.writes {m : Bool} {f₀ f : formatter} {X : String} (h : Wrote m f₀ X f)
    (s Y : String) (e : squeeze s = Y) : Post (f.WriteString s) (Wrote m f₀ (X ++ Y)) :=
  e ▸ h.WriteString_wrote s

/-- A write of a word that is `Y` up to white space and commas. -/
theorem Wrote.writesWord {m : Bool} {f₀ f : formatter} {X : String} (h : Wrote m f₀ X f)
    (s Y : String) (e : squeeze s = Y) : Post (f.WriteWord s) (Wrote m f₀ (X ++ Y)) :=
  e ▸ h.WriteWord_wrote s

theorem squeeze_brackets (val : List String) :
    squeeze ("[" ++ Join val "," ++ "]") = "[" ++ squeezeAll val ++ "]" :=
  squeeze_list_text (c := true) (if_pos rfl)

theorem squeeze_brackets_spaced (val : List String) :
    squeeze ("[ " ++ Join val ", " ++ " ]") = "[" ++ squeezeAll val ++ "]" :=
  squeeze_list_text (c := false) (if_neg (by decide))

theorem objectLoop_single (quote : String → String) (g : formatter) (c : Option ChildValue)
    (val : List String) (e : GetValueString.objectLoop quote g [c] = .ok val) :
    ∃ t, GetValueString.objectElem quote g c = .ok t ∧ val = [t] := by
  simp only [GetValueString.objectLoop] at e
  obtain ⟨t, h₁, h₂⟩ := bind_eq_ok.mp e
  cases h₂
  exact ⟨t, h₁, rfl⟩

theorem objectLoop_cons (quote : String → String) (g : formatter) (c : Option ChildValue)
    (rest : List (Option ChildValue)) (val : List String)
    (e : GetValueString.objectLoop quote g (c :: rest) = .ok val) :
    ∃ t val', GetValueString.objectElem quote g c = .ok t ∧
      GetValueString.objectLoop quote g rest = .ok val' ∧ val = t :: val' := by
  simp only [GetValueString.objectLoop] at e
  obtain ⟨t, h₁, h₂⟩ := bind_eq_ok.mp e
  obtain ⟨val', h₃, h₄⟩ := bind_eq_ok.mp h₂
  cases h₄
  exact ⟨t, val', h₁, h₃, rfl⟩

theorem Wrote.FormatChildValue_wrote (quote : String → String) (g : formatter)
    (hg : squeeze g.colonUnit = ":") {m : Bool} {f₀ f : formatter} {X : String}
    (h : Wrote m f₀ X f) (c : ChildValue) (t : String)
    (et : GetValueString.objectElem quote g (some c) = .ok t) :
    Post (f.FormatChildValue quote c) (Wrote m f₀ (X ++ squeeze t)) := by
  obtain ⟨name, v⟩ := c
  simp only [GetValueString.objectElem] at et
  obtain ⟨t', h₁, h₂⟩ := bind_eq_ok.mp et
  cases h₂
  unfold formatter.FormatChildValue
  refine post_bind_val fun s es => h.writes _ _ ?_
  simp only [ChildValue.Name, ChildValue.Value] at es ⊢
  rw [squeeze_append, squeeze_append, squeeze_append, squeeze_append, h.cfg.colon, hg,
    GetValueString_squeeze quote f g (h.cfg.colon.trans hg.symm) v s t' es h₁]

mutual
theorem Wrote.FormatWhereLogOpChildValue_wrote (quote : String → String) (g : formatter)
    (hg : squeeze g.colonUnit = ":") {m : Bool} {f₀ : formatter} :
    ∀ (c : ChildValue) (X : String) (f : formatter), Wrote m f₀ X f → ∀ t : String,
      GetValueString.objectElem quote g (some c) = .ok t →
      Post (f.FormatWhereLogOpChildValue quote c) (Wrote m f₀ (X ++ squeeze t))
  | .mk name value, X, f, h, t, et => by
    simp only [GetValueString.objectElem] at et
    obtain ⟨tv, etv, e₂⟩ := bind_eq_ok.mp et
    cases e₂
    have key : X ++ squeeze (name ++ g.colonUnit ++ tv) = X ++ squeeze name ++ ":" ++ squeeze tv := by
      rw [squeeze_append, squeeze_append, hg]
      simp only [String.append_assoc]
    rw [key]
    unfold formatter.FormatWhereLogOpChildValue
    refine post_bind (post_mono (h.WriteString_wrote name) fun f1 h1 => ?_)
    refine post_bind (post_mono (h1.NoPadding_wrote.writes _ ":" h1.cfg.colon) fun f2 h2 => ?_)
    cases value with
    | none =>
      simp only [GetValueString] at etv
      cases etv
      exact h2.WriteString_wrote _
    | some v =>
      obtain ⟨raw, children, kind⟩ := v
      cases kind <;> simp only [GetValueString, GetValueString.value] at etv <;> simp only
      case unsupported => exact post_error
      case ListValue =>
        obtain ⟨val', h₃, h₄⟩ := bind_eq_ok.mp etv
        refine post_bind_val fun val ev => ?_
        have e := GetValueString.listLoop_squeeze quote f2 g (h2.cfg.colon.trans hg.symm)
          children val val' ev h₃
        rw [squeeze_list_text h₄, ← e]
        refine post_ite (fun _ => h2.writes _ _ (squeeze_brackets val)) fun _ => ?_
        exact post_bind (post_mono (h2.writes _ _ (squeeze_brackets_spaced val)) fun f3 h3 =>
          post_ok h3.WriteNewline_wrote.NeedPadding_wrote)
      case ObjectValue =>
        obtain ⟨val', h₃, h₄⟩ := bind_eq_ok.mp etv
        rw [squeeze_object_text h₄]
        match children, h₃ with
        | [], h₃ =>
          simp only [GetValueString.objectLoop] at h₃
          cases h₃
          have e : ∀ Y : String, Y ++ "\x7b\x7d" = Y ++ ("\x7b" ++ squeezeAll [] ++ "\x7d") := by
            intro Y
            congr 1
          simp only
          refine post_bind (post_mono (h2.writes _ "\x7b\x7d" rfl) fun f3 h3 => ?_)
          exact post_ite (fun _ => post_ok (h3.cast_text (e _)).WriteNewline_wrote.NeedPadding_wrote)
            (fun _ => post_ok (h3.cast_text (e _)))
        | [none], _ => exact post_error
        | [some c], h₃ =>
          obtain ⟨tc, etc, rfl⟩ := objectLoop_single quote g _ _ h₃
          have e : ∀ Y : String, Y ++ "\x7b" ++ squeeze tc ++ "\x7d" =
              Y ++ ("\x7b" ++ squeezeAll [tc] ++ "\x7d") := by
            intro Y
            simp only [squeezeAll, String.append_assoc, String.append_empty]
          simp only
          refine post_ite (fun _ => ?_) fun _ => post_ite (fun _ => ?_) fun _ => ?_
          · refine post_bind (post_mono (h2.writes _ "\x7b" rfl) fun f3 h3 => ?_)
            refine post_bind (post_mono
              (Wrote.FormatWhereLogOpChildValue_wrote quote g hg c _ _
                h3.WriteNewline_wrote.NeedPadding_wrote.IncrementIndent_wrote tc etc)
              fun f4 h4 => ?_)
            exact post_bind (post_mono (h4.DecrementIndent_wrote.writes _ "\x7d" rfl) fun f5 h5 =>
              post_ok (h5.cast_text (e _)).WriteNewline_wrote.NeedPadding_wrote)
          · refine post_bind (post_mono (h2.writes _ "\x7b" rfl) fun f3 h3 => ?_)
            refine post_bind (post_mono (h3.FormatChildValue_wrote quote g hg c tc etc)
              fun f4 h4 => ?_)
            exact post_bind (post_mono (h4.writes _ "\x7d" rfl) fun f5 h5 =>
              post_ok (h5.cast_text (e _)).NeedPadding_wrote)
          · refine post_bind (post_mono (h2.writes _ "\x7b" rfl) fun f3 h3 => ?_)
            refine post_bind (post_mono (h3.FormatChildValue_wrote quote g hg c tc etc)
              fun f4 h4 => ?_)
            exact post_bind (post_mono (h4.writes _ "\x7d" rfl) fun f5 h5 =>
              post_ok (h5.cast_text (e _)).WriteNewline_wrote.NeedPadding_wrote)
        | c₀ :: c₁ :: rest, h₃ =>
          have e : ∀ Y : String, Y ++ "\x7b" ++ squeezeAll val' ++ "\x7d" =
              Y ++ ("\x7b" ++ squeezeAll val' ++ "\x7d") := by
            intro Y
            simp only [String.append_assoc]
          simp only
          refine post_bind (post_mono (h2.writes _ "\x7b" rfl) fun f3 h3 => ?_)
          refine post_bind (post_mono
            (Wrote.whereLoop_wrote quote g hg (c₀ :: c₁ :: rest) _ _
              h3.WriteNewline_wrote.NeedPadding_wrote.IncrementIndent_wrote val' h₃)
            fun f4 h4 => ?_)
          exact post_bind (post_mono (h4.DecrementIndent_wrote.writes _ "\x7d" rfl) fun f5 h5 =>
            post_ok (h5.cast_text (e _)).WriteNewline_wrote.NeedPadding_wrote)
      all_goals cases etv; exact h2.WriteString_wrote _
termination_by structural c => c
theorem Wrote.whereLoop_wrote (quote : String → String) (g : formatter)
    (hg : squeeze g.colonUnit = ":") {m : Bool} {f₀ : formatter} :
    ∀ (l : List (Option ChildValue)) (X : String) (f : formatter), Wrote m f₀ X f →
      ∀ val : List String, GetValueString.objectLoop quote g l = .ok val →
      Post (formatter.FormatWhereLogOpChildValue.loop quote f l) (Wrote m f₀ (X ++ squeezeAll val))
  | [], X, f, h, val, ev => by
    simp only [GetValueString.objectLoop] at ev
    cases ev
    unfold formatter.FormatWhereLogOpChildValue.loop
    exact post_ok (h.cast_text (by simp [squeezeAll]))
  | none :: _, X, f, h, val, ev => by
    unfold formatter.FormatWhereLogOpChildValue.loop
    exact post_error
  | some c :: rest, X, f, h, val, ev => by
    obtain ⟨tc, val₂, etc, ev₂, rfl⟩ := objectLoop_cons quote g _ _ _ ev
    unfold formatter.FormatWhereLogOpChildValue.loop
    refine post_bind (post_mono
      (post_ite (fun _ => ?_) fun _ => ?_ : Post _ (Wrote m f₀ (X ++ squeeze tc)))
      fun f1 h1 => post_mono (Wrote.whereLoop_wrote quote g hg rest _ f1 h1 val₂ ev₂) fun f2 h2 =>
        h2.cast_text (by simp only [squeezeAll, String.append_assoc]))
    · exact Wrote.FormatWhereLogOpChildValue_wrote quote g hg c X f h tc etc
    · exact post_bind (post_mono (h.FormatChildValue_wrote quote g hg c tc etc) fun f2 h2 =>
        post_ok h2.WriteNewline_wrote.NeedPadding_wrote)
termination_by structural l => l
end

theorem Rel.NoPadding_rel {f g : formatter} (h : Rel f g) : Rel f.NoPadding g.NoPadding := by
  simpa using h

theorem Rel.NeedPadding_rel {f g : formatter} (h : Rel f g) : Rel f.NeedPadding g.NeedPadding := by
  simpa using h

theorem Rel.WriteNewline_rel {f g : formatter} (h : Rel f g) : Rel f.WriteNewline g.WriteNewline := by
  simpa using h

theorem Rel.IncrementIndent_rel {f g : formatter} (h : Rel f g) :
    Rel f.IncrementIndent g.IncrementIndent := by
  simpa using h

theorem Rel.DecrementIndent_rel {f g : formatter} (h : Rel f g) :
    Rel f.DecrementIndent g.DecrementIndent := by
  simpa using h

theorem Rel.WriteString_rel {f g : formatter} (h : Rel f g) (s t : String)
    (e : squeeze s = squeeze t) : Post2 (f.WriteString s) (g.WriteString t) Rel :=
  h.write ((Wrote.start h.left).WriteString_wrote s) ((Wrote.start h.right).WriteString_wrote t) (by rw [e])

theorem Rel.WriteWord_rel {f g : formatter} (h : Rel f g) (s t : String)
    (e : squeeze s = squeeze t) : Post2 (f.WriteWord s) (g.WriteWord t) Rel :=
  h.write ((Wrote.start h.left).WriteWord_wrote s) ((Wrote.start h.right).WriteWord_wrote t) (by rw [e])

theorem Rel.WriteWordString {f g : formatter} (h : Rel f g) (s t : String)
    (e : squeeze s = squeeze t) : Post2 (f.WriteWord s) (g.WriteString t) Rel :=
  h.write ((Wrote.start h.left).WriteWord_wrote s) ((Wrote.start h.right).WriteString_wrote t) (by rw [e])

/-- A write of white space or commas on the minified side. -/
theorem Rel.right_WriteString {f g : formatter} (h : Rel f g) (s : String)
    (e : squeeze s = "") : Post (g.WriteString s) (Rel f) :=
  post_mono ((Wrote.start h.right).WriteString_wrote s) fun g' h' =>
    ⟨h.left, h'.cfg, by rw [h'.text, e, h.text]; simp⟩

theorem post2_bind_val_left {α : Type} {x : Except Fault α} {y : Except Fault formatter}
    {k : α → Except Fault formatter} {Q : formatter → formatter → Prop}
    (h : ∀ a, x = .ok a → Post2 (k a) y Q) : Post2 (x >>= k) y Q := by
  intro f' g' e₁ e₂
  obtain ⟨a, h₁, h₂⟩ := bind_eq_ok.mp e₁
  exact h a h₁ f' g' h₂ e₂

theorem post2_map_left {x y : Except Fault formatter} {k : formatter → formatter}
    {Q : formatter → formatter → Prop} (h : Post2 x y (fun a b => Q (k a) b)) :
    Post2 (x >>= fun a => .ok (k a)) y Q := by
  intro f' g' e₁ e₂
  obtain ⟨a, h₁, h₂⟩ := bind_eq_ok.mp e₁
  cases h₂
  exact h a g' h₁ e₂

theorem Rel.FormatValue_rel (quote : String → String) {f g : formatter} (h : Rel f g)
    (v : Option Value) : Post2 (f.FormatValue quote v) (g.FormatValue quote v) Rel := by
  unfold formatter.FormatValue
  exact post2_bind_val fun s t es et =>
    h.WriteString_rel s t (GetValueString_squeeze quote f g (h.left.colon.trans h.right.colon.symm)
      v s t es et)

theorem Rel.inlineArgument_rel (quote : String → String) {f g : formatter} (h : Rel f g)
    (arg : Argument) :
    Post2 (do
        let f ← f.WriteWord arg.Name
        let f ← f.NoPadding.WriteString f.colonUnit
        f.FormatValue quote arg.Value)
      (do
        let g ← g.WriteWord arg.Name
        let g ← g.NoPadding.WriteString g.colonUnit
        g.FormatValue quote arg.Value) Rel :=
  post2_bind (post2_mono (h.WriteWord_rel _ _ rfl) fun _ _ h1 =>
    post2_bind (post2_mono
      (h1.NoPadding_rel.WriteString_rel _ _ (h1.left.colon.trans h1.right.colon.symm))
      fun _ _ h2 => h2.FormatValue_rel quote _))

theorem useLogOp_true (f : formatter) (arg : Argument)
    (e : formatter.FormatWhereArgument.useLogOp f arg = .ok true) :
    ∃ raw c kind, arg.Value = some (.mk raw [some c] kind) ∧
      whereQualifies arg.Value = true := by
  obtain ⟨name, value⟩ := arg
  have hd : Argument.derefOk ⟨name, value⟩ = true ∧
      ∃ raw c kind, value = some (.mk raw [some c] kind) := by
    unfold formatter.FormatWhereArgument.useLogOp at e
    split at e
    · cases value with
      | none => cases e
      | some v =>
        obtain ⟨raw, children, kind⟩ := v
        match children, e with
        | [], e => simp [Value.Children] at e
        | _ :: _ :: _, e => simp [Value.Children] at e
        | [none], e => simp [Value.Children] at e
        | [some c], e =>
          refine ⟨?_, raw, c, kind, rfl⟩
          simp only [Value.Children] at e
          simp only [Argument.derefOk, Value.Children]
          split at e
          · next hn =>
            rw [if_pos hn]
            cases hv : c.Value with
            | none => rw [hv] at e; cases e
            | some cv => rfl
          · next hn => rw [if_neg hn]
    · cases e
  obtain ⟨hd, raw, c, kind, hv⟩ := hd
  refine ⟨raw, c, kind, hv, ?_⟩
  rw [useLogOp_eq f _ hd] at e
  have := Except.ok.inj e
  simp only [Bool.and_eq_true] at this
  exact this.2

theorem useLogOp_minified (g : formatter) (hg : g.optWhereLogicalOps = false)
    (arg : Argument) : formatter.FormatWhereArgument.useLogOp g arg = .ok false := by
  simp [formatter.FormatWhereArgument.useLogOp, hg]

theorem doSplitted_minified (g : formatter) (hg : g.optArgumentSplitted = false)
    (l : List Argument) : formatter.FormatArgumentList.doSplitted g l = .ok false := by
  simp [formatter.FormatArgumentList.doSplitted, hg]

/-- The inline rendering of an argument writes the name, a colon and the text
of `GetValueString`, up to white space and commas. -/
theorem Wrote.inlineArgument_wrote (quote : String → String) {m : Bool} {g₀ g : formatter}
    {X : String} (h : Wrote m g₀ X g) (arg : Argument) :
    Post (do
        let g ← g.WriteWord arg.Name
        let g ← g.NoPadding.WriteString g.colonUnit
        g.FormatValue quote arg.Value)
      (fun g' => ∃ g₂ tv, Layout m g₂ ∧ GetValueString quote g₂ arg.Value = .ok tv ∧
        Wrote m g₀ (X ++ squeeze arg.Name ++ ":" ++ squeeze tv) g') := by
  refine post_bind (post_mono (h.WriteWord_wrote _) fun g1 h1 => ?_)
  refine post_bind (post_mono (h1.NoPadding_wrote.writes _ ":" h1.cfg.colon) fun g2 h2 => ?_)
  unfold formatter.FormatValue
  exact post_bind_val fun tv etv => post_mono (h2.WriteString_wrote tv) fun g' h' =>
    ⟨g2, tv, h2.cfg, etv, h'⟩

/-- The filter layout of an argument whose value has the single child `c`
writes the name, `:{`, the text of the child and `}`, up to white space and
commas. -/
theorem Wrote.FormatWhereLogOpArgument_wrote (quote : String → String) (g : formatter)
    (hg : squeeze g.colonUnit = ":") {m : Bool} {f₀ f : formatter} {X : String}
    (h : Wrote m f₀ X f) (arg : Argument) (raw : String) (c : ChildValue) (kind : ValueKind)
    (hv : arg.Value = some (.mk raw [some c] kind)) (tc : String)
    (etc : GetValueString.objectElem quote g (some c) = .ok tc) :
    Post (f.FormatWhereLogOpArgument quote arg)
      (Wrote m f₀ (X ++ squeeze arg.Name ++ ":\x7b" ++ squeeze tc ++ "\x7d")) := by
  unfold formatter.FormatWhereLogOpArgument
  refine post_bind (post_mono (h.WriteWord_wrote _) fun f1 h1 => ?_)
  refine post_bind (post_mono
    (post_ite (fun _ => h1.NoPadding_wrote.writes _ ":\x7b" rfl)
      fun _ => h1.NoPadding_wrote.writes _ ":\x7b" rfl)
    fun f2 h2 => ?_)
  have h3 := h2.NeedPadding_wrote.WriteNewline_wrote.IncrementIndent_wrote
  refine post_bind (post_mono
    (?_ : Post _ (Wrote m f₀ (X ++ squeeze arg.Name ++ ":\x7b" ++ squeeze tc)))
    fun f4 h4 => post_bind (post_mono (h4.DecrementIndent_wrote.writes _ "\x7d" rfl) fun f5 h5 =>
      post_ok h5.NeedPadding_wrote))
  rw [hv]
  exact Wrote.FormatWhereLogOpChildValue_wrote quote g hg c _ _ h3 tc etc

theorem GetValueString_single_object (quote : String → String) (g : formatter) (raw : String)
    (c : ChildValue) (tv : String)
    (e : GetValueString quote g (some (.mk raw [some c] .ObjectValue)) = .ok tv) :
    ∃ tc, GetValueString.objectElem quote g (some c) = .ok tc ∧
      squeeze tv = "\x7b" ++ squeeze tc ++ "\x7d" := by
  simp only [GetValueString, GetValueString.value] at e
  obtain ⟨val, h₁, h₂⟩ := bind_eq_ok.mp e
  obtain ⟨tc, etc, rfl⟩ := objectLoop_single quote g _ _ h₁
  refine ⟨tc, etc, ?_⟩
  rw [squeeze_object_text h₂]
  simp only [squeezeAll, String.append_empty]

/-- The filter layout of a qualifying `where` argument and its inline
rendering agree up to white space and commas. -/
theorem Rel.filterArgument (quote : String → String) {f g : formatter} (h : Rel f g)
    (arg : Argument) (raw : String) (c : ChildValue)
    (hv : arg.Value = some (.mk raw [some c] .ObjectValue)) :
    Post2 (f.FormatWhereLogOpArgument quote arg)
      (do
        let g ← g.WriteWord arg.Name
        let g ← g.NoPadding.WriteString g.colonUnit
        g.FormatValue quote arg.Value) Rel := by
  intro f' g' e₁ e₂
  obtain ⟨g₂, tv, hl, etv, hw⟩ := Wrote.inlineArgument_wrote quote (Wrote.start h.right) arg g' e₂
  rw [hv] at etv
  obtain ⟨tc, etc, htv⟩ := GetValueString_single_object quote g₂ raw c tv etv
  have hf := Wrote.FormatWhereLogOpArgument_wrote quote g₂ hl.colon (Wrote.start h.left) arg raw c _
    hv tc etc f' e₁
  refine h.of_wrote hf (hw.cast_text ?_)
  have e : ":\x7b" = ":" ++ "\x7b" := by decide
  rw [htv, e]
  simp only [String.append_assoc]

theorem Rel.FormatWhereArgument_rel (quote : String → String) {f g : formatter} (h : Rel f g)
    (arg : Argument) (ha : arg.filterIsObject = true) (hn : arg.Name = "where") :
    Post2 (f.FormatWhereArgument quote arg) (g.FormatWhereArgument quote arg) Rel := by
  unfold formatter.FormatWhereArgument
  rw [useLogOp_minified g (h.right.whereLogicalOps rfl) arg]
  simp only [bind_ok, Bool.false_eq_true, if_false]
  refine post2_bind_val_left fun b eb => ?_
  cases b
  · simp only [Bool.false_eq_true, if_false]
    exact h.inlineArgument_rel quote arg
  · simp only [if_true]
    obtain ⟨raw, c, kind, hv, hq⟩ := useLogOp_true f arg eb
    have hk : kind = .ObjectValue := by
      unfold Argument.filterIsObject at ha
      rw [hv] at ha hq
      simpa [hn, hq, Value.Kind] using ha
    subst hk
    exact h.filterArgument quote arg raw c hv

theorem Rel.FormatArgument_rel (quote : String → String) {f g : formatter} (h : Rel f g)
    (arg : Argument) (ha : arg.filterIsObject = true) :
    Post2 (f.FormatArgument quote arg) (g.FormatArgument quote arg) Rel := by
  unfold formatter.FormatArgument
  exact post2_ite (fun hn => h.FormatWhereArgument_rel quote arg ha hn)
    fun _ => h.inlineArgument_rel quote arg

/-- The separator after an argument or a selection on the minified side: a
space when more follow. -/
theorem Rel.right_separator {f g : formatter} (h : Rel f g) (more : Bool) :
    Post (if more = true then
        if g.optCompressed = true then g.NoPadding.WriteString " "
        else g.NoPadding.WriteWord ","
      else .ok g) (Rel f) := by
  refine post_ite (fun _ => ?_) fun _ => post_ok h
  rw [if_pos (h.right.compressed)]
  exact Rel.right_WriteString (by simpa using h) " " rfl

theorem Rel.splitInline (quote : String → String) :
    ∀ (l : List Argument) (f g : formatter), Rel f g → l.all Argument.filterIsObject = true →
      Post2 (formatter.FormatArgumentList.splitLoop quote f l)
        (formatter.FormatArgumentList.inlineLoop quote g l) Rel
  | [], f, g, h, _ => post2_ok h
  | arg :: rest, f, g, h, hl => by
    simp only [List.all_cons, Bool.and_eq_true] at hl
    unfold formatter.FormatArgumentList.splitLoop formatter.FormatArgumentList.inlineLoop
    refine post2_bind (post2_mono (h.FormatArgument_rel quote arg hl.1) fun f1 g1 h1 => ?_)
    refine post2_bind_right (post_mono
      (Rel.right_separator (by simpa using h1 : Rel f1.WriteNewline g1) (!rest.isEmpty))
      fun g2 h2 => Rel.splitInline quote rest _ g2 h2 hl.2)

theorem Rel.inlineLoop_rel (quote : String → String) :
    ∀ (l : List Argument) (f g : formatter), Rel f g → l.all Argument.filterIsObject = true →
      Post2 (formatter.FormatArgumentList.inlineLoop quote f l)
        (formatter.FormatArgumentList.inlineLoop quote g l) Rel
  | [], f, g, h, _ => post2_ok h
  | arg :: rest, f, g, h, hl => by
    simp only [List.all_cons, Bool.and_eq_true] at hl
    unfold formatter.FormatArgumentList.inlineLoop
    refine post2_bind (post2_mono (h.FormatArgument_rel quote arg hl.1) fun f1 g1 h1 => ?_)
    refine post2_bind (post2_mono (?_ : Post2 _ _ Rel) fun f2 g2 h2 =>
      Rel.inlineLoop_rel quote rest f2 g2 h2 hl.2)
    refine post2_ite (fun _ => ?_) fun _ => post2_ok h1
    rw [if_neg (by simp [h1.left.compressed]), if_pos h1.right.compressed]
    exact h1.NoPadding_rel.WriteWordString _ _ rfl

theorem Rel.FormatArgumentList_rel (quote : String → String) {f g : formatter} (h : Rel f g)
    (l : List Argument) (hl : l.all Argument.filterIsObject = true) :
    Post2 (f.FormatArgumentList quote l) (g.FormatArgumentList quote l) Rel := by
  unfold formatter.FormatArgumentList
  refine post2_ite (fun _ => post2_ok h) fun _ => ?_
  rw [doSplitted_minified g (h.right.argumentSplitted rfl) l]
  simp only [bind_ok, Bool.false_eq_true, if_false]
  refine post2_bind_val_left fun b _ => ?_
  refine post2_bind (post2_mono (h.NoPadding_rel.WriteString_rel _ _ rfl) fun f1 g1 h1 => ?_)
  refine post2_bind (post2_mono (?_ : Post2 _ _ Rel) fun f2 g2 h2 =>
    post2_bind (post2_mono (h2.WriteString_rel _ _ rfl) fun f3 g3 h3 => post2_ok h3.NeedPadding_rel))
  refine post2_ite_left (fun _ => ?_) fun _ => Rel.inlineLoop_rel quote l f1 g1 h1 hl
  refine post2_map_left (post2_mono
    (Rel.splitInline quote l _ g1 (by simpa using h1) hl) fun f2 g2 h2 => ?_)
  simpa using h2

theorem Rel.FormatDirective_rel (quote : String → String) {f g : formatter} (h : Rel f g)
    (d : Directive) (hd : d.allArguments Argument.filterIsObject = true) :
    Post2 (f.FormatDirective quote d) (g.FormatDirective quote d) Rel := by
  unfold formatter.FormatDirective
  exact post2_bind (post2_mono (h.WriteString_rel _ _ rfl) fun f1 g1 h1 =>
    post2_bind (post2_mono (h1.WriteWord_rel _ _ rfl) fun f2 g2 h2 =>
      h2.FormatArgumentList_rel quote _ hd))

theorem Rel.FormatDirectiveList_rel (quote : String → String) :
    ∀ (l : List Directive) (f g : formatter), Rel f g →
      l.all (Directive.allArguments Argument.filterIsObject) = true →
      Post2 (f.FormatDirectiveList quote l) (g.FormatDirectiveList quote l) Rel
  | [], f, g, h, _ => post2_ok h
  | d :: rest, f, g, h, hl => by
    simp only [List.all_cons, Bool.and_eq_true] at hl
    unfold formatter.FormatDirectiveList
    exact post2_bind (post2_mono (h.FormatDirective_rel quote d hl.1) fun f1 g1 h1 =>
      Rel.FormatDirectiveList_rel quote rest f1 g1 h1 hl.2)

theorem Rel.FormatType_rel {f g : formatter} (h : Rel f g) (t : String) :
    Post2 (f.FormatType t) (g.FormatType t) Rel := by
  unfold formatter.FormatType
  rw [if_neg (by simp [h.left.compressed]), if_pos h.right.compressed]
  exact h.WriteWordString t t rfl

theorem Rel.FormatVariableDefinition_rel (quote : String → String) {f g : formatter}
    (h : Rel f g) (d : VariableDefinition) :
    Post2 (f.FormatVariableDefinition quote d) (g.FormatVariableDefinition quote d) Rel := by
  unfold formatter.FormatVariableDefinition
  refine post2_bind (post2_mono (h.WriteString_rel _ _ rfl) fun f1 g1 h1 => ?_)
  refine post2_bind (post2_mono (h1.WriteWord_rel _ _ rfl) fun f2 g2 h2 => ?_)
  refine post2_bind (post2_mono (h2.NoPadding_rel.WriteString_rel _ _ rfl) fun f3 g3 h3 => ?_)
  refine post2_bind (post2_mono (h3.FormatType_rel _) fun f4 g4 h4 => ?_)
  cases d.DefaultValue with
  | none => exact post2_ok h4
  | some v =>
    exact post2_bind (post2_mono (h4.WriteWord_rel _ _ rfl) fun f5 g5 h5 => h5.FormatValue_rel quote _)

theorem Rel.variableLoop_rel (quote : String → String) :
    ∀ (l : List VariableDefinition) (f g : formatter), Rel f g →
      Post2 (formatter.FormatVariableDefinitionList.loop quote f l)
        (formatter.FormatVariableDefinitionList.loop quote g l) Rel
  | [], f, g, h => post2_ok h
  | d :: rest, f, g, h => by
    unfold formatter.FormatVariableDefinitionList.loop
    refine post2_bind (post2_mono (h.FormatVariableDefinition_rel quote d) fun f1 g1 h1 => ?_)
    refine post2_bind (post2_mono (?_ : Post2 _ _ Rel) fun f2 g2 h2 =>
      Rel.variableLoop_rel quote rest f2 g2 h2)
    refine post2_ite (fun _ => ?_) fun _ => post2_ok h1
    rw [if_neg (by simp [h1.left.compressed]), if_pos h1.right.compressed]
    exact h1.NoPadding_rel.WriteWordString _ _ rfl

theorem Rel.FormatVariableDefinitionList_rel (quote : String → String) {f g : formatter}
    (h : Rel f g) (l : List VariableDefinition) :
    Post2 (f.FormatVariableDefinitionList quote l) (g.FormatVariableDefinitionList quote l)
      Rel := by
  unfold formatter.FormatVariableDefinitionList
  refine post2_ite (fun _ => post2_ok h) fun _ => ?_
  refine post2_bind (post2_mono (h.WriteString_rel _ _ rfl) fun f1 g1 h1 => ?_)
  refine post2_bind (post2_mono (Rel.variableLoop_rel quote l f1 g1 h1) fun f2 g2 h2 => ?_)
  exact post2_bind (post2_mono (h2.NoPadding_rel.WriteString_rel _ _ rfl) fun f3 g3 h3 =>
    post2_ok h3.NeedPadding_rel)

theorem Rel.FormatFragmentSpread_rel (quote : String → String) {f g : formatter} (h : Rel f g)
    (name : String) (ds : List Directive)
    (hd : ds.all (Directive.allArguments Argument.filterIsObject) = true) :
    Post2 (f.FormatFragmentSpread quote name ds) (g.FormatFragmentSpread quote name ds) Rel := by
  unfold formatter.FormatFragmentSpread
  exact post2_bind (post2_mono (h.WriteWord_rel _ _ rfl) fun f1 g1 h1 =>
    post2_bind (post2_mono (h1.WriteWord_rel _ _ rfl) fun f2 g2 h2 =>
      Rel.FormatDirectiveList_rel quote ds f2 g2 h2 hd))

theorem Rel.frame_rel {f g : formatter} (h : Rel f g) (sets : List Selection)
    (body body' : formatter → Except Fault formatter)
    (hb : ∀ f1 g1, Rel f1 g1 → Post2 (body f1) (body' g1) Rel) :
    Post2 (formatter.FormatSelectionSet.frame f sets body)
      (formatter.FormatSelectionSet.frame g sets body') Rel := by
  unfold formatter.FormatSelectionSet.frame
  refine post2_ite (fun _ => post2_ok h) fun _ => ?_
  refine post2_bind (post2_mono (h.WriteString_rel _ _ rfl) fun f1 g1 h1 => ?_)
  refine post2_bind (post2_mono (hb _ _ h1.WriteNewline_rel.IncrementIndent_rel) fun f2 g2 h2 => ?_)
  exact h2.DecrementIndent_rel.WriteString_rel _ _ rfl

mutual
theorem Rel.FormatSelection_rel (quote : String → String) :
    ∀ (s : Selection) (f g : formatter), Rel f g →
      s.allArguments Argument.filterIsObject = true →
      Post2 (f.FormatSelection quote s) (g.FormatSelection quote s) Rel
  | .Field fieldAlias name arguments directives selectionSet, f, g, h, hs => by
    simp only [Selection.allArguments, Bool.and_eq_true] at hs
    obtain ⟨⟨hargs, hdirs⟩, hsel⟩ := hs
    unfold formatter.FormatSelection
    refine post2_bind (post2_mono (?_ : Post2 _ _ Rel) fun f1 g1 h1 => ?_)
    · exact post2_ite (fun _ => post2_bind (post2_mono (h.WriteWord_rel _ _ rfl) fun f1 g1 h1 =>
        h1.NoPadding_rel.WriteString_rel _ _ (h1.left.colon.trans h1.right.colon.symm)))
        fun _ => post2_ok h
    refine post2_bind (post2_mono (h1.WriteWord_rel _ _ rfl) fun f2 g2 h2 => ?_)
    refine post2_bind (post2_mono (?_ : Post2 _ _ Rel) fun f3 g3 h3 => ?_)
    · exact post2_ite (fun _ => post2_bind (post2_mono
        (h2.NoPadding_rel.FormatArgumentList_rel quote _ hargs)
        fun f3 g3 h3 => post2_ok h3.NeedPadding_rel)) fun _ => post2_ok h2
    refine post2_bind (post2_mono (Rel.FormatDirectiveList_rel quote directives f3 g3 h3 hdirs)
      fun f4 g4 h4 => ?_)
    exact h4.frame_rel selectionSet _ _ fun f5 g5 h5 =>
      Rel.selectionLoop_rel quote selectionSet f5 g5 h5 hsel
  | .FragmentSpread name directives, f, g, h, hs => by
    simp only [Selection.allArguments] at hs
    unfold formatter.FormatSelection
    exact h.FormatFragmentSpread_rel quote name directives hs
  | .InlineFragment typeCondition directives selectionSet, f, g, h, hs => by
    simp only [Selection.allArguments, Bool.and_eq_true] at hs
    obtain ⟨hdirs, hsel⟩ := hs
    unfold formatter.FormatSelection
    refine post2_bind (post2_mono (h.WriteWord_rel _ _ rfl) fun f1 g1 h1 => ?_)
    refine post2_bind (post2_mono (?_ : Post2 _ _ Rel) fun f2 g2 h2 => ?_)
    · exact post2_ite (fun _ => post2_bind (post2_mono (h1.WriteWord_rel _ _ rfl) fun f2 g2 h2 =>
        h2.WriteWord_rel _ _ rfl)) fun _ => post2_ok h1
    refine post2_bind (post2_mono (Rel.FormatDirectiveList_rel quote directives f2 g2 h2 hdirs)
      fun f4 g4 h4 => ?_)
    exact h4.frame_rel selectionSet _ _ fun f5 g5 h5 =>
      Rel.selectionLoop_rel quote selectionSet f5 g5 h5 hsel
  | .other, f, g, h, hs => by
    unfold formatter.FormatSelection
    exact post2_error_left
termination_by structural s => s
theorem Rel.selectionLoop_rel (quote : String → String) :
    ∀ (l : List Selection) (f g : formatter), Rel f g →
      selectionsAllArguments Argument.filterIsObject l = true →
      Post2 (formatter.FormatSelectionSet.loop quote f l)
        (formatter.FormatSelectionSet.loop quote g l) Rel
  | [], f, g, h, _ => by
    unfold formatter.FormatSelectionSet.loop
    exact post2_ok h
  | sel :: rest, f, g, h, hl => by
    simp only [selectionsAllArguments, Bool.and_eq_true] at hl
    unfold formatter.FormatSelectionSet.loop
    refine post2_bind (post2_mono (Rel.FormatSelection_rel quote sel f g h hl.1) fun f1 g1 h1 => ?_)
    refine post2_bind (post2_mono (?_ : Post2 _ _ Rel) fun f2 g2 h2 =>
      Rel.selectionLoop_rel quote rest f2 g2 h2 hl.2)
    rw [if_neg (by simp [h1.left.compressed]), if_pos h1.right.compressed]
    exact post2_of_right (Rel.right_separator (by simpa using h1) (!rest.isEmpty))
termination_by structural l => l
end

theorem Rel.FormatSelectionSet_rel (quote : String → String) {f g : formatter} (h : Rel f g)
    (sets : List Selection) (hs : selectionsAllArguments Argument.filterIsObject sets = true) :
    Post2 (f.FormatSelectionSet quote sets) (g.FormatSelectionSet quote sets) Rel :=
  h.frame_rel sets _ _ fun f5 g5 h5 => Rel.selectionLoop_rel quote sets f5 g5 h5 hs

theorem Rel.FormatOperationDefinition_rel (quote : String → String) {f g : formatter}
    (h : Rel f g) (d : OperationDefinition)
    (hd : d.allArguments Argument.filterIsObject = true) :
    Post2 (f.FormatOperationDefinition quote d) (g.FormatOperationDefinition quote d) Rel := by
  simp only [OperationDefinition.allArguments, Bool.and_eq_true] at hd
  unfold formatter.FormatOperationDefinition
  refine post2_bind (post2_mono (h.WriteWord_rel _ _ rfl) fun f1 g1 h1 => ?_)
  refine post2_bind (post2_mono (?_ : Post2 _ _ Rel) fun f2 g2 h2 => ?_)
  · exact post2_ite (fun _ => h1.WriteWord_rel _ _ rfl) fun _ => post2_ok h1
  refine post2_bind (post2_mono (h2.FormatVariableDefinitionList_rel quote _) fun f3 g3 h3 => ?_)
  refine post2_bind (post2_mono (Rel.FormatDirectiveList_rel quote _ f3 g3 h3 hd.1)
    fun f4 g4 h4 => ?_)
  exact post2_ite (fun _ => post2_bind (post2_mono (h4.FormatSelectionSet_rel quote _ hd.2)
    fun f5 g5 h5 => post2_ok h5.WriteNewline_rel)) fun _ => post2_ok h4

theorem Rel.FormatOperationList_rel (quote : String → String) :
    ∀ (l : List OperationDefinition) (f g : formatter), Rel f g →
      l.all (OperationDefinition.allArguments Argument.filterIsObject) = true →
      Post2 (f.FormatOperationList quote l) (g.FormatOperationList quote l) Rel
  | [], f, g, h, _ => post2_ok h
  | d :: rest, f, g, h, hl => by
    simp only [List.all_cons, Bool.and_eq_true] at hl
    unfold formatter.FormatOperationList
    exact post2_bind (post2_mono (h.FormatOperationDefinition_rel quote d hl.1) fun f1 g1 h1 =>
      Rel.FormatOperationList_rel quote rest f1 g1 h1 hl.2)

theorem Rel.FormatFragmentDefinition_rel (quote : String → String) {f g : formatter}
    (h : Rel f g) (d : FragmentDefinition)
    (hd : d.allArguments Argument.filterIsObject = true) :
    Post2 (f.FormatFragmentDefinition quote d) (g.FormatFragmentDefinition quote d) Rel := by
  simp only [FragmentDefinition.allArguments, Bool.and_eq_true] at hd
  unfold formatter.FormatFragmentDefinition
  refine post2_bind (post2_mono (h.WriteWord_rel _ _ rfl) fun f1 g1 h1 => ?_)
  refine post2_bind (post2_mono (h1.WriteWord_rel _ _ rfl) fun f2 g2 h2 => ?_)
  refine post2_bind (post2_mono (h2.FormatVariableDefinitionList_rel quote _) fun f3 g3 h3 => ?_)
  refine post2_bind (post2_mono (h3.WriteWord_rel _ _ rfl) fun f4 g4 h4 => ?_)
  refine post2_bind (post2_mono (h4.WriteWord_rel _ _ rfl) fun f5 g5 h5 => ?_)
  refine post2_bind (post2_mono (Rel.FormatDirectiveList_rel quote _ f5 g5 h5 hd.1)
    fun f6 g6 h6 => ?_)
  exact post2_ite (fun _ => post2_bind (post2_mono (h6.FormatSelectionSet_rel quote _ hd.2)
    fun f7 g7 h7 => post2_ok h7.WriteNewline_rel)) fun _ => post2_ok h6

theorem Rel.FormatFragmentDefinitionList_rel (quote : String → String) :
    ∀ (l : List FragmentDefinition) (f g : formatter), Rel f g →
      l.all (FragmentDefinition.allArguments Argument.filterIsObject) = true →
      Post2 (f.FormatFragmentDefinitionList quote l) (g.FormatFragmentDefinitionList quote l) Rel
  | [], f, g, h, _ => post2_ok h
  | d :: rest, f, g, h, hl => by
    simp only [List.all_cons, Bool.and_eq_true] at hl
    unfold formatter.FormatFragmentDefinitionList
    exact post2_bind (post2_mono (h.FormatFragmentDefinition_rel quote d hl.1) fun f1 g1 h1 =>
      Rel.FormatFragmentDefinitionList_rel quote rest f1 g1 h1 hl.2)

theorem Rel.FormatQueryDocument_rel (quote : String → String) {f g : formatter} (h : Rel f g)
    (doc : Option QueryDocument)
    (hd : documentAllArguments Argument.filterIsObject doc = true) :
    Post2 (f.FormatQueryDocument quote doc) (g.FormatQueryDocument quote doc) Rel := by
  cases doc with
  | none => exact post2_ok h
  | some doc =>
    simp only [documentAllArguments, Bool.and_eq_true] at hd
    unfold formatter.FormatQueryDocument
    exact post2_bind (post2_mono (Rel.FormatOperationList_rel quote _ f g h hd.1) fun f1 g1 h1 =>
      Rel.FormatFragmentDefinitionList_rel quote _ f1 g1 h1 hd.2)

theorem objectQuery_readable :
    formatted id "" [] (some objectQuery) = .ok "query \x7b\n  f(x: \x7b a: 1, b: 2 \x7d)\n\x7d\n" := by
  decide!

theorem objectQuery_minified :
    formatted id "" [.WithMinification] (some objectQuery) =
      .ok "query\x7bf(x:\x7ba:1 b:2\x7d)\x7d" := by
  decide!

theorem whereListQuery_readable :
    formatted id "" [] (some whereListQuery) =
      .ok "query \x7b\n  f(\n    where: \x7b\n      and: \x7b\n        a: 1\n        b: 2\n      \x7d\n    \x7d\n  )\n\x7d\n" := by
  decide!

theorem whereListQuery_minified :
    formatted id "" [.WithMinification] (some whereListQuery) =
      .ok "query\x7bf(where:[\x7ba:1 b:2\x7d])\x7d" := by
  decide!

theorem testQuery_readable :
    formatted id "" [] (some testQuery) =
      .ok "query \x7b\n  products(\n    where: \x7b\n      and: \x7b\n        id: \x7b greater_or_equals: 20 \x7d\n        id: \x7b lt: 28 \x7d\n      \x7d\n    \x7d\n  ) \x7b\n    id\n    name\n    price\n  \x7d\n\x7d\n" := by
  decide!

theorem testQuery_minified :
    formatted id "" [.WithMinification] (some testQuery) =
      .ok "query\x7bproducts(where:\x7band:\x7bid:\x7bgreater_or_equals:20\x7d id:\x7blt:28\x7d\x7d\x7d)\x7bid name price\x7d\x7d" := by
  decide!


/-! ## A well-formed document is formatted without fault -/

theorem run_ok {f : formatter} {Q : formatter → Prop} (h : Q f) : Run (.ok f) Q :=
  ⟨f, rfl, h⟩

theorem run_bind {x : Except Fault formatter} {k : formatter → Except Fault formatter}
    {P Q : formatter → Prop} (hx : Run x P) (hk : ∀ a, P a → Run (k a) Q) :
    Run (x >>= k) Q := by
  obtain ⟨a, e, ha⟩ := hx
  obtain ⟨b, e', hb⟩ := hk a ha
  exact ⟨b, by rw [e]; exact e', hb⟩

theorem run_bind_val {α : Type} {x : Except Fault α} {k : α → Except Fault formatter}
    {Q : formatter → Prop} (a : α) (hx : x = .ok a) (hk : Run (k a) Q) : Run (x >>= k) Q := by
  obtain ⟨b, e', hb⟩ := hk
  exact ⟨b, by rw [hx]; exact e', hb⟩

theorem run_mono {x : Except Fault formatter} {P Q : formatter → Prop} (h : Run x P)
    (hPQ : ∀ f, P f → Q f) : Run x Q := by
  obtain ⟨a, e, ha⟩ := h
  exact ⟨a, e, hPQ a ha⟩

theorem run_ite {c : Prop} [Decidable c] {a b : Except Fault formatter} {Q : formatter → Prop}
    (ha : c → Run a Q) (hb : ¬c → Run b Q) : Run (if c then a else b) Q := by
  split
  · exact ha ‹_›
  · exact hb ‹_›

theorem Sound.initial {f : formatter} (h : f.optCompressed = true ∨ 0 ≤ f.indent) : Sound 0 f f :=
  ⟨Ext.refl f, h, le_refl 0⟩

theorem Sound.no_fault {k : Int} {g f : formatter} (h : Sound k g f) :
    ¬(f.lineHead = true ∧ f.optCompressed = false ∧ f.indent < 0) := by
  rintro ⟨_, hc, hi⟩
  rw [h.ext.optCompressed] at hc
  rw [h.ext.indent] at hi
  rcases h.base with hb | hb
  · rw [hb] at hc; cases hc
  · have := h.nonneg
    omega

theorem Sound.WriteString_sound {k : Int} {g f : formatter} (h : Sound k g f) (s : String) :
    Run (f.WriteString s) (Sound k g) := by
  have e := WriteString_eq f s
  rw [if_neg h.no_fault] at e
  exact ⟨_, e, h.ext.WriteString s _ e, h.base, h.nonneg⟩

theorem Sound.WriteWord_sound {k : Int} {g f : formatter} (h : Sound k g f) (s : String) :
    Run (f.WriteWord s) (Sound k g) := by
  have e := WriteWord_eq f s
  rw [if_neg h.no_fault] at e
  exact ⟨_, e, h.ext.WriteWord s _ e, h.base, h.nonneg⟩

theorem Sound.WriteNewline_sound {k : Int} {g f : formatter} (h : Sound k g f) :
    Sound k g f.WriteNewline := ⟨h.ext.WriteNewline, h.base, h.nonneg⟩

theorem Sound.NoPadding_sound {k : Int} {g f : formatter} (h : Sound k g f) :
    Sound k g f.NoPadding := ⟨h.ext.NoPadding, h.base, h.nonneg⟩

theorem Sound.NeedPadding_sound {k : Int} {g f : formatter} (h : Sound k g f) :
    Sound k g f.NeedPadding := ⟨h.ext.NeedPadding, h.base, h.nonneg⟩

theorem Sound.IncrementIndent_sound {k : Int} {g f : formatter} (h : Sound k g f) :
    Sound (k + 1) g f.IncrementIndent :=
  ⟨h.ext.IncrementIndent, h.base, by have := h.nonneg; omega⟩

theorem Sound.DecrementIndent_sound {k : Int} {g f : formatter} (h : Sound (k + 1) g f)
    (hk : 0 ≤ k) : Sound k g f.DecrementIndent := ⟨h.ext.DecrementIndent, h.base, hk⟩

theorem Sound.FormatValue_sound (quote : String → String) {k : Int} {g f : formatter}
    (h : Sound k g f) (v : Option Value) (hv : recognisedOpt v = true) :
    Run (f.FormatValue quote v) (Sound k g) := by
  unfold formatter.FormatValue
  exact run_bind_val _ (GetValueString_eq quote f v hv) (h.WriteString_sound _)

theorem Sound.FormatChildValue_sound (quote : String → String) {k : Int} {g f : formatter}
    (h : Sound k g f) (c : ChildValue) (hc : recognisedChild (some c) = true) :
    Run (f.FormatChildValue quote c) (Sound k g) := by
  obtain ⟨name, v⟩ := c
  unfold formatter.FormatChildValue
  exact run_bind_val _ (GetValueString_eq quote f v (by simpa [recognisedChild] using hc))
    (h.WriteString_sound _)

theorem recognisedList_cons {c : Option ChildValue} {rest : List (Option ChildValue)}
    (h : recognisedList (c :: rest) = true) :
    recognisedChild c = true ∧ recognisedList rest = true := by
  simpa [recognisedList] using h

mutual
theorem Sound.FormatWhereLogOpChildValue_sound (quote : String → String) {g : formatter} :
    ∀ (c : ChildValue) (k : Int) (f : formatter), Sound k g f →
      recognisedChild (some c) = true →
      Run (f.FormatWhereLogOpChildValue quote c) (Sound k g)
  | .mk name value, k, f, h, hc => by
    have hk := h.nonneg
    simp only [recognisedChild] at hc
    unfold formatter.FormatWhereLogOpChildValue
    refine run_bind (h.WriteString_sound name) fun f1 h1 => ?_
    refine run_bind (h1.NoPadding_sound.WriteString_sound _) fun f2 h2 => ?_
    cases value with
    | none => exact h2.WriteString_sound _
    | some v =>
      obtain ⟨raw, children, kind⟩ := v
      simp only [recognisedOpt, Value.recognised, Bool.and_eq_true, bne_iff_ne, ne_eq] at hc
      obtain ⟨hkind, hl⟩ := hc
      cases kind <;> simp only
      case unsupported => exact absurd rfl hkind
      case ListValue =>
        refine run_bind_val _ (GetValueString.listLoop_eq quote f2 children hl) ?_
        refine run_ite (fun _ => h2.WriteString_sound _) fun _ => ?_
        exact run_bind (h2.WriteString_sound _) fun f3 h3 =>
          run_ok h3.WriteNewline_sound.NeedPadding_sound
      case ObjectValue =>
        match children, hl with
        | [], _ =>
          simp only
          refine run_bind (h2.WriteString_sound _) fun f3 h3 => ?_
          exact run_ite (fun _ => run_ok h3.WriteNewline_sound.NeedPadding_sound)
            (fun _ => run_ok h3)
        | [none], hl => simp [recognisedList, recognisedChild] at hl
        | [some c], hl =>
          have hc := (recognisedList_cons hl).1
          simp only
          refine run_ite (fun _ => ?_) fun _ => run_ite (fun _ => ?_) fun _ => ?_
          · refine run_bind (h2.WriteString_sound _) fun f3 h3 => ?_
            refine run_bind
              (Sound.FormatWhereLogOpChildValue_sound quote c _ _
                h3.WriteNewline_sound.NeedPadding_sound.IncrementIndent_sound hc)
              fun f4 h4 => ?_
            exact run_bind ((h4.DecrementIndent_sound hk).WriteString_sound _) fun f5 h5 =>
              run_ok h5.WriteNewline_sound.NeedPadding_sound
          · refine run_bind (h2.WriteString_sound _) fun f3 h3 => ?_
            refine run_bind (h3.FormatChildValue_sound quote c hc) fun f4 h4 => ?_
            exact run_bind (h4.WriteString_sound _) fun f5 h5 => run_ok h5.NeedPadding_sound
          · refine run_bind (h2.WriteString_sound _) fun f3 h3 => ?_
            refine run_bind (h3.FormatChildValue_sound quote c hc) fun f4 h4 => ?_
            exact run_bind (h4.WriteString_sound _) fun f5 h5 =>
              run_ok h5.WriteNewline_sound.NeedPadding_sound
        | c₀ :: c₁ :: rest, hl =>
          simp only
          refine run_bind (h2.WriteString_sound _) fun f3 h3 => ?_
          refine run_bind
            (Sound.whereLoop_sound quote (c₀ :: c₁ :: rest) _ _
              h3.WriteNewline_sound.NeedPadding_sound.IncrementIndent_sound hl)
            fun f4 h4 => ?_
          exact run_bind ((h4.DecrementIndent_sound hk).WriteString_sound _) fun f5 h5 =>
            run_ok h5.WriteNewline_sound.NeedPadding_sound
      all_goals exact h2.WriteString_sound _
termination_by structural c => c
theorem Sound.whereLoop_sound (quote : String → String) {g : formatter} :
    ∀ (l : List (Option ChildValue)) (k : Int) (f : formatter), Sound k g f →
      recognisedList l = true →
      Run (formatter.FormatWhereLogOpChildValue.loop quote f l) (Sound k g)
  | [], k, f, h, _ => by
    unfold formatter.FormatWhereLogOpChildValue.loop
    exact run_ok h
  | none :: _, k, f, h, hl => by
    simp [recognisedList, recognisedChild] at hl
  | some c :: rest, k, f, h, hl => by
    obtain ⟨hc, hr⟩ := recognisedList_cons hl
    unfold formatter.FormatWhereLogOpChildValue.loop
    refine run_bind (run_ite (fun _ => ?_) fun _ => ?_) fun f1 h1 =>
      Sound.whereLoop_sound quote rest k f1 h1 hr
    · exact Sound.FormatWhereLogOpChildValue_sound quote c k f h hc
    · exact run_bind (h.FormatChildValue_sound quote c hc) fun f2 h2 =>
        run_ok h2.WriteNewline_sound.NeedPadding_sound
termination_by structural l => l
end

theorem whereQualifies_single (v : Option Value) (h : whereQualifies v = true) :
    ∃ raw c kind, v = some (.mk raw [some c] kind) := by
  cases v with
  | none => simp [whereQualifies] at h
  | some v =>
    obtain ⟨raw, children, kind⟩ := v
    match children, h with
    | [], h => simp [whereQualifies, Value.Children] at h
    | _ :: _ :: _, h => simp [whereQualifies, Value.Children] at h
    | [none], h => simp [whereQualifies, Value.Children, doWhereSplitted] at h
    | [some c], _ => exact ⟨raw, c, kind, rfl⟩

theorem Sound.FormatWhereLogOpArgument_sound (quote : String → String) {k : Int}
    {g f : formatter} (h : Sound k g f) (arg : Argument)
    (hv : recognisedOpt arg.Value = true) (hq : whereQualifies arg.Value = true) :
    Run (f.FormatWhereLogOpArgument quote arg) (Sound k g) := by
  have hk := h.nonneg
  obtain ⟨raw, c, kind, e⟩ := whereQualifies_single _ hq
  have hc : recognisedChild (some c) = true := by
    rw [e] at hv
    simp only [recognisedOpt, Value.recognised, Bool.and_eq_true] at hv
    exact (recognisedList_cons hv.2).1
  unfold formatter.FormatWhereLogOpArgument
  refine run_bind (h.WriteWord_sound _) fun f1 h1 => ?_
  refine run_bind (run_ite (fun _ => h1.NoPadding_sound.WriteString_sound _)
    fun _ => h1.NoPadding_sound.WriteString_sound _) fun f2 h2 => ?_
  have h3 := h2.NeedPadding_sound.WriteNewline_sound.IncrementIndent_sound
  refine run_bind (?_ : Run _ (Sound (k + 1) g)) fun f4 h4 =>
    run_bind ((h4.DecrementIndent_sound hk).WriteString_sound _) fun f5 h5 =>
      run_ok h5.NeedPadding_sound
  rw [e]
  exact Sound.FormatWhereLogOpChildValue_sound quote c _ _ h3 hc

theorem Sound.inlineArgument_sound (quote : String → String) {k : Int} {g f : formatter}
    (h : Sound k g f) (arg : Argument) (hv : recognisedOpt arg.Value = true) :
    Run (do
      let f ← f.WriteWord arg.Name
      let f ← f.NoPadding.WriteString f.colonUnit
      f.FormatValue quote arg.Value) (Sound k g) :=
  run_bind (h.WriteWord_sound _) fun _ h1 =>
    run_bind (h1.NoPadding_sound.WriteString_sound _) fun _ h2 =>
      h2.FormatValue_sound quote _ hv

theorem Sound.FormatArgument_sound (quote : String → String) {k : Int} {g f : formatter}
    (h : Sound k g f) (arg : Argument) (ha : arg.wellFormed = true) :
    Run (f.FormatArgument quote arg) (Sound k g) := by
  simp only [Argument.wellFormed, Bool.and_eq_true, Bool.or_eq_true, Bool.not_eq_true',
    decide_eq_false_iff_not] at ha
  obtain ⟨hv, hd⟩ := ha
  unfold formatter.FormatArgument
  refine run_ite (fun hn => ?_) fun _ => h.inlineArgument_sound quote arg hv
  have hd : arg.derefOk = true := hd.resolve_left (fun h' => h' hn)
  unfold formatter.FormatWhereArgument
  refine run_bind_val _ (useLogOp_eq f arg hd) ?_
  refine run_ite (fun hb => ?_) fun _ => h.inlineArgument_sound quote arg hv
  simp only [Bool.and_eq_true] at hb
  exact h.FormatWhereLogOpArgument_sound quote arg hv hb.2

theorem Sound.splitLoop_sound (quote : String → String) {k : Int} {g : formatter} :
    ∀ (l : List Argument) (f : formatter), Sound k g f → l.all Argument.wellFormed = true →
      Run (formatter.FormatArgumentList.splitLoop quote f l) (Sound k g)
  | [], f, h, _ => run_ok h
  | arg :: rest, f, h, hl => by
    simp only [List.all_cons, Bool.and_eq_true] at hl
    unfold formatter.FormatArgumentList.splitLoop
    exact run_bind (h.FormatArgument_sound quote arg hl.1) fun f1 h1 =>
      Sound.splitLoop_sound quote rest _ h1.WriteNewline_sound hl.2

theorem Sound.inlineLoop_sound (quote : String → String) {k : Int} {g : formatter} :
    ∀ (l : List Argument) (f : formatter), Sound k g f → l.all Argument.wellFormed = true →
      Run (formatter.FormatArgumentList.inlineLoop quote f l) (Sound k g)
  | [], f, h, _ => run_ok h
  | arg :: rest, f, h, hl => by
    simp only [List.all_cons, Bool.and_eq_true] at hl
    unfold formatter.FormatArgumentList.inlineLoop
    refine run_bind (h.FormatArgument_sound quote arg hl.1) fun f1 h1 => ?_
    refine run_bind (?_ : Run _ (Sound k g)) fun f2 h2 =>
      Sound.inlineLoop_sound quote rest _ h2 hl.2
    exact run_ite (fun _ => run_ite (fun _ => h1.NoPadding_sound.WriteString_sound _)
      fun _ => h1.NoPadding_sound.WriteWord_sound _) fun _ => run_ok h1

theorem Sound.FormatArgumentList_sound (quote : String → String) {k : Int} {g f : formatter}
    (h : Sound k g f) (l : List Argument) (hl : l.all Argument.wellFormed = true) :
    Run (f.FormatArgumentList quote l) (Sound k g) := by
  have hk := h.nonneg
  unfold formatter.FormatArgumentList
  refine run_ite (fun _ => run_ok h) fun hne => ?_
  have hd : ∀ a, l = [a] → a.Name = "where" → f.optArgumentSplitted = true →
      a.derefOk = true := by
    intro a e hn _
    subst e
    simp only [List.all_cons, List.all_nil, Bool.and_true, Argument.wellFormed,
      Bool.and_eq_true, Bool.or_eq_true, Bool.not_eq_true', decide_eq_false_iff_not] at hl
    exact hl.2.resolve_left (fun h' => h' hn)
  refine run_bind_val _ (doSplitted_eq f l (by rintro rfl; exact hne rfl) hd) ?_
  refine run_bind (h.NoPadding_sound.WriteString_sound _) fun f1 h1 => ?_
  refine run_bind (?_ : Run _ (Sound k g)) fun f2 h2 =>
    run_bind (h2.WriteString_sound _) fun f3 h3 => run_ok h3.NeedPadding_sound
  refine run_ite (fun _ => ?_) fun _ => Sound.inlineLoop_sound quote l _ h1 hl
  exact run_bind
    (Sound.splitLoop_sound quote l _ h1.WriteNewline_sound.IncrementIndent_sound hl)
    fun f2 h2 => run_ok (h2.DecrementIndent_sound hk)

theorem Sound.FormatDirective_sound (quote : String → String) {k : Int} {g f : formatter}
    (h : Sound k g f) (d : Directive) (hd : d.allArguments Argument.wellFormed = true) :
    Run (f.FormatDirective quote d) (Sound k g) := by
  unfold formatter.FormatDirective
  exact run_bind (h.WriteString_sound _) fun f1 h1 =>
    run_bind (h1.WriteWord_sound _) fun f2 h2 => h2.FormatArgumentList_sound quote _ hd

theorem Sound.FormatDirectiveList_sound (quote : String → String) {k : Int} {g : formatter} :
    ∀ (l : List Directive) (f : formatter), Sound k g f →
      l.all (Directive.allArguments Argument.wellFormed) = true →
      Run (f.FormatDirectiveList quote l) (Sound k g)
  | [], f, h, _ => run_ok h
  | d :: rest, f, h, hl => by
    simp only [List.all_cons, Bool.and_eq_true] at hl
    unfold formatter.FormatDirectiveList
    exact run_bind (h.FormatDirective_sound quote d hl.1) fun f1 h1 =>
      Sound.FormatDirectiveList_sound quote rest f1 h1 hl.2

theorem Sound.FormatType_sound {k : Int} {g f : formatter} (h : Sound k g f) (t : String) :
    Run (f.FormatType t) (Sound k g) := by
  unfold formatter.FormatType
  exact run_ite (fun _ => h.WriteString_sound t) fun _ => h.WriteWord_sound t

theorem Sound.FormatVariableDefinition_sound (quote : String → String) {k : Int}
    {g f : formatter} (h : Sound k g f) (d : VariableDefinition)
    (hd : recognisedOpt d.DefaultValue = true) :
    Run (f.FormatVariableDefinition quote d) (Sound k g) := by
  unfold formatter.FormatVariableDefinition
  refine run_bind (h.WriteString_sound _) fun f1 h1 => ?_
  refine run_bind (h1.WriteWord_sound _) fun f2 h2 => ?_
  refine run_bind (h2.NoPadding_sound.WriteString_sound _) fun f3 h3 => ?_
  refine run_bind (h3.FormatType_sound _) fun f4 h4 => ?_
  obtain ⟨name, ty, dv⟩ := d
  cases dv with
  | none => exact run_ok h4
  | some v =>
    exact run_bind (h4.WriteWord_sound _) fun f5 h5 => h5.FormatValue_sound quote _ hd

theorem Sound.variableLoop_sound (quote : String → String) {k : Int} {g : formatter} :
    ∀ (l : List VariableDefinition) (f : formatter), Sound k g f →
      l.all (fun d => recognisedOpt d.DefaultValue) = true →
      Run (formatter.FormatVariableDefinitionList.loop quote f l) (Sound k g)
  | [], f, h, _ => run_ok h
  | d :: rest, f, h, hl => by
    simp only [List.all_cons, Bool.and_eq_true] at hl
    unfold formatter.FormatVariableDefinitionList.loop
    refine run_bind (h.FormatVariableDefinition_sound quote d hl.1) fun f1 h1 => ?_
    refine run_bind (?_ : Run _ (Sound k g)) fun f2 h2 =>
      Sound.variableLoop_sound quote rest _ h2 hl.2
    exact run_ite (fun _ => run_ite (fun _ => h1.NoPadding_sound.WriteString_sound _)
      fun _ => h1.NoPadding_sound.WriteWord_sound _) fun _ => run_ok h1

theorem Sound.FormatVariableDefinitionList_sound (quote : String → String) {k : Int}
    {g f : formatter} (h : Sound k g f) (l : List VariableDefinition)
    (hl : l.all (fun d => recognisedOpt d.DefaultValue) = true) :
    Run (f.FormatVariableDefinitionList quote l) (Sound k g) := by
  unfold formatter.FormatVariableDefinitionList
  refine run_ite (fun _ => run_ok h) fun _ => ?_
  refine run_bind (h.WriteString_sound _) fun f1 h1 => ?_
  refine run_bind (Sound.variableLoop_sound quote l _ h1 hl) fun f2 h2 => ?_
  exact run_bind (h2.NoPadding_sound.WriteString_sound _) fun f3 h3 =>
    run_ok h3.NeedPadding_sound

theorem Sound.FormatFragmentSpread_sound (quote : String → String) {k : Int}
    {g f : formatter} (h : Sound k g f) (name : String) (ds : List Directive)
    (hd : ds.all (Directive.allArguments Argument.wellFormed) = true) :
    Run (f.FormatFragmentSpread quote name ds) (Sound k g) := by
  unfold formatter.FormatFragmentSpread
  exact run_bind (h.WriteWord_sound _) fun f1 h1 =>
    run_bind (h1.WriteWord_sound _) fun f2 h2 =>
      Sound.FormatDirectiveList_sound quote ds f2 h2 hd

theorem Sound.frame_sound {k : Int} {g f : formatter} (h : Sound k g f)
    (sets : List Selection) (body : formatter → Except Fault formatter)
    (hb : ∀ f1, Sound (k + 1) g f1 → Run (body f1) (Sound (k + 1) g)) :
    Run (formatter.FormatSelectionSet.frame f sets body) (Sound k g) := by
  have hk := h.nonneg
  unfold formatter.FormatSelectionSet.frame
  refine run_ite (fun _ => run_ok h) fun _ => ?_
  refine run_bind (h.WriteString_sound _) fun f1 h1 => ?_
  refine run_bind (hb _ h1.WriteNewline_sound.IncrementIndent_sound) fun f2 h2 => ?_
  exact (h2.DecrementIndent_sound hk).WriteString_sound _

mutual
theorem Sound.FormatSelection_sound (quote : String → String) {g : formatter} :
    ∀ (s : Selection) (k : Int) (f : formatter), Sound k g f →
      s.known = true → s.allArguments Argument.wellFormed = true →
      Run (f.FormatSelection quote s) (Sound k g)
  | .Field fieldAlias name arguments directives selectionSet, k, f, h, hk, hs => by
    simp only [Selection.known] at hk
    simp only [Selection.allArguments, Bool.and_eq_true] at hs
    obtain ⟨⟨hargs, hdirs⟩, hsel⟩ := hs
    unfold formatter.FormatSelection
    refine run_bind (?_ : Run _ (Sound k g)) fun f1 h1 => ?_
    · exact run_ite (fun _ => run_bind (h.WriteWord_sound _) fun f1 h1 =>
        h1.NoPadding_sound.WriteString_sound _) fun _ => run_ok h
    refine run_bind (h1.WriteWord_sound _) fun f2 h2 => ?_
    refine run_bind (?_ : Run _ (Sound k g)) fun f3 h3 => ?_
    · exact run_ite (fun _ => run_bind
        (h2.NoPadding_sound.FormatArgumentList_sound quote _ hargs)
        fun f3 h3 => run_ok h3.NeedPadding_sound) fun _ => run_ok h2
    refine run_bind (Sound.FormatDirectiveList_sound quote directives f3 h3 hdirs)
      fun f4 h4 => ?_
    exact h4.frame_sound selectionSet _ fun f5 h5 =>
      Sound.selectionLoop_sound quote selectionSet _ f5 h5 hk hsel
  | .FragmentSpread name directives, k, f, h, _, hs => by
    simp only [Selection.allArguments] at hs
    unfold formatter.FormatSelection
    exact h.FormatFragmentSpread_sound quote name directives hs
  | .InlineFragment typeCondition directives selectionSet, k, f, h, hk, hs => by
    simp only [Selection.known] at hk
    simp only [Selection.allArguments, Bool.and_eq_true] at hs
    obtain ⟨hdirs, hsel⟩ := hs
    unfold formatter.FormatSelection
    refine run_bind (h.WriteWord_sound _) fun f1 h1 => ?_
    refine run_bind (?_ : Run _ (Sound k g)) fun f2 h2 => ?_
    · exact run_ite (fun _ => run_bind (h1.WriteWord_sound _) fun f2 h2 =>
        h2.WriteWord_sound _) fun _ => run_ok h1
    refine run_bind (Sound.FormatDirectiveList_sound quote directives f2 h2 hdirs)
      fun f4 h4 => ?_
    exact h4.frame_sound selectionSet _ fun f5 h5 =>
      Sound.selectionLoop_sound quote selectionSet _ f5 h5 hk hsel
  | .other, k, f, h, hk, _ => by
    simp [Selection.known] at hk
termination_by structural s => s
theorem Sound.selectionLoop_sound (quote : String → String) {g : formatter} :
    ∀ (l : List Selection) (k : Int) (f : formatter), Sound k g f →
      selectionsKnown l = true → selectionsAllArguments Argument.wellFormed l = true →
      Run (formatter.FormatSelectionSet.loop quote f l) (Sound k g)
  | [], k, f, h, _, _ => by
    unfold formatter.FormatSelectionSet.loop
    exact run_ok h
  | sel :: rest, k, f, h, hk, hl => by
    simp only [selectionsKnown, Bool.and_eq_true] at hk
    simp only [selectionsAllArguments, Bool.and_eq_true] at hl
    unfold formatter.FormatSelectionSet.loop
    refine run_bind (Sound.FormatSelection_sound quote sel k f h hk.1 hl.1) fun f1 h1 => ?_
    refine run_bind (?_ : Run _ (Sound k g)) fun f2 h2 =>
      Sound.selectionLoop_sound quote rest k f2 h2 hk.2 hl.2
    exact run_ite (fun _ => run_ite (fun _ => run_ite
      (fun _ => h1.NoPadding_sound.WriteString_sound _)
      fun _ => h1.NoPadding_sound.WriteWord_sound _) fun _ => run_ok h1)
      fun _ => run_ok h1.WriteNewline_sound
termination_by structural l => l
end

theorem Sound.FormatSelectionSet_sound (quote : String → String) {k : Int} {g f : formatter}
    (h : Sound k g f) (sets : List Selection) (hk : selectionsKnown sets = true)
    (hs : selectionsAllArguments Argument.wellFormed sets = true) :
    Run (f.FormatSelectionSet quote sets) (Sound k g) :=
  h.frame_sound sets _ fun f5 h5 => Sound.selectionLoop_sound quote sets _ f5 h5 hk hs

theorem Sound.FormatOperationDefinition_sound (quote : String → String) {k : Int}
    {g f : formatter} (h : Sound k g f) (d : OperationDefinition)
    (hk : selectionsKnown d.SelectionSet = true)
    (ha : d.allArguments Argument.wellFormed = true)
    (hv : d.VariableDefinitions.all (fun d => recognisedOpt d.DefaultValue) = true) :
    Run (f.FormatOperationDefinition quote d) (Sound k g) := by
  simp only [OperationDefinition.allArguments, Bool.and_eq_true] at ha
  unfold formatter.FormatOperationDefinition
  refine run_bind (h.WriteWord_sound _) fun f1 h1 => ?_
  refine run_bind (?_ : Run _ (Sound k g)) fun f2 h2 => ?_
  · exact run_ite (fun _ => h1.WriteWord_sound _) fun _ => run_ok h1
  refine run_bind (h2.FormatVariableDefinitionList_sound quote _ hv) fun f3 h3 => ?_
  refine run_bind (Sound.FormatDirectiveList_sound quote _ f3 h3 ha.1) fun f4 h4 => ?_
  exact run_ite (fun _ => run_bind (h4.FormatSelectionSet_sound quote _ hk ha.2)
    fun f5 h5 => run_ok h5.WriteNewline_sound) fun _ => run_ok h4

theorem Sound.FormatOperationList_sound (quote : String → String) {k : Int} {g : formatter} :
    ∀ (l : List OperationDefinition) (f : formatter), Sound k g f →
      l.all (fun d => selectionsKnown d.SelectionSet) = true →
      l.all (OperationDefinition.allArguments Argument.wellFormed) = true →
      l.all (fun d => d.VariableDefinitions.all (fun d => recognisedOpt d.DefaultValue)) = true →
      Run (f.FormatOperationList quote l) (Sound k g)
  | [], f, h, _, _, _ => run_ok h
  | d :: rest, f, h, hk, ha, hv => by
    simp only [List.all_cons, Bool.and_eq_true] at hk ha hv
    unfold formatter.FormatOperationList
    exact run_bind (h.FormatOperationDefinition_sound quote d hk.1 ha.1 hv.1) fun f1 h1 =>
      Sound.FormatOperationList_sound quote rest f1 h1 hk.2 ha.2 hv.2

theorem Sound.FormatFragmentDefinition_sound (quote : String → String) {k : Int}
    {g f : formatter} (h : Sound k g f) (d : FragmentDefinition)
    (hk : selectionsKnown d.SelectionSet = true)
    (ha : d.allArguments Argument.wellFormed = true)
    (hv : d.VariableDefinition.all (fun d => recognisedOpt d.DefaultValue) = true) :
    Run (f.FormatFragmentDefinition quote d) (Sound k g) := by
  simp only [FragmentDefinition.allArguments, Bool.and_eq_true] at ha
  unfold formatter.FormatFragmentDefinition
  refine run_bind (h.WriteWord_sound _) fun f1 h1 => ?_
  refine run_bind (h1.WriteWord_sound _) fun f2 h2 => ?_
  refine run_bind (h2.FormatVariableDefinitionList_sound quote _ hv) fun f3 h3 => ?_
  refine run_bind (h3.WriteWord_sound _) fun f4 h4 => ?_
  refine run_bind (h4.WriteWord_sound _) fun f5 h5 => ?_
  refine run_bind (Sound.FormatDirectiveList_sound quote _ f5 h5 ha.1) fun f6 h6 => ?_
  exact run_ite (fun _ => run_bind (h6.FormatSelectionSet_sound quote _ hk ha.2)
    fun f7 h7 => run_ok h7.WriteNewline_sound) fun _ => run_ok h6

theorem Sound.FormatFragmentDefinitionList_sound (quote : String → String) {k : Int}
    {g : formatter} :
    ∀ (l : List FragmentDefinition) (f : formatter), Sound k g f →
      l.all (fun d => selectionsKnown d.SelectionSet) = true →
      l.all (FragmentDefinition.allArguments Argument.wellFormed) = true →
      l.all (fun d => d.VariableDefinition.all (fun d => recognisedOpt d.DefaultValue)) = true →
      Run (f.FormatFragmentDefinitionList quote l) (Sound k g)
  | [], f, h, _, _, _ => run_ok h
  | d :: rest, f, h, hk, ha, hv => by
    simp only [List.all_cons, Bool.and_eq_true] at hk ha hv
    unfold formatter.FormatFragmentDefinitionList
    exact run_bind (h.FormatFragmentDefinition_sound quote d hk.1 ha.1 hv.1) fun f1 h1 =>
      Sound.FormatFragmentDefinitionList_sound quote rest f1 h1 hk.2 ha.2 hv.2

theorem Sound.FormatQueryDocument_sound (quote : String → String) {k : Int} {g f : formatter}
    (h : Sound k g f) (doc : Option QueryDocument) (hd : wellFormedDocument doc = true) :
    Run (f.FormatQueryDocument quote doc) (Sound k g) := by
  cases doc with
  | none => exact run_ok h
  | some doc =>
    simp only [wellFormedDocument, documentKnownSelections, documentAllArguments,
      documentAllVariables, Bool.and_eq_true] at hd
    unfold formatter.FormatQueryDocument
    exact run_bind (Sound.FormatOperationList_sound quote _ f h hd.1.1.1 hd.1.2.1 hd.2.1)
      fun f1 h1 => Sound.FormatFragmentDefinitionList_sound quote _ f1 h1 hd.1.1.2 hd.1.2.2 hd.2.2

mutual
theorem apply_indent : ∀ (o : FormatOption) (f : formatter), (o.apply f).indent = f.indent
  | .WithMinification, _ => rfl
  | .WithIndent _, _ => rfl
  | .Options o, f => by
    rw [FormatOption.apply]
    exact applyAll_indent o f
termination_by structural o => o
theorem applyAll_indent :
    ∀ (l : List FormatOption) (f : formatter), (FormatOption.applyAll l f).indent = f.indent
  | [], _ => by rw [FormatOption.applyAll]
  | o :: rest, f => by
    rw [FormatOption.applyAll, applyAll_indent rest, apply_indent o]
termination_by structural l => l
end

/-- A well-formed document is formatted without fault by every formatter that
`NewFormatter` builds. -/
theorem formatted_completes (quote : String → String) (w : String) (opts : List FormatOption)
    (doc : Option QueryDocument) (hd : wellFormedDocument doc = true) :
    ∃ out, formatted quote w opts doc = .ok out := by
  have ho : 0 ≤ (NewFormatter w opts).indent := by
    unfold NewFormatter
    rw [applyAll_indent]
  obtain ⟨f', e, _⟩ := Sound.FormatQueryDocument_sound quote (Sound.initial (Or.inr ho)) doc hd
  exact ⟨f'.writer, by unfold formatted; rw [e]; rfl⟩


theorem WriteWord_lead (f : formatter) (s : String) :
    f.WriteWord s =
      if f.lineHead = true ∧ f.optCompressed = false ∧ f.indent < 0 then .error .negativeRepeat
      else .ok { f with
        writer := f.writer ++ f.wordLead ++ TrimSpace s, lineHead := false, padNext := true } := by
  rw [WriteWord_eq, formatter.wordLead, String.append_assoc f.writer]

theorem FormatField_eq (quote : String → String) (f : formatter) (fieldAlias name : String)
    (arguments : List Argument) (directives : List Directive) (selectionSet : List Selection) :
    f.FormatField quote fieldAlias name arguments directives selectionSet =
      (if f.lineHead = true ∧ f.optCompressed = false ∧ f.indent < 0 then
         .error .negativeRepeat
       else formatter.FormatField.rest quote
         { f with
           writer := f.writer ++ f.wordLead ++
             (if fieldAlias = "" ∨ fieldAlias = name then TrimSpace name
              else TrimSpace fieldAlias ++ f.colonUnit ++ TrimSpace name),
           lineHead := false, padNext := true } arguments directives selectionSet) := by
  unfold formatter.FormatField formatter.FormatSelection formatter.FormatField.rest
    formatter.FormatSelectionSet
  by_cases ha : fieldAlias = "" ∨ fieldAlias = name
  · have hn : ¬ (fieldAlias ≠ "" ∧ fieldAlias ≠ name) := by tauto
    rw [if_neg hn, if_pos ha, bind_ok, WriteWord_lead]
    split
    · rfl
    · rfl
  · have hn : fieldAlias ≠ "" ∧ fieldAlias ≠ name := by tauto
    rw [if_pos hn, if_neg ha, WriteWord_lead]
    split
    · rfl
    · simp only [bind_ok, bind_assoc, WriteString_eq, WriteWord_eq, formatter.NoPadding]
      simp [String.append_assoc]

theorem aliasQuery_output :
    formatted id "" [] (some aliasQuery) = .ok "query \x7b\n  a: b\n  c\n  d\n\x7d\n" ∧
    formatted id "" [.WithMinification] (some aliasQuery) = .ok "query\x7ba:b c d\x7d" := by
  constructor <;> decide!

theorem FormatOperationDefinition_empty (quote : String → String) (f : formatter)
    (operation name : String) (variableDefinitions : List VariableDefinition)
    (directives : List Directive) :
    f.FormatOperationDefinition quote ⟨operation, name, variableDefinitions, directives, []⟩ =
      (do
        let f ← f.WriteWord operation
        let f ← (if name ≠ "" then f.WriteWord name else .ok f)
        let f ← f.FormatVariableDefinitionList quote variableDefinitions
        f.FormatDirectiveList quote directives) := by
  unfold formatter.FormatOperationDefinition
  simp only [List.length_nil, ne_eq, not_true_eq_false, if_false]
  cases f.WriteWord operation with
  | error e => rfl
  | ok f1 =>
    simp only [bind_ok]
    cases (if ¬ name = "" then f1.WriteWord name else .ok f1) with
    | error e => rfl
    | ok f2 =>
      simp only [bind_ok]
      cases f2.FormatVariableDefinitionList quote variableDefinitions with
      | error e => rfl
      | ok f3 =>
        simp only [bind_ok]
        cases f3.FormatDirectiveList quote directives with
        | error e => rfl
        | ok f4 => rfl

theorem FormatOperationDefinition_bare (quote : String → String) (f : formatter)
    (operation name : String) :
    f.FormatOperationDefinition quote ⟨operation, name, [], [], []⟩ =
      (if f.lineHead = true ∧ f.optCompressed = false ∧ f.indent < 0 then
         .error .negativeRepeat
       else .ok { f with
         writer := f.writer ++ f.wordLead ++ TrimSpace operation ++
           (if name = "" then "" else " " ++ TrimSpace name),
         lineHead := false, padNext := true }) := by
  rw [FormatOperationDefinition_empty, WriteWord_lead]
  split
  · rfl
  · by_cases hn : name = ""
    · simp [hn, formatter.FormatVariableDefinitionList, formatter.FormatDirectiveList]
    · simp [hn, formatter.FormatVariableDefinitionList, formatter.FormatDirectiveList,
        WriteWord_eq, String.append_assoc]

theorem namedBareQuery_output :
    formatted id "" [] (some bareQuery) = .ok "query" ∧
    formatted id "" [] (some namedBareQuery) = .ok "query Q @d" ∧
    formatted id "" [.WithMinification] (some namedBareQuery) = .ok "query Q@d" := by
  refine ⟨?_, ?_, ?_⟩ <;> decide!

theorem FormatFragmentSpread_eq (quote : String → String) (f : formatter) (name : String)
    (directives : List Directive) :
    f.FormatFragmentSpread quote name directives =
      (if f.lineHead = true ∧ f.optCompressed = false ∧ f.indent < 0 then
         .error .negativeRepeat
       else formatter.FormatDirectiveList quote
         { f with
           writer := f.writer ++ f.wordLead ++ "..." ++ " " ++ TrimSpace name,
           lineHead := false, padNext := true } directives) := by
  unfold formatter.FormatFragmentSpread
  rw [WriteWord_lead]
  split
  · rfl
  · simp only [bind_ok, WriteWord_eq]
    have e : TrimSpace "..." = "..." := by decide!
    simp [String.append_assoc, e]

theorem spreadQuery_output :
    formatted id "" [] (some spreadQuery) = .ok "query \x7b\n  ... F\n\x7d\n" ∧
    formatted id "" [.WithMinification] (some spreadQuery) = .ok "query\x7b... F\x7d" := by
  constructor <;> decide!

theorem applyAll_append (l₁ l₂ : List FormatOption) (f : formatter) :
    FormatOption.applyAll (l₁ ++ l₂) f = FormatOption.applyAll l₂ (FormatOption.applyAll l₁ f) := by
  induction l₁ generalizing f with
  | nil => simp [FormatOption.applyAll]
  | cons o rest ih => simp [FormatOption.applyAll, ih]


mutual
theorem apply_gates : ∀ (o : FormatOption) (f : formatter),
    f.optArgumentSplitted = f.optWhereLogicalOps →
    (o.apply f).optArgumentSplitted = (o.apply f).optWhereLogicalOps
  | .WithMinification, _, _ => rfl
  | .WithIndent _, _, h => h
  | .Options o, f, h => by
    rw [FormatOption.apply]
    exact applyAll_gates o f h
termination_by structural o => o
theorem applyAll_gates : ∀ (l : List FormatOption) (f : formatter),
    f.optArgumentSplitted = f.optWhereLogicalOps →
    (FormatOption.applyAll l f).optArgumentSplitted =
      (FormatOption.applyAll l f).optWhereLogicalOps
  | [], _, h => by rw [FormatOption.applyAll]; exact h
  | o :: rest, f, h => by
    rw [FormatOption.applyAll]
    exact applyAll_gates rest _ (apply_gates o f h)
termination_by structural l => l
end

/-- The two gates of the applicability test are equal in every formatter that
`NewFormatter` builds. -/
theorem NewFormatter_gates (w : String) (opts : List FormatOption) :
    (NewFormatter w opts).optArgumentSplitted = (NewFormatter w opts).optWhereLogicalOps := by
  unfold NewFormatter
  exact applyAll_gates opts _ rfl

theorem useLogOp_congr (f g : formatter) (h : f.optWhereLogicalOps = g.optWhereLogicalOps)
    (a : Argument) :
    formatter.FormatWhereArgument.useLogOp f a = formatter.FormatWhereArgument.useLogOp g a := by
  unfold formatter.FormatWhereArgument.useLogOp
  rw [h]

theorem doSplitted_agrees (f : formatter) (hf : f.optArgumentSplitted = f.optWhereLogicalOps)
    (a : Argument) :
    formatter.FormatArgumentList.doSplitted f [a] =
      (if a.Name = "where" then formatter.FormatWhereArgument.useLogOp f a else .ok false) := by
  rw [doSplitted_single]
  cases ho : f.optWhereLogicalOps
  · rw [ho] at hf
    simp [hf, formatter.FormatWhereArgument.useLogOp, ho]
  · rw [ho] at hf
    rw [if_pos hf]
    by_cases hn : a.Name = "where"
    · rw [if_pos hn, if_pos hn]
      exact useLogOp_congr _ _ (by simp [ho]) a
    · rw [if_neg hn, if_neg hn]

theorem FormatArgumentList_single (quote : String → String) (f : formatter)
    (hf : f.optArgumentSplitted = f.optWhereLogicalOps) (a : Argument) :
    f.FormatArgumentList quote [a] = (do
      let b ← (if a.Name = "where" then formatter.FormatWhereArgument.useLogOp f a
               else .ok false)
      let f₁ ← f.NoPadding.WriteString "("
      let f₂ ←
        (if b = true then
           (f₁.WriteNewline.IncrementIndent.FormatWhereLogOpArgument quote a).map
             (fun g => g.WriteNewline.DecrementIndent)
         else f₁.inlineArgument quote a)
      let f₃ ← f₂.WriteString ")"
      .ok f₃.NeedPadding) := by
  unfold formatter.FormatArgumentList
  rw [if_neg (by simp), doSplitted_agrees f hf a]
  cases hb : (if a.Name = "where" then formatter.FormatWhereArgument.useLogOp f a
      else .ok false) with
  | error e => rfl
  | ok b =>
    simp only [bind_ok]
    cases h1 : f.NoPadding.WriteString "(" with
    | error e => rfl
    | ok f1 =>
      simp only [bind_ok]
      have e1 := (Ext.refl f).NoPadding.WriteString "(" f1 h1
      cases b with
      | true =>
        have hn : a.Name = "where" := by
          by_contra hn
          rw [if_neg hn] at hb
          cases hb
        rw [if_pos hn] at hb
        have hu : formatter.FormatWhereArgument.useLogOp f1.WriteNewline.IncrementIndent a =
            .ok true := by
          rw [← hb]
          exact useLogOp_congr _ _ e1.WriteNewline.IncrementIndent.optWhereLogicalOps a
        simp only [if_true, formatter.FormatArgumentList.splitLoop, formatter.FormatArgument,
          if_pos hn, formatter.FormatWhereArgument, hu, bind_ok]
        cases f1.WriteNewline.IncrementIndent.FormatWhereLogOpArgument quote a with
        | error e => rfl
        | ok g => rfl
      | false =>
        have hi : f1.FormatArgument quote a = f1.inlineArgument quote a := by
          unfold formatter.FormatArgument formatter.inlineArgument
          by_cases hn : a.Name = "where"
          · rw [if_pos hn] at hb
            have hu : formatter.FormatWhereArgument.useLogOp f1 a = .ok false := by
              rw [← hb]
              exact useLogOp_congr _ _ e1.optWhereLogicalOps a
            simp only [if_pos hn, formatter.FormatWhereArgument, hu, bind_ok]
            rfl
          · rw [if_neg hn]
        simp only [Bool.false_eq_true, if_false, formatter.FormatArgumentList.inlineLoop, hi,
          List.isEmpty_nil, Bool.not_true]
        cases f1.inlineArgument quote a with
        | error e => rfl
        | ok g => rfl


theorem logicalScalarQuery_output :
    formatted id "" [] (some logicalScalarQuery) =
      .ok "query \x7b\n  f(\n    where: \x7b\n      and: \x7b\n        or: 5a: 1\n      \x7d\n    \x7d\n  )\n\x7d\n" ∧
    formatted id "" [] (some logicalLastQuery) =
      .ok "query \x7b\n  f(\n    where: \x7b\n      and: \x7b\n        a: 1\n        not: $v\x7d\n    \x7d\n  )\n\x7d\n" := by
  constructor <;> decide!

theorem FormatWhereLogOpChildValue_scalar (quote : String → String) (f f' : formatter)
    (name raw : String) (children : List (Option ChildValue)) (kind : ValueKind)
    (hk : kind = .IntValue ∨ kind = .FloatValue ∨ kind = .EnumValue ∨ kind = .BooleanValue ∨
      kind = .NullValue ∨ kind = .Variable ∨ kind = .StringValue ∨ kind = .BlockValue)
    (h : f.FormatWhereLogOpChildValue quote (.mk name (some (.mk raw children kind))) = .ok f') :
    f'.lineHead = false := by
  unfold formatter.FormatWhereLogOpChildValue at h
  obtain ⟨f1, h1, h⟩ := bind_eq_ok.mp h
  obtain ⟨f2, h2, h⟩ := bind_eq_ok.mp h
  have key : ∀ s, f2.WriteString s = .ok f' → f'.lineHead = false := by
    intro s hs
    rw [WriteString_eq] at hs
    split at hs
    · cases hs
    · cases hs; rfl
  rcases hk with hk | hk | hk | hk | hk | hk | hk | hk <;> subst hk <;> exact key _ h


/-! ## The formatter completes only if every examined kind is declared -/

mutual
theorem GetValueString.value_seen (quote : String → String) (f : formatter) :
    ∀ (v : Value) (s : String), GetValueString.value quote f v = .ok s → v.examinedKnown = true
  | .mk raw children kind, s, h => by
    cases kind <;> simp only [GetValueString.value] at h <;> simp only [Value.examinedKnown]
    · obtain ⟨val, hv, _⟩ := bind_eq_ok.mp h
      exact GetValueString.listLoop_seen quote f children val hv
    · obtain ⟨val, hv, _⟩ := bind_eq_ok.mp h
      exact GetValueString.objectLoop_seen quote f children val hv
    · cases h
termination_by structural v => v
theorem GetValueString_seen (quote : String → String) (f : formatter) :
    ∀ (v : Option Value) (s : String), GetValueString quote f v = .ok s →
      examinedKnownOpt v = true
  | none, _, _ => by simp [examinedKnownOpt]
  | some v, s, h => by
    simp only [GetValueString] at h
    simp only [examinedKnownOpt]
    exact GetValueString.value_seen quote f v s h
termination_by structural v => v
theorem GetValueString.listElem_seen (quote : String → String) (f : formatter) :
    ∀ (c : Option ChildValue) (s : String), GetValueString.listElem quote f c = .ok s →
      examinedKnownChild c = true
  | none, _, _ => by simp [examinedKnownChild]
  | some (.mk _ v), s, h => by
    simp only [GetValueString.listElem] at h
    simp only [examinedKnownChild]
    exact GetValueString_seen quote f v s h
termination_by structural c => c
theorem GetValueString.objectElem_seen (quote : String → String) (f : formatter) :
    ∀ (c : Option ChildValue) (s : String), GetValueString.objectElem quote f c = .ok s →
      examinedKnownChild c = true
  | none, _, _ => by simp [examinedKnownChild]
  | some (.mk _ v), s, h => by
    simp only [GetValueString.objectElem] at h
    simp only [examinedKnownChild]
    obtain ⟨t, ht, _⟩ := bind_eq_ok.mp h
    exact GetValueString_seen quote f v t ht
termination_by structural c => c
theorem GetValueString.listLoop_seen (quote : String → String) (f : formatter) :
    ∀ (l : List (Option ChildValue)) (val : List String),
      GetValueString.listLoop quote f l = .ok val → examinedKnownList l = true
  | [], _, _ => by simp [examinedKnownList]
  | c :: rest, val, h => by
    simp only [GetValueString.listLoop] at h
    obtain ⟨s, hs, h⟩ := bind_eq_ok.mp h
    obtain ⟨val', hv, _⟩ := bind_eq_ok.mp h
    simp only [examinedKnownList, Bool.and_eq_true]
    exact ⟨GetValueString.listElem_seen quote f c s hs,
      GetValueString.listLoop_seen quote f rest val' hv⟩
termination_by structural l => l
theorem GetValueString.objectLoop_seen (quote : String → String) (f : formatter) :
    ∀ (l : List (Option ChildValue)) (val : List String),
      GetValueString.objectLoop quote f l = .ok val → examinedKnownList l = true
  | [], _, _ => by simp [examinedKnownList]
  | c :: rest, val, h => by
    simp only [GetValueString.objectLoop] at h
    obtain ⟨s, hs, h⟩ := bind_eq_ok.mp h
    obtain ⟨val', hv, _⟩ := bind_eq_ok.mp h
    simp only [examinedKnownList, Bool.and_eq_true]
    exact ⟨GetValueString.objectElem_seen quote f c s hs,
      GetValueString.objectLoop_seen quote f rest val' hv⟩
termination_by structural l => l
end

theorem post_const {x : Except Fault formatter} {P : Prop}
    (h : ∀ f', x = .ok f' → P) : Post x (fun _ => P) := h

theorem FormatValue_seen (quote : String → String) (f : formatter) (v : Option Value) :
    Post (f.FormatValue quote v) (fun _ => examinedKnownOpt v = true) := by
  unfold formatter.FormatValue
  exact post_bind_val fun s hs _ _ => GetValueString_seen quote f v s hs

theorem FormatChildValue_seen (quote : String → String) (f : formatter) (c : ChildValue) :
    Post (f.FormatChildValue quote c) (fun _ => examinedKnownOpt c.Value = true) := by
  unfold formatter.FormatChildValue
  exact post_bind_val fun s hs _ _ => GetValueString_seen quote f c.Value s hs

mutual
theorem FormatWhereLogOpChildValue_seen (quote : String → String) :
    ∀ (c : ChildValue) (f : formatter),
      Post (f.FormatWhereLogOpChildValue quote c) (fun _ => examinedKnownOpt c.Value = true)
  | .mk name value, f => by
    unfold formatter.FormatWhereLogOpChildValue
    refine post_bind fun f1 _ => post_bind fun f2 _ => ?_
    cases value with
    | none => exact fun _ _ => by simp [ChildValue.Value, examinedKnownOpt]
    | some v =>
      obtain ⟨raw, children, kind⟩ := v
      simp only [ChildValue.Value, examinedKnownOpt, Value.examinedKnown]
      cases kind <;> simp only
      case unsupported => exact post_error
      case ListValue =>
        exact post_bind_val fun val hv _ _ => GetValueString.listLoop_seen quote f2 children val hv
      case ObjectValue =>
        match children with
        | [] => exact fun _ _ => by simp [examinedKnownList]
        | [none] => exact post_error
        | [some c] =>
          simp only [examinedKnownList, Bool.and_true]
          have hc : examinedKnownChild (some c) = examinedKnownOpt c.Value := by
            obtain ⟨n, v⟩ := c
            simp [examinedKnownChild, ChildValue.Value]
          rw [hc]
          refine post_ite (fun _ => ?_) fun _ => post_ite (fun _ => ?_) fun _ => ?_
          · refine post_bind fun f3 _ => ?_
            refine post_bind fun f4 h4 => ?_
            exact fun _ _ => FormatWhereLogOpChildValue_seen quote c _ f4 h4
          · refine post_bind fun f3 _ => ?_
            refine post_bind fun f4 h4 => ?_
            exact fun _ _ => FormatChildValue_seen quote f3 c f4 h4
          · refine post_bind fun f3 _ => ?_
            refine post_bind fun f4 h4 => ?_
            exact fun _ _ => FormatChildValue_seen quote f3 c f4 h4
        | c₀ :: c₁ :: rest =>
          simp only
          refine post_bind fun f3 _ => ?_
          refine post_bind fun f4 h4 => ?_
          exact fun _ _ => whereLoop_seen quote (c₀ :: c₁ :: rest) _ f4 h4
      all_goals exact fun _ _ => trivial
termination_by structural c => c
theorem whereLoop_seen (quote : String → String) :
    ∀ (l : List (Option ChildValue)) (f : formatter),
      Post (formatter.FormatWhereLogOpChildValue.loop quote f l)
        (fun _ => examinedKnownList l = true)
  | [], f => fun _ _ => by simp [examinedKnownList]
  | none :: _, f => by
    unfold formatter.FormatWhereLogOpChildValue.loop
    exact post_error
  | some c :: rest, f => by
    unfold formatter.FormatWhereLogOpChildValue.loop
    have hc : examinedKnownChild (some c) = examinedKnownOpt c.Value := by
      obtain ⟨n, v⟩ := c
      simp [examinedKnownChild, ChildValue.Value]
    simp only [examinedKnownList, Bool.and_eq_true, hc]
    intro f' e
    obtain ⟨f1, h1, h2⟩ := bind_eq_ok.mp e
    refine ⟨?_, whereLoop_seen quote rest f1 f' h2⟩
    split at h1
    · exact FormatWhereLogOpChildValue_seen quote c f f1 h1
    · obtain ⟨f2, h3, _⟩ := bind_eq_ok.mp h1
      exact FormatChildValue_seen quote f c f2 h3
termination_by structural l => l
end

theorem FormatWhereLogOpArgument_seen (quote : String → String) (f : formatter)
    (arg : Argument) :
    Post (f.FormatWhereLogOpArgument quote arg)
      (fun _ => ∃ v c rest, arg.Value = some v ∧ v.Children = some c :: rest ∧
        examinedKnownOpt c.Value = true) := by
  unfold formatter.FormatWhereLogOpArgument
  refine post_bind fun f1 _ => post_bind fun f2 _ => post_bind fun f3 h3 => ?_
  intro _ _
  cases hv : arg.Value with
  | none => simp [hv] at h3
  | some v =>
    simp only [hv] at h3
    match hc : v.Children, h3 with
    | [], h3 => cases h3
    | none :: _, h3 => cases h3
    | some c :: rest, h3 =>
      exact ⟨v, c, rest, rfl, hc, FormatWhereLogOpChildValue_seen quote c _ f3 h3⟩

theorem useLogOp_false (f : formatter) (arg : Argument)
    (e : formatter.FormatWhereArgument.useLogOp f arg = .ok false) :
    (f.optWhereLogicalOps && whereQualifies arg.Value) = false := by
  cases ho : f.optWhereLogicalOps
  · rfl
  · by_cases hd : arg.derefOk = true
    · rw [useLogOp_eq f arg hd, ho] at e
      exact Except.ok.inj e
    · obtain ⟨name, value⟩ := arg
      unfold formatter.FormatWhereArgument.useLogOp at e
      rw [ho] at e
      simp only [if_true] at e
      cases value with
      | none => cases e
      | some v =>
        obtain ⟨raw, children, kind⟩ := v
        match children, e, hd with
        | [], _, hd => simp [Argument.derefOk, Value.Children] at hd
        | _ :: _ :: _, _, hd => simp [Argument.derefOk, Value.Children] at hd
        | [none], e, _ => simp [Value.Children] at e
        | [some c], e, hd =>
          simp only [Value.Children] at e
          simp only [Argument.derefOk, Value.Children] at hd
          split at e
          · cases hcv : c.Value with
            | none => simp [hcv] at e
            | some cv => simp_all
          · simp_all

theorem FormatArgument_seen (quote : String → String) (f : formatter) (arg : Argument) :
    Post (f.FormatArgument quote arg)
      (fun _ => arg.examinedKnown f.optWhereLogicalOps = true) := by
  have inline : Post (do
      let f ← f.WriteWord arg.Name
      let f ← f.NoPadding.WriteString f.colonUnit
      f.FormatValue quote arg.Value) (fun _ => examinedKnownOpt arg.Value = true) :=
    post_bind fun f1 _ => post_bind fun f2 _ => FormatValue_seen quote f2 arg.Value
  unfold formatter.FormatArgument Argument.examinedKnown
  by_cases hn : arg.Name = "where"
  · rw [if_pos hn]
    unfold formatter.FormatWhereArgument
    refine post_bind_val fun b hb => ?_
    cases b with
    | true =>
      obtain ⟨raw, c, kind, hv, hq⟩ := useLogOp_true f arg hb
      rw [hv] at hq
      have ho : f.optWhereLogicalOps = true := by
        cases ho : f.optWhereLogicalOps
        · rw [useLogOp_minified f ho] at hb; cases hb
        · rfl
      simp only [if_true, ho, hn, hq, decide_True, Bool.and_self, hv, Value.Children]
      refine post_mono (FormatWhereLogOpArgument_seen quote f arg) ?_
      rintro _ ⟨v, c', rest, hv', hc', hk⟩
      rw [hv] at hv'
      cases hv'
      simp only [Value.Children] at hc'
      cases hc'
      obtain ⟨n, cv⟩ := c
      simpa [examinedKnownList, examinedKnownChild, ChildValue.Value] using hk
    | false =>
      have hf := useLogOp_false f arg hb
      simp only [Bool.false_eq_true, if_false]
      refine post_mono inline fun _ hk => ?_
      rw [if_neg]
      · exact hk
      · simp only [hn, decide_True, Bool.and_true]
        rw [hf]
        simp
  · rw [if_neg hn]
    refine post_mono inline fun _ hk => ?_
    rw [if_neg]
    · exact hk
    · simp [hn]

theorem splitLoop_seen (quote : String → String) {k : Int} {g : formatter} :
    ∀ (l : List Argument) (f : formatter), Ext k g f →
      Post (formatter.FormatArgumentList.splitLoop quote f l)
        (fun _ => l.all (Argument.examinedKnown g.optWhereLogicalOps) = true)
  | [], f, h => fun _ _ => rfl
  | arg :: rest, f, h => by
    unfold formatter.FormatArgumentList.splitLoop
    intro f' e
    obtain ⟨f1, h1, h2⟩ := bind_eq_ok.mp e
    have e1 := (h.FormatArgument quote arg f1 h1).WriteNewline
    have a1 := FormatArgument_seen quote f arg f1 h1
    rw [h.optWhereLogicalOps] at a1
    simp only [List.all_cons, Bool.and_eq_true]
    exact ⟨a1, splitLoop_seen quote rest _ e1 f' h2⟩

theorem inlineLoop_seen (quote : String → String) {k : Int} {g : formatter} :
    ∀ (l : List Argument) (f : formatter), Ext k g f →
      Post (formatter.FormatArgumentList.inlineLoop quote f l)
        (fun _ => l.all (Argument.examinedKnown g.optWhereLogicalOps) = true)
  | [], f, h => fun _ _ => rfl
  | arg :: rest, f, h => by
    unfold formatter.FormatArgumentList.inlineLoop
    intro f' e
    obtain ⟨f1, h1, h2⟩ := bind_eq_ok.mp e
    obtain ⟨f2, h3, h4⟩ := bind_eq_ok.mp h2
    have e1 := h.FormatArgument quote arg f1 h1
    have e2 : Ext k g f2 :=
      (post_ite (fun _ => post_ite (fun _ => e1.NoPadding.WriteString _)
        fun _ => e1.NoPadding.WriteWord _) fun _ => post_ok e1 : Post _ (Ext k g)) f2 h3
    have a1 := FormatArgument_seen quote f arg f1 h1
    rw [h.optWhereLogicalOps] at a1
    simp only [List.all_cons, Bool.and_eq_true]
    exact ⟨a1, inlineLoop_seen quote rest _ e2 f' h4⟩

theorem FormatArgumentList_seen (quote : String → String) {k : Int} {g f : formatter}
    (h : Ext k g f) (l : List Argument) :
    Post (f.FormatArgumentList quote l)
      (fun _ => l.all (Argument.examinedKnown g.optWhereLogicalOps) = true) := by
  unfold formatter.FormatArgumentList
  refine post_ite (fun hl => ?_) fun _ => ?_
  · rw [List.length_eq_zero.mp hl]
    exact fun _ _ => rfl
  refine post_bind_val fun b _ => ?_
  refine post_bind (post_mono (h.NoPadding.WriteString _) fun f1 h1 => ?_)
  refine post_bind fun f2 h2 => ?_
  intro _ _
  split at h2
  · obtain ⟨f3, h3, _⟩ := bind_eq_ok.mp h2
    exact splitLoop_seen quote l _ h1.WriteNewline.IncrementIndent f3 h3
  · exact inlineLoop_seen quote l _ h1 f2 h2

theorem FormatDirective_seen (quote : String → String) {k : Int} {g f : formatter}
    (h : Ext k g f) (d : Directive) :
    Post (f.FormatDirective quote d)
      (fun _ => d.allArguments (Argument.examinedKnown g.optWhereLogicalOps) = true) := by
  unfold formatter.FormatDirective Directive.allArguments
  exact post_bind (post_mono (h.WriteString _) fun f1 h1 =>
    post_bind (post_mono (h1.WriteWord _) fun f2 h2 => FormatArgumentList_seen quote h2 _))

theorem FormatDirectiveList_seen (quote : String → String) {k : Int} {g : formatter} :
    ∀ (l : List Directive) (f : formatter), Ext k g f →
      Post (f.FormatDirectiveList quote l)
        (fun _ => l.all (Directive.allArguments
          (Argument.examinedKnown g.optWhereLogicalOps)) = true)
  | [], f, h => fun _ _ => rfl
  | d :: rest, f, h => by
    unfold formatter.FormatDirectiveList
    intro f' e
    obtain ⟨f1, h1, h2⟩ := bind_eq_ok.mp e
    simp only [List.all_cons, Bool.and_eq_true]
    exact ⟨FormatDirective_seen quote h d f1 h1,
      FormatDirectiveList_seen quote rest f1 (h.FormatDirective quote d f1 h1) f' h2⟩

theorem FormatVariableDefinition_seen (quote : String → String) (f : formatter)
    (d : VariableDefinition) :
    Post (f.FormatVariableDefinition quote d)
      (fun _ => examinedKnownOpt d.DefaultValue = true) := by
  unfold formatter.FormatVariableDefinition
  refine post_bind fun f1 _ => post_bind fun f2 _ => post_bind fun f3 _ =>
    post_bind fun f4 _ => ?_
  cases d.DefaultValue with
  | none => exact fun _ _ => rfl
  | some v => exact post_bind fun f5 _ => FormatValue_seen quote f5 (some v)

theorem variableLoop_seen (quote : String → String) :
    ∀ (l : List VariableDefinition) (f : formatter),
      Post (formatter.FormatVariableDefinitionList.loop quote f l)
        (fun _ => l.all (fun d => examinedKnownOpt d.DefaultValue) = true)
  | [], f => fun _ _ => rfl
  | d :: rest, f => by
    unfold formatter.FormatVariableDefinitionList.loop
    intro f' e
    obtain ⟨f1, h1, h2⟩ := bind_eq_ok.mp e
    obtain ⟨f2, _, h4⟩ := bind_eq_ok.mp h2
    simp only [List.all_cons, Bool.and_eq_true]
    exact ⟨FormatVariableDefinition_seen quote f d f1 h1, variableLoop_seen quote rest f2 f' h4⟩

theorem FormatVariableDefinitionList_seen (quote : String → String) (f : formatter)
    (l : List VariableDefinition) :
    Post (f.FormatVariableDefinitionList quote l)
      (fun _ => l.all (fun d => examinedKnownOpt d.DefaultValue) = true) := by
  unfold formatter.FormatVariableDefinitionList
  refine post_ite (fun hl => ?_) fun _ => ?_
  · rw [List.length_eq_zero.mp hl]
    exact fun _ _ => rfl
  refine post_bind fun f1 _ => post_bind fun f2 h2 => ?_
  exact fun _ _ => variableLoop_seen quote l f1 f2 h2

theorem frame_seen {k : Int} {g f : formatter} (h : Ext k g f) (sets : List Selection)
    (body : formatter → Except Fault formatter) (P : Prop) (h0 : sets = [] → P)
    (hb : ∀ f1, Ext (k + 1) g f1 → Post (body f1) (fun _ => P)) :
    Post (formatter.FormatSelectionSet.frame f sets body) (fun _ => P) := by
  unfold formatter.FormatSelectionSet.frame
  refine post_ite (fun hl _ _ => h0 (List.length_eq_zero.mp hl)) fun _ => ?_
  refine post_bind (post_mono (h.WriteString _) fun f1 h1 => ?_)
  refine post_bind fun f2 h2 => ?_
  exact fun _ _ => hb _ h1.WriteNewline.IncrementIndent f2 h2

mutual
theorem FormatSelection_seen (quote : String → String) {g : formatter} :
    ∀ (s : Selection) (k : Int) (f : formatter), Ext k g f →
      Post (f.FormatSelection quote s)
        (fun _ => s.allArguments (Argument.examinedKnown g.optWhereLogicalOps) = true)
  | .Field fieldAlias name arguments directives selectionSet, k, f, h => by
    unfold formatter.FormatSelection
    intro f' e
    obtain ⟨f1, h1, e⟩ := bind_eq_ok.mp e
    obtain ⟨f2, h2, e⟩ := bind_eq_ok.mp e
    obtain ⟨f3, h3, e⟩ := bind_eq_ok.mp e
    obtain ⟨f4, h4, e⟩ := bind_eq_ok.mp e
    have e1 : Ext k g f1 :=
      (post_ite (fun _ => post_bind (post_mono (h.WriteWord _) fun f1 h1 =>
        h1.NoPadding.WriteString _)) fun _ => post_ok h : Post _ (Ext k g)) f1 h1
    have e2 := e1.WriteWord _ f2 h2
    have e3 : Ext k g f3 :=
      (post_ite (fun _ => post_bind (post_mono (e2.NoPadding.FormatArgumentList quote _)
        fun f3 h3 => post_ok h3.NeedPadding)) fun _ => post_ok e2 : Post _ (Ext k g)) f3 h3
    have e4 := Ext.FormatDirectiveList quote directives f3 e3 f4 h4
    have a3 : arguments.all (Argument.examinedKnown g.optWhereLogicalOps) = true := by
      split at h3
      · obtain ⟨f5, h5, _⟩ := bind_eq_ok.mp h3
        exact FormatArgumentList_seen quote e2.NoPadding arguments f5 h5
      · rename_i hl
        simp only [ne_eq, not_not] at hl
        rw [List.length_eq_zero.mp hl]
        rfl
    have a4 := FormatDirectiveList_seen quote directives f3 e3 f4 h4
    have a5 := frame_seen e4 selectionSet _
      (selectionsAllArguments (Argument.examinedKnown g.optWhereLogicalOps) selectionSet = true)
      (fun hs => by rw [hs]; simp [selectionsAllArguments])
      (fun f5 h5 => selectionLoop_seen quote selectionSet _ f5 h5) f' e
    simp only [Selection.allArguments, Bool.and_eq_true]
    exact ⟨⟨a3, a4⟩, a5⟩
  | .FragmentSpread name directives, k, f, h => by
    unfold formatter.FormatSelection formatter.FormatFragmentSpread
    simp only [Selection.allArguments]
    exact post_bind (post_mono (h.WriteWord _) fun f1 h1 =>
      post_bind (post_mono (h1.WriteWord _) fun f2 h2 =>
        FormatDirectiveList_seen quote directives f2 h2))
  | .InlineFragment typeCondition directives selectionSet, k, f, h => by
    unfold formatter.FormatSelection
    intro f' e
    obtain ⟨f1, h1, e⟩ := bind_eq_ok.mp e
    obtain ⟨f2, h2, e⟩ := bind_eq_ok.mp e
    obtain ⟨f4, h4, e⟩ := bind_eq_ok.mp e
    have e1 := h.WriteWord _ f1 h1
    have e2 : Ext k g f2 :=
      (post_ite (fun _ => post_bind (post_mono (e1.WriteWord _) fun f2 h2 =>
        h2.WriteWord _)) fun _ => post_ok e1 : Post _ (Ext k g)) f2 h2
    have e4 := Ext.FormatDirectiveList quote directives f2 e2 f4 h4
    have a4 := FormatDirectiveList_seen quote directives f2 e2 f4 h4
    have a5 := frame_seen e4 selectionSet _
      (selectionsAllArguments (Argument.examinedKnown g.optWhereLogicalOps) selectionSet = true)
      (fun hs => by rw [hs]; simp [selectionsAllArguments])
      (fun f5 h5 => selectionLoop_seen quote selectionSet _ f5 h5) f' e
    simp only [Selection.allArguments, Bool.and_eq_true]
    exact ⟨a4, a5⟩
  | .other, k, f, h => by
    unfold formatter.FormatSelection
    exact post_error
termination_by structural s => s
theorem selectionLoop_seen (quote : String → String) {g : formatter} :
    ∀ (l : List Selection) (k : Int) (f : formatter), Ext k g f →
      Post (formatter.FormatSelectionSet.loop quote f l)
        (fun _ => selectionsAllArguments (Argument.examinedKnown g.optWhereLogicalOps) l = true)
  | [], k, f, h => fun _ _ => by simp [selectionsAllArguments]
  | sel :: rest, k, f, h => by
    unfold formatter.FormatSelectionSet.loop
    intro f' e
    obtain ⟨f1, h1, e⟩ := bind_eq_ok.mp e
    obtain ⟨f2, h2, e⟩ := bind_eq_ok.mp e
    have e1 := Ext.FormatSelection quote sel k f h f1 h1
    have e2 : Ext k g f2 :=
      (post_ite (fun _ => post_ite (fun _ => post_ite (fun _ => e1.NoPadding.WriteString _)
        fun _ => e1.NoPadding.WriteWord _) fun _ => post_ok e1)
        fun _ => post_ok e1.WriteNewline : Post _ (Ext k g)) f2 h2
    simp only [selectionsAllArguments, Bool.and_eq_true]
    exact ⟨FormatSelection_seen quote sel k f h f1 h1, selectionLoop_seen quote rest k f2 e2 f' e⟩
termination_by structural l => l
end

theorem FormatSelectionSet_seen (quote : String → String) {k : Int} {g f : formatter}
    (h : Ext k g f) (sets : List Selection) :
    Post (f.FormatSelectionSet quote sets)
      (fun _ => selectionsAllArguments (Argument.examinedKnown g.optWhereLogicalOps) sets = true) :=
  frame_seen h sets _ _ (fun hs => by rw [hs]; simp [selectionsAllArguments])
    (fun f5 h5 => selectionLoop_seen quote sets _ f5 h5)

theorem FormatOperationDefinition_seen (quote : String → String) {k : Int} {g f : formatter}
    (h : Ext k g f) (d : OperationDefinition) :
    Post (f.FormatOperationDefinition quote d)
      (fun _ => d.allArguments (Argument.examinedKnown g.optWhereLogicalOps) = true ∧
        d.VariableDefinitions.all (fun d => examinedKnownOpt d.DefaultValue) = true) := by
  unfold formatter.FormatOperationDefinition
  intro f' e
  obtain ⟨f1, h1, e⟩ := bind_eq_ok.mp e
  obtain ⟨f2, h2, e⟩ := bind_eq_ok.mp e
  obtain ⟨f3, h3, e⟩ := bind_eq_ok.mp e
  obtain ⟨f4, h4, e⟩ := bind_eq_ok.mp e
  have e1 := h.WriteWord _ f1 h1
  have e2 : Ext k g f2 :=
    (post_ite (fun _ => e1.WriteWord _) fun _ => post_ok e1 : Post _ (Ext k g)) f2 h2
  have e3 := e2.FormatVariableDefinitionList quote _ f3 h3
  have e4 := Ext.FormatDirectiveList quote _ f3 e3 f4 h4
  have a3 := FormatVariableDefinitionList_seen quote f2 _ f3 h3
  have a4 := FormatDirectiveList_seen quote _ f3 e3 f4 h4
  have a5 : selectionsAllArguments (Argument.examinedKnown g.optWhereLogicalOps)
      d.SelectionSet = true := by
    split at e
    · obtain ⟨f5, h5, _⟩ := bind_eq_ok.mp e
      exact FormatSelectionSet_seen quote e4 _ f5 h5
    · rename_i hl
      simp only [ne_eq, not_not] at hl
      rw [List.length_eq_zero.mp hl]
      simp [selectionsAllArguments]
  simp only [OperationDefinition.allArguments, Bool.and_eq_true]
  exact ⟨⟨a4, a5⟩, a3⟩

theorem FormatOperationList_seen (quote : String → String) {k : Int} {g : formatter} :
    ∀ (l : List OperationDefinition) (f : formatter), Ext k g f →
      Post (f.FormatOperationList quote l)
        (fun _ =>
          l.all (OperationDefinition.allArguments
            (Argument.examinedKnown g.optWhereLogicalOps)) = true ∧
          l.all (fun d => d.VariableDefinitions.all
            (fun d => examinedKnownOpt d.DefaultValue)) = true)
  | [], f, h => fun _ _ => ⟨rfl, rfl⟩
  | d :: rest, f, h => by
    unfold formatter.FormatOperationList
    intro f' e
    obtain ⟨f1, h1, e⟩ := bind_eq_ok.mp e
    have a1 := FormatOperationDefinition_seen quote h d f1 h1
    have a2 := FormatOperationList_seen quote rest f1 (h.FormatOperationDefinition quote d f1 h1)
      f' e
    simp only [List.all_cons, Bool.and_eq_true]
    exact ⟨⟨a1.1, a2.1⟩, a1.2, a2.2⟩

theorem FormatFragmentDefinition_seen (quote : String → String) {k : Int} {g f : formatter}
    (h : Ext k g f) (d : FragmentDefinition) :
    Post (f.FormatFragmentDefinition quote d)
      (fun _ => d.allArguments (Argument.examinedKnown g.optWhereLogicalOps) = true ∧
        d.VariableDefinition.all (fun d => examinedKnownOpt d.DefaultValue) = true) := by
  unfold formatter.FormatFragmentDefinition
  intro f' e
  obtain ⟨f1, h1, e⟩ := bind_eq_ok.mp e
  obtain ⟨f2, h2, e⟩ := bind_eq_ok.mp e
  obtain ⟨f3, h3, e⟩ := bind_eq_ok.mp e
  obtain ⟨f4, h4, e⟩ := bind_eq_ok.mp e
  obtain ⟨f5, h5, e⟩ := bind_eq_ok.mp e
  obtain ⟨f6, h6, e⟩ := bind_eq_ok.mp e
  have e1 := h.WriteWord _ f1 h1
  have e2 := e1.WriteWord _ f2 h2
  have e3 := e2.FormatVariableDefinitionList quote _ f3 h3
  have e4 := e3.WriteWord _ f4 h4
  have e5 := e4.WriteWord _ f5 h5
  have e6 := Ext.FormatDirectiveList quote _ f5 e5 f6 h6
  have a3 := FormatVariableDefinitionList_seen quote f2 _ f3 h3
  have a6 := FormatDirectiveList_seen quote _ f5 e5 f6 h6
  have a7 : selectionsAllArguments (Argument.examinedKnown g.optWhereLogicalOps)
      d.SelectionSet = true := by
    split at e
    · obtain ⟨f7, h7, _⟩ := bind_eq_ok.mp e
      exact FormatSelectionSet_seen quote e6 _ f7 h7
    · rename_i hl
      simp only [ne_eq, not_not] at hl
      rw [List.length_eq_zero.mp hl]
      simp [selectionsAllArguments]
  simp only [FragmentDefinition.allArguments, Bool.and_eq_true]
  exact ⟨⟨a6, a7⟩, a3⟩

theorem FormatFragmentDefinitionList_seen (quote : String → String) {k : Int} {g : formatter} :
    ∀ (l : List FragmentDefinition) (f : formatter), Ext k g f →
      Post (f.FormatFragmentDefinitionList quote l)
        (fun _ =>
          l.all (FragmentDefinition.allArguments
            (Argument.examinedKnown g.optWhereLogicalOps)) = true ∧
          l.all (fun d => d.VariableDefinition.all
            (fun d => examinedKnownOpt d.DefaultValue)) = true)
  | [], f, h => fun _ _ => ⟨rfl, rfl⟩
  | d :: rest, f, h => by
    unfold formatter.FormatFragmentDefinitionList
    intro f' e
    obtain ⟨f1, h1, e⟩ := bind_eq_ok.mp e
    have a1 := FormatFragmentDefinition_seen quote h d f1 h1
    have a2 := FormatFragmentDefinitionList_seen quote rest f1
      (h.FormatFragmentDefinition quote d f1 h1) f' e
    simp only [List.all_cons, Bool.and_eq_true]
    exact ⟨⟨a1.1, a2.1⟩, a1.2, a2.2⟩

theorem FormatQueryDocument_seen (quote : String → String) (f : formatter)
    (doc : Option QueryDocument) :
    Post (f.FormatQueryDocument quote doc)
      (fun _ => documentAllArguments (Argument.examinedKnown f.optWhereLogicalOps) doc = true ∧
        documentAllVariables (fun d => examinedKnownOpt d.DefaultValue) doc = true) := by
  cases doc with
  | none => exact fun _ _ => ⟨rfl, rfl⟩
  | some doc =>
    unfold formatter.FormatQueryDocument
    intro f' e
    obtain ⟨f1, h1, e⟩ := bind_eq_ok.mp e
    have a1 := FormatOperationList_seen quote _ f (Ext.refl f) f1 h1
    have a2 := FormatFragmentDefinitionList_seen quote _ f1
      (Ext.FormatOperationList quote _ f (Ext.refl f) f1 h1) f' e
    simp only [documentAllArguments, documentAllVariables, Bool.and_eq_true]
    exact ⟨⟨a1.1, a2.1⟩, a1.2, a2.2⟩

/-- A document that is formatted without fault holds no value of an undeclared
kind where the formatter examines the kind. -/
theorem formatted_examined (quote : String → String) (w : String) (opts : List FormatOption)
    (doc : Option QueryDocument) (out : String) (h : formatted quote w opts doc = .ok out) :
    documentAllArguments (Argument.examinedKnown (NewFormatter w opts).optWhereLogicalOps)
      doc = true ∧
    documentAllVariables (fun d => examinedKnownOpt d.DefaultValue) doc = true := by
  unfold formatted at h
  obtain ⟨f', hf, _⟩ := map_eq_ok.mp h
  exact FormatQueryDocument_seen quote _ doc f' hf

theorem whereUnknownKindQuery_output :
    documentAllArguments (fun a => recognisedOpt a.Value) (some whereUnknownKindQuery) = false ∧
    formatted id "" [] (some whereUnknownKindQuery) =
      .ok "query \x7b\n  f(\n    where: \x7b\n      and: \x7b\n        a: 1\n        b: 2\n      \x7d\n    \x7d\n  )\n\x7d\n" ∧
    formatted id "" [.WithMinification] (some whereUnknownKindQuery) = .error .unknownKind := by
  refine ⟨by decide!, by decide!, by decide!⟩

theorem absentValuesQuery_output :
    formatted id "" [] (some absentValuesQuery) =
      .ok "query Q ($v:Int) \x7b\n  f(\n    x: <nil>\n    y: \x7b a: <nil> \x7d\n    z: [  ]\n  )\n\x7d\nmutation" ∧
    formatted id "" [.WithMinification] (some absentValuesQuery) =
      .ok "query Q($v:Int)\x7bf(x:<nil> y:\x7ba:<nil>\x7d z:[])\x7dmutation" := by
  constructor <;> decide!

/-- The layout test of `FormatArgumentList` dereferences the value of a `where`
argument: with a nil value the readable run faults, the minified run renders
the placeholder. -/
theorem whereNilQuery_output :
    formatted id "" [] (some whereNilQuery) = .error .nilDeref ∧
    formatted id "" [.WithMinification] (some whereNilQuery) =
      .ok "query\x7bf(where:<nil>)\x7d" := by
  constructor <;> decide!

theorem FormatWhereLogOpChildValue_unknown (quote : String → String) (f : formatter)
    (name raw : String) (children : List (Option ChildValue)) :
    ∃ e, f.FormatWhereLogOpChildValue quote (.mk name (some (.mk raw children .unsupported))) =
      .error e := by
  unfold formatter.FormatWhereLogOpChildValue
  cases f.WriteString name with
  | error e => exact ⟨e, rfl⟩
  | ok f1 =>
    simp only [bind_ok]
    cases f1.NoPadding.WriteString f1.colonUnit with
    | error e => exact ⟨e, rfl⟩
    | ok f2 => exact ⟨.unknownKind, rfl⟩

mutual
theorem apply_writer : ∀ (o : FormatOption) (f : formatter), (o.apply f).writer = f.writer
  | .WithMinification, _ => rfl
  | .WithIndent _, _ => rfl
  | .Options o, f => by
    rw [FormatOption.apply]
    exact applyAll_writer o f
termination_by structural o => o
theorem applyAll_writer :
    ∀ (l : List FormatOption) (f : formatter), (FormatOption.applyAll l f).writer = f.writer
  | [], _ => by rw [FormatOption.applyAll]
  | o :: rest, f => by
    rw [FormatOption.applyAll, applyAll_writer rest, apply_writer o]
termination_by structural l => l
end

theorem NewFormatter_writer (w : String) (opts : List FormatOption) :
    (NewFormatter w opts).writer = w := by
  unfold NewFormatter
  rw [applyAll_writer]


/-! ## The tracked run is the run of the formatter with the record unchanged -/

theorem lifts_ok {l d : Int} {f : formatter} (h : f.indent = d) :
    Lifts l d (.ok ⟨f, l⟩) (.ok f) := ⟨rfl, h⟩

theorem lifts_error {l d : Int} {e : Fault} : Lifts l d (.error (e, l)) (.error e) := by
  simp [Lifts]

theorem lifts_fault {l d : Int} {f : formatter} {e : Fault} :
    Lifts l d (Tracked.fault ⟨f, l⟩ e) (.error e) := by
  simp [Lifts, Tracked.fault]

theorem lifts_bind {l d d' : Int} {y : Except (Fault × Int) Tracked} {x : Except Fault formatter}
    {ky : Tracked → Except (Fault × Int) Tracked} {kx : formatter → Except Fault formatter}
    (h : Lifts l d y x) (hk : ∀ f, f.indent = d → Lifts l d' (ky ⟨f, l⟩) (kx f)) :
    Lifts l d' (y >>= ky) (x >>= kx) := by
  cases x with
  | error e =>
    simp only [Lifts] at h
    subst h
    exact lifts_error
  | ok f =>
    obtain ⟨hy, hf⟩ := h
    subst hy
    exact hk f hf

theorem lifts_ite {c : Prop} [Decidable c] {l d : Int} {a b : Except (Fault × Int) Tracked}
    {a' b' : Except Fault formatter} (ha : c → Lifts l d a a') (hb : ¬c → Lifts l d b b') :
    Lifts l d (if c then a else b) (if c then a' else b') := by
  split
  · exact ha ‹_›
  · exact hb ‹_›

theorem lifts_read {α : Type} {l d : Int} (f : formatter) (x : Except Fault α)
    {ky : α → Except (Fault × Int) Tracked} {kx : α → Except Fault formatter}
    (hk : ∀ a, x = .ok a → Lifts l d (ky a) (kx a)) :
    Lifts l d (Tracked.read ⟨f, l⟩ x >>= ky) (x >>= kx) := by
  cases x with
  | error e => exact lifts_error
  | ok a => exact hk a rfl

theorem lifts_WriteString {l d : Int} {f : formatter} (hf : f.indent = d) (s : String) :
    Lifts l d (Tracked.WriteString ⟨f, l⟩ s) (f.WriteString s) := by
  unfold Tracked.WriteString Tracked.write
  cases h : f.WriteString s with
  | error e => exact lifts_error
  | ok f' =>
    refine ⟨rfl, ?_⟩
    rw [((Ext.refl f).WriteString s f' h).indent, hf, add_zero]

theorem lifts_WriteWord {l d : Int} {f : formatter} (hf : f.indent = d) (s : String) :
    Lifts l d (Tracked.WriteWord ⟨f, l⟩ s) (f.WriteWord s) := by
  unfold Tracked.WriteWord Tracked.write
  cases h : f.WriteWord s with
  | error e => exact lifts_error
  | ok f' =>
    refine ⟨rfl, ?_⟩
    rw [((Ext.refl f).WriteWord s f' h).indent, hf, add_zero]

theorem indent_WriteNewline (f : formatter) : f.WriteNewline.indent = f.indent := by
  cases h : f.optCompressed <;> simp [formatter.WriteNewline, formatter.writeString, h]

theorem indent_padded {d : Int} {f : formatter} (h : f.indent = d) :
    f.WriteNewline.NeedPadding.indent = d := by
  simpa [formatter.NeedPadding, indent_WriteNewline] using h

theorem Tracked.IncrementIndent_mk {l : Int} {f : formatter} (h : l ≤ f.indent) :
    Tracked.IncrementIndent ⟨f, l⟩ = ⟨f.IncrementIndent, l⟩ := by
  simp only [Tracked.IncrementIndent, formatter.IncrementIndent, Tracked.mk.injEq, true_and]
  exact min_eq_left (by omega)

theorem Tracked.DecrementIndent_mk {l : Int} {f : formatter} (h : l + 1 ≤ f.indent) :
    Tracked.DecrementIndent ⟨f, l⟩ = ⟨f.DecrementIndent, l⟩ := by
  simp only [Tracked.DecrementIndent, formatter.DecrementIndent, Tracked.mk.injEq, true_and]
  exact min_eq_left (by omega)

/-- A block run one level deeper: the depth is increased, the body is run,
the depth is decreased and the run continues. -/
theorem lifts_block {l d d' : Int} (hl : l ≤ d) {f : formatter} (hf : f.indent = d)
    (bt : Tracked → Except (Fault × Int) Tracked) (b : formatter → Except Fault formatter)
    (kt : Tracked → Except (Fault × Int) Tracked) (k : formatter → Except Fault formatter)
    (hb : ∀ g, g.indent = d + 1 → Lifts l (d + 1) (bt ⟨g, l⟩) (b g))
    (hk : ∀ g, g.indent = d → Lifts l d' (kt ⟨g, l⟩) (k g)) :
    Lifts l d' (bt (Tracked.IncrementIndent ⟨f, l⟩) >>= fun t => kt t.DecrementIndent)
      (b f.IncrementIndent >>= fun g => k g.DecrementIndent) := by
  rw [Tracked.IncrementIndent_mk (by omega)]
  refine lifts_bind (hb _ (by simp [formatter.IncrementIndent, hf])) fun g hg => ?_
  rw [Tracked.DecrementIndent_mk (by omega)]
  exact hk _ (by simp [formatter.DecrementIndent, hg])

theorem lifts_FormatValue (quote : String → String) {l d : Int} {f : formatter}
    (hf : f.indent = d) (v : Option Value) :
    Lifts l d (Tracked.FormatValue quote ⟨f, l⟩ v) (f.FormatValue quote v) := by
  unfold Tracked.FormatValue formatter.FormatValue
  exact lifts_read f _ fun s _ => lifts_WriteString hf s

theorem lifts_FormatChildValue (quote : String → String) {l d : Int} {f : formatter}
    (hf : f.indent = d) (c : ChildValue) :
    Lifts l d (Tracked.FormatChildValue quote ⟨f, l⟩ c) (f.FormatChildValue quote c) := by
  unfold Tracked.FormatChildValue formatter.FormatChildValue
  exact lifts_read f _ fun s _ => lifts_WriteString hf _

mutual
theorem lifts_FormatWhereLogOpChildValue (quote : String → String) {l : Int} :
    ∀ (c : ChildValue) (d : Int) (f : formatter), l ≤ d → f.indent = d →
      Lifts l d (Tracked.FormatWhereLogOpChildValue quote ⟨f, l⟩ c)
        (f.FormatWhereLogOpChildValue quote c)
  | .mk name value, d, f, hl, hf => by
    unfold Tracked.FormatWhereLogOpChildValue formatter.FormatWhereLogOpChildValue
    refine lifts_bind (lifts_WriteString hf name) fun f1 h1 => ?_
    refine lifts_bind (lifts_WriteString (by simpa [formatter.NoPadding] using h1) _)
      fun f2 h2 => ?_
    cases value with
    | none => exact lifts_WriteString h2 _
    | some v =>
      obtain ⟨raw, children, kind⟩ := v
      cases kind <;> simp only
      case unsupported => exact lifts_fault
      case ListValue =>
        refine lifts_read f2 _ fun val _ => ?_
        refine lifts_ite (fun _ => lifts_WriteString h2 _) fun _ => ?_
        exact lifts_bind (lifts_WriteString h2 _) fun f3 h3 =>
          lifts_ok (indent_padded h3)
      case ObjectValue =>
        match children with
        | [] =>
          simp only
          refine lifts_bind (lifts_WriteString h2 _) fun f3 h3 => ?_
          exact lifts_ite
            (fun _ => lifts_ok (indent_padded h3))
            (fun _ => lifts_ok h3)
        | [none] => exact lifts_fault
        | [some c] =>
          simp only
          refine lifts_ite (fun _ => ?_) fun _ => lifts_ite (fun _ => ?_) fun _ => ?_
          · refine lifts_bind (lifts_WriteString h2 _) fun f3 h3 => ?_
            have h3' : f3.WriteNewline.NeedPadding.indent = d := indent_padded h3
            exact lifts_block hl h3'
              (fun t => Tracked.FormatWhereLogOpChildValue quote t c)
              (fun g => g.FormatWhereLogOpChildValue quote c)
              (fun t => do
                let t ← t.WriteString "\x7d"
                .ok t.WriteNewline.NeedPadding)
              (fun g => do
                let g ← g.WriteString "\x7d"
                .ok g.WriteNewline.NeedPadding)
              (fun g hg => lifts_FormatWhereLogOpChildValue quote c (d + 1) g (by omega) hg)
              (fun g hg => lifts_bind (lifts_WriteString hg _) fun f5 h5 =>
                lifts_ok (indent_padded h5))
          · refine lifts_bind (lifts_WriteString h2 _) fun f3 h3 => ?_
            refine lifts_bind (lifts_FormatChildValue quote h3 c) fun f4 h4 => ?_
            exact lifts_bind (lifts_WriteString h4 _) fun f5 h5 =>
              lifts_ok (by simpa [formatter.NeedPadding] using h5)
          · refine lifts_bind (lifts_WriteString h2 _) fun f3 h3 => ?_
            refine lifts_bind (lifts_FormatChildValue quote h3 c) fun f4 h4 => ?_
            exact lifts_bind (lifts_WriteString h4 _) fun f5 h5 =>
              lifts_ok (indent_padded h5)
        | c₀ :: c₁ :: rest =>
          simp only
          refine lifts_bind (lifts_WriteString h2 _) fun f3 h3 => ?_
          have h3' : f3.WriteNewline.NeedPadding.indent = d := indent_padded h3
          exact lifts_block hl h3'
            (fun t => Tracked.FormatWhereLogOpChildValue.loop quote t (c₀ :: c₁ :: rest))
            (fun g => formatter.FormatWhereLogOpChildValue.loop quote g (c₀ :: c₁ :: rest))
            (fun t => do
              let t ← t.WriteString "\x7d"
              .ok t.WriteNewline.NeedPadding)
            (fun g => do
              let g ← g.WriteString "\x7d"
              .ok g.WriteNewline.NeedPadding)
            (fun g hg => lifts_whereLoop quote (c₀ :: c₁ :: rest) (d + 1) g (by omega) hg)
            (fun g hg => lifts_bind (lifts_WriteString hg _) fun f5 h5 =>
              lifts_ok (indent_padded h5))
      all_goals exact lifts_WriteString h2 _
termination_by structural c => c
theorem lifts_whereLoop (quote : String → String) {l : Int} :
    ∀ (cs : List (Option ChildValue)) (d : Int) (f : formatter), l ≤ d → f.indent = d →
      Lifts l d (Tracked.FormatWhereLogOpChildValue.loop quote ⟨f, l⟩ cs)
        (formatter.FormatWhereLogOpChildValue.loop quote f cs)
  | [], d, f, hl, hf => by
    unfold Tracked.FormatWhereLogOpChildValue.loop formatter.FormatWhereLogOpChildValue.loop
    exact lifts_ok hf
  | none :: _, d, f, hl, hf => by
    unfold Tracked.FormatWhereLogOpChildValue.loop formatter.FormatWhereLogOpChildValue.loop
    exact lifts_fault
  | some c :: rest, d, f, hl, hf => by
    unfold Tracked.FormatWhereLogOpChildValue.loop formatter.FormatWhereLogOpChildValue.loop
    refine lifts_bind (lifts_ite (fun _ => ?_) fun _ => ?_) fun f1 h1 =>
      lifts_whereLoop quote rest d f1 hl h1
    · exact lifts_FormatWhereLogOpChildValue quote c d f hl hf
    · exact lifts_bind (lifts_FormatChildValue quote hf c) fun f2 h2 =>
        lifts_ok (indent_padded h2)
termination_by structural cs => cs
end

theorem lifts_FormatWhereLogOpArgument (quote : String → String) {l d : Int} (hl : l ≤ d)
    {f : formatter} (hf : f.indent = d) (arg : Argument) :
    Lifts l d (Tracked.FormatWhereLogOpArgument quote ⟨f, l⟩ arg)
      (f.FormatWhereLogOpArgument quote arg) := by
  unfold Tracked.FormatWhereLogOpArgument formatter.FormatWhereLogOpArgument
  refine lifts_bind (lifts_WriteWord hf _) fun f1 h1 => ?_
  have h1' : f1.NoPadding.indent = d := h1
  refine lifts_bind
    (lifts_ite (fun _ => lifts_WriteString h1' _) fun _ => lifts_WriteString h1' _)
    fun f2 h2 => ?_
  have h2' : f2.NeedPadding.WriteNewline.indent = d := by
    rw [indent_WriteNewline]
    exact h2
  exact lifts_block hl h2'
    (fun t =>
      match arg.Value with
      | none => t.fault .nilDeref
      | some v =>
        match v.Children with
        | [] => t.fault .indexOutOfRange
        | none :: _ => t.fault .nilDeref
        | some c :: _ => t.FormatWhereLogOpChildValue quote c)
    (fun g =>
      match arg.Value with
      | none => .error .nilDeref
      | some v =>
        match v.Children with
        | [] => .error .indexOutOfRange
        | none :: _ => .error .nilDeref
        | some c :: _ => g.FormatWhereLogOpChildValue quote c)
    (fun t => do
      let t ← t.WriteString "\x7d"
      .ok t.NeedPadding)
    (fun g => do
      let g ← g.WriteString "\x7d"
      .ok g.NeedPadding)
    (fun g hg => by
      cases arg.Value with
      | none => exact lifts_fault
      | some v =>
        simp only
        match v.Children with
        | [] => exact lifts_fault
        | none :: _ => exact lifts_fault
        | some c :: _ => exact lifts_FormatWhereLogOpChildValue quote c (d + 1) g (by omega) hg)
    (fun g hg => lifts_bind (lifts_WriteString hg _) fun f5 h5 => lifts_ok h5)

theorem lifts_inlineArgument (quote : String → String) {l d : Int} {f : formatter}
    (hf : f.indent = d) (arg : Argument) :
    Lifts l d
      (do
        let t ← Tracked.WriteWord ⟨f, l⟩ arg.Name
        let t ← t.NoPadding.WriteString t.state.colonUnit
        t.FormatValue quote arg.Value)
      (do
        let f ← f.WriteWord arg.Name
        let f ← f.NoPadding.WriteString f.colonUnit
        f.FormatValue quote arg.Value) := by
  refine lifts_bind (lifts_WriteWord hf _) fun f1 h1 => ?_
  have h1' : f1.NoPadding.indent = d := h1
  exact lifts_bind (lifts_WriteString h1' _) fun f2 h2 => lifts_FormatValue quote h2 _

theorem lifts_FormatWhereArgument (quote : String → String) {l d : Int} (hl : l ≤ d)
    {f : formatter} (hf : f.indent = d) (arg : Argument) :
    Lifts l d (Tracked.FormatWhereArgument quote ⟨f, l⟩ arg)
      (f.FormatWhereArgument quote arg) := by
  unfold Tracked.FormatWhereArgument formatter.FormatWhereArgument
  refine lifts_read f _ fun b _ => ?_
  exact lifts_ite (fun _ => lifts_FormatWhereLogOpArgument quote hl hf arg)
    fun _ => lifts_inlineArgument quote hf arg

theorem lifts_FormatArgument (quote : String → String) {l d : Int} (hl : l ≤ d)
    {f : formatter} (hf : f.indent = d) (arg : Argument) :
    Lifts l d (Tracked.FormatArgument quote ⟨f, l⟩ arg) (f.FormatArgument quote arg) := by
  unfold Tracked.FormatArgument formatter.FormatArgument
  exact lifts_ite (fun _ => lifts_FormatWhereArgument quote hl hf arg)
    fun _ => lifts_inlineArgument quote hf arg

theorem lifts_splitLoop (quote : String → String) {l d : Int} (hl : l ≤ d) :
    ∀ (args : List Argument) (f : formatter), f.indent = d →
      Lifts l d (Tracked.FormatArgumentList.splitLoop quote ⟨f, l⟩ args)
        (formatter.FormatArgumentList.splitLoop quote f args)
  | [], f, hf => lifts_ok hf
  | arg :: rest, f, hf => by
    unfold Tracked.FormatArgumentList.splitLoop formatter.FormatArgumentList.splitLoop
    exact lifts_bind (lifts_FormatArgument quote hl hf arg) fun f1 h1 =>
      lifts_splitLoop quote hl rest f1.WriteNewline (by rw [indent_WriteNewline]; exact h1)

theorem lifts_separator {l d : Int} {f : formatter} (hf : f.indent = d) (more : Bool)
    (s : String) :
    Lifts l d
      (if more = true then
         if (⟨f, l⟩ : Tracked).state.optCompressed = true then
           (Tracked.NoPadding ⟨f, l⟩).WriteString s
         else (Tracked.NoPadding ⟨f, l⟩).WriteWord ","
       else .ok ⟨f, l⟩)
      (if more = true then
         if f.optCompressed = true then f.NoPadding.WriteString s
         else f.NoPadding.WriteWord ","
       else .ok f) := by
  have hf' : f.NoPadding.indent = d := hf
  exact lifts_ite
    (fun _ => lifts_ite (fun _ => lifts_WriteString hf' _) fun _ => lifts_WriteWord hf' _)
    fun _ => lifts_ok hf

theorem lifts_inlineLoop (quote : String → String) {l d : Int} (hl : l ≤ d) :
    ∀ (args : List Argument) (f : formatter), f.indent = d →
      Lifts l d (Tracked.FormatArgumentList.inlineLoop quote ⟨f, l⟩ args)
        (formatter.FormatArgumentList.inlineLoop quote f args)
  | [], f, hf => lifts_ok hf
  | arg :: rest, f, hf => by
    unfold Tracked.FormatArgumentList.inlineLoop formatter.FormatArgumentList.inlineLoop
    refine lifts_bind (lifts_FormatArgument quote hl hf arg) fun f1 h1 => ?_
    exact lifts_bind (lifts_separator h1 (!rest.isEmpty) " ") fun f2 h2 =>
      lifts_inlineLoop quote hl rest f2 h2

theorem lifts_FormatArgumentList (quote : String → String) {l d : Int} (hl : l ≤ d)
    {f : formatter} (hf : f.indent = d) (args : List Argument) :
    Lifts l d (Tracked.FormatArgumentList quote ⟨f, l⟩ args)
      (f.FormatArgumentList quote args) := by
  unfold Tracked.FormatArgumentList formatter.FormatArgumentList
  refine lifts_ite (fun _ => lifts_ok hf) fun _ => ?_
  refine lifts_read f _ fun b _ => ?_
  have hf' : f.NoPadding.indent = d := hf
  refine lifts_bind (lifts_WriteString hf' _) fun f1 h1 => ?_
  refine lifts_bind (lifts_ite (fun _ => ?_) fun _ => lifts_inlineLoop quote hl args f1 h1)
    fun f2 h2 => lifts_bind (lifts_WriteString h2 _) fun f3 h3 => lifts_ok h3
  have h1' : f1.WriteNewline.indent = d := by rw [indent_WriteNewline]; exact h1
  exact lifts_block hl h1'
    (fun t => Tracked.FormatArgumentList.splitLoop quote t args)
    (fun g => formatter.FormatArgumentList.splitLoop quote g args)
    (fun t => .ok t) (fun g => .ok g)
    (fun g hg => lifts_splitLoop quote (by omega) args g hg)
    (fun g hg => lifts_ok hg)

theorem lifts_FormatDirective (quote : String → String) {l d : Int} (hl : l ≤ d)
    {f : formatter} (hf : f.indent = d) (dir : Directive) :
    Lifts l d (Tracked.FormatDirective quote ⟨f, l⟩ dir) (f.FormatDirective quote dir) := by
  unfold Tracked.FormatDirective formatter.FormatDirective
  exact lifts_bind (lifts_WriteString hf _) fun f1 h1 =>
    lifts_bind (lifts_WriteWord h1 _) fun f2 h2 => lifts_FormatArgumentList quote hl h2 _

theorem lifts_FormatDirectiveList (quote : String → String) {l d : Int} (hl : l ≤ d) :
    ∀ (dirs : List Directive) (f : formatter), f.indent = d →
      Lifts l d (Tracked.FormatDirectiveList quote ⟨f, l⟩ dirs)
        (f.FormatDirectiveList quote dirs)
  | [], f, hf => lifts_ok hf
  | dir :: rest, f, hf => by
    unfold Tracked.FormatDirectiveList formatter.FormatDirectiveList
    exact lifts_bind (lifts_FormatDirective quote hl hf dir) fun f1 h1 =>
      lifts_FormatDirectiveList quote hl rest f1 h1

theorem lifts_FormatType {l d : Int} {f : formatter} (hf : f.indent = d) (t : String) :
    Lifts l d (Tracked.FormatType ⟨f, l⟩ t) (f.FormatType t) := by
  unfold Tracked.FormatType formatter.FormatType
  exact lifts_ite (fun _ => lifts_WriteString hf t) fun _ => lifts_WriteWord hf t

theorem lifts_FormatVariableDefinition (quote : String → String) {l d : Int} {f : formatter}
    (hf : f.indent = d) (v : VariableDefinition) :
    Lifts l d (Tracked.FormatVariableDefinition quote ⟨f, l⟩ v)
      (f.FormatVariableDefinition quote v) := by
  unfold Tracked.FormatVariableDefinition formatter.FormatVariableDefinition
  refine lifts_bind (lifts_WriteString hf _) fun f1 h1 => ?_
  refine lifts_bind (lifts_WriteWord h1 _) fun f2 h2 => ?_
  have h2' : f2.NoPadding.indent = d := h2
  refine lifts_bind (lifts_WriteString h2' _) fun f3 h3 => ?_
  refine lifts_bind (lifts_FormatType h3 _) fun f4 h4 => ?_
  cases v.DefaultValue with
  | none => exact lifts_ok h4
  | some dv => exact lifts_bind (lifts_WriteWord h4 _) fun f5 h5 => lifts_FormatValue quote h5 _

theorem lifts_variableLoop (quote : String → String) {l d : Int} :
    ∀ (vs : List VariableDefinition) (f : formatter), f.indent = d →
      Lifts l d (Tracked.FormatVariableDefinitionList.loop quote ⟨f, l⟩ vs)
        (formatter.FormatVariableDefinitionList.loop quote f vs)
  | [], f, hf => lifts_ok hf
  | v :: rest, f, hf => by
    unfold Tracked.FormatVariableDefinitionList.loop formatter.FormatVariableDefinitionList.loop
    refine lifts_bind (lifts_FormatVariableDefinition quote hf v) fun f1 h1 => ?_
    exact lifts_bind (lifts_separator h1 (!rest.isEmpty) ",") fun f2 h2 =>
      lifts_variableLoop quote rest f2 h2

theorem lifts_FormatVariableDefinitionList (quote : String → String) {l d : Int}
    {f : formatter} (hf : f.indent = d) (vs : List VariableDefinition) :
    Lifts l d (Tracked.FormatVariableDefinitionList quote ⟨f, l⟩ vs)
      (f.FormatVariableDefinitionList quote vs) := by
  unfold Tracked.FormatVariableDefinitionList formatter.FormatVariableDefinitionList
  refine lifts_ite (fun _ => lifts_ok hf) fun _ => ?_
  refine lifts_bind (lifts_WriteString hf _) fun f1 h1 => ?_
  refine lifts_bind (lifts_variableLoop quote vs f1 h1) fun f2 h2 => ?_
  have h2' : f2.NoPadding.indent = d := h2
  exact lifts_bind (lifts_WriteString h2' _) fun f3 h3 => lifts_ok h3

theorem lifts_FormatFragmentSpread (quote : String → String) {l d : Int} (hl : l ≤ d)
    {f : formatter} (hf : f.indent = d) (name : String) (dirs : List Directive) :
    Lifts l d (Tracked.FormatFragmentSpread quote ⟨f, l⟩ name dirs)
      (f.FormatFragmentSpread quote name dirs) := by
  unfold Tracked.FormatFragmentSpread formatter.FormatFragmentSpread
  exact lifts_bind (lifts_WriteWord hf _) fun f1 h1 =>
    lifts_bind (lifts_WriteWord h1 _) fun f2 h2 => lifts_FormatDirectiveList quote hl dirs f2 h2

theorem lifts_frame {l d : Int} (hl : l ≤ d) {f : formatter} (hf : f.indent = d)
    (sets : List Selection) (bt : Tracked → Except (Fault × Int) Tracked)
    (b : formatter → Except Fault formatter)
    (hb : ∀ g, g.indent = d + 1 → Lifts l (d + 1) (bt ⟨g, l⟩) (b g)) :
    Lifts l d (Tracked.FormatSelectionSet.frame ⟨f, l⟩ sets bt)
      (formatter.FormatSelectionSet.frame f sets b) := by
  unfold Tracked.FormatSelectionSet.frame formatter.FormatSelectionSet.frame
  refine lifts_ite (fun _ => lifts_ok hf) fun _ => ?_
  refine lifts_bind (lifts_WriteString hf _) fun f1 h1 => ?_
  have h1' : f1.WriteNewline.indent = d := by rw [indent_WriteNewline]; exact h1
  exact lifts_block hl h1' bt b (fun t => t.WriteString "\x7d") (fun g => g.WriteString "\x7d")
    hb (fun g hg => lifts_WriteString hg _)

mutual
theorem lifts_FormatSelection (quote : String → String) {l : Int} :
    ∀ (sel : Selection) (d : Int) (f : formatter), l ≤ d → f.indent = d →
      Lifts l d (Tracked.FormatSelection quote ⟨f, l⟩ sel) (f.FormatSelection quote sel)
  | .Field fieldAlias name arguments directives selectionSet, d, f, hl, hf => by
    unfold Tracked.FormatSelection formatter.FormatSelection
    refine lifts_bind (lifts_ite (fun _ => ?_) fun _ => lifts_ok hf) fun f1 h1 => ?_
    · refine lifts_bind (lifts_WriteWord hf _) fun g1 k1 => ?_
      have k1' : g1.NoPadding.indent = d := k1
      exact lifts_WriteString k1' _
    refine lifts_bind (lifts_WriteWord h1 _) fun f2 h2 => ?_
    refine lifts_bind (lifts_ite (fun _ => ?_) fun _ => lifts_ok h2) fun f3 h3 => ?_
    · have h2' : f2.NoPadding.indent = d := h2
      exact lifts_bind (lifts_FormatArgumentList quote hl h2' _) fun g3 k3 => lifts_ok k3
    refine lifts_bind (lifts_FormatDirectiveList quote hl directives f3 h3) fun f4 h4 => ?_
    exact lifts_frame hl h4 selectionSet _ _ fun g hg =>
      lifts_selectionLoop quote selectionSet (d + 1) g (by omega) hg
  | .FragmentSpread name directives, d, f, hl, hf => by
    unfold Tracked.FormatSelection formatter.FormatSelection
    exact lifts_FormatFragmentSpread quote hl hf name directives
  | .InlineFragment typeCondition directives selectionSet, d, f, hl, hf => by
    unfold Tracked.FormatSelection formatter.FormatSelection
    refine lifts_bind (lifts_WriteWord hf _) fun f1 h1 => ?_
    refine lifts_bind (lifts_ite (fun _ => ?_) fun _ => lifts_ok h1) fun f2 h2 => ?_
    · exact lifts_bind (lifts_WriteWord h1 _) fun g2 k2 => lifts_WriteWord k2 _
    refine lifts_bind (lifts_FormatDirectiveList quote hl directives f2 h2) fun f4 h4 => ?_
    exact lifts_frame hl h4 selectionSet _ _ fun g hg =>
      lifts_selectionLoop quote selectionSet (d + 1) g (by omega) hg
  | .other, d, f, hl, hf => by
    unfold Tracked.FormatSelection formatter.FormatSelection
    exact lifts_fault
termination_by structural sel => sel
theorem lifts_selectionLoop (quote : String → String) {l : Int} :
    ∀ (sels : List Selection) (d : Int) (f : formatter), l ≤ d → f.indent = d →
      Lifts l d (Tracked.FormatSelectionSet.loop quote ⟨f, l⟩ sels)
        (formatter.FormatSelectionSet.loop quote f sels)
  | [], d, f, hl, hf => by
    unfold Tracked.FormatSelectionSet.loop formatter.FormatSelectionSet.loop
    exact lifts_ok hf
  | sel :: rest, d, f, hl, hf => by
    unfold Tracked.FormatSelectionSet.loop formatter.FormatSelectionSet.loop
    refine lifts_bind (lifts_FormatSelection quote sel d f hl hf) fun f1 h1 => ?_
    refine lifts_bind (lifts_ite (fun _ => ?_) fun _ => ?_) fun f2 h2 =>
      lifts_selectionLoop quote rest d f2 hl h2
    · exact lifts_separator h1 (!rest.isEmpty) " "
    · exact lifts_ok (by rw [indent_WriteNewline]; exact h1)
termination_by structural sels => sels
end

theorem lifts_FormatSelectionSet (quote : String → String) {l d : Int} (hl : l ≤ d)
    {f : formatter} (hf : f.indent = d) (sets : List Selection) :
    Lifts l d (Tracked.FormatSelectionSet quote ⟨f, l⟩ sets)
      (f.FormatSelectionSet quote sets) :=
  lifts_frame hl hf sets _ _ fun g hg => lifts_selectionLoop quote sets (d + 1) g (by omega) hg

theorem lifts_FormatOperationDefinition (quote : String → String) {l d : Int} (hl : l ≤ d)
    {f : formatter} (hf : f.indent = d) (op : OperationDefinition) :
    Lifts l d (Tracked.FormatOperationDefinition quote ⟨f, l⟩ op)
      (f.FormatOperationDefinition quote op) := by
  unfold Tracked.FormatOperationDefinition formatter.FormatOperationDefinition
  refine lifts_bind (lifts_WriteWord hf _) fun f1 h1 => ?_
  refine lifts_bind (lifts_ite (fun _ => lifts_WriteWord h1 _) fun _ => lifts_ok h1)
    fun f2 h2 => ?_
  refine lifts_bind (lifts_FormatVariableDefinitionList quote h2 _) fun f3 h3 => ?_
  refine lifts_bind (lifts_FormatDirectiveList quote hl _ f3 h3) fun f4 h4 => ?_
  refine lifts_ite (fun _ => ?_) fun _ => lifts_ok h4
  exact lifts_bind (lifts_FormatSelectionSet quote hl h4 _) fun f5 h5 =>
    lifts_ok (by rw [indent_WriteNewline]; exact h5)

theorem lifts_FormatOperationList (quote : String → String) {l d : Int} (hl : l ≤ d) :
    ∀ (ops : List OperationDefinition) (f : formatter), f.indent = d →
      Lifts l d (Tracked.FormatOperationList quote ⟨f, l⟩ ops)
        (f.FormatOperationList quote ops)
  | [], f, hf => lifts_ok hf
  | op :: rest, f, hf => by
    unfold Tracked.FormatOperationList formatter.FormatOperationList
    exact lifts_bind (lifts_FormatOperationDefinition quote hl hf op) fun f1 h1 =>
      lifts_FormatOperationList quote hl rest f1 h1

theorem lifts_FormatFragmentDefinition (quote : String → String) {l d : Int} (hl : l ≤ d)
    {f : formatter} (hf : f.indent = d) (fr : FragmentDefinition) :
    Lifts l d (Tracked.FormatFragmentDefinition quote ⟨f, l⟩ fr)
      (f.FormatFragmentDefinition quote fr) := by
  unfold Tracked.FormatFragmentDefinition formatter.FormatFragmentDefinition
  refine lifts_bind (lifts_WriteWord hf _) fun f1 h1 => ?_
  refine lifts_bind (lifts_WriteWord h1 _) fun f2 h2 => ?_
  refine lifts_bind (lifts_FormatVariableDefinitionList quote h2 _) fun f3 h3 => ?_
  refine lifts_bind (lifts_WriteWord h3 _) fun f4 h4 => ?_
  refine lifts_bind (lifts_WriteWord h4 _) fun f5 h5 => ?_
  refine lifts_bind (lifts_FormatDirectiveList quote hl _ f5 h5) fun f6 h6 => ?_
  refine lifts_ite (fun _ => ?_) fun _ => lifts_ok h6
  exact lifts_bind (lifts_FormatSelectionSet quote hl h6 _) fun f7 h7 =>
    lifts_ok (by rw [indent_WriteNewline]; exact h7)

theorem lifts_FormatFragmentDefinitionList (quote : String → String) {l d : Int}
    (hl : l ≤ d) :
    ∀ (frs : List FragmentDefinition) (f : formatter), f.indent = d →
      Lifts l d (Tracked.FormatFragmentDefinitionList quote ⟨f, l⟩ frs)
        (f.FormatFragmentDefinitionList quote frs)
  | [], f, hf => lifts_ok hf
  | fr :: rest, f, hf => by
    unfold Tracked.FormatFragmentDefinitionList formatter.FormatFragmentDefinitionList
    exact lifts_bind (lifts_FormatFragmentDefinition quote hl hf fr) fun f1 h1 =>
      lifts_FormatFragmentDefinitionList quote hl rest f1 h1

theorem lifts_FormatQueryDocument (quote : String → String) {l d : Int} (hl : l ≤ d)
    {f : formatter} (hf : f.indent = d) (doc : Option QueryDocument) :
    Lifts l d (Tracked.FormatQueryDocument quote ⟨f, l⟩ doc)
      (f.FormatQueryDocument quote doc) := by
  cases doc with
  | none => exact lifts_ok hf
  | some doc =>
    unfold Tracked.FormatQueryDocument formatter.FormatQueryDocument
    exact lifts_bind (lifts_FormatOperationList quote hl _ f hf) fun f1 h1 =>
      lifts_FormatFragmentDefinitionList quote hl _ f1 h1

theorem NewFormatter_indent (w : String) (opts : List FormatOption) :
    (NewFormatter w opts).indent = 0 := by
  unfold NewFormatter
  rw [applyAll_indent]

theorem lifts_eq {l d : Int} {y : Except (Fault × Int) Tracked} {x : Except Fault formatter}
    (h : Lifts l d y x) :
    y = withLow l x := by
  cases x with
  | error e => exact h
  | ok f => exact h.1

theorem lifts_indent {l d : Int} {y : Except (Fault × Int) Tracked}
    {x : Except Fault formatter} (h : Lifts l d y x) (f : formatter) (e : x = .ok f) :
    f.indent = d := by
  subst e
  exact h.2

theorem tracked_testQuery :
    ((Tracked.FormatQueryDocument id ⟨NewFormatter "" [], 0⟩ (some testQuery)).toOption.map
      fun t => (t.state.indent, t.low)) = some (0, 0) ∧
    (Tracked.DecrementIndent ⟨NewFormatter "" [], 0⟩).low = -1 := by
  constructor <;> decide!


/-! ## The filter layout and the inline rendering of an argument -/

theorem squeeze_cancel {a b c : String} (h : squeeze (a ++ b) = squeeze a ++ c) :
    squeeze b = c := by
  rw [squeeze_append] at h
  have h' := congrArg String.data h
  simp only [String.data_append] at h'
  exact String.ext (List.append_cancel_left h')

theorem inlineArgument_value (quote : String → String) (f g' : formatter) (arg : Argument)
    (e : f.inlineArgument quote arg = .ok g') :
    ∃ tv, GetValueString quote f arg.Value = .ok tv := by
  unfold formatter.inlineArgument at e
  obtain ⟨f1, h1, e⟩ := bind_eq_ok.mp e
  obtain ⟨f2, h2, e⟩ := bind_eq_ok.mp e
  unfold formatter.FormatValue at e
  obtain ⟨tv, h3, _⟩ := bind_eq_ok.mp e
  have x1 := (Ext.refl f).WriteWord _ f1 h1
  have x2 := x1.NoPadding.WriteString _ f2 h2
  exact ⟨tv, by
    rw [GetValueString_congr quote f f2 x2.optCompressed.symm x2.colonUnit.symm]
    exact h3⟩

/-- From a readable state whose indent unit is white space, the filter layout
of an argument whose object value has a single child and its inline rendering
write the same text up to white space and commas. -/
theorem filter_layout_same_text (quote : String → String) (f : formatter) (arg : Argument)
    (hc : f.optCompressed = false) (hu : f.colonUnit = ": ")
    (hi : squeeze f.indentUnit = "")
    (hq : whereQualifies arg.Value = true)
    (hk : ∀ v, arg.Value = some v → v.Kind = .ObjectValue)
    (g g' : formatter) (e₁ : f.FormatWhereLogOpArgument quote arg = .ok g)
    (e₂ : f.inlineArgument quote arg = .ok g') :
    ∃ (t t' tv : String),
      g.writer = f.writer ++ t ∧ g'.writer = f.writer ++ t' ∧
      GetValueString quote f arg.Value = .ok tv ∧
      squeeze t = squeeze t' ∧
      squeeze t' = squeeze (arg.Name ++ f.colonUnit ++ tv) := by
  have hcol : squeeze f.colonUnit = ":" := by rw [hu]; decide
  have hL : Layout false f :=
    ⟨hc, hcol, fun _ => hi, fun h => absurd h (by decide), fun h => absurd h (by decide)⟩
  obtain ⟨raw, c, kind, hv⟩ := whereQualifies_single _ hq
  have hkind : kind = .ObjectValue := hk _ hv
  subst hkind
  obtain ⟨t, ht⟩ := ((Ext.refl f).FormatWhereLogOpArgument quote arg g e₁).writer
  obtain ⟨t', ht'⟩ := ((Ext.refl f).inlineArgument quote arg g' e₂).writer
  obtain ⟨tv, etv⟩ := inlineArgument_value quote f g' arg e₂
  obtain ⟨g₂, tv₂, hl, etv₂, hw⟩ :=
    Wrote.inlineArgument_wrote quote (Wrote.start hL) arg g' e₂
  have hsq : squeeze tv₂ = squeeze tv :=
    GetValueString_squeeze quote g₂ f (hl.colon.trans hcol.symm) arg.Value _ _ etv₂ etv
  have etv₂' := etv₂
  rw [hv] at etv₂'
  obtain ⟨tc, etc, htv⟩ := GetValueString_single_object quote g₂ raw c tv₂ etv₂'
  have hf := Wrote.FormatWhereLogOpArgument_wrote quote g₂ hl.colon (Wrote.start hL) arg raw c _
    hv tc etc g e₁
  have x₁ := hf.text
  have x₂ := hw.text
  rw [ht] at x₁
  rw [ht'] at x₂
  have y₁ := squeeze_cancel x₁
  have y₂ := squeeze_cancel x₂
  have eb : ":\x7b" = ":" ++ "\x7b" := by decide
  refine ⟨t, t', tv, ht, ht', etv, ?_, ?_⟩
  · rw [y₁, y₂, htv, eb]
    simp only [String.append_assoc]
  · rw [y₂, squeeze_append, squeeze_append, hcol, hsq]
    simp

/-- From a state at a depth that is not negative, the filter layout of a
qualifying argument and its inline rendering both complete when the value has
declared kinds and no nil child. -/
theorem filter_layout_completes (quote : String → String) (f : formatter) (arg : Argument)
    (hd : 0 ≤ f.indent) (hq : whereQualifies arg.Value = true)
    (hr : recognisedOpt arg.Value = true) :
    ∃ g g' : formatter, f.FormatWhereLogOpArgument quote arg = .ok g ∧
      f.inlineArgument quote arg = .ok g' := by
  have hS : Sound 0 f f := Sound.initial (Or.inr hd)
  obtain ⟨g, e₁, _⟩ := Sound.FormatWhereLogOpArgument_sound quote hS arg hr hq
  obtain ⟨g', e₂, _⟩ := Sound.inlineArgument_sound quote hS arg hr
  exact ⟨g, g', e₁, e₂⟩

theorem whereListArgument_texts :
    whereQualifies whereListArgument.Value = true ∧
    recognisedOpt whereListArgument.Value = true ∧
    ((NewFormatter "" []).FormatWhereLogOpArgument id whereListArgument).map
      (fun g => squeeze g.writer) = .ok "where:\x7band:\x7ba:1b:2\x7d\x7d" ∧
    ((NewFormatter "" []).inlineArgument id whereListArgument).map
      (fun g => squeeze g.writer) = .ok "where:[\x7ba:1b:2\x7d]" := by
  refine ⟨by decide!, by decide!, by decide!, by decide!⟩

theorem testWhereArgument_texts :
    whereQualifies testWhereArgument.Value = true ∧
    recognisedOpt testWhereArgument.Value = true ∧
    (NewFormatter "" [.WithIndent "--"]).optCompressed = false ∧
    ((NewFormatter "" [.WithIndent "--"]).FormatWhereLogOpArgument id testWhereArgument).map
      (fun g => g.writer) =
      .ok "where: \x7b\n--and: \x7b\n----id: \x7b greater_or_equals: 20 \x7d\n----id: \x7b lt: 28 \x7d\n--\x7d\n\x7d" ∧
    ((NewFormatter "" [.WithIndent "--"]).FormatWhereLogOpArgument id testWhereArgument).map
      (fun g => squeeze g.writer) =
      .ok "where:\x7b--and:\x7b----id:\x7bgreater_or_equals:20\x7d----id:\x7blt:28\x7d--\x7d\x7d" ∧
    ((NewFormatter "" [.WithIndent "--"]).inlineArgument id testWhereArgument).map
      (fun g => squeeze g.writer) =
      .ok "where:\x7band:\x7bid:\x7bgreater_or_equals:20\x7did:\x7blt:28\x7d\x7d\x7d" := by
  refine ⟨by decide!, by decide!, by decide!, by decide!, by decide!, by decide!⟩

theorem NewFormatter_readable (w u : String) :
    (NewFormatter w [.WithIndent u]).optCompressed = false ∧
    (NewFormatter w [.WithIndent u]).colonUnit = ": " ∧
    (NewFormatter w [.WithIndent u]).indentUnit = u ∧
    (NewFormatter w [.WithIndent u]).indent = 0 ∧
    (NewFormatter w []).optCompressed = false ∧
    (NewFormatter w []).colonUnit = ": " ∧
    (NewFormatter w []).indentUnit = "  " ∧
    (NewFormatter w []).indent = 0 := by
  simp [NewFormatter, FormatOption.applyAll, FormatOption.apply]


/-- The layout of an argument whose tested pointers are present:
`FormatArgument` uses the multi-line filter layout if and only if the
argument is named `where`, the filter layout is enabled and the value
qualifies under the applicability test; in every other case the output is the
argument name (written as a word), the colon separator and the inline text of
the value, e.g. `where: { and: { a: { eq: 1 } } }`.  The filter layout opens
with the name, `: {` and a newline.  The pointers read by the applicability
test are taken to be present. -/
theorem FormatArgument_layout (quote : String → String) (f : formatter) (arg : Argument)
    (h : arg.Name = "where" → f.optWhereLogicalOps = true → arg.derefOk = true) :
    f.FormatArgument quote arg =
      (if arg.Name = "where" ∧ f.optWhereLogicalOps = true ∧ whereQualifies arg.Value = true
       then f.FormatWhereLogOpArgument quote arg else f.inlineArgument quote arg) ∧
    (f.lineHead = false → recognisedOpt arg.Value = true →
      f.inlineArgument quote arg = .ok { f with
        writer := f.writer ++ (if f.padNext = true then " " else "") ++ TrimSpace arg.Name ++
          f.colonUnit ++ renderOptValue quote f.optCompressed f.colonUnit arg.Value,
        padNext := false }) ∧
    (f.lineHead = false → f.optCompressed = false →
      ∀ f', f.FormatWhereLogOpArgument quote arg = .ok f' →
        ∃ rest, f'.writer = f.writer ++ (if f.padNext = true then " " else "") ++
          TrimSpace arg.Name ++ ": \x7b\n" ++ rest) ∧
    ((NewFormatter "" []).FormatArgument quote sampleSingleCondition).map (fun f' => f'.writer) =
      .ok "where: \x7b and: \x7b a: \x7b eq: 1 \x7d \x7d \x7d" := by
  refine ⟨FormatArgument_eq quote f arg h, inlineArgument_eq quote f arg,
    fun hl hc f' hf => FormatWhereLogOpArgument_prefix quote f f' arg hl hc hf, ?_⟩
  rw [FormatArgument_eq quote _ _ (fun _ _ => by decide!),
    if_neg (by decide!), inlineArgument_eq quote _ _ (by decide!) (by decide!)]
  have e : (NewFormatter "" []).colonUnit = ": " := by decide!
  have e2 : (NewFormatter "" []).optCompressed = false := by decide!
  simp only [e, e2, sample_render]
  decide!

/-- The layout of an argument list whose tested pointers are present:
`FormatArgumentList` renders nothing for an empty list and every
non-empty list in parentheses, choosing the layout once for the whole list: the
arguments are placed one per line at increased indent iff splitting is enabled
(readable mode) and the list has more than one argument or its single argument
qualifies for filter-splitting, and are written inline otherwise; in minified
mode they are never split and are separated by one space.  The pointers read
by the layout test are taken to be present. -/
theorem FormatArgumentList_layout (quote : String → String) (f : formatter)
    (lists : List Argument)
    (h : ∀ a, lists = [a] → a.Name = "where" → f.optArgumentSplitted = true →
      a.derefOk = true) :
    f.FormatArgumentList quote [] = .ok f ∧
    (lists ≠ [] →
      f.FormatArgumentList quote lists = (do
        let f1 ← f.NoPadding.WriteString "("
        let f2 ← (if f.splitsArguments lists = true then
            (formatter.FormatArgumentList.splitLoop quote f1.WriteNewline.IncrementIndent
              lists).map formatter.DecrementIndent
          else formatter.FormatArgumentList.inlineLoop quote f1 lists)
        let f3 ← f2.WriteString ")"
        .ok f3.NeedPadding)) ∧
    (lists ≠ [] → f.optCompressed = false → f.lineHead = false →
      f.splitsArguments lists = true →
      ∀ f', f.FormatArgumentList quote lists = .ok f' →
        ∃ body, f'.writer = f.writer ++ "(\n" ++ body ++ "\n" ++
          Repeat f.indentUnit f.indent.toNat ++ ")") ∧
    (lists ≠ [] → f.optCompressed = true → f.optArgumentSplitted = false →
      f.optWhereLogicalOps = false → (∀ a ∈ lists, recognisedOpt a.Value = true) →
      f.FormatArgumentList quote lists = .ok { f with
        writer := f.writer ++ "(" ++ Join (lists.map (argumentText quote f.colonUnit)) " " ++ ")",
        lineHead := false, padNext := true }) ∧
    (∀ w, (NewFormatter w []).splitsArguments lists =
      (decide (1 < lists.length) || singleWhereQualifies lists)) ∧
    (∀ w, (NewFormatter w [.WithMinification]).splitsArguments lists = false) := by
  refine ⟨?_, fun hne => FormatArgumentList_eq quote f lists hne h,
    fun hne hc hl hs f' hf => FormatArgumentList_split_shape quote f f' lists hne h hc hl hs hf,
    fun hne hc hs hw hr => FormatArgumentList_minified quote f lists hne hc hs hw hr, ?_, ?_⟩
  · simp [formatter.FormatArgumentList]
  · intro w
    simp [formatter.splitsArguments, NewFormatter, FormatOption.applyAll]
  · intro w
    simp [formatter.splitsArguments, NewFormatter, FormatOption.applyAll, FormatOption.apply]


/-! ## Runs that complete meet no selection of unknown type -/

theorem frame_known (f : formatter) (sets : List Selection)
    (body : formatter → Except Fault formatter) (P : Prop) (h0 : sets = [] → P)
    (hb : ∀ f1, Post (body f1) (fun _ => P)) :
    Post (formatter.FormatSelectionSet.frame f sets body) (fun _ => P) := by
  unfold formatter.FormatSelectionSet.frame
  intro f' e
  split at e
  · exact h0 (List.length_eq_zero.mp ‹_›)
  · obtain ⟨f1, _, e⟩ := bind_eq_ok.mp e
    obtain ⟨f2, h2, _⟩ := bind_eq_ok.mp e
    exact hb _ f2 h2

mutual
theorem FormatSelection_known (quote : String → String) :
    ∀ (s : Selection) (f : formatter),
      Post (f.FormatSelection quote s) (fun _ => s.known = true)
  | .Field fieldAlias name arguments directives selectionSet, f => by
    unfold formatter.FormatSelection
    intro f' e
    obtain ⟨f1, _, e⟩ := bind_eq_ok.mp e
    obtain ⟨f2, _, e⟩ := bind_eq_ok.mp e
    obtain ⟨f3, _, e⟩ := bind_eq_ok.mp e
    obtain ⟨f4, _, e⟩ := bind_eq_ok.mp e
    simp only [Selection.known]
    exact frame_known f4 selectionSet _ _ (fun hs => by rw [hs]; simp [selectionsKnown])
      (fun f5 => selectionLoop_known quote selectionSet f5) f' e
  | .FragmentSpread name directives, f => fun _ _ => by simp [Selection.known]
  | .InlineFragment typeCondition directives selectionSet, f => by
    unfold formatter.FormatSelection
    intro f' e
    obtain ⟨f1, _, e⟩ := bind_eq_ok.mp e
    obtain ⟨f2, _, e⟩ := bind_eq_ok.mp e
    obtain ⟨f4, _, e⟩ := bind_eq_ok.mp e
    simp only [Selection.known]
    exact frame_known f4 selectionSet _ _ (fun hs => by rw [hs]; simp [selectionsKnown])
      (fun f5 => selectionLoop_known quote selectionSet f5) f' e
  | .other, f => by
    unfold formatter.FormatSelection
    exact post_error
termination_by structural s => s
theorem selectionLoop_known (quote : String → String) :
    ∀ (l : List Selection) (f : formatter),
      Post (formatter.FormatSelectionSet.loop quote f l) (fun _ => selectionsKnown l = true)
  | [], f => fun _ _ => by simp [selectionsKnown]
  | sel :: rest, f => by
    unfold formatter.FormatSelectionSet.loop
    intro f' e
    obtain ⟨f1, h1, e⟩ := bind_eq_ok.mp e
    obtain ⟨f2, _, e⟩ := bind_eq_ok.mp e
    simp only [selectionsKnown, Bool.and_eq_true]
    exact ⟨FormatSelection_known quote sel f f1 h1, selectionLoop_known quote rest f2 f' e⟩
termination_by structural l => l
end

theorem FormatSelectionSet_known (quote : String → String) (f : formatter)
    (sets : List Selection) :
    Post (f.FormatSelectionSet quote sets) (fun _ => selectionsKnown sets = true) :=
  frame_known f sets _ _ (fun hs => by rw [hs]; simp [selectionsKnown])
    (fun f5 => selectionLoop_known quote sets f5)

theorem FormatOperationDefinition_known (quote : String → String) (f : formatter)
    (d : OperationDefinition) :
    Post (f.FormatOperationDefinition quote d) (fun _ => selectionsKnown d.SelectionSet = true) := by
  unfold formatter.FormatOperationDefinition
  intro f' e
  obtain ⟨f1, _, e⟩ := bind_eq_ok.mp e
  obtain ⟨f2, _, e⟩ := bind_eq_ok.mp e
  obtain ⟨f3, _, e⟩ := bind_eq_ok.mp e
  obtain ⟨f4, _, e⟩ := bind_eq_ok.mp e
  split at e
  · obtain ⟨f5, h5, _⟩ := bind_eq_ok.mp e
    exact FormatSelectionSet_known quote f4 _ f5 h5
  · rename_i hl
    simp only [ne_eq, not_not] at hl
    rw [List.length_eq_zero.mp hl]
    simp [selectionsKnown]

theorem FormatOperationList_known (quote : String → String) :
    ∀ (l : List OperationDefinition) (f : formatter),
      Post (f.FormatOperationList quote l)
        (fun _ => l.all (fun d => selectionsKnown d.SelectionSet) = true)
  | [], f => fun _ _ => rfl
  | d :: rest, f => by
    unfold formatter.FormatOperationList
    intro f' e
    obtain ⟨f1, h1, e⟩ := bind_eq_ok.mp e
    simp only [List.all_cons, Bool.and_eq_true]
    exact ⟨FormatOperationDefinition_known quote f d f1 h1,
      FormatOperationList_known quote rest f1 f' e⟩

theorem FormatFragmentDefinition_known (quote : String → String) (f : formatter)
    (d : FragmentDefinition) :
    Post (f.FormatFragmentDefinition quote d) (fun _ => selectionsKnown d.SelectionSet = true) := by
  unfold formatter.FormatFragmentDefinition
  intro f' e
  obtain ⟨f1, _, e⟩ := bind_eq_ok.mp e
  obtain ⟨f2, _, e⟩ := bind_eq_ok.mp e
  obtain ⟨f3, _, e⟩ := bind_eq_ok.mp e
  obtain ⟨f4, _, e⟩ := bind_eq_ok.mp e
  obtain ⟨f5, _, e⟩ := bind_eq_ok.mp e
  obtain ⟨f6, _, e⟩ := bind_eq_ok.mp e
  split at e
  · obtain ⟨f7, h7, _⟩ := bind_eq_ok.mp e
    exact FormatSelectionSet_known quote f6 _ f7 h7
  · rename_i hl
    simp only [ne_eq, not_not] at hl
    rw [List.length_eq_zero.mp hl]
    simp [selectionsKnown]

theorem FormatFragmentDefinitionList_known (quote : String → String) :
    ∀ (l : List FragmentDefinition) (f : formatter),
      Post (f.FormatFragmentDefinitionList quote l)
        (fun _ => l.all (fun d => selectionsKnown d.SelectionSet) = true)
  | [], f => fun _ _ => rfl
  | d :: rest, f => by
    unfold formatter.FormatFragmentDefinitionList
    intro f' e
    obtain ⟨f1, h1, e⟩ := bind_eq_ok.mp e
    simp only [List.all_cons, Bool.and_eq_true]
    exact ⟨FormatFragmentDefinition_known quote f d f1 h1,
      FormatFragmentDefinitionList_known quote rest f1 f' e⟩

/-- A document that is formatted without fault holds no selection of an
unknown type. -/
theorem formatted_known (quote : String → String) (w : String) (opts : List FormatOption)
    (doc : Option QueryDocument) (out : String) (h : formatted quote w opts doc = .ok out) :
    documentKnownSelections doc = true := by
  unfold formatted at h
  obtain ⟨f', hf, _⟩ := map_eq_ok.mp h
  cases doc with
  | none => rfl
  | some doc =>
    unfold formatter.FormatQueryDocument at hf
    obtain ⟨f1, h1, e⟩ := bind_eq_ok.mp hf
    simp only [documentKnownSelections, Bool.and_eq_true]
    exact ⟨FormatOperationList_known quote _ _ f1 h1,
      FormatFragmentDefinitionList_known quote _ f1 f' e⟩

theorem unknownSelectionQuery_output :
    wellFormedDocument (some unknownSelectionQuery) = false ∧
    documentAllArguments (fun a => recognisedOpt a.Value) (some unknownSelectionQuery) = true ∧
    documentAllVariables (fun d => recognisedOpt d.DefaultValue) (some unknownSelectionQuery) = true ∧
    formatted id "" [] (some unknownSelectionQuery) = .error .unknownSelection ∧
    formatted id "" [.WithMinification] (some unknownSelectionQuery) = .error .unknownSelection := by
  refine ⟨by decide!, by decide!, by decide!, by decide!, by decide!⟩


/-! ## The layout tests on a nil pointer -/

theorem whereNilArgument_faults :
    whereQualifies whereNilArgument.Value = false ∧
    (NewFormatter "" []).FormatArgument id whereNilArgument = .error .nilDeref ∧
    ((NewFormatter "" []).inlineArgument id whereNilArgument).map (fun f => f.writer) =
      .ok "where: <nil>" ∧
    ((NewFormatter "" []).FormatArgument id filterNilArgument).map (fun f => f.writer) =
      .ok "filter: <nil>" ∧
    ((NewFormatter "" [.WithMinification]).FormatArgument id whereNilArgument).map
      (fun f => f.writer) = .ok "where:<nil>" := by
  refine ⟨by decide!, by decide!, by decide!, by decide!, by decide!⟩

theorem whereAndNilArgument_faults :
    whereQualifies whereAndNilArgument.Value = false ∧
    doWhereSplitted (some (.mk "and" none)) = false ∧
    (NewFormatter "" []).FormatArgument id whereAndNilArgument = .error .nilDeref ∧
    ((NewFormatter "" []).inlineArgument id whereAndNilArgument).map (fun f => f.writer) =
      .ok "where: \x7b and: <nil> \x7d" ∧
    ((NewFormatter "" [.WithMinification]).FormatArgument id whereAndNilArgument).map
      (fun f => f.writer) = .ok "where:\x7band:<nil>\x7d" := by
  refine ⟨by decide!, by decide!, by decide!, by decide!, by decide!⟩

theorem whereNilArgument_list_faults :
    (NewFormatter "" []).splitsArguments [whereNilArgument] = false ∧
    (NewFormatter "" []).FormatArgumentList id [whereNilArgument] = .error .nilDeref ∧
    ((NewFormatter "" []).FormatArgumentList id [filterNilArgument]).map (fun f => f.writer) =
      .ok "(filter: <nil>)" ∧
    ((NewFormatter "" [.WithMinification]).FormatArgumentList id [whereNilArgument]).map
      (fun f => f.writer) = .ok "(where:<nil>)" ∧
    (NewFormatter "" []).splitsArguments [whereAndNilArgument] = false ∧
    (NewFormatter "" []).FormatArgumentList id [whereAndNilArgument] = .error .nilDeref ∧
    ((NewFormatter "" [.WithMinification]).FormatArgumentList id [whereAndNilArgument]).map
      (fun f => f.writer) = .ok "(where:\x7band:<nil>\x7d)" := by
  refine ⟨by decide!, by decide!, by decide!, by decide!, by decide!, by decide!, by decide!⟩


theorem FormatSelectionSet_unknown (quote : String → String) (f : formatter)
    (sets : List Selection) (h : selectionsKnown sets = false) :
    ∃ e, f.FormatSelectionSet quote sets = .error e := by
  cases hr : f.FormatSelectionSet quote sets with
  | error e => exact ⟨e, rfl⟩
  | ok f' =>
    have hk := FormatSelectionSet_known quote f sets f' hr
    rw [h] at hk
    cases hk


/-! ## The readable printer on lines agrees with the printer of the source -/

theorem ok_bind {α β : Type} (v : α) (k : α → Except Fault β) :
    (Except.ok v : Except Fault α) >>= k = k v := rfl

theorem ok_map {α β : Type} (v : α) (g : α → β) :
    Except.map g (Except.ok v : Except Fault α) = .ok (g v) := rfl

theorem error_map {α β : Type} (e : Fault) (g : α → β) :
    Except.map g (Except.error e : Except Fault α) = .error e := rfl

theorem sim_bind {α β : Type} {C C' : α → β} {x : Except Fault β} {r : Except Fault α}
    {k : β → Except Fault β} {k' : α → Except Fault α}
    (h : x = r.map C') (hk : ∀ a, k (C' a) = (k' a).map C) :
    x >>= k = (r >>= k').map C := by
  subst h
  cases r with
  | error e => rfl
  | ok a => exact hk a

theorem sim_bind_at {α β : Type} (C' : α → β) {C : α → β} {x : Except Fault β}
    {r : Except Fault α} {k : β → Except Fault β} {k' : α → Except Fault α}
    (h : x = r.map C') (hk : ∀ a, k (C' a) = (k' a).map C) :
    x >>= k = (r >>= k').map C :=
  sim_bind h hk

theorem sim_bind_val {α β γ : Type} {C : α → β} {x : Except Fault γ}
    {k : γ → Except Fault β} {k' : γ → Except Fault α}
    (hk : ∀ v, k v = (k' v).map C) :
    x >>= k = (x >>= k').map C := by
  cases x with
  | error e => rfl
  | ok v => exact hk v

theorem lines_WriteString (u : String) (d : Nat) (a : Lines) (s : String) :
    (Lines.conc u d a).WriteString s = .ok (Lines.conc u d (a.WriteString d s)) := by
  rw [WriteString_eq]
  obtain ⟨done, cur, padNext⟩ := a
  cases cur with
  | none =>
    simp [Lines.conc, Lines.WriteString, lastLineText, String.append_assoc]
  | some l =>
    cases padNext <;>
      simp [Lines.conc, Lines.WriteString, lastLineText, String.append_assoc]

theorem lines_WriteWord (u : String) (d : Nat) (a : Lines) (s : String) :
    (Lines.conc u d a).WriteWord s = .ok (Lines.conc u d (a.WriteWord d s)) := by
  rw [WriteWord_eq]
  obtain ⟨done, cur, padNext⟩ := a
  cases cur with
  | none =>
    simp [Lines.conc, Lines.WriteWord, lastLineText, String.append_assoc]
  | some l =>
    cases padNext <;>
      simp [Lines.conc, Lines.WriteWord, lastLineText, String.append_assoc]

theorem lines_WriteNewline (u : String) (d : Nat) (a : Lines) :
    (Lines.conc u d a).WriteNewline = Lines.conc u d a.WriteNewline := by
  obtain ⟨done, cur, padNext⟩ := a
  cases cur <;>
    simp [Lines.conc, Lines.WriteNewline, formatter.WriteNewline, formatter.writeString,
      linesText_append, linesText, lastLineText, Repeat, String.append_assoc]

theorem lines_IncrementIndent (u : String) (d : Nat) (a : Lines) :
    (Lines.conc u d a).IncrementIndent = Lines.conc u (d + 1) a := by
  simp [Lines.conc, formatter.IncrementIndent]

theorem lines_DecrementIndent (u : String) (d : Nat) (a : Lines) :
    (Lines.conc u (d + 1) a).DecrementIndent = Lines.conc u d a := by
  simp [Lines.conc, formatter.DecrementIndent]

theorem lines_NoPadding (u : String) (d : Nat) (a : Lines) :
    (Lines.conc u d a).NoPadding = Lines.conc u d a.NoPadding := rfl

theorem lines_NeedPadding (u : String) (d : Nat) (a : Lines) :
    (Lines.conc u d a).NeedPadding = Lines.conc u d a.NeedPadding := rfl

theorem lines_colonUnit (u : String) (d : Nat) (a : Lines) :
    (Lines.conc u d a).colonUnit = ": " := rfl

theorem lines_optCompressed (u : String) (d : Nat) (a : Lines) :
    (Lines.conc u d a).optCompressed = false := rfl

theorem lines_GetValueString (quote : String → String) (u : String) (d : Nat) (a : Lines)
    (v : Option Value) :
    GetValueString quote (Lines.conc u d a) v = GetValueString quote Lines.view v :=
  GetValueString_congr quote (Lines.conc u d a) Lines.view rfl rfl v

theorem lines_listLoop (quote : String → String) (u : String) (d : Nat) (a : Lines)
    (l : List (Option ChildValue)) :
    GetValueString.listLoop quote (Lines.conc u d a) l =
      GetValueString.listLoop quote Lines.view l :=
  GetValueString.listLoop_congr quote (Lines.conc u d a) Lines.view rfl rfl l

theorem lines_useLogOp (u : String) (d : Nat) (a : Lines) (arg : Argument) :
    formatter.FormatWhereArgument.useLogOp (Lines.conc u d a) arg =
      formatter.FormatWhereArgument.useLogOp Lines.view arg :=
  useLogOp_congr (Lines.conc u d a) Lines.view rfl arg

theorem lines_doSplitted (u : String) (d : Nat) (a : Lines) (l : List Argument) :
    formatter.FormatArgumentList.doSplitted (Lines.conc u d a) l =
      formatter.FormatArgumentList.doSplitted Lines.view l := rfl

theorem lines_FormatValue (quote : String → String) (u : String) (d : Nat) (a : Lines)
    (v : Option Value) :
    (Lines.conc u d a).FormatValue quote v = (Lines.FormatValue quote d a v).map (Lines.conc u d) := by
  unfold formatter.FormatValue Lines.FormatValue
  rw [lines_GetValueString]
  exact sim_bind_val fun s => lines_WriteString u d a s

theorem lines_FormatChildValue (quote : String → String) (u : String) (d : Nat) (a : Lines)
    (c : ChildValue) :
    (Lines.conc u d a).FormatChildValue quote c =
      (Lines.FormatChildValue quote d a c).map (Lines.conc u d) := by
  unfold formatter.FormatChildValue Lines.FormatChildValue
  rw [lines_GetValueString]
  exact sim_bind_val fun s => lines_WriteString u d a _

mutual
theorem lines_FormatWhereLogOpChildValue (quote : String → String) (u : String) :
    ∀ (c : ChildValue) (d : Nat) (a : Lines),
      (Lines.conc u d a).FormatWhereLogOpChildValue quote c =
        (Lines.FormatWhereLogOpChildValue quote d a c).map (Lines.conc u d)
  | .mk name value, d, a => by
    unfold formatter.FormatWhereLogOpChildValue Lines.FormatWhereLogOpChildValue
    simp only [lines_WriteString, lines_WriteWord, lines_WriteNewline, lines_IncrementIndent,
      lines_DecrementIndent, lines_NoPadding, lines_NeedPadding, lines_colonUnit,
      lines_optCompressed, lines_listLoop, lines_GetValueString, lines_useLogOp, lines_doSplitted,
      ok_bind, ok_map, error_map, Bool.false_eq_true, Bool.not_false, if_false, if_true]
    cases value with
    | none => simp only [lines_WriteString, lines_WriteWord, lines_WriteNewline, lines_IncrementIndent,
      lines_DecrementIndent, lines_NoPadding, lines_NeedPadding, lines_colonUnit,
      lines_optCompressed, lines_listLoop, lines_GetValueString, lines_useLogOp, lines_doSplitted,
      ok_bind, ok_map, error_map, Bool.false_eq_true, Bool.not_false, if_false, if_true]
    | some v =>
      obtain ⟨raw, children, kind⟩ := v
      cases kind <;> simp only [lines_WriteString, lines_WriteWord, lines_WriteNewline, lines_IncrementIndent,
      lines_DecrementIndent, lines_NoPadding, lines_NeedPadding, lines_colonUnit,
      lines_optCompressed, lines_listLoop, lines_GetValueString, lines_useLogOp, lines_doSplitted,
      ok_bind, ok_map, error_map, Bool.false_eq_true, Bool.not_false, if_false, if_true]
      case ListValue => exact sim_bind_val fun val => by simp only [lines_WriteString, lines_WriteWord, lines_WriteNewline, lines_IncrementIndent,
      lines_DecrementIndent, lines_NoPadding, lines_NeedPadding, lines_colonUnit,
      lines_optCompressed, lines_listLoop, lines_GetValueString, lines_useLogOp, lines_doSplitted,
      ok_bind, ok_map, error_map, Bool.false_eq_true, Bool.not_false, if_false, if_true]
      case ObjectValue =>
        match children with
        | [] => simp only [lines_WriteString, lines_WriteWord, lines_WriteNewline, lines_IncrementIndent,
      lines_DecrementIndent, lines_NoPadding, lines_NeedPadding, lines_colonUnit,
      lines_optCompressed, lines_listLoop, lines_GetValueString, lines_useLogOp, lines_doSplitted,
      ok_bind, ok_map, error_map, Bool.false_eq_true, Bool.not_false, if_false, if_true]
        | [none] => rfl
        | [some c] =>
          simp only [lines_WriteString, lines_WriteWord, lines_WriteNewline, lines_IncrementIndent,
      lines_DecrementIndent, lines_NoPadding, lines_NeedPadding, lines_colonUnit,
      lines_optCompressed, lines_listLoop, lines_GetValueString, lines_useLogOp, lines_doSplitted,
      ok_bind, ok_map, error_map, Bool.false_eq_true, Bool.not_false, if_false, if_true]
          split
          · refine sim_bind (lines_FormatWhereLogOpChildValue quote u c (d + 1) _) fun a1 => ?_
            simp only [lines_WriteString, lines_WriteWord, lines_WriteNewline, lines_IncrementIndent,
      lines_DecrementIndent, lines_NoPadding, lines_NeedPadding, lines_colonUnit,
      lines_optCompressed, lines_listLoop, lines_GetValueString, lines_useLogOp, lines_doSplitted,
      ok_bind, ok_map, error_map, Bool.false_eq_true, Bool.not_false, if_false, if_true]
          · refine sim_bind (lines_FormatChildValue quote u d _ c) fun a1 => ?_
            simp only [lines_WriteString, lines_WriteWord, lines_WriteNewline, lines_IncrementIndent,
      lines_DecrementIndent, lines_NoPadding, lines_NeedPadding, lines_colonUnit,
      lines_optCompressed, lines_listLoop, lines_GetValueString, lines_useLogOp, lines_doSplitted,
      ok_bind, ok_map, error_map, Bool.false_eq_true, Bool.not_false, if_false, if_true]
        | c₀ :: c₁ :: rest =>
          simp only [lines_WriteString, lines_WriteWord, lines_WriteNewline, lines_IncrementIndent,
      lines_DecrementIndent, lines_NoPadding, lines_NeedPadding, lines_colonUnit,
      lines_optCompressed, lines_listLoop, lines_GetValueString, lines_useLogOp, lines_doSplitted,
      ok_bind, ok_map, error_map, Bool.false_eq_true, Bool.not_false, if_false, if_true]
          refine sim_bind (lines_whereLoop quote u (c₀ :: c₁ :: rest) (d + 1) _) fun a1 => ?_
          simp only [lines_WriteString, lines_WriteWord, lines_WriteNewline, lines_IncrementIndent,
      lines_DecrementIndent, lines_NoPadding, lines_NeedPadding, lines_colonUnit,
      lines_optCompressed, lines_listLoop, lines_GetValueString, lines_useLogOp, lines_doSplitted,
      ok_bind, ok_map, error_map, Bool.false_eq_true, Bool.not_false, if_false, if_true]
termination_by structural c => c
theorem lines_whereLoop (quote : String → String) (u : String) :
    ∀ (l : List (Option ChildValue)) (d : Nat) (a : Lines),
      formatter.FormatWhereLogOpChildValue.loop quote (Lines.conc u d a) l =
        (Lines.FormatWhereLogOpChildValue.loop quote d a l).map (Lines.conc u d)
  | [], d, a => by
    unfold formatter.FormatWhereLogOpChildValue.loop Lines.FormatWhereLogOpChildValue.loop
    rfl
  | none :: _, d, a => by
    unfold formatter.FormatWhereLogOpChildValue.loop Lines.FormatWhereLogOpChildValue.loop
    rfl
  | some c :: rest, d, a => by
    unfold formatter.FormatWhereLogOpChildValue.loop Lines.FormatWhereLogOpChildValue.loop
    refine sim_bind_at (Lines.conc u d) ?_ fun a1 => lines_whereLoop quote u rest d a1
    split
    · exact lines_FormatWhereLogOpChildValue quote u c d a
    · refine sim_bind (lines_FormatChildValue quote u d a c) fun a1 => ?_
      simp only [lines_WriteString, lines_WriteWord, lines_WriteNewline, lines_IncrementIndent,
      lines_DecrementIndent, lines_NoPadding, lines_NeedPadding, lines_colonUnit,
      lines_optCompressed, lines_listLoop, lines_GetValueString, lines_useLogOp, lines_doSplitted,
      ok_bind, ok_map, error_map, Bool.false_eq_true, Bool.not_false, if_false, if_true]
termination_by structural l => l
end

theorem lines_FormatWhereLogOpArgument (quote : String → String) (u : String) (d : Nat)
    (a : Lines) (arg : Argument) :
    (Lines.conc u d a).FormatWhereLogOpArgument quote arg =
      (Lines.FormatWhereLogOpArgument quote d a arg).map (Lines.conc u d) := by
  unfold formatter.FormatWhereLogOpArgument Lines.FormatWhereLogOpArgument
  simp only [lines_WriteString, lines_WriteWord, lines_WriteNewline, lines_IncrementIndent,
      lines_DecrementIndent, lines_NoPadding, lines_NeedPadding, lines_colonUnit,
      lines_optCompressed, lines_listLoop, lines_GetValueString, lines_useLogOp, lines_doSplitted,
      ok_bind, ok_map, error_map, Bool.false_eq_true, Bool.not_false, if_false, if_true]
  refine sim_bind_at (Lines.conc u (d + 1)) ?_ fun a1 => ?_
  · cases arg.Value with
    | none => rfl
    | some v =>
      obtain ⟨raw, children, kind⟩ := v
      simp only [Value.Children]
      cases children with
      | nil => rfl
      | cons c rest =>
        cases c with
        | none => rfl
        | some c => exact lines_FormatWhereLogOpChildValue quote u c (d + 1) _
  · simp only [lines_WriteString, lines_WriteWord, lines_WriteNewline, lines_IncrementIndent,
      lines_DecrementIndent, lines_NoPadding, lines_NeedPadding, lines_colonUnit,
      lines_optCompressed, lines_listLoop, lines_GetValueString, lines_useLogOp, lines_doSplitted,
      ok_bind, ok_map, error_map, Bool.false_eq_true, Bool.not_false, if_false, if_true]

theorem lines_inlineArgument (quote : String → String) (u : String) (d : Nat)
    (a : Lines) (arg : Argument) :
    (do
      let f ← (Lines.conc u d a).WriteWord arg.Name
      let f ← f.NoPadding.WriteString f.colonUnit
      f.FormatValue quote arg.Value) =
      (Lines.inlineArgument quote d a arg).map (Lines.conc u d) := by
  unfold Lines.inlineArgument
  simp only [lines_WriteString, lines_WriteWord, lines_WriteNewline, lines_IncrementIndent,
      lines_DecrementIndent, lines_NoPadding, lines_NeedPadding, lines_colonUnit,
      lines_optCompressed, lines_listLoop, lines_GetValueString, lines_useLogOp, lines_doSplitted,
      ok_bind, ok_map, error_map, Bool.false_eq_true, Bool.not_false, if_false, if_true]
  exact lines_FormatValue quote u d _ _

theorem lines_FormatWhereArgument (quote : String → String) (u : String) (d : Nat)
    (a : Lines) (arg : Argument) :
    (Lines.conc u d a).FormatWhereArgument quote arg =
      (Lines.FormatWhereArgument quote d a arg).map (Lines.conc u d) := by
  unfold formatter.FormatWhereArgument Lines.FormatWhereArgument
  rw [lines_useLogOp]
  refine sim_bind_val fun b => ?_
  cases b
  · exact lines_inlineArgument quote u d a arg
  · exact lines_FormatWhereLogOpArgument quote u d a arg

theorem lines_FormatArgument (quote : String → String) (u : String) (d : Nat)
    (a : Lines) (arg : Argument) :
    (Lines.conc u d a).FormatArgument quote arg =
      (Lines.FormatArgument quote d a arg).map (Lines.conc u d) := by
  unfold formatter.FormatArgument Lines.FormatArgument
  split
  · exact lines_FormatWhereArgument quote u d a arg
  · exact lines_inlineArgument quote u d a arg

theorem lines_splitLoop (quote : String → String) (u : String) (d : Nat) :
    ∀ (l : List Argument) (a : Lines),
      formatter.FormatArgumentList.splitLoop quote (Lines.conc u d a) l =
        (Lines.FormatArgumentList.splitLoop quote d a l).map (Lines.conc u d)
  | [], a => rfl
  | arg :: rest, a => by
    unfold formatter.FormatArgumentList.splitLoop Lines.FormatArgumentList.splitLoop
    refine sim_bind (lines_FormatArgument quote u d a arg) fun a1 => ?_
    simp only [lines_WriteString, lines_WriteWord, lines_WriteNewline, lines_IncrementIndent,
      lines_DecrementIndent, lines_NoPadding, lines_NeedPadding, lines_colonUnit,
      lines_optCompressed, lines_listLoop, lines_GetValueString, lines_useLogOp, lines_doSplitted,
      ok_bind, ok_map, error_map, Bool.false_eq_true, Bool.not_false, if_false, if_true]
    exact lines_splitLoop quote u d rest _

theorem lines_inlineLoop (quote : String → String) (u : String) (d : Nat) :
    ∀ (l : List Argument) (a : Lines),
      formatter.FormatArgumentList.inlineLoop quote (Lines.conc u d a) l =
        (Lines.FormatArgumentList.inlineLoop quote d a l).map (Lines.conc u d)
  | [], a => rfl
  | arg :: rest, a => by
    unfold formatter.FormatArgumentList.inlineLoop Lines.FormatArgumentList.inlineLoop
    refine sim_bind (lines_FormatArgument quote u d a arg) fun a1 => ?_
    simp only [lines_WriteString, lines_WriteWord, lines_WriteNewline, lines_IncrementIndent,
      lines_DecrementIndent, lines_NoPadding, lines_NeedPadding, lines_colonUnit,
      lines_optCompressed, lines_listLoop, lines_GetValueString, lines_useLogOp, lines_doSplitted,
      ok_bind, ok_map, error_map, Bool.false_eq_true, Bool.not_false, if_false, if_true]
    split
    · simp only [lines_WriteString, lines_WriteWord, lines_WriteNewline, lines_IncrementIndent,
      lines_DecrementIndent, lines_NoPadding, lines_NeedPadding, lines_colonUnit,
      lines_optCompressed, lines_listLoop, lines_GetValueString, lines_useLogOp, lines_doSplitted,
      ok_bind, ok_map, error_map, Bool.false_eq_true, Bool.not_false, if_false, if_true]
      exact lines_inlineLoop quote u d rest _
    · simp only [lines_WriteString, lines_WriteWord, lines_WriteNewline, lines_IncrementIndent,
      lines_DecrementIndent, lines_NoPadding, lines_NeedPadding, lines_colonUnit,
      lines_optCompressed, lines_listLoop, lines_GetValueString, lines_useLogOp, lines_doSplitted,
      ok_bind, ok_map, error_map, Bool.false_eq_true, Bool.not_false, if_false, if_true]
      exact lines_inlineLoop quote u d rest _

theorem lines_FormatArgumentList (quote : String → String) (u : String) (d : Nat)
    (a : Lines) (l : List Argument) :
    (Lines.conc u d a).FormatArgumentList quote l =
      (Lines.FormatArgumentList quote d a l).map (Lines.conc u d) := by
  unfold formatter.FormatArgumentList Lines.FormatArgumentList
  split
  · rfl
  · rw [lines_doSplitted]
    refine sim_bind_val fun b => ?_
    simp only [lines_WriteString, lines_WriteWord, lines_WriteNewline, lines_IncrementIndent,
      lines_DecrementIndent, lines_NoPadding, lines_NeedPadding, lines_colonUnit,
      lines_optCompressed, lines_listLoop, lines_GetValueString, lines_useLogOp, lines_doSplitted,
      ok_bind, ok_map, error_map, Bool.false_eq_true, Bool.not_false, if_false, if_true]
    refine sim_bind_at (Lines.conc u d) ?_ fun a1 => ?_
    · cases b
      · simp only [lines_WriteString, lines_WriteWord, lines_WriteNewline, lines_IncrementIndent,
      lines_DecrementIndent, lines_NoPadding, lines_NeedPadding, lines_colonUnit,
      lines_optCompressed, lines_listLoop, lines_GetValueString, lines_useLogOp, lines_doSplitted,
      ok_bind, ok_map, error_map, Bool.false_eq_true, Bool.not_false, if_false, if_true]
        exact lines_inlineLoop quote u d l _
      · simp only [lines_WriteString, lines_WriteWord, lines_WriteNewline, lines_IncrementIndent,
      lines_DecrementIndent, lines_NoPadding, lines_NeedPadding, lines_colonUnit,
      lines_optCompressed, lines_listLoop, lines_GetValueString, lines_useLogOp, lines_doSplitted,
      ok_bind, ok_map, error_map, Bool.false_eq_true, Bool.not_false, if_false, if_true]
        rw [lines_splitLoop]
        cases Lines.FormatArgumentList.splitLoop quote (d + 1)
          ((a.NoPadding.WriteString d "(").WriteNewline) l with
        | error e => rfl
        | ok a2 => simp only [lines_WriteString, lines_WriteWord, lines_WriteNewline, lines_IncrementIndent,
      lines_DecrementIndent, lines_NoPadding, lines_NeedPadding, lines_colonUnit,
      lines_optCompressed, lines_listLoop, lines_GetValueString, lines_useLogOp, lines_doSplitted,
      ok_bind, ok_map, error_map, Bool.false_eq_true, Bool.not_false, if_false, if_true]
    · simp only [lines_WriteString, lines_WriteWord, lines_WriteNewline, lines_IncrementIndent,
      lines_DecrementIndent, lines_NoPadding, lines_NeedPadding, lines_colonUnit,
      lines_optCompressed, lines_listLoop, lines_GetValueString, lines_useLogOp, lines_doSplitted,
      ok_bind, ok_map, error_map, Bool.false_eq_true, Bool.not_false, if_false, if_true]

theorem lines_FormatDirective (quote : String → String) (u : String) (d : Nat)
    (a : Lines) (dir : Directive) :
    (Lines.conc u d a).FormatDirective quote dir =
      (Lines.FormatDirective quote d a dir).map (Lines.conc u d) := by
  unfold formatter.FormatDirective Lines.FormatDirective
  simp only [lines_WriteString, lines_WriteWord, lines_WriteNewline, lines_IncrementIndent,
      lines_DecrementIndent, lines_NoPadding, lines_NeedPadding, lines_colonUnit,
      lines_optCompressed, lines_listLoop, lines_GetValueString, lines_useLogOp, lines_doSplitted,
      ok_bind, ok_map, error_map, Bool.false_eq_true, Bool.not_false, if_false, if_true]
  exact lines_FormatArgumentList quote u d _ _

theorem lines_FormatDirectiveList (quote : String → String) (u : String) (d : Nat) :
    ∀ (l : List Directive) (a : Lines),
      (Lines.conc u d a).FormatDirectiveList quote l =
        (Lines.FormatDirectiveList quote d a l).map (Lines.conc u d)
  | [], a => rfl
  | dir :: rest, a => by
    unfold formatter.FormatDirectiveList Lines.FormatDirectiveList
    exact sim_bind (lines_FormatDirective quote u d a dir) fun a1 =>
      lines_FormatDirectiveList quote u d rest a1

theorem lines_FormatVariableDefinition (quote : String → String) (u : String) (d : Nat)
    (a : Lines) (v : VariableDefinition) :
    (Lines.conc u d a).FormatVariableDefinition quote v =
      (Lines.FormatVariableDefinition quote d a v).map (Lines.conc u d) := by
  unfold formatter.FormatVariableDefinition Lines.FormatVariableDefinition formatter.FormatType
  simp only [lines_WriteString, lines_WriteWord, lines_WriteNewline, lines_IncrementIndent,
      lines_DecrementIndent, lines_NoPadding, lines_NeedPadding, lines_colonUnit,
      lines_optCompressed, lines_listLoop, lines_GetValueString, lines_useLogOp, lines_doSplitted,
      ok_bind, ok_map, error_map, Bool.false_eq_true, Bool.not_false, if_false, if_true]
  cases v.DefaultValue with
  | none => simp only [lines_WriteString, lines_WriteWord, lines_WriteNewline, lines_IncrementIndent,
      lines_DecrementIndent, lines_NoPadding, lines_NeedPadding, lines_colonUnit,
      lines_optCompressed, lines_listLoop, lines_GetValueString, lines_useLogOp, lines_doSplitted,
      ok_bind, ok_map, error_map, Bool.false_eq_true, Bool.not_false, if_false, if_true]
  | some x =>
    simp only [lines_WriteString, lines_WriteWord, lines_WriteNewline, lines_IncrementIndent,
      lines_DecrementIndent, lines_NoPadding, lines_NeedPadding, lines_colonUnit,
      lines_optCompressed, lines_listLoop, lines_GetValueString, lines_useLogOp, lines_doSplitted,
      ok_bind, ok_map, error_map, Bool.false_eq_true, Bool.not_false, if_false, if_true]
    exact lines_FormatValue quote u d _ _

theorem lines_variableLoop (quote : String → String) (u : String) (d : Nat) :
    ∀ (l : List VariableDefinition) (a : Lines),
      formatter.FormatVariableDefinitionList.loop quote (Lines.conc u d a) l =
        (Lines.FormatVariableDefinitionList.loop quote d a l).map (Lines.conc u d)
  | [], a => rfl
  | v :: rest, a => by
    unfold formatter.FormatVariableDefinitionList.loop Lines.FormatVariableDefinitionList.loop
    refine sim_bind (lines_FormatVariableDefinition quote u d a v) fun a1 => ?_
    simp only [lines_WriteString, lines_WriteWord, lines_WriteNewline, lines_IncrementIndent,
      lines_DecrementIndent, lines_NoPadding, lines_NeedPadding, lines_colonUnit,
      lines_optCompressed, lines_listLoop, lines_GetValueString, lines_useLogOp, lines_doSplitted,
      ok_bind, ok_map, error_map, Bool.false_eq_true, Bool.not_false, if_false, if_true]
    split
    · simp only [lines_WriteString, lines_WriteWord, lines_WriteNewline, lines_IncrementIndent,
      lines_DecrementIndent, lines_NoPadding, lines_NeedPadding, lines_colonUnit,
      lines_optCompressed, lines_listLoop, lines_GetValueString, lines_useLogOp, lines_doSplitted,
      ok_bind, ok_map, error_map, Bool.false_eq_true, Bool.not_false, if_false, if_true]
      exact lines_variableLoop quote u d rest _
    · simp only [lines_WriteString, lines_WriteWord, lines_WriteNewline, lines_IncrementIndent,
      lines_DecrementIndent, lines_NoPadding, lines_NeedPadding, lines_colonUnit,
      lines_optCompressed, lines_listLoop, lines_GetValueString, lines_useLogOp, lines_doSplitted,
      ok_bind, ok_map, error_map, Bool.false_eq_true, Bool.not_false, if_false, if_true]
      exact lines_variableLoop quote u d rest _

theorem lines_FormatVariableDefinitionList (quote : String → String) (u : String) (d : Nat)
    (a : Lines) (l : List VariableDefinition) :
    (Lines.conc u d a).FormatVariableDefinitionList quote l =
      (Lines.FormatVariableDefinitionList quote d a l).map (Lines.conc u d) := by
  unfold formatter.FormatVariableDefinitionList Lines.FormatVariableDefinitionList
  split
  · rfl
  · simp only [lines_WriteString, lines_WriteWord, lines_WriteNewline, lines_IncrementIndent,
      lines_DecrementIndent, lines_NoPadding, lines_NeedPadding, lines_colonUnit,
      lines_optCompressed, lines_listLoop, lines_GetValueString, lines_useLogOp, lines_doSplitted,
      ok_bind, ok_map, error_map, Bool.false_eq_true, Bool.not_false, if_false, if_true]
    refine sim_bind (lines_variableLoop quote u d l _) fun a1 => ?_
    simp only [lines_WriteString, lines_WriteWord, lines_WriteNewline, lines_IncrementIndent,
      lines_DecrementIndent, lines_NoPadding, lines_NeedPadding, lines_colonUnit,
      lines_optCompressed, lines_listLoop, lines_GetValueString, lines_useLogOp, lines_doSplitted,
      ok_bind, ok_map, error_map, Bool.false_eq_true, Bool.not_false, if_false, if_true]

theorem lines_FormatFragmentSpread (quote : String → String) (u : String) (d : Nat)
    (a : Lines) (name : String) (ds : List Directive) :
    (Lines.conc u d a).FormatFragmentSpread quote name ds =
      (Lines.FormatFragmentSpread quote d a name ds).map (Lines.conc u d) := by
  unfold formatter.FormatFragmentSpread Lines.FormatFragmentSpread
  simp only [lines_WriteString, lines_WriteWord, lines_WriteNewline, lines_IncrementIndent,
      lines_DecrementIndent, lines_NoPadding, lines_NeedPadding, lines_colonUnit,
      lines_optCompressed, lines_listLoop, lines_GetValueString, lines_useLogOp, lines_doSplitted,
      ok_bind, ok_map, error_map, Bool.false_eq_true, Bool.not_false, if_false, if_true]
  exact lines_FormatDirectiveList quote u d ds _

theorem lines_frame (u : String) (d : Nat) (a : Lines) (sets : List Selection)
    (body : formatter → Except Fault formatter) (body' : Lines → Except Fault Lines)
    (hb : ∀ a1, body (Lines.conc u (d + 1) a1) = (body' a1).map (Lines.conc u (d + 1))) :
    formatter.FormatSelectionSet.frame (Lines.conc u d a) sets body =
      (Lines.FormatSelectionSet.frame d a sets body').map (Lines.conc u d) := by
  unfold formatter.FormatSelectionSet.frame Lines.FormatSelectionSet.frame
  split
  · rfl
  · simp only [lines_WriteString, lines_WriteWord, lines_WriteNewline, lines_IncrementIndent,
      lines_DecrementIndent, lines_NoPadding, lines_NeedPadding, lines_colonUnit,
      lines_optCompressed, lines_listLoop, lines_GetValueString, lines_useLogOp, lines_doSplitted,
      ok_bind, ok_map, error_map, Bool.false_eq_true, Bool.not_false, if_false, if_true]
    refine sim_bind (hb _) fun a1 => ?_
    simp only [lines_WriteString, lines_WriteWord, lines_WriteNewline, lines_IncrementIndent,
      lines_DecrementIndent, lines_NoPadding, lines_NeedPadding, lines_colonUnit,
      lines_optCompressed, lines_listLoop, lines_GetValueString, lines_useLogOp, lines_doSplitted,
      ok_bind, ok_map, error_map, Bool.false_eq_true, Bool.not_false, if_false, if_true]

mutual
theorem lines_FormatSelection (quote : String → String) (u : String) :
    ∀ (s : Selection) (d : Nat) (a : Lines),
      (Lines.conc u d a).FormatSelection quote s =
        (Lines.FormatSelection quote d a s).map (Lines.conc u d)
  | .Field fieldAlias name arguments directives selectionSet, d, a => by
    unfold formatter.FormatSelection Lines.FormatSelection
    by_cases h : fieldAlias ≠ "" ∧ fieldAlias ≠ name
    · simp only [if_pos h, lines_WriteString, lines_WriteWord, lines_WriteNewline, lines_IncrementIndent,
      lines_DecrementIndent, lines_NoPadding, lines_NeedPadding, lines_colonUnit,
      lines_optCompressed, lines_listLoop, lines_GetValueString, lines_useLogOp, lines_doSplitted,
      ok_bind, ok_map, error_map, Bool.false_eq_true, Bool.not_false, if_false, if_true]
      refine sim_bind_at (Lines.conc u d) ?_ fun a1 =>
        sim_bind (lines_FormatDirectiveList quote u d directives a1)
          fun a2 => lines_frame u d a2 selectionSet _ _
            fun a3 => lines_selectionLoop quote u selectionSet (d + 1) a3
      · split
        · refine sim_bind (lines_FormatArgumentList quote u d _ _) fun a2 => ?_
          simp only [lines_WriteString, lines_WriteWord, lines_WriteNewline, lines_IncrementIndent,
      lines_DecrementIndent, lines_NoPadding, lines_NeedPadding, lines_colonUnit,
      lines_optCompressed, lines_listLoop, lines_GetValueString, lines_useLogOp, lines_doSplitted,
      ok_bind, ok_map, error_map, Bool.false_eq_true, Bool.not_false, if_false, if_true]
        · rfl
    · simp only [if_neg h, lines_WriteString, lines_WriteWord, lines_WriteNewline, lines_IncrementIndent,
      lines_DecrementIndent, lines_NoPadding, lines_NeedPadding, lines_colonUnit,
      lines_optCompressed, lines_listLoop, lines_GetValueString, lines_useLogOp, lines_doSplitted,
      ok_bind, ok_map, error_map, Bool.false_eq_true, Bool.not_false, if_false, if_true]
      refine sim_bind_at (Lines.conc u d) ?_ fun a1 =>
        sim_bind (lines_FormatDirectiveList quote u d directives a1)
          fun a2 => lines_frame u d a2 selectionSet _ _
            fun a3 => lines_selectionLoop quote u selectionSet (d + 1) a3
      · split
        · refine sim_bind (lines_FormatArgumentList quote u d _ _) fun a2 => ?_
          simp only [lines_WriteString, lines_WriteWord, lines_WriteNewline, lines_IncrementIndent,
      lines_DecrementIndent, lines_NoPadding, lines_NeedPadding, lines_colonUnit,
      lines_optCompressed, lines_listLoop, lines_GetValueString, lines_useLogOp, lines_doSplitted,
      ok_bind, ok_map, error_map, Bool.false_eq_true, Bool.not_false, if_false, if_true]
        · rfl
  | .FragmentSpread name directives, d, a => by
    unfold formatter.FormatSelection Lines.FormatSelection
    exact lines_FormatFragmentSpread quote u d a name directives
  | .InlineFragment typeCondition directives selectionSet, d, a => by
    unfold formatter.FormatSelection Lines.FormatSelection
    by_cases h : typeCondition ≠ ""
    · simp only [if_pos h, lines_WriteString, lines_WriteWord, lines_WriteNewline, lines_IncrementIndent,
      lines_DecrementIndent, lines_NoPadding, lines_NeedPadding, lines_colonUnit,
      lines_optCompressed, lines_listLoop, lines_GetValueString, lines_useLogOp, lines_doSplitted,
      ok_bind, ok_map, error_map, Bool.false_eq_true, Bool.not_false, if_false, if_true]
      exact sim_bind (lines_FormatDirectiveList quote u d directives _)
        fun a2 => lines_frame u d a2 selectionSet _ _
          fun a3 => lines_selectionLoop quote u selectionSet (d + 1) a3
    · simp only [if_neg h, lines_WriteString, lines_WriteWord, lines_WriteNewline, lines_IncrementIndent,
      lines_DecrementIndent, lines_NoPadding, lines_NeedPadding, lines_colonUnit,
      lines_optCompressed, lines_listLoop, lines_GetValueString, lines_useLogOp, lines_doSplitted,
      ok_bind, ok_map, error_map, Bool.false_eq_true, Bool.not_false, if_false, if_true]
      exact sim_bind (lines_FormatDirectiveList quote u d directives _)
        fun a2 => lines_frame u d a2 selectionSet _ _
          fun a3 => lines_selectionLoop quote u selectionSet (d + 1) a3
  | .other, d, a => by
    unfold formatter.FormatSelection Lines.FormatSelection
    rfl
termination_by structural s => s
theorem lines_selectionLoop (quote : String → String) (u : String) :
    ∀ (l : List Selection) (d : Nat) (a : Lines),
      formatter.FormatSelectionSet.loop quote (Lines.conc u d a) l =
        (Lines.FormatSelectionSet.loop quote d a l).map (Lines.conc u d)
  | [], d, a => by
    unfold formatter.FormatSelectionSet.loop Lines.FormatSelectionSet.loop
    rfl
  | sel :: rest, d, a => by
    unfold formatter.FormatSelectionSet.loop Lines.FormatSelectionSet.loop
    refine sim_bind (lines_FormatSelection quote u sel d a) fun a1 => ?_
    simp only [lines_WriteString, lines_WriteWord, lines_WriteNewline, lines_IncrementIndent,
      lines_DecrementIndent, lines_NoPadding, lines_NeedPadding, lines_colonUnit,
      lines_optCompressed, lines_listLoop, lines_GetValueString, lines_useLogOp, lines_doSplitted,
      ok_bind, ok_map, error_map, Bool.false_eq_true, Bool.not_false, if_false, if_true]
    exact lines_selectionLoop quote u rest d _
termination_by structural l => l
end

theorem lines_FormatSelectionSet (quote : String → String) (u : String) (d : Nat)
    (a : Lines) (sets : List Selection) :
    (Lines.conc u d a).FormatSelectionSet quote sets =
      (Lines.FormatSelectionSet quote d a sets).map (Lines.conc u d) :=
  lines_frame u d a sets _ _ fun a3 => lines_selectionLoop quote u sets (d + 1) a3

theorem lines_FormatOperationDefinition (quote : String → String) (u : String) (d : Nat)
    (a : Lines) (o : OperationDefinition) :
    (Lines.conc u d a).FormatOperationDefinition quote o =
      (Lines.FormatOperationDefinition quote d a o).map (Lines.conc u d) := by
  unfold formatter.FormatOperationDefinition Lines.FormatOperationDefinition
  by_cases h : o.Name ≠ ""
  · simp only [if_pos h, lines_WriteString, lines_WriteWord, lines_WriteNewline, lines_IncrementIndent,
      lines_DecrementIndent, lines_NoPadding, lines_NeedPadding, lines_colonUnit,
      lines_optCompressed, lines_listLoop, lines_GetValueString, lines_useLogOp, lines_doSplitted,
      ok_bind, ok_map, error_map, Bool.false_eq_true, Bool.not_false, if_false, if_true]
    refine sim_bind (lines_FormatVariableDefinitionList quote u d _ _) fun a1 =>
      sim_bind (lines_FormatDirectiveList quote u d _ a1) fun a2 => ?_
    split
    · refine sim_bind (lines_FormatSelectionSet quote u d a2 _) fun a3 => ?_
      simp only [lines_WriteString, lines_WriteWord, lines_WriteNewline, lines_IncrementIndent,
      lines_DecrementIndent, lines_NoPadding, lines_NeedPadding, lines_colonUnit,
      lines_optCompressed, lines_listLoop, lines_GetValueString, lines_useLogOp, lines_doSplitted,
      ok_bind, ok_map, error_map, Bool.false_eq_true, Bool.not_false, if_false, if_true]
    · rfl
  · simp only [if_neg h, lines_WriteString, lines_WriteWord, lines_WriteNewline, lines_IncrementIndent,
      lines_DecrementIndent, lines_NoPadding, lines_NeedPadding, lines_colonUnit,
      lines_optCompressed, lines_listLoop, lines_GetValueString, lines_useLogOp, lines_doSplitted,
      ok_bind, ok_map, error_map, Bool.false_eq_true, Bool.not_false, if_false, if_true]
    refine sim_bind (lines_FormatVariableDefinitionList quote u d _ _) fun a1 =>
      sim_bind (lines_FormatDirectiveList quote u d _ a1) fun a2 => ?_
    split
    · refine sim_bind (lines_FormatSelectionSet quote u d a2 _) fun a3 => ?_
      simp only [lines_WriteString, lines_WriteWord, lines_WriteNewline, lines_IncrementIndent,
      lines_DecrementIndent, lines_NoPadding, lines_NeedPadding, lines_colonUnit,
      lines_optCompressed, lines_listLoop, lines_GetValueString, lines_useLogOp, lines_doSplitted,
      ok_bind, ok_map, error_map, Bool.false_eq_true, Bool.not_false, if_false, if_true]
    · rfl

theorem lines_FormatOperationList (quote : String → String) (u : String) (d : Nat) :
    ∀ (l : List OperationDefinition) (a : Lines),
      (Lines.conc u d a).FormatOperationList quote l =
        (Lines.FormatOperationList quote d a l).map (Lines.conc u d)
  | [], a => rfl
  | o :: rest, a => by
    unfold formatter.FormatOperationList Lines.FormatOperationList
    exact sim_bind (lines_FormatOperationDefinition quote u d a o) fun a1 =>
      lines_FormatOperationList quote u d rest a1

theorem lines_FormatFragmentDefinition (quote : String → String) (u : String) (d : Nat)
    (a : Lines) (o : FragmentDefinition) :
    (Lines.conc u d a).FormatFragmentDefinition quote o =
      (Lines.FormatFragmentDefinition quote d a o).map (Lines.conc u d) := by
  unfold formatter.FormatFragmentDefinition Lines.FormatFragmentDefinition
  simp only [lines_WriteString, lines_WriteWord, lines_WriteNewline, lines_IncrementIndent,
      lines_DecrementIndent, lines_NoPadding, lines_NeedPadding, lines_colonUnit,
      lines_optCompressed, lines_listLoop, lines_GetValueString, lines_useLogOp, lines_doSplitted,
      ok_bind, ok_map, error_map, Bool.false_eq_true, Bool.not_false, if_false, if_true]
  refine sim_bind (lines_FormatVariableDefinitionList quote u d _ _) fun a1 => ?_
  simp only [lines_WriteString, lines_WriteWord, lines_WriteNewline, lines_IncrementIndent,
      lines_DecrementIndent, lines_NoPadding, lines_NeedPadding, lines_colonUnit,
      lines_optCompressed, lines_listLoop, lines_GetValueString, lines_useLogOp, lines_doSplitted,
      ok_bind, ok_map, error_map, Bool.false_eq_true, Bool.not_false, if_false, if_true]
  refine sim_bind (lines_FormatDirectiveList quote u d _ _) fun a2 => ?_
  split
  · refine sim_bind (lines_FormatSelectionSet quote u d a2 _) fun a3 => ?_
    simp only [lines_WriteString, lines_WriteWord, lines_WriteNewline, lines_IncrementIndent,
      lines_DecrementIndent, lines_NoPadding, lines_NeedPadding, lines_colonUnit,
      lines_optCompressed, lines_listLoop, lines_GetValueString, lines_useLogOp, lines_doSplitted,
      ok_bind, ok_map, error_map, Bool.false_eq_true, Bool.not_false, if_false, if_true]
  · rfl

theorem lines_FormatFragmentDefinitionList (quote : String → String) (u : String) (d : Nat) :
    ∀ (l : List FragmentDefinition) (a : Lines),
      (Lines.conc u d a).FormatFragmentDefinitionList quote l =
        (Lines.FormatFragmentDefinitionList quote d a l).map (Lines.conc u d)
  | [], a => rfl
  | o :: rest, a => by
    unfold formatter.FormatFragmentDefinitionList Lines.FormatFragmentDefinitionList
    exact sim_bind (lines_FormatFragmentDefinition quote u d a o) fun a1 =>
      lines_FormatFragmentDefinitionList quote u d rest a1

theorem lines_FormatQueryDocument (quote : String → String) (u : String) (d : Nat)
    (a : Lines) (doc : Option QueryDocument) :
    (Lines.conc u d a).FormatQueryDocument quote doc =
      (Lines.FormatQueryDocument quote d a doc).map (Lines.conc u d) := by
  cases doc with
  | none => rfl
  | some doc =>
    unfold formatter.FormatQueryDocument Lines.FormatQueryDocument
    exact sim_bind (lines_FormatOperationList quote u d _ a) fun a1 =>
      lines_FormatFragmentDefinitionList quote u d _ a1

/-- The readable output for every indent unit is the text of the lines of the
document. -/
theorem formatted_documentLines (quote : String → String) (doc : Option QueryDocument)
    (u : String) :
    formatted quote "" [.WithIndent u] doc =
      (documentLines quote doc).map (fun p => linesText u p.1 ++ lastLineText u p.2) := by
  have e : NewFormatter "" [.WithIndent u] = Lines.conc u 0 ⟨[], some (0, ""), false⟩ := by
    simp [Lines.conc, NewFormatter, FormatOption.applyAll, FormatOption.apply, linesText,
      lastLineText, Repeat]
  unfold formatted documentLines
  rw [e, lines_FormatQueryDocument]
  cases Lines.FormatQueryDocument quote 0 ⟨[], some (0, ""), false⟩ doc <;> rfl

/-! ## Nesting depth of the lines -/

theorem continues_refl (a : Lines) : a.Continues a :=
  ⟨[], by simp, fun l h => .inl ⟨rfl, "", by simp [h]⟩⟩

theorem continues_trans {a b c : Lines} (h₁ : a.Continues b) (h₂ : b.Continues c) :
    a.Continues c := by
  obtain ⟨i₁, e₁, p₁⟩ := h₁
  obtain ⟨i₂, e₂, p₂⟩ := h₂
  refine ⟨i₁ ++ i₂, by rw [e₂, e₁, List.append_assoc], fun l hl => ?_⟩
  rcases p₁ l hl with ⟨rfl, t, hb⟩ | ⟨t, rest, rfl⟩
  · rcases p₂ _ hb with ⟨rfl, t₂, hc⟩ | ⟨t₂, rest, rfl⟩
    · exact .inl ⟨rfl, t ++ t₂, by rw [hc, String.append_assoc]⟩
    · exact .inr ⟨t ++ t₂, rest, by simp [String.append_assoc]⟩
  · exact .inr ⟨t, rest ++ i₂, by simp⟩

theorem continues_WriteString (a : Lines) (d : Nat) (s : String) :
    a.Continues (a.WriteString d s) := by
  obtain ⟨done, cur, p⟩ := a
  cases cur with
  | none => exact ⟨[], by simp [Lines.WriteString], fun l h => by cases h⟩
  | some l₀ =>
    refine ⟨[], by simp [Lines.WriteString], fun l h => ?_⟩
    cases h
    exact .inl ⟨rfl, (if p = true then " " else "") ++ s,
      by simp [Lines.WriteString, String.append_assoc]⟩

theorem continues_WriteWord (a : Lines) (d : Nat) (s : String) :
    a.Continues (a.WriteWord d s) := by
  obtain ⟨done, cur, p⟩ := a
  cases cur with
  | none => exact ⟨[], by simp [Lines.WriteWord], fun l h => by cases h⟩
  | some l₀ =>
    refine ⟨[], by simp [Lines.WriteWord], fun l h => ?_⟩
    cases h
    exact .inl ⟨rfl, (if p = true then " " else "") ++ TrimSpace s,
      by simp [Lines.WriteWord, String.append_assoc]⟩

theorem continues_WriteNewline (a : Lines) : a.Continues a.WriteNewline := by
  obtain ⟨done, cur, p⟩ := a
  cases cur with
  | none => exact ⟨[(0, "")], by simp [Lines.WriteNewline], fun l h => by cases h⟩
  | some l₀ =>
    refine ⟨[l₀], by simp [Lines.WriteNewline], fun l h => ?_⟩
    cases h
    exact .inr ⟨"", [], by simp⟩

theorem continues_NoPadding (a : Lines) : a.Continues a.NoPadding :=
  ⟨[], by simp [Lines.NoPadding], fun l h => .inl ⟨rfl, "", by simp [Lines.NoPadding, h]⟩⟩

theorem continues_NeedPadding (a : Lines) : a.Continues a.NeedPadding :=
  ⟨[], by simp [Lines.NeedPadding], fun l h => .inl ⟨rfl, "", by simp [Lines.NeedPadding, h]⟩⟩

theorem Lines.Continues.thenString {a b : Lines} (h : a.Continues b) (d : Nat) (s : String) :
    a.Continues (b.WriteString d s) :=
  continues_trans h (continues_WriteString b d s)

theorem Lines.Continues.thenWord {a b : Lines} (h : a.Continues b) (d : Nat) (s : String) :
    a.Continues (b.WriteWord d s) :=
  continues_trans h (continues_WriteWord b d s)

theorem Lines.Continues.thenNewline {a b : Lines} (h : a.Continues b) :
    a.Continues b.WriteNewline :=
  continues_trans h (continues_WriteNewline b)

theorem Lines.Continues.thenNoPadding {a b : Lines} (h : a.Continues b) :
    a.Continues b.NoPadding :=
  continues_trans h (continues_NoPadding b)

theorem Lines.Continues.thenNeedPadding {a b : Lines} (h : a.Continues b) :
    a.Continues b.NeedPadding :=
  continues_trans h (continues_NeedPadding b)

theorem keeps_ok {a b : Lines} (h : a.Continues b) : a.Keeps (.ok b) := by
  intro a' e; cases e; exact h

theorem keeps_error {a : Lines} {e : Fault} : a.Keeps (.error e) := by
  intro a' h; cases h

theorem keeps_from {a b : Lines} {x : Except Fault Lines} (h : a.Continues b)
    (hx : b.Keeps x) : a.Keeps x :=
  fun a' e => continues_trans h (hx a' e)

theorem keeps_bind {a b : Lines} {x : Except Fault Lines} {k : Lines → Except Fault Lines}
    (hx : b.Keeps x) (hk : ∀ c, b.Continues c → a.Keeps (k c)) : a.Keeps (x >>= k) := by
  intro a' e
  cases x with
  | error e' => cases e
  | ok c => exact hk c (hx c rfl) a' e

theorem keeps_bind_val {γ : Type} {a : Lines} {x : Except Fault γ}
    {k : γ → Except Fault Lines} (hk : ∀ v, a.Keeps (k v)) : a.Keeps (x >>= k) := by
  intro a' e
  cases x with
  | error e' => cases e
  | ok v => exact hk v a' e

theorem keeps_ite {c : Prop} [Decidable c] {a : Lines} {x y : Except Fault Lines}
    (hx : c → a.Keeps x) (hy : ¬c → a.Keeps y) : a.Keeps (if c then x else y) := by
  split
  · exact hx ‹_›
  · exact hy ‹_›

theorem continues_FormatValue (quote : String → String) (d : Nat) {a₀ a : Lines}
    (h : a₀.Continues a) (v : Option Value) : a₀.Keeps (Lines.FormatValue quote d a v) := by
  unfold Lines.FormatValue
  exact keeps_bind_val fun s => keeps_ok (h.thenString d s)

theorem continues_FormatChildValue (quote : String → String) (d : Nat) {a₀ a : Lines}
    (h : a₀.Continues a) (c : ChildValue) :
    a₀.Keeps (Lines.FormatChildValue quote d a c) := by
  unfold Lines.FormatChildValue
  exact keeps_bind_val fun s => keeps_ok (h.thenString d _)

mutual
theorem continues_FormatWhereLogOpChildValue (quote : String → String) :
    ∀ (c : ChildValue) (d : Nat) (a₀ a : Lines), a₀.Continues a →
      a₀.Keeps (Lines.FormatWhereLogOpChildValue quote d a c)
  | .mk name value, d, a₀, a, h => by
    unfold Lines.FormatWhereLogOpChildValue
    have h₂ : a₀.Continues ((a.WriteString d name).NoPadding.WriteString d ": ") :=
      ((h.thenString d name).thenNoPadding).thenString d ": "
    cases value with
    | none => exact keeps_ok (h₂.thenString d _)
    | some v =>
      obtain ⟨raw, children, kind⟩ := v
      cases kind <;> simp only
      case unsupported => exact keeps_error
      case ListValue =>
        exact keeps_bind_val fun val => keeps_ok ((h₂.thenString d _).thenNewline.thenNeedPadding)
      case ObjectValue =>
        match children with
        | [] => exact keeps_ok ((h₂.thenString d _).thenNewline.thenNeedPadding)
        | [none] => exact keeps_error
        | [some c] =>
          simp only
          refine keeps_ite (fun _ => ?_) fun _ => ?_
          · refine keeps_bind (continues_FormatWhereLogOpChildValue quote c (d + 1) a₀ _
              ((h₂.thenString d _).thenNewline.thenNeedPadding)) fun b hb => ?_
            exact keeps_ok ((hb.thenString d _).thenNewline.thenNeedPadding)
          · refine keeps_bind (continues_FormatChildValue quote d (h₂.thenString d _) c)
              fun b hb => ?_
            exact keeps_ok ((hb.thenString d _).thenNewline.thenNeedPadding)
        | c₀ :: c₁ :: rest =>
          simp only
          refine keeps_bind (continues_whereLoop quote (c₀ :: c₁ :: rest) (d + 1) a₀ _
            ((h₂.thenString d _).thenNewline.thenNeedPadding)) fun b hb => ?_
          exact keeps_ok ((hb.thenString d _).thenNewline.thenNeedPadding)
      all_goals exact keeps_ok (h₂.thenString d _)
termination_by structural c => c
theorem continues_whereLoop (quote : String → String) :
    ∀ (l : List (Option ChildValue)) (d : Nat) (a₀ a : Lines), a₀.Continues a →
      a₀.Keeps (Lines.FormatWhereLogOpChildValue.loop quote d a l)
  | [], d, a₀, a, h => by
    unfold Lines.FormatWhereLogOpChildValue.loop
    exact keeps_ok h
  | none :: _, d, a₀, a, h => by
    unfold Lines.FormatWhereLogOpChildValue.loop
    exact keeps_error
  | some c :: rest, d, a₀, a, h => by
    unfold Lines.FormatWhereLogOpChildValue.loop
    refine keeps_bind (?_ : a₀.Keeps _) fun b hb => continues_whereLoop quote rest d a₀ b hb
    refine keeps_ite (fun _ => continues_FormatWhereLogOpChildValue quote c d a₀ a h) fun _ => ?_
    exact keeps_bind (continues_FormatChildValue quote d h c) fun b hb =>
      keeps_ok hb.thenNewline.thenNeedPadding
termination_by structural l => l
end

theorem continues_FormatWhereLogOpArgument (quote : String → String) (d : Nat)
    {a₀ a : Lines} (h : a₀.Continues (a.WriteWord d arg.Name)) :
    a₀.Keeps (Lines.FormatWhereLogOpArgument quote d a arg) := by
  unfold Lines.FormatWhereLogOpArgument
  refine keeps_bind (?_ : a₀.Keeps _) fun b hb => keeps_ok ((hb.thenString d _).thenNeedPadding)
  cases arg.Value with
  | none => exact keeps_error
  | some v =>
    obtain ⟨raw, children, kind⟩ := v
    simp only [Value.Children]
    cases children with
    | nil => exact keeps_error
    | cons c rest =>
      cases c with
      | none => exact keeps_error
      | some c =>
        exact continues_FormatWhereLogOpChildValue quote c (d + 1) a₀ _
          ((h.thenNoPadding.thenString d _).thenNeedPadding.thenNewline)

theorem continues_inlineArgument (quote : String → String) (d : Nat)
    {a₀ a : Lines} {arg : Argument} (h : a₀.Continues (a.WriteWord d arg.Name)) :
    a₀.Keeps (Lines.inlineArgument quote d a arg) := by
  unfold Lines.inlineArgument
  exact continues_FormatValue quote d (h.thenNoPadding.thenString d _) _

/-- The rendering of an argument continues the output in which its name has
been written. -/
theorem starts_FormatArgument (quote : String → String) (d : Nat)
    {a₀ a : Lines} {arg : Argument} (h : a₀.Continues (a.WriteWord d arg.Name)) :
    a₀.Keeps (Lines.FormatArgument quote d a arg) := by
  unfold Lines.FormatArgument Lines.FormatWhereArgument
  refine keeps_ite (fun _ => keeps_bind_val fun b => ?_)
    fun _ => continues_inlineArgument quote d h
  cases b
  · exact continues_inlineArgument quote d h
  · exact continues_FormatWhereLogOpArgument quote d h

theorem continues_FormatArgument (quote : String → String) (d : Nat)
    {a₀ a : Lines} (h : a₀.Continues a) (arg : Argument) :
    a₀.Keeps (Lines.FormatArgument quote d a arg) :=
  starts_FormatArgument quote d (h.thenWord d arg.Name)

theorem continues_splitLoop (quote : String → String) (d : Nat) :
    ∀ (l : List Argument) (a₀ a : Lines), a₀.Continues a →
      a₀.Keeps (Lines.FormatArgumentList.splitLoop quote d a l)
  | [], a₀, a, h => keeps_ok h
  | arg :: rest, a₀, a, h => by
    unfold Lines.FormatArgumentList.splitLoop
    exact keeps_bind (continues_FormatArgument quote d h arg) fun b hb =>
      continues_splitLoop quote d rest a₀ _ hb.thenNewline

theorem continues_inlineLoop (quote : String → String) (d : Nat) :
    ∀ (l : List Argument) (a₀ a : Lines), a₀.Continues a →
      a₀.Keeps (Lines.FormatArgumentList.inlineLoop quote d a l)
  | [], a₀, a, h => keeps_ok h
  | arg :: rest, a₀, a, h => by
    unfold Lines.FormatArgumentList.inlineLoop
    refine keeps_bind (continues_FormatArgument quote d h arg) fun b hb =>
      continues_inlineLoop quote d rest a₀ _ ?_
    split
    · exact hb.thenNoPadding.thenWord d _
    · exact hb

theorem continues_FormatArgumentList (quote : String → String) (d : Nat)
    {a₀ a : Lines} (h : a₀.Continues a) (l : List Argument) :
    a₀.Keeps (Lines.FormatArgumentList quote d a l) := by
  unfold Lines.FormatArgumentList
  refine keeps_ite (fun _ => keeps_ok h) fun _ => keeps_bind_val fun b => ?_
  refine keeps_bind (?_ : a₀.Keeps _) fun c hc => keeps_ok ((hc.thenString d _).thenNeedPadding)
  cases b
  · exact continues_inlineLoop quote d l a₀ _ (h.thenNoPadding.thenString d _)
  · exact continues_splitLoop quote (d + 1) l a₀ _ (h.thenNoPadding.thenString d _).thenNewline

theorem continues_FormatDirective (quote : String → String) (d : Nat)
    {a₀ a : Lines} (h : a₀.Continues a) (dir : Directive) :
    a₀.Keeps (Lines.FormatDirective quote d a dir) := by
  unfold Lines.FormatDirective
  exact continues_FormatArgumentList quote d ((h.thenString d _).thenWord d _) _

theorem continues_FormatDirectiveList (quote : String → String) (d : Nat) :
    ∀ (l : List Directive) (a₀ a : Lines), a₀.Continues a →
      a₀.Keeps (Lines.FormatDirectiveList quote d a l)
  | [], a₀, a, h => keeps_ok h
  | dir :: rest, a₀, a, h => by
    unfold Lines.FormatDirectiveList
    exact keeps_bind (continues_FormatDirective quote d h dir) fun b hb =>
      continues_FormatDirectiveList quote d rest a₀ b hb

theorem continues_FormatVariableDefinition (quote : String → String) (d : Nat)
    {a₀ a : Lines} (h : a₀.Continues a) (v : VariableDefinition) :
    a₀.Keeps (Lines.FormatVariableDefinition quote d a v) := by
  unfold Lines.FormatVariableDefinition
  have h₂ : a₀.Continues ((((a.WriteString d "$").WriteWord d v.Variable).NoPadding.WriteString d
      ":").WriteWord d v.TypeString) :=
    ((((h.thenString d _).thenWord d _).thenNoPadding).thenString d _).thenWord d _
  cases v.DefaultValue with
  | none => exact keeps_ok h₂
  | some x => exact continues_FormatValue quote d (h₂.thenWord d _) _

theorem continues_variableLoop (quote : String → String) (d : Nat) :
    ∀ (l : List VariableDefinition) (a₀ a : Lines), a₀.Continues a →
      a₀.Keeps (Lines.FormatVariableDefinitionList.loop quote d a l)
  | [], a₀, a, h => keeps_ok h
  | v :: rest, a₀, a, h => by
    unfold Lines.FormatVariableDefinitionList.loop
    refine keeps_bind (continues_FormatVariableDefinition quote d h v) fun b hb =>
      continues_variableLoop quote d rest a₀ _ ?_
    split
    · exact hb.thenNoPadding.thenWord d _
    · exact hb

theorem continues_FormatVariableDefinitionList (quote : String → String) (d : Nat)
    {a₀ a : Lines} (h : a₀.Continues a) (l : List VariableDefinition) :
    a₀.Keeps (Lines.FormatVariableDefinitionList quote d a l) := by
  unfold Lines.FormatVariableDefinitionList
  refine keeps_ite (fun _ => keeps_ok h) fun _ => ?_
  exact keeps_bind (continues_variableLoop quote d l a₀ _ (h.thenString d _)) fun b hb =>
    keeps_ok ((hb.thenNoPadding.thenString d _).thenNeedPadding)

theorem continues_frame (d : Nat) {a₀ a : Lines} (h : a₀.Continues a) (sets : List Selection)
    (body : Lines → Except Fault Lines) (hb : ∀ b, a₀.Continues b → a₀.Keeps (body b)) :
    a₀.Keeps (Lines.FormatSelectionSet.frame d a sets body) := by
  unfold Lines.FormatSelectionSet.frame
  refine keeps_ite (fun _ => keeps_ok h) fun _ => ?_
  exact keeps_bind (hb _ (h.thenString d _).thenNewline) fun b hb' => keeps_ok (hb'.thenString d _)

mutual
/-- The rendering of a selection continues the output in which its first word
has been written: the alias or the name of a field, or `...`. -/
theorem starts_FormatSelection (quote : String → String) :
    ∀ (s : Selection) (d : Nat) (a : Lines),
      ∃ w, (a.WriteWord d w).Keeps (Lines.FormatSelection quote d a s)
  | .Field fieldAlias name arguments directives selectionSet, d, a => by
    unfold Lines.FormatSelection
    by_cases h : fieldAlias ≠ "" ∧ fieldAlias ≠ name
    · refine ⟨fieldAlias, ?_⟩
      simp only [if_pos h]
      have h₀ : (a.WriteWord d fieldAlias).Continues
          (((a.WriteWord d fieldAlias).NoPadding.WriteString d ": ").WriteWord d name) :=
        (((continues_refl _).thenNoPadding).thenString d _).thenWord d _
      refine keeps_bind (?_ : (a.WriteWord d fieldAlias).Keeps _) fun b hb =>
        keeps_bind (continues_FormatDirectiveList quote d directives _ b hb) fun c hc =>
          continues_frame d hc selectionSet _ fun e he =>
            continues_selectionLoop quote selectionSet (d + 1) _ e he
      refine keeps_ite (fun _ => ?_) fun _ => keeps_ok h₀
      exact keeps_bind (continues_FormatArgumentList quote d h₀.thenNoPadding _) fun b hb =>
        keeps_ok hb.thenNeedPadding
    · refine ⟨name, ?_⟩
      simp only [if_neg h]
      have h₀ : (a.WriteWord d name).Continues (a.WriteWord d name) := continues_refl _
      refine keeps_bind (?_ : (a.WriteWord d name).Keeps _) fun b hb =>
        keeps_bind (continues_FormatDirectiveList quote d directives _ b hb) fun c hc =>
          continues_frame d hc selectionSet _ fun e he =>
            continues_selectionLoop quote selectionSet (d + 1) _ e he
      refine keeps_ite (fun _ => ?_) fun _ => keeps_ok h₀
      exact keeps_bind (continues_FormatArgumentList quote d h₀.thenNoPadding _) fun b hb =>
        keeps_ok hb.thenNeedPadding
  | .FragmentSpread name directives, d, a => by
    unfold Lines.FormatSelection Lines.FormatFragmentSpread
    exact ⟨"...", continues_FormatDirectiveList quote d directives _ _
      ((continues_refl _).thenWord d _)⟩
  | .InlineFragment typeCondition directives selectionSet, d, a => by
    unfold Lines.FormatSelection
    refine ⟨"...", ?_⟩
    refine keeps_bind (continues_FormatDirectiveList quote d directives (a.WriteWord d "...") _ ?_)
      fun c hc => continues_frame d hc selectionSet _ fun e he =>
        continues_selectionLoop quote selectionSet (d + 1) _ e he
    split
    · exact ((continues_refl _).thenWord d _).thenWord d _
    · exact continues_refl _
  | .other, d, a => by
    unfold Lines.FormatSelection
    exact ⟨"", keeps_error⟩
termination_by structural s => s
theorem continues_selectionLoop (quote : String → String) :
    ∀ (l : List Selection) (d : Nat) (a₀ a : Lines), a₀.Continues a →
      a₀.Keeps (Lines.FormatSelectionSet.loop quote d a l)
  | [], d, a₀, a, h => by
    unfold Lines.FormatSelectionSet.loop
    exact keeps_ok h
  | sel :: rest, d, a₀, a, h => by
    unfold Lines.FormatSelectionSet.loop
    obtain ⟨w, hw⟩ := starts_FormatSelection quote sel d a
    exact keeps_bind (keeps_from (h.thenWord d w) hw) fun b hb =>
      continues_selectionLoop quote rest d a₀ _ hb.thenNewline
termination_by structural l => l
end

/-- A write at a line head at depth `k` starts a line of depth `k`, which
every output that continues it keeps. -/
theorem first_line_of_continues {a a' : Lines} {k : Nat} {w : String} (hc : a.cur = none)
    (h : (a.WriteWord k w).Continues a') :
    ∃ t more, a'.done ++ a'.cur.toList = a.done ++ (k, t) :: more := by
  obtain ⟨more, e, p⟩ := h
  have hd : (a.WriteWord k w).done = a.done := by simp [Lines.WriteWord, hc]
  have hw : (a.WriteWord k w).cur = some (k, TrimSpace w) := by simp [Lines.WriteWord, hc]
  rw [hd] at e
  rcases p _ hw with ⟨rfl, t, hcur⟩ | ⟨t, rest, rfl⟩
  · exact ⟨TrimSpace w ++ t, [], by simp [e, hcur]⟩
  · exact ⟨TrimSpace w ++ t, rest ++ a'.cur.toList, by simp [e]⟩

theorem selectionLoop_each (quote : String → String) (k : Nat) :
    ∀ (sets : List Selection) (a b : Lines), a.cur = none →
      Lines.FormatSelectionSet.loop quote k a sets = .ok b →
      Lines.selectionsEach quote k a sets b ∧ b.cur = none
  | [], a, b, hc, h => by
    unfold Lines.FormatSelectionSet.loop at h
    cases h
    exact ⟨rfl, hc⟩
  | sel :: rest, a, b, hc, h => by
    unfold Lines.FormatSelectionSet.loop at h
    cases h₁ : Lines.FormatSelection quote k a sel with
    | error e => rw [h₁] at h; cases h
    | ok a₁ =>
      rw [h₁] at h
      have ih := selectionLoop_each quote k rest a₁.WriteNewline b rfl h
      exact ⟨⟨hc, a₁, h₁, ih.1⟩, ih.2⟩

theorem splitLoop_each (quote : String → String) (k : Nat) :
    ∀ (args : List Argument) (a b : Lines), a.cur = none →
      Lines.FormatArgumentList.splitLoop quote k a args = .ok b →
      Lines.argumentsEach quote k a args b ∧ b.cur = none
  | [], a, b, hc, h => by
    unfold Lines.FormatArgumentList.splitLoop at h
    cases h
    exact ⟨rfl, hc⟩
  | arg :: rest, a, b, hc, h => by
    unfold Lines.FormatArgumentList.splitLoop at h
    cases h₁ : Lines.FormatArgument quote k a arg with
    | error e => rw [h₁] at h; cases h
    | ok a₁ =>
      rw [h₁] at h
      have ih := splitLoop_each quote k rest a₁.WriteNewline b rfl h
      exact ⟨⟨hc, a₁, h₁, ih.1⟩, ih.2⟩

/-- The lines of a non-empty selection set entered at depth `d`: `{` ends the
line being written, each selection is rendered from a line head at depth
`d + 1`, and `}` is alone on a line of depth `d`. -/
theorem selection_set_nesting (quote : String → String) (d : Nat) (a a' : Lines)
    (sets : List Selection) (hne : sets ≠ [])
    (h : Lines.FormatSelectionSet quote d a sets = .ok a') :
    ∃ b, Lines.selectionsEach quote (d + 1) (a.WriteString d "\x7b").WriteNewline sets b ∧
      b.cur = none ∧ a' = b.WriteString d "\x7d" ∧ a'.done = b.done ∧
      a'.cur = some (d, "\x7d") := by
  unfold Lines.FormatSelectionSet Lines.FormatSelectionSet.frame at h
  rw [if_neg (by simpa using hne)] at h
  obtain ⟨b, h₁, h₂⟩ := bind_eq_ok.mp h
  cases h₂
  obtain ⟨he, hb⟩ := selectionLoop_each quote (d + 1) sets _ b rfl h₁
  exact ⟨b, he, hb, rfl, by simp [Lines.WriteString, hb], by simp [Lines.WriteString, hb]⟩

/-- The lines of an argument list that is placed one argument per line,
entered at depth `d`: `(` ends the line being written, each argument is
rendered from a line head at depth `d + 1`, and `)` starts a line of depth
`d`. -/
theorem argument_list_nesting (quote : String → String) (d : Nat) (a a' : Lines)
    (lists : List Argument)
    (hs : formatter.FormatArgumentList.doSplitted Lines.view lists = .ok true)
    (h : Lines.FormatArgumentList quote d a lists = .ok a') :
    ∃ b, Lines.argumentsEach quote (d + 1) (a.NoPadding.WriteString d "(").WriteNewline lists b ∧
      b.cur = none ∧ a' = (b.WriteString d ")").NeedPadding ∧ a'.done = b.done ∧
      a'.cur = some (d, ")") := by
  unfold Lines.FormatArgumentList at h
  split at h
  · rename_i hl
    rw [List.length_eq_zero.mp hl] at hs
    simp [formatter.FormatArgumentList.doSplitted, Lines.view, Lines.conc] at hs
  · rw [hs] at h
    obtain ⟨b, h₁, h₂⟩ := bind_eq_ok.mp (h : (Except.ok true >>= _) = _)
    cases h₁
    obtain ⟨b, h₁, h₂⟩ := bind_eq_ok.mp h₂
    cases h₂
    obtain ⟨he, hb⟩ := splitLoop_each quote (d + 1) lists _ b rfl h₁
    exact ⟨b, he, hb, rfl, by simp [Lines.WriteString, Lines.NeedPadding, hb],
      by simp [Lines.WriteString, Lines.NeedPadding, hb]⟩

/-- The first line a selection writes from a line head at depth `k` has depth
`k`. -/
theorem selection_first_line (quote : String → String) (k : Nat) (a a₁ : Lines)
    (s : Selection) (hc : a.cur = none) (h : Lines.FormatSelection quote k a s = .ok a₁) :
    ∃ t more, a₁.done ++ a₁.cur.toList = a.done ++ (k, t) :: more := by
  obtain ⟨w, hw⟩ := starts_FormatSelection quote s k a
  exact first_line_of_continues hc (hw a₁ h)

/-- The first line an argument writes from a line head at depth `k` has depth
`k`. -/
theorem argument_first_line (quote : String → String) (k : Nat) (a a₁ : Lines)
    (arg : Argument) (hc : a.cur = none) (h : Lines.FormatArgument quote k a arg = .ok a₁) :
    ∃ t more, a₁.done ++ a₁.cur.toList = a.done ++ (k, t) :: more :=
  first_line_of_continues hc (starts_FormatArgument quote k (continues_refl _) a₁ h)


/-! ## Lines of the examples and first lines of definitions -/

set_option maxRecDepth 10000 in
theorem nestedQuery_lines (quote : String → String) :
    documentLines quote (some nestedQuery) =
      .ok ([(0, "query \x7b"), (1, "a \x7b"), (2, "b"), (1, "\x7d"), (0, "\x7d")], none) := by
  simp [documentLines, nestedQuery, Lines.FormatQueryDocument, Lines.FormatOperationList,
    Lines.FormatOperationDefinition, Lines.FormatVariableDefinitionList,
    Lines.FormatDirectiveList, Lines.FormatSelectionSet, Lines.FormatSelectionSet.frame,
    Lines.FormatSelectionSet.loop, Lines.FormatSelection, Lines.FormatFragmentDefinitionList,
    Lines.FormatArgumentList, Lines.WriteWord, Lines.WriteString, Lines.WriteNewline,
    Lines.NoPadding, Lines.NeedPadding, trim_query, trim_a, trim_b, Except.map]

set_option maxRecDepth 10000 in
theorem testQuery_lines (quote : String → String) :
    documentLines quote (some testQuery) =
      .ok ([(0, "query \x7b"), (1, "products("), (2, "where: \x7b"), (3, "and: \x7b"),
        (4, "id: \x7b greater_or_equals: 20 \x7d"), (4, "id: \x7b lt: 28 \x7d"), (3, "\x7d"),
        (2, "\x7d"), (1, ") \x7b"), (2, "id"), (2, "name"), (2, "price"), (1, "\x7d"),
        (0, "\x7d")], none) := by
  simp [documentLines, testQuery, Lines.FormatQueryDocument, Lines.FormatOperationList,
    Lines.FormatOperationDefinition, Lines.FormatVariableDefinitionList,
    Lines.FormatDirectiveList, Lines.FormatSelectionSet, Lines.FormatSelectionSet.frame,
    Lines.FormatSelectionSet.loop, Lines.FormatSelection, Lines.FormatFragmentDefinitionList,
    Lines.FormatArgumentList, formatter.FormatArgumentList.doSplitted,
    Lines.FormatArgumentList.splitLoop, Lines.FormatArgument, Lines.FormatWhereArgument,
    formatter.FormatWhereArgument.useLogOp, Lines.FormatWhereLogOpArgument,
    Lines.FormatWhereLogOpChildValue, Lines.FormatWhereLogOpChildValue.loop,
    Lines.FormatChildValue, Lines.view, Lines.conc,
    GetValueString, GetValueString.value, GetValueString.objectLoop,
    GetValueString.objectElem, Join, ChildValue.Name, ChildValue.Value, Value.Children,
    Lines.WriteWord, Lines.WriteString, Lines.WriteNewline,
    Lines.NoPadding, Lines.NeedPadding,
    trim_query, trim_products, trim_where, trim_id, trim_name, trim_price, Except.map]

set_option maxRecDepth 10000 in
theorem bareQuery_lines (quote : String → String) :
    documentLines quote (some bareQuery) = .ok ([], some (0, "query")) := by
  simp [documentLines, bareQuery, Lines.FormatQueryDocument, Lines.FormatOperationList,
    Lines.FormatOperationDefinition, Lines.FormatVariableDefinitionList,
    Lines.FormatDirectiveList, Lines.FormatFragmentDefinitionList,
    Lines.WriteWord, trim_query, Except.map]

theorem continues_FormatSelectionSet (quote : String → String) (d : Nat) {a₀ a : Lines}
    (h : a₀.Continues a) (sets : List Selection) :
    a₀.Keeps (Lines.FormatSelectionSet quote d a sets) :=
  continues_frame d h sets _ fun e he => continues_selectionLoop quote sets (d + 1) _ e he

/-- The rendering of an operation continues the output in which its keyword
has been written. -/
theorem starts_FormatOperationDefinition (quote : String → String) (d : Nat) (a : Lines)
    (o : OperationDefinition) :
    (a.WriteWord d o.Operation).Keeps (Lines.FormatOperationDefinition quote d a o) := by
  unfold Lines.FormatOperationDefinition
  have h₀ : (a.WriteWord d o.Operation).Continues
      (if o.Name ≠ "" then (a.WriteWord d o.Operation).WriteWord d o.Name
       else a.WriteWord d o.Operation) := by
    split
    · exact (continues_refl _).thenWord d _
    · exact continues_refl _
  refine keeps_bind (continues_FormatVariableDefinitionList quote d h₀ _) fun b hb =>
    keeps_bind (continues_FormatDirectiveList quote d _ (a.WriteWord d o.Operation) b hb)
      fun c hc => ?_
  exact keeps_ite (fun _ => keeps_bind (continues_FormatSelectionSet quote d hc _)
    fun e he => keeps_ok he.thenNewline) fun _ => keeps_ok hc

/-- The rendering of a fragment definition continues the output in which the
word `fragment` has been written. -/
theorem starts_FormatFragmentDefinition (quote : String → String) (d : Nat) (a : Lines)
    (o : FragmentDefinition) :
    (a.WriteWord d "fragment").Keeps (Lines.FormatFragmentDefinition quote d a o) := by
  unfold Lines.FormatFragmentDefinition
  have h₀ : (a.WriteWord d "fragment").Continues ((a.WriteWord d "fragment").WriteWord d o.Name) :=
    (continues_refl _).thenWord d _
  refine keeps_bind (continues_FormatVariableDefinitionList quote d h₀ _) fun b hb =>
    keeps_bind (continues_FormatDirectiveList quote d _ (a.WriteWord d "fragment") _
      ((hb.thenWord d _).thenWord d _)) fun c hc => ?_
  exact keeps_ite (fun _ => keeps_bind (continues_FormatSelectionSet quote d hc _)
    fun e he => keeps_ok he.thenNewline) fun _ => keeps_ok hc

/-- The first line an operation or a fragment definition writes from a line
head at depth `k` has depth `k`. -/
theorem definition_first_line (quote : String → String) (k : Nat) (a a₁ : Lines)
    (hc : a.cur = none) :
    (∀ o : OperationDefinition, Lines.FormatOperationDefinition quote k a o = .ok a₁ →
      ∃ t more, a₁.done ++ a₁.cur.toList = a.done ++ (k, t) :: more) ∧
    (∀ o : FragmentDefinition, Lines.FormatFragmentDefinition quote k a o = .ok a₁ →
      ∃ t more, a₁.done ++ a₁.cur.toList = a.done ++ (k, t) :: more) :=
  ⟨fun o h => first_line_of_continues hc (starts_FormatOperationDefinition quote k a o a₁ h),
    fun o h => first_line_of_continues hc (starts_FormatFragmentDefinition quote k a o a₁ h)⟩

theorem doSplitted_of_several (lists : List Argument) (h : 1 < lists.length) :
    formatter.FormatArgumentList.doSplitted Lines.view lists = .ok true := by
  simp [formatter.FormatArgumentList.doSplitted, Lines.view, Lines.conc, h]

/-- The braces of the filter layout nest like a selection set: the single
child of the value is rendered at depth `d + 1` after `name: {` has ended the
line, and the children of an object with several children are rendered at
depth `d + 1` after `{` has ended the line. -/
theorem filter_layout_nesting (quote : String → String) (d : Nat) (a : Lines) :
    (∀ (name raw : String) (c : ChildValue) (rest : List (Option ChildValue))
        (kind : ValueKind),
      Lines.FormatWhereLogOpArgument quote d a ⟨name, some (.mk raw (some c :: rest) kind)⟩ =
        (Lines.FormatWhereLogOpChildValue quote (d + 1)
          ((a.WriteWord d name).NoPadding.WriteString d ": \x7b").NeedPadding.WriteNewline
          c).map (fun b => (b.WriteString d "\x7d").NeedPadding)) ∧
    (∀ (name raw : String) (c₀ c₁ : Option ChildValue) (rest : List (Option ChildValue)),
      Lines.FormatWhereLogOpChildValue quote d a
          (.mk name (some (.mk raw (c₀ :: c₁ :: rest) .ObjectValue))) =
        (Lines.FormatWhereLogOpChildValue.loop quote (d + 1)
          (((a.WriteString d name).NoPadding.WriteString d ": ").WriteString d
            "\x7b").WriteNewline.NeedPadding (c₀ :: c₁ :: rest)).map
          (fun b => (b.WriteString d "\x7d").WriteNewline.NeedPadding)) := by
  constructor
  · intro name raw c rest kind
    unfold Lines.FormatWhereLogOpArgument
    simp only [Value.Children]
    cases Lines.FormatWhereLogOpChildValue quote (d + 1)
      ((a.WriteWord d name).NoPadding.WriteString d ": \x7b").NeedPadding.WriteNewline c <;> rfl
  · intro name raw c₀ c₁ rest
    rw [Lines.FormatWhereLogOpChildValue]
    cases Lines.FormatWhereLogOpChildValue.loop quote (d + 1)
      (((a.WriteString d name).NoPadding.WriteString d ": ").WriteString d
        "\x7b").WriteNewline.NeedPadding (c₀ :: c₁ :: rest) <;> rfl


/-! ## Claims -/

/-- C1: for every value whose nodes all have a recognised kind, `GetValueString`
returns `$` + raw for a Variable, the raw token for Int/Float/Enum/Boolean/Null,
the quoted raw text for String and for Block String alike, for a List the
element texts joined by `,` inside `[` `]` (minified) or by `, ` inside `[ ` ` ]`
(readable), and for an Object the `name + colonUnit + value` pairs joined by a
space inside `{` `}` (minified) or by `, ` inside `{ ` ` }` (readable); the
children are rendered recursively, in input order, duplicates kept. -/
theorem C1_GetValueString_by_kind (quote : String → String) (f : formatter) (v : Value)
    (h : v.recognised = true) :
    GetValueString quote f (some v) = .ok
      (match v.Kind with
       | .Variable => "$" ++ v.Raw
       | .IntValue | .FloatValue | .EnumValue | .BooleanValue | .NullValue => v.Raw
       | .StringValue | .BlockValue => quote v.Raw
       | .ListValue =>
           if f.optCompressed then
             "[" ++ Join (v.Children.map (renderElem quote true f.colonUnit)) "," ++ "]"
           else
             "[ " ++ Join (v.Children.map (renderElem quote false f.colonUnit)) ", " ++ " ]"
       | .ObjectValue =>
           if f.optCompressed then
             "\x7b" ++ Join (v.Children.map (renderPair quote true f.colonUnit)) " " ++ "\x7d"
           else
             "\x7b " ++ Join (v.Children.map (renderPair quote false f.colonUnit)) ", " ++ " \x7d"
       | .unsupported => "")
    ∧ (∀ c : ChildValue, some c ∈ v.Children →
        GetValueString quote f c.Value =
          .ok (renderElem quote f.optCompressed f.colonUnit (some c))
        ∧ renderPair quote f.optCompressed f.colonUnit (some c) =
            c.Name ++ f.colonUnit ++ renderElem quote f.optCompressed f.colonUnit (some c)) := by
  obtain ⟨raw, children, kind⟩ := v
  have hl : recognisedList children = true := by
    simp [Value.recognised] at h; exact h.2
  refine ⟨?_, ?_⟩
  · rw [GetValueString_eq quote f _ (by simpa [recognisedOpt] using h)]
    cases kind <;> cases hc : f.optCompressed <;>
      simp [renderOptValue, renderValue, Value.Kind, Value.Raw, Value.Children,
        renderElems_eq_map, renderPairs_eq_map]
  · intro c hc
    have hr := recognisedChild_of_mem children (some c) hl hc
    obtain ⟨name, cv⟩ := c
    simp [recognisedChild] at hr
    simp [ChildValue.Value, ChildValue.Name, renderElem, renderPair,
      GetValueString_eq quote f cv hr]

/-- C4: the applicability test.  A `where` argument qualifies for the filter
layout iff its value has exactly one child and that child satisfies
`doWhereSplitted`; `doWhereSplitted c` holds iff `c` is named `and` or `or`
and has more than one sub-condition, or `c` is named `not`, has exactly one
child and `doWhereSplitted` holds for that child; equivalently a chain of
single-child `not` nodes reaches an `and`/`or` with at least two children.  It
is false for a nil node, a nil value, a node without children, a `not` with
two or more children and every other name. -/
theorem C4_applicability_test :
    (∀ (f : formatter) (arg : Argument), arg.derefOk = true →
        formatter.FormatWhereArgument.useLogOp f arg =
          .ok (f.optWhereLogicalOps && whereQualifies arg.Value)) ∧
    (∀ c : ChildValue, doWhereSplitted (some c) = true ↔
        ((c.Name = "and" ∨ c.Name = "or") ∧ 1 < c.subConditions.length) ∨
        (c.Name = "not" ∧ ∃ c', c.subConditions = [c'] ∧ doWhereSplitted c' = true)) ∧
    (∀ c : ChildValue, doWhereSplitted (some c) = true ↔ ReachesSplit c) ∧
    doWhereSplitted none = false ∧
    (∀ name, doWhereSplitted (some (.mk name none)) = false) ∧
    (∀ name raw kind, doWhereSplitted (some (.mk name (some (.mk raw [] kind)))) = false) ∧
    (∀ raw kind c₀ c₁ rest,
        doWhereSplitted (some (.mk "not" (some (.mk raw (c₀ :: c₁ :: rest) kind)))) = false) ∧
    (∀ name v, name ≠ "and" → name ≠ "or" → name ≠ "not" →
        doWhereSplitted (some (.mk name v)) = false) := by
  refine ⟨useLogOp_eq, doWhereSplitted_some_iff, ?_, ?_, ?_, ?_, ?_, ?_⟩
  · intro c
    exact ⟨fun h => reachesSplit_of_elem c (by simpa [doWhereSplitted] using h),
      doWhereSplitted_of_reachesSplit⟩
  · simp [doWhereSplitted]
  · intro name; simp [doWhereSplitted, doWhereSplitted.elem]
  · intro name raw kind; simp [doWhereSplitted, doWhereSplitted.elem]
  · intro raw kind c₀ c₁ rest; simp [doWhereSplitted, doWhereSplitted.elem]
  · intro name v h1 h2 h3
    cases hb : doWhereSplitted (some (ChildValue.mk name v)) with
    | false => rfl
    | true =>
      rw [doWhereSplitted_some_iff] at hb
      simp [ChildValue.Name, h1, h2, h3] at hb

/-- Witness of C1 at the object `{a: [1, "x"], a: $v}` in readable mode. -/
theorem C1_GetValueString_by_kind_witness :
    (Value.mk "" [some (.mk "a" (some (.mk "" [some (.mk "" (some (.mk "1" [] .IntValue))),
        some (.mk "" (some (.mk "x" [] .StringValue)))] .ListValue))),
      some (.mk "a" (some (.mk "v" [] .Variable)))] .ObjectValue).recognised = true ∧
    GetValueString (fun s => "\"" ++ s ++ "\"") (NewFormatter "" [])
      (some (Value.mk "" [some (.mk "a" (some (.mk "" [some (.mk "" (some (.mk "1" [] .IntValue))),
        some (.mk "" (some (.mk "x" [] .StringValue)))] .ListValue))),
      some (.mk "a" (some (.mk "v" [] .Variable)))] .ObjectValue)) =
      .ok "\x7b a: [ 1, \"x\" ], a: $v \x7d" :=
  ⟨by decide!, (C1_GetValueString_by_kind _ _ _ (by decide!)).1.trans (by decide!)⟩

/-- C3 fails on a slip of the code: the test of `FormatWhereArgument` reads
`arg.Value.Children` and `arg.Value.Children[0].Value.Children` without the
nil checks its sibling `doWhereSplitted` makes.  The argument `where` with a
nil value does not qualify for the filter layout, so the claim promises the
name, the colon separator and the inline text of the value, `where: <nil>`
(what the inline rendering gives, and what the same value gives under another
name, `filter: <nil>`, or in minified mode, `where:<nil>`); `FormatArgument`
of the default readable formatter panics with a nil dereference instead.
Likewise for `where:{and:<nil>}`.  For every argument in which the pointers
read by the test are present the claim holds: `FormatArgument` is the filter
layout exactly when the argument is named `where`, the filter layout is
enabled and the value qualifies, and the inline rendering otherwise, as for
`where:{and:{a:{eq:1}}}`. -/
theorem C3_where_nil_value_faults :
    (whereQualifies whereNilArgument.Value = false ∧
      (NewFormatter "" []).FormatArgument id whereNilArgument = .error .nilDeref ∧
      ((NewFormatter "" []).inlineArgument id whereNilArgument).map (fun f => f.writer) =
        .ok "where: <nil>" ∧
      ((NewFormatter "" []).FormatArgument id filterNilArgument).map (fun f => f.writer) =
        .ok "filter: <nil>" ∧
      ((NewFormatter "" [.WithMinification]).FormatArgument id whereNilArgument).map
        (fun f => f.writer) = .ok "where:<nil>") ∧
    (whereQualifies whereAndNilArgument.Value = false ∧
      doWhereSplitted (some (.mk "and" none)) = false ∧
      (NewFormatter "" []).FormatArgument id whereAndNilArgument = .error .nilDeref ∧
      ((NewFormatter "" []).inlineArgument id whereAndNilArgument).map (fun f => f.writer) =
        .ok "where: \x7b and: <nil> \x7d" ∧
      ((NewFormatter "" [.WithMinification]).FormatArgument id whereAndNilArgument).map
        (fun f => f.writer) = .ok "where:\x7band:<nil>\x7d") ∧
    (∀ (quote : String → String) (f : formatter) (arg : Argument),
      (arg.Name = "where" → f.optWhereLogicalOps = true → arg.derefOk = true) →
      f.FormatArgument quote arg =
        (if arg.Name = "where" ∧ f.optWhereLogicalOps = true ∧ whereQualifies arg.Value = true
         then f.FormatWhereLogOpArgument quote arg else f.inlineArgument quote arg)) ∧
    ((NewFormatter "" []).FormatArgument id sampleSingleCondition).map (fun f => f.writer) =
      .ok "where: \x7b and: \x7b a: \x7b eq: 1 \x7d \x7d \x7d" :=
  ⟨whereNilArgument_faults, whereAndNilArgument_faults,
    fun quote f arg h => FormatArgument_eq quote f arg h, by decide!⟩

/-- C5 fails on the same slip of the code as C3: the layout test of
`FormatArgumentList` reads `a.Value.Children` and `c.Value.Children` of a
single argument named `where` without the nil checks its sibling
`doWhereSplitted` makes.  The list of the one argument `where` with a nil
value is not empty nor split (one argument, which does not qualify), so the
claim promises the argument in parentheses, inline; `FormatArgumentList` of
the default readable formatter panics with a nil dereference before `(` is
written, while the same value under another name gives `(filter: <nil>)` and
the minified run gives `(where:<nil>)`.  Likewise for `where:{and:<nil>}`,
and for the document `query{f(where:<nil>)}`.  For every list in which the
pointers read by the test are present the claim holds: a non-empty list is
rendered in parentheses, one argument per line at increased indent exactly
when splitting is enabled and the list has more than one argument or its
single argument qualifies, and inline otherwise. -/
theorem C5_single_where_nil_value_faults :
    ((NewFormatter "" []).splitsArguments [whereNilArgument] = false ∧
      (NewFormatter "" []).FormatArgumentList id [whereNilArgument] = .error .nilDeref ∧
      ((NewFormatter "" []).FormatArgumentList id [filterNilArgument]).map (fun f => f.writer) =
        .ok "(filter: <nil>)" ∧
      ((NewFormatter "" [.WithMinification]).FormatArgumentList id [whereNilArgument]).map
        (fun f => f.writer) = .ok "(where:<nil>)" ∧
      (NewFormatter "" []).splitsArguments [whereAndNilArgument] = false ∧
      (NewFormatter "" []).FormatArgumentList id [whereAndNilArgument] = .error .nilDeref ∧
      ((NewFormatter "" [.WithMinification]).FormatArgumentList id [whereAndNilArgument]).map
        (fun f => f.writer) = .ok "(where:\x7band:<nil>\x7d)") ∧
    (formatted id "" [] (some whereNilQuery) = .error .nilDeref ∧
      formatted id "" [.WithMinification] (some whereNilQuery) =
        .ok "query\x7bf(where:<nil>)\x7d") ∧
    (∀ (quote : String → String) (f : formatter) (lists : List Argument),
      (∀ a, lists = [a] → a.Name = "where" → f.optArgumentSplitted = true →
        a.derefOk = true) →
      lists ≠ [] →
      f.FormatArgumentList quote lists = (do
        let f1 ← f.NoPadding.WriteString "("
        let f2 ← (if f.splitsArguments lists = true then
            (formatter.FormatArgumentList.splitLoop quote f1.WriteNewline.IncrementIndent
              lists).map formatter.DecrementIndent
          else formatter.FormatArgumentList.inlineLoop quote f1 lists)
        let f3 ← f2.WriteString ")"
        .ok f3.NeedPadding)) ∧
    (∀ (quote : String → String) (f : formatter), f.FormatArgumentList quote [] = .ok f) ∧
    (NewFormatter "" []).FormatArgumentList id sampleTwoArguments =
      .ok { NewFormatter "" [] with writer := "(\n  x: 1\n  y: 2\n)", padNext := true } :=
  ⟨whereNilArgument_list_faults, whereNilQuery_output,
    fun quote f lists h hne => FormatArgumentList_eq quote f lists hne h,
    fun quote f => by simp [formatter.FormatArgumentList],
    (FormatArgumentList_eq id _ sampleTwoArguments (List.cons_ne_nil _ _)
      (fun a e => by simp [sampleTwoArguments] at e)).trans sampleTwoArguments_layout⟩


/-- C2: in readable mode with the default options, for a field at indent depth
`d` whose only argument is `where` with exactly one child named `and` or `or`
whose value is an object with at least two children, none named and/or/not, the
argument list is `(`, newline, `where: {` at depth d+1, `and: {` (resp. `or: {`)
at depth d+2, each child as one `name: value` line at depth d+3 in input order,
`}` at depth d+2, `}` at depth d+1 and `)` at depth d.  For the query of
`TestFormatQueryWithIndent` the output is the expected string of the test for
each of the four indent units. -/
theorem C2_where_filter_layout (quote : String → String) (f : formatter) (d : Nat)
    (raw₀ raw₁ : String) (kind₀ : ValueKind) (op : String)
    (children : List (Option ChildValue))
    (hop : op = "and" ∨ op = "or") (hn : 2 ≤ children.length)
    (hp : plainConditions children = true) (hr : recognisedList children = true)
    (hc : f.optCompressed = false) (hs : f.optArgumentSplitted = true)
    (hw : f.optWhereLogicalOps = true) (hcu : f.colonUnit = ": ")
    (hl : f.lineHead = false) (hi : f.indent = d) :
    f.FormatArgumentList quote [whereArgument raw₀ raw₁ kind₀ op children] = .ok { f with
      writer := f.writer ++ "(\n" ++
        Repeat f.indentUnit (d + 1) ++ "where: \x7b\n" ++
        Repeat f.indentUnit (d + 2) ++ op ++ ": \x7b\n" ++
        conditionLines quote f.indentUnit (d + 3) children ++
        Repeat f.indentUnit (d + 2) ++ "\x7d\n" ++
        Repeat f.indentUnit (d + 1) ++ "\x7d\n" ++
        Repeat f.indentUnit d ++ ")",
      lineHead := false, padNext := true } ∧
    ((NewFormatter "" [.WithIndent ""]).FormatQueryDocument quote (some testQuery)).map
        (fun f => f.writer) = .ok "query \x7b\nproducts(\nwhere: \x7b\nand: \x7b\nid: \x7b greater_or_equals: 20 \x7d\nid: \x7b lt: 28 \x7d\n\x7d\n\x7d\n) \x7b\nid\nname\nprice\n\x7d\n\x7d\n" ∧
    ((NewFormatter "" [.WithIndent " "]).FormatQueryDocument quote (some testQuery)).map
        (fun f => f.writer) = .ok "query \x7b\n products(\n  where: \x7b\n   and: \x7b\n    id: \x7b greater_or_equals: 20 \x7d\n    id: \x7b lt: 28 \x7d\n   \x7d\n  \x7d\n ) \x7b\n  id\n  name\n  price\n \x7d\n\x7d\n" ∧
    ((NewFormatter "" [.WithIndent "    "]).FormatQueryDocument quote (some testQuery)).map
        (fun f => f.writer) = .ok "query \x7b\n    products(\n        where: \x7b\n            and: \x7b\n                id: \x7b greater_or_equals: 20 \x7d\n                id: \x7b lt: 28 \x7d\n            \x7d\n        \x7d\n    ) \x7b\n        id\n        name\n        price\n    \x7d\n\x7d\n" ∧
    ((NewFormatter "" [.WithIndent "\t"]).FormatQueryDocument quote (some testQuery)).map
        (fun f => f.writer) = .ok "query \x7b\n\tproducts(\n\t\twhere: \x7b\n\t\t\tand: \x7b\n\t\t\t\tid: \x7b greater_or_equals: 20 \x7d\n\t\t\t\tid: \x7b lt: 28 \x7d\n\t\t\t\x7d\n\t\t\x7d\n\t) \x7b\n\t\tid\n\t\tname\n\t\tprice\n\t\x7d\n\x7d\n" := by
  refine ⟨where_argument_list_layout quote f d raw₀ raw₁ kind₀ op children hop hn hp hr hc hs
    hw hcu hl hi, ?_, ?_, ?_, ?_⟩
  · exact (testQuery_output quote "").trans (by decide!)
  · exact (testQuery_output quote " ").trans (by decide!)
  · exact (testQuery_output quote "    ").trans (by decide!)
  · exact (testQuery_output quote "\t").trans (by decide!)


/-- Witness of C2 at the two conditions of the test query, default formatter, depth 0. -/
theorem C2_where_filter_layout_witness :
    (("and" = "and" ∨ "and" = "or") ∧ 2 ≤ testConditions.length ∧
      plainConditions testConditions = true ∧ recognisedList testConditions = true ∧
      (NewFormatter "" []).optCompressed = false ∧
      (NewFormatter "" []).optArgumentSplitted = true ∧
      (NewFormatter "" []).optWhereLogicalOps = true ∧
      (NewFormatter "" []).colonUnit = ": " ∧
      (NewFormatter "" []).lineHead = false ∧ (NewFormatter "" []).indent = (0 : Nat)) ∧
    (NewFormatter "" []).FormatArgumentList id
        [whereArgument "" "" .ObjectValue "and" testConditions] =
      .ok { NewFormatter "" [] with
        writer := "(\n  where: \x7b\n    and: \x7b\n      id: \x7b greater_or_equals: 20 \x7d\n      id: \x7b lt: 28 \x7d\n    \x7d\n  \x7d\n)",
        padNext := true } :=
  ⟨⟨Or.inl rfl, by decide!, by decide!, by decide!, by decide!, by decide!, by decide!,
      by decide!, by decide!, by decide!⟩,
   (C2_where_filter_layout id (NewFormatter "" []) 0 "" "" .ObjectValue "and" testConditions
      (Or.inl rfl) (by decide!) (by decide!) (by decide!) (by decide!) (by decide!) (by decide!)
      (by decide!) (by decide!) (by decide!)).1.trans testConditions_layout⟩


/-- C10: an empty selection set renders nothing; a non-empty one is, in
readable mode, `{`, a newline, each selection in input order rendered from a
line head at depth d+1 and followed by a newline, then `}` at depth d; in
minified mode it is `{`, the selections in input order separated by exactly
one space (no newline, no indentation is ever written in that mode), then `}`. -/
theorem C10_selection_set_layout (quote : String → String) (f : formatter)
    (sets : List Selection) :
    f.FormatSelectionSet quote [] = .ok f ∧
    (sets ≠ [] → f.optCompressed = false →
      f.FormatSelectionSet quote sets = (do
        let f₁ ← f.WriteString "\x7b"
        let g ← selectionLines quote f₁.WriteNewline.IncrementIndent sets
        g.DecrementIndent.WriteString "\x7d")) ∧
    (sets ≠ [] → f.optCompressed = false → f.lineHead = false →
      ∀ f', f.FormatSelectionSet quote sets = .ok f' →
        ∃ g₀ g', g₀.writer = f.writer ++ (if f.padNext = true then " " else "") ++ "\x7b\n" ∧
          g₀.lineHead = true ∧
          RendersLines quote (f.indent + 1) g₀ sets g' ∧
          g'.lineHead = true ∧ g'.indent = f.indent + 1 ∧
          f'.writer = g'.writer ++ Repeat f.indentUnit f.indent.toNat ++ "\x7d") ∧
    (sets ≠ [] → f.optCompressed = true →
      f.FormatSelectionSet quote sets = (do
        let f₁ ← f.WriteString "\x7b"
        let g ← selectionSpaced quote f₁.WriteNewline.IncrementIndent sets
        g.DecrementIndent.WriteString "\x7d")) ∧
    (f.optCompressed = true →
      (∀ s, f.WriteString s =
        .ok { f with writer := f.writer ++ s, lineHead := false, padNext := false }) ∧
      f.WriteNewline.writer = f.writer) := by
  refine ⟨?_, FormatSelectionSet_readable quote f sets,
    fun hne hc hl f' h => FormatSelectionSet_readable_shape quote f f' sets hne hc hl h,
    FormatSelectionSet_minified quote f sets, fun hc => ⟨fun s => WriteString_minified f s hc, ?_⟩⟩
  · simp [formatter.FormatSelectionSet, formatter.FormatSelectionSet.frame]
  · simp [formatter.WriteNewline, hc]


/-- C8: in minified mode the indent unit is ignored: for every document, every
initial content of the writer and every two indent strings, formatters built
with `WithMinification` and `WithIndent`, in either order, produce the same
output (or the same fault). -/
theorem C8_indent_ignored_when_minified (quote : String → String) (w : String)
    (doc : Option QueryDocument) (u₁ u₂ : String) :
    formatted quote w [.WithMinification, .WithIndent u₁] doc =
        formatted quote w [.WithMinification, .WithIndent u₂] doc ∧
      formatted quote w [.WithMinification, .WithIndent u₁] doc =
        formatted quote w [.WithIndent u₂, .WithMinification] doc ∧
      formatted quote w [.WithIndent u₁, .WithMinification] doc =
        formatted quote w [.WithMinification, .WithIndent u₂] doc ∧
      formatted quote w [.WithIndent u₁, .WithMinification] doc =
        formatted quote w [.WithIndent u₂, .WithMinification] doc :=
  have h := minified_output_indent_free quote w doc u₁ u₂
  ⟨h, h, h, h⟩

/-- C9 as stated fails: the readable output for the document of one `query`
operation with an empty selection set is `query`, which is not a
concatenation of lines each ended by a newline. -/
theorem C9_counterexample :
    formatted id "" [.WithIndent "\t"] (some bareQuery) = .ok "query" ∧
      ∀ L : List (Nat × String), linesText "\t" L ≠ "query" :=
  ⟨bareQuery_output, linesText_ne_query "\t"⟩

/-- C9 (amended): for every document the lines `(depth, text)` of the readable
output and its optional unterminated last line are those of `documentLines`,
computed without the indent unit, and for every indent unit `u` the readable
output of `NewFormatter(WithIndent(u))` is the concatenation of `u` repeated
`depth` times, the text and a newline for each line, followed by the
unterminated last line; a run that faults does so alike for every `u`.  The
depth grows by one per nesting level: operations and fragments are rendered
at depth 0, where the first line one writes from a line head has depth 0; in
a non-empty selection set entered at depth `d`, `{` ends the
line being written, each selection is rendered from a line head at depth
`d + 1`, where the first line it writes has depth `d + 1`, and `}` is alone on
a line of depth `d`; in an argument list that is placed one argument per line
(as every list of more than one argument is), entered at depth `d`, `(` ends
the line being written, each argument is rendered from a line head at depth
`d + 1`, where the first line it writes has depth `d + 1`, and `)` starts a
line of depth `d`; the braces of the filter layout nest in the same way.  The
run of a well-formed document (selections of the three types, declared value
kinds, no nil child, the pointers read by the layout test present in a `where`
argument) does not fault.  For `query{a{b}}` the lines are `query {`, `a {`,
`b`, `}`, `}` at depths 0, 1, 2, 1, 0, which for a tab is the expected string;
for the query of `TestFormatQueryWithIndent` the lines have the depths 0, 1,
2, 3, 4, 4, 3, 2, 1, 2, 2, 2, 1, 0 and the outputs for the four indent units
are the expected strings of the test; for the document of one `query` with an
empty selection set there is no complete line and the last line is `query`. -/
theorem C9_indent_configurability (quote : String → String) :
    (∀ (doc : Option QueryDocument) (u : String),
      formatted quote "" [.WithIndent u] doc =
        (documentLines quote doc).map (fun p => linesText u p.1 ++ lastLineText u p.2)) ∧
    (∀ doc : Option QueryDocument,
      documentLines quote doc =
        (Lines.FormatQueryDocument quote 0 ⟨[], some (0, ""), false⟩ doc).map
          (fun a => (a.done, a.cur))) ∧
    (∀ (d : Nat) (a a' : Lines) (sets : List Selection), sets ≠ [] →
      Lines.FormatSelectionSet quote d a sets = .ok a' →
      ∃ b, Lines.selectionsEach quote (d + 1) (a.WriteString d "\x7b").WriteNewline sets b ∧
        b.cur = none ∧ a' = b.WriteString d "\x7d" ∧ a'.done = b.done ∧
        a'.cur = some (d, "\x7d")) ∧
    (∀ (d : Nat) (a a' : Lines) (lists : List Argument),
      formatter.FormatArgumentList.doSplitted Lines.view lists = .ok true →
      Lines.FormatArgumentList quote d a lists = .ok a' →
      ∃ b, Lines.argumentsEach quote (d + 1) (a.NoPadding.WriteString d "(").WriteNewline
          lists b ∧
        b.cur = none ∧ a' = (b.WriteString d ")").NeedPadding ∧ a'.done = b.done ∧
        a'.cur = some (d, ")")) ∧
    (∀ lists : List Argument, 1 < lists.length →
      formatter.FormatArgumentList.doSplitted Lines.view lists = .ok true) ∧
    (∀ (k : Nat) (a a₁ : Lines) (s : Selection), a.cur = none →
      Lines.FormatSelection quote k a s = .ok a₁ →
      ∃ t more, a₁.done ++ a₁.cur.toList = a.done ++ (k, t) :: more) ∧
    (∀ (k : Nat) (a a₁ : Lines) (arg : Argument), a.cur = none →
      Lines.FormatArgument quote k a arg = .ok a₁ →
      ∃ t more, a₁.done ++ a₁.cur.toList = a.done ++ (k, t) :: more) ∧
    (∀ (k : Nat) (a a₁ : Lines), a.cur = none →
      (∀ o : OperationDefinition, Lines.FormatOperationDefinition quote k a o = .ok a₁ →
        ∃ t more, a₁.done ++ a₁.cur.toList = a.done ++ (k, t) :: more) ∧
      (∀ o : FragmentDefinition, Lines.FormatFragmentDefinition quote k a o = .ok a₁ →
        ∃ t more, a₁.done ++ a₁.cur.toList = a.done ++ (k, t) :: more)) ∧
    (∀ (d : Nat) (a : Lines) (s : String),
      ((a.WriteString d "\x7b").WriteNewline).cur = none ∧
      (a.cur = none → (a.WriteString d s).cur = some (d, s) ∧
        (a.WriteWord d s).cur = some (d, TrimSpace s)) ∧
      (a.WriteString d s).done = a.done ∧ (a.WriteWord d s).done = a.done ∧
      a.WriteNewline.done = a.done ++ [a.cur.getD (0, "")]) ∧
    (∀ (d : Nat) (a : Lines) (name raw : String) (c : ChildValue)
        (rest : List (Option ChildValue)) (kind : ValueKind),
      Lines.FormatWhereLogOpArgument quote d a ⟨name, some (.mk raw (some c :: rest) kind)⟩ =
        (Lines.FormatWhereLogOpChildValue quote (d + 1)
          ((a.WriteWord d name).NoPadding.WriteString d ": \x7b").NeedPadding.WriteNewline
          c).map (fun b => (b.WriteString d "\x7d").NeedPadding)) ∧
    (∀ (d : Nat) (a : Lines) (name raw : String) (c₀ c₁ : Option ChildValue)
        (rest : List (Option ChildValue)),
      Lines.FormatWhereLogOpChildValue quote d a
          (.mk name (some (.mk raw (c₀ :: c₁ :: rest) .ObjectValue))) =
        (Lines.FormatWhereLogOpChildValue.loop quote (d + 1)
          (((a.WriteString d name).NoPadding.WriteString d ": ").WriteString d
            "\x7b").WriteNewline.NeedPadding (c₀ :: c₁ :: rest)).map
          (fun b => (b.WriteString d "\x7d").WriteNewline.NeedPadding)) ∧
    (∀ doc : Option QueryDocument, wellFormedDocument doc = true →
      ∀ u, ∃ out, formatted quote "" [.WithIndent u] doc = .ok out) ∧
    documentLines quote (some nestedQuery) =
      .ok ([(0, "query \x7b"), (1, "a \x7b"), (2, "b"), (1, "\x7d"), (0, "\x7d")], none) ∧
    documentLines quote (some testQuery) =
      .ok ([(0, "query \x7b"), (1, "products("), (2, "where: \x7b"), (3, "and: \x7b"),
        (4, "id: \x7b greater_or_equals: 20 \x7d"), (4, "id: \x7b lt: 28 \x7d"), (3, "\x7d"),
        (2, "\x7d"), (1, ") \x7b"), (2, "id"), (2, "name"), (2, "price"), (1, "\x7d"),
        (0, "\x7d")], none) ∧
    documentLines quote (some bareQuery) = .ok ([], some (0, "query")) ∧
    (∀ u, formatted quote "" [.WithIndent u] (some nestedQuery) =
      .ok (linesText u [(0, "query \x7b"), (1, "a \x7b"), (2, "b"), (1, "\x7d"), (0, "\x7d")])) ∧
    formatted quote "" [.WithIndent "\t"] (some nestedQuery) =
      .ok "query \x7b\n\ta \x7b\n\t\tb\n\t\x7d\n\x7d\n" ∧
    formatted quote "" [.WithIndent ""] (some testQuery) =
      .ok "query \x7b\nproducts(\nwhere: \x7b\nand: \x7b\nid: \x7b greater_or_equals: 20 \x7d\nid: \x7b lt: 28 \x7d\n\x7d\n\x7d\n) \x7b\nid\nname\nprice\n\x7d\n\x7d\n" ∧
    formatted quote "" [.WithIndent " "] (some testQuery) =
      .ok "query \x7b\n products(\n  where: \x7b\n   and: \x7b\n    id: \x7b greater_or_equals: 20 \x7d\n    id: \x7b lt: 28 \x7d\n   \x7d\n  \x7d\n ) \x7b\n  id\n  name\n  price\n \x7d\n\x7d\n" ∧
    formatted quote "" [.WithIndent "    "] (some testQuery) =
      .ok "query \x7b\n    products(\n        where: \x7b\n            and: \x7b\n                id: \x7b greater_or_equals: 20 \x7d\n                id: \x7b lt: 28 \x7d\n            \x7d\n        \x7d\n    ) \x7b\n        id\n        name\n        price\n    \x7d\n\x7d\n" ∧
    formatted quote "" [.WithIndent "\t"] (some testQuery) =
      .ok "query \x7b\n\tproducts(\n\t\twhere: \x7b\n\t\t\tand: \x7b\n\t\t\t\tid: \x7b greater_or_equals: 20 \x7d\n\t\t\t\tid: \x7b lt: 28 \x7d\n\t\t\t\x7d\n\t\t\x7d\n\t) \x7b\n\t\tid\n\t\tname\n\t\tprice\n\t\x7d\n\x7d\n" := by
  refine ⟨formatted_documentLines quote, fun _ => rfl,
    fun d a a' sets hne h => selection_set_nesting quote d a a' sets hne h,
    fun d a a' lists hs h => argument_list_nesting quote d a a' lists hs h,
    doSplitted_of_several,
    fun k a a₁ s hc h => selection_first_line quote k a a₁ s hc h,
    fun k a a₁ arg hc h => argument_first_line quote k a a₁ arg hc h,
    fun k a a₁ hc => definition_first_line quote k a a₁ hc,
    fun d a s => ⟨rfl, fun hc => ⟨by simp [Lines.WriteString, hc], by simp [Lines.WriteWord, hc]⟩,
      ?_, ?_, rfl⟩,
    fun d a => (filter_layout_nesting quote d a).1,
    fun d a => (filter_layout_nesting quote d a).2,
    fun doc hd u => formatted_completes quote "" [.WithIndent u] doc hd,
    nestedQuery_lines quote, testQuery_lines quote, bareQuery_lines quote,
    nestedQuery_output quote, ?_, ?_, ?_, ?_, ?_⟩
  · cases h : a.cur <;> simp [Lines.WriteString, h]
  · cases h : a.cur <;> simp [Lines.WriteWord, h]
  · exact (nestedQuery_output quote "\t").trans (by decide!)
  · exact (testQuery_output quote "").trans (by decide!)
  · exact (testQuery_output quote " ").trans (by decide!)
  · exact (testQuery_output quote "    ").trans (by decide!)
  · exact (testQuery_output quote "\t").trans (by decide!)


/-- C7: no newline is emitted in minified mode: for every document whose names
and raw tokens other than string literals hold no newline, and a quoting
function whose results hold no newline (as those of `strconv.Quote`), a
minified emitter whose writer and colon separator hold no newline ends
`FormatQueryDocument` with a writer that holds no newline; so the output of a
formatter built with `WithMinification`, with or without `WithIndent`, holds
no newline.  The run completes when the document is well-formed (selections
that are fields, fragment spreads or inline fragments, declared value kinds,
no nil child, and in a `where` argument the pointers the layout test reads). -/
theorem C7_no_newline_when_minified (quote : String → String)
    (hq : ∀ s, noNewline (quote s) = true) (doc : Option QueryDocument)
    (hd : newlineFreeDocument doc = true) :
    (∀ f f' : formatter, f.optCompressed = true → noNewline f.colonUnit = true →
      noNewline f.writer = true → f.FormatQueryDocument quote doc = .ok f' →
      f'.optCompressed = true ∧ noNewline f'.writer = true) ∧
    (∀ w out, noNewline w = true →
      formatted quote w [.WithMinification] doc = .ok out → noNewline out = true) ∧
    (∀ w u out, noNewline w = true →
      formatted quote w [.WithMinification, .WithIndent u] doc = .ok out →
      noNewline out = true) ∧
    (wellFormedDocument doc = true →
      ∀ w, ∃ out, formatted quote w [.WithMinification] doc = .ok out) := by
  have key : ∀ f f' : formatter, f.optCompressed = true → noNewline f.colonUnit = true →
      noNewline f.writer = true → f.FormatQueryDocument quote doc = .ok f' → Clean f' :=
    fun f f' h₁ h₂ h₃ e => Clean.FormatQueryDocument_clean quote hq ⟨h₁, h₃, h₂⟩ doc hd f' e
  refine ⟨fun f f' h₁ h₂ h₃ e => ⟨(key f f' h₁ h₂ h₃ e).compressed, (key f f' h₁ h₂ h₃ e).writer⟩,
    fun w out hw e => ?_, fun w u out hw e => ?_,
    fun hwf w => formatted_completes quote w [.WithMinification] doc hwf⟩
  · obtain ⟨f', e₁, e₂⟩ := map_eq_ok.mp e
    exact e₂ ▸ (key (NewFormatter w [.WithMinification]) f' rfl rfl hw e₁).writer
  · obtain ⟨f', e₁, e₂⟩ := map_eq_ok.mp e
    exact e₂ ▸ (key (NewFormatter w [.WithMinification, .WithIndent u]) f' rfl rfl hw e₁).writer

/-- Witness of C7 at the document `query{a(s:"x<newline>y")}`: the minified
output is `query{a(s:"x\ny")}` with the newline of the literal escaped. -/
theorem C7_no_newline_when_minified_witness :
    (∀ s, noNewline (sampleQuote s) = true) ∧ newlineFreeDocument (some stringQuery) = true ∧
      noNewline "" = true ∧
      formatted sampleQuote "" [.WithMinification] (some stringQuery) =
        .ok "query\x7ba(s:\x22x\\ny\x22)\x7d" ∧
      noNewline "query\x7ba(s:\x22x\\ny\x22)\x7d" = true :=
  ⟨sampleQuote_noNewline, by decide!, rfl, stringQuery_output,
    (C7_no_newline_when_minified sampleQuote sampleQuote_noNewline (some stringQuery)
      (by decide!)).2.1 "" _ rfl stringQuery_output⟩


/-- C6 as stated fails: for `query{f(x:{a:1,b:2})}` the readable output keeps
the comma between the fields of the object and the minified output has a
space there, so the two differ after all spaces, tabs and newlines are
removed; and for a `where` argument whose value is a list holding the single
child `and: {...}` the readable filter layout writes braces where the minified
output writes brackets, so the two differ even without white space and
commas. -/
theorem C6_counterexample :
    (formatted id "" [] (some objectQuery) = .ok "query \x7b\n  f(x: \x7b a: 1, b: 2 \x7d)\n\x7d\n" ∧
      formatted id "" [.WithMinification] (some objectQuery) =
        .ok "query\x7bf(x:\x7ba:1 b:2\x7d)\x7d" ∧
      stripWhitespace "query \x7b\n  f(x: \x7b a: 1, b: 2 \x7d)\n\x7d\n" ≠
        stripWhitespace "query\x7bf(x:\x7ba:1 b:2\x7d)\x7d") ∧
    (formatted id "" [] (some whereListQuery) =
        .ok "query \x7b\n  f(\n    where: \x7b\n      and: \x7b\n        a: 1\n        b: 2\n      \x7d\n    \x7d\n  )\n\x7d\n" ∧
      formatted id "" [.WithMinification] (some whereListQuery) =
        .ok "query\x7bf(where:[\x7ba:1 b:2\x7d])\x7d" ∧
      squeeze "query \x7b\n  f(\n    where: \x7b\n      and: \x7b\n        a: 1\n        b: 2\n      \x7d\n    \x7d\n  )\n\x7d\n" ≠
        squeeze "query\x7bf(where:[\x7ba:1 b:2\x7d])\x7d") :=
  ⟨⟨objectQuery_readable, objectQuery_minified, by decide!⟩,
    ⟨whereListQuery_readable, whereListQuery_minified, by decide!⟩⟩

/-- C6 (amended): for every document in which the value of each `where`
argument that qualifies for the filter layout is an object value, the readable
output and the minified output, whenever both runs complete, are the same text
once all white space (the characters of `unicode.IsSpace`) and all commas are
removed from both; and both runs complete when the document is well-formed
(selections that are fields, fragment spreads or inline fragments, declared
value kinds, no nil child, and in a `where` argument the pointers the layout
test reads). -/
theorem C6_readable_minified_same_text (quote : String → String) (w : String)
    (doc : Option QueryDocument)
    (hd : documentAllArguments Argument.filterIsObject doc = true) :
    (∀ r m : String, formatted quote w [] doc = .ok r →
      formatted quote w [.WithMinification] doc = .ok m → squeeze r = squeeze m) ∧
    (wellFormedDocument doc = true →
      ∃ r m : String, formatted quote w [] doc = .ok r ∧
        formatted quote w [.WithMinification] doc = .ok m ∧ squeeze r = squeeze m) := by
  have key : ∀ r m : String, formatted quote w [] doc = .ok r →
      formatted quote w [.WithMinification] doc = .ok m → squeeze r = squeeze m := by
    intro r m hr hm
    obtain ⟨f', e₁, rfl⟩ := map_eq_ok.mp hr
    obtain ⟨g', e₂, rfl⟩ := map_eq_ok.mp hm
    have h : Rel (NewFormatter w []) (NewFormatter w [.WithMinification]) :=
      ⟨⟨rfl, rfl, fun _ => rfl, fun h => absurd h (by decide), fun h => absurd h (by decide)⟩,
        ⟨rfl, rfl, fun h => absurd h (by decide), fun _ => rfl, fun _ => rfl⟩, rfl⟩
    exact (Rel.FormatQueryDocument_rel quote h doc hd f' g' e₁ e₂).text
  refine ⟨key, fun hwf => ?_⟩
  obtain ⟨r, hr⟩ := formatted_completes quote w [] doc hwf
  obtain ⟨m, hm⟩ := formatted_completes quote w [.WithMinification] doc hwf
  exact ⟨r, m, hr, hm, key r m hr hm⟩

/-- Witness of C6 at the query of `TestFormatQueryWithIndent`, whose `where`
argument is rendered in the filter layout. -/
theorem C6_readable_minified_same_text_witness :
    documentAllArguments Argument.filterIsObject (some testQuery) = true ∧
      wellFormedDocument (some testQuery) = true ∧
      formatted id "" [] (some testQuery) =
        .ok "query \x7b\n  products(\n    where: \x7b\n      and: \x7b\n        id: \x7b greater_or_equals: 20 \x7d\n        id: \x7b lt: 28 \x7d\n      \x7d\n    \x7d\n  ) \x7b\n    id\n    name\n    price\n  \x7d\n\x7d\n" ∧
      formatted id "" [.WithMinification] (some testQuery) =
        .ok "query\x7bproducts(where:\x7band:\x7bid:\x7bgreater_or_equals:20\x7d id:\x7blt:28\x7d\x7d\x7d)\x7bid name price\x7d\x7d" ∧
      squeeze "query \x7b\n  products(\n    where: \x7b\n      and: \x7b\n        id: \x7b greater_or_equals: 20 \x7d\n        id: \x7b lt: 28 \x7d\n      \x7d\n    \x7d\n  ) \x7b\n    id\n    name\n    price\n  \x7d\n\x7d\n" =
        squeeze "query\x7bproducts(where:\x7band:\x7bid:\x7bgreater_or_equals:20\x7d id:\x7blt:28\x7d\x7d\x7d)\x7bid name price\x7d\x7d" :=
  ⟨by decide!, by decide!, testQuery_readable, testQuery_minified,
    (C6_readable_minified_same_text id "" (some testQuery) (by decide!)).1 _ _
      testQuery_readable testQuery_minified⟩


/-- C11: a field whose alias is empty or equal to its name is rendered
starting with the (trimmed) name alone; a field whose alias is non-empty and
differs from the name is rendered as the alias, the colon separator and the
name (`alias: name` in readable mode); the arguments, the directives and the
selection set follow in either case.  The text is preceded by the indentation
at a line head and by a space when padding is due. -/
theorem C11_alias_suppression (quote : String → String) (f : formatter)
    (fieldAlias name : String) (arguments : List Argument) (directives : List Directive)
    (selectionSet : List Selection) :
    f.FormatField quote fieldAlias name arguments directives selectionSet =
      (if f.lineHead = true ∧ f.optCompressed = false ∧ f.indent < 0 then
         .error .negativeRepeat
       else formatter.FormatField.rest quote
         { f with
           writer := f.writer ++ f.wordLead ++
             (if fieldAlias = "" ∨ fieldAlias = name then TrimSpace name
              else TrimSpace fieldAlias ++ f.colonUnit ++ TrimSpace name),
           lineHead := false, padNext := true } arguments directives selectionSet) ∧
    formatted id "" [] (some aliasQuery) = .ok "query \x7b\n  a: b\n  c\n  d\n\x7d\n" ∧
    formatted id "" [.WithMinification] (some aliasQuery) = .ok "query\x7ba:b c d\x7d" :=
  ⟨FormatField_eq quote f fieldAlias name arguments directives selectionSet,
    aliasQuery_output⟩

/-- C12: for an operation whose selection set is empty,
`FormatOperationDefinition` writes the operation keyword, the name if there is
one, the variable definitions and the directives, and nothing after them: the
empty selection set writes nothing and no newline follows.  Without variable
definitions and directives the text is the keyword, or the keyword, a space
and the name. -/
theorem C12_empty_selection_set (quote : String → String) (f : formatter)
    (operation name : String) (variableDefinitions : List VariableDefinition)
    (directives : List Directive) :
    f.FormatOperationDefinition quote ⟨operation, name, variableDefinitions, directives, []⟩ =
      (do
        let f ← f.WriteWord operation
        let f ← (if name ≠ "" then f.WriteWord name else .ok f)
        let f ← f.FormatVariableDefinitionList quote variableDefinitions
        f.FormatDirectiveList quote directives) ∧
    f.FormatSelectionSet quote [] = .ok f ∧
    f.FormatOperationDefinition quote ⟨operation, name, [], [], []⟩ =
      (if f.lineHead = true ∧ f.optCompressed = false ∧ f.indent < 0 then
         .error .negativeRepeat
       else .ok { f with
         writer := f.writer ++ f.wordLead ++ TrimSpace operation ++
           (if name = "" then "" else " " ++ TrimSpace name),
         lineHead := false, padNext := true }) ∧
    formatted id "" [] (some bareQuery) = .ok "query" ∧
    formatted id "" [] (some namedBareQuery) = .ok "query Q @d" ∧
    formatted id "" [.WithMinification] (some namedBareQuery) = .ok "query Q@d" :=
  ⟨FormatOperationDefinition_empty quote f operation name variableDefinitions directives,
    by simp [formatter.FormatSelectionSet, formatter.FormatSelectionSet.frame],
    FormatOperationDefinition_bare quote f operation name, namedBareQuery_output⟩

/-- C13, as stated, fails: the spread of the fragment `F` is rendered as
`... F`, with a space between the dots and the name, in readable and in
minified mode. -/
theorem C13_counterexample :
    ((NewFormatter "" []).FormatFragmentSpread id "F" []).map (fun f => f.writer) =
      .ok "... F" ∧
    ((NewFormatter "" []).FormatFragmentSpread id "F" []).map (fun f => f.writer) ≠
      .ok ("..." ++ "F") ∧
    formatted id "" [] (some spreadQuery) = .ok "query \x7b\n  ... F\n\x7d\n" ∧
    formatted id "" [.WithMinification] (some spreadQuery) = .ok "query\x7b... F\x7d" := by
  refine ⟨by decide!, by decide!, spreadQuery_output⟩

/-- C13, amended: a fragment spread is rendered as `...`, one space and the
(trimmed) name of the fragment, followed by its directives; the text is
preceded by the indentation at a line head and by a space when padding is due. -/
theorem C13_fragment_spread (quote : String → String) (f : formatter) (name : String)
    (directives : List Directive) :
    f.FormatFragmentSpread quote name directives =
      (if f.lineHead = true ∧ f.optCompressed = false ∧ f.indent < 0 then
         .error .negativeRepeat
       else formatter.FormatDirectiveList quote
         { f with
           writer := f.writer ++ f.wordLead ++ "..." ++ " " ++ TrimSpace name,
           lineHead := false, padNext := true } directives) :=
  FormatFragmentSpread_eq quote f name directives

/-- C15: `NewFormatter` without options yields indent unit two spaces, colon
separator `": "`, argument splitting and filter layout enabled, minified false
(depth 0 and both flags clear, the writer untouched); `WithMinification` sets
the colon separator to `":"`, disables argument splitting and the filter
layout, sets minified and changes nothing else, the indent unit included;
`WithIndent u` changes only the indent unit; the options of a list are applied
in order, the last one on the state the others produced. -/
theorem C15_configuration (w u : String) (opts : List FormatOption) (f : formatter) :
    NewFormatter w [] =
      { writer := w, indent := 0, padNext := false, lineHead := false,
        indentUnit := "  ", colonUnit := ": ",
        optArgumentSplitted := true, optWhereLogicalOps := true, optCompressed := false } ∧
    FormatOption.WithMinification.apply f =
      { f with colonUnit := ":", optArgumentSplitted := false,
               optWhereLogicalOps := false, optCompressed := true } ∧
    (FormatOption.WithMinification.apply f).indentUnit = f.indentUnit ∧
    (FormatOption.WithIndent u).apply f = { f with indentUnit := u } ∧
    NewFormatter w (opts ++ [.WithMinification]) =
      FormatOption.WithMinification.apply (NewFormatter w opts) ∧
    NewFormatter w (opts ++ [.WithIndent u]) =
      (FormatOption.WithIndent u).apply (NewFormatter w opts) ∧
    NewFormatter w [.WithMinification] =
      { writer := w, indent := 0, padNext := false, lineHead := false,
        indentUnit := "  ", colonUnit := ":",
        optArgumentSplitted := false, optWhereLogicalOps := false, optCompressed := true } ∧
    NewFormatter w [.WithIndent u] =
      { writer := w, indent := 0, padNext := false, lineHead := false,
        indentUnit := u, colonUnit := ": ",
        optArgumentSplitted := true, optWhereLogicalOps := true, optCompressed := false } := by
  refine ⟨?_, ?_, ?_, ?_, ?_, ?_, ?_, ?_⟩
  · simp [NewFormatter, FormatOption.applyAll]
  · simp [FormatOption.apply]
  · simp [FormatOption.apply]
  · simp [FormatOption.apply]
  · simp [NewFormatter, applyAll_append, FormatOption.applyAll]
  · simp [NewFormatter, applyAll_append, FormatOption.applyAll]
  · simp [NewFormatter, FormatOption.applyAll, FormatOption.apply]
  · simp [NewFormatter, FormatOption.applyAll, FormatOption.apply]

/-- C17, as stated, fails: at a line head with pad-next set (after
`WriteNewline` and `NeedPadding`, depth 1) the word `a` is written after the
indentation without a space, `writeIndent` having cleared pad-next. -/
theorem C17_counterexample :
    lineHeadPadded.lineHead = true ∧ lineHeadPadded.padNext = true ∧
    (lineHeadPadded.WriteWord "a").map (fun f => f.writer) = .ok "\n  a" ∧
    (writeWordSpec lineHeadPadded "a").writer = "\n   a" ∧
    lineHeadPadded.WriteWord "a" ≠ .ok (writeWordSpec lineHeadPadded "a") := by
  refine ⟨by decide!, by decide!, by decide!, by decide!, by decide!⟩

/-- C17, amended: `WriteWord`, in every state whose depth is not negative:
at a line head it first emits the indent unit repeated depth times (nothing in
minified mode) and clears line-head and pad-next; then, if pad-next is still
set, that is if it was set and the state was not at a line head, it emits one
space; then it emits the trimmed word; finally pad-next is true.  At a line
head in readable mode with a negative depth it faults. -/
theorem C17_writeWord (f : formatter) (word : String) :
    f.WriteWord word =
      if f.lineHead = true ∧ f.optCompressed = false ∧ f.indent < 0 then .error .negativeRepeat
      else .ok { f with
        writer := f.writer ++
          (if f.lineHead = true then
             (if f.optCompressed = true then "" else Repeat f.indentUnit f.indent.toNat)
           else "") ++
          (if f.lineHead = false ∧ f.padNext = true then " " else "") ++ TrimSpace word,
        lineHead := false, padNext := true } := by
  rw [WriteWord_eq]
  cases f.lineHead <;> cases f.optCompressed <;> simp

/-- C18, as stated, fails: in minified mode `WriteNewline` sets line-head, so
that a word written after `WriteNewline` and `NeedPadding` is not preceded by
a space. -/
theorem C18_counterexample :
    (NewFormatter "" [.WithMinification]).lineHead = false ∧
    (NewFormatter "" [.WithMinification]).WriteNewline.lineHead = true ∧
    (NewFormatter "" [.WithMinification]).WriteNewline ≠
      writeNewlineSpec (NewFormatter "" [.WithMinification]) ∧
    ((NewFormatter "x" [.WithMinification]).WriteNewline.NeedPadding.WriteWord "a").map
      (fun f => f.writer) = .ok "xa" ∧
    ((writeNewlineSpec (NewFormatter "x" [.WithMinification])).NeedPadding.WriteWord "a").map
      (fun f => f.writer) = .ok "x a" := by
  refine ⟨by decide!, by decide!, by decide!, by decide!, by decide!⟩

/-- C18, amended: `WriteNewline` in readable mode appends exactly one newline,
sets line-head and clears pad-next; in minified mode it emits nothing, sets
line-head and clears pad-next, and leaves the writer and the indent depth (and
the configuration) unchanged. -/
theorem C18_writeNewline (f : formatter) :
    f.WriteNewline =
      (if f.optCompressed = true then { f with lineHead := true, padNext := false }
       else { f with writer := f.writer ++ "\n", lineHead := true, padNext := false }) := by
  cases h : f.optCompressed <;> simp [formatter.WriteNewline, formatter.writeString, h]


/-- C20: in every state of a formatter built by `NewFormatter` the two gates
of the applicability test are equal, and for a list of exactly one argument
the test of `FormatArgumentList` and the test of `FormatWhereArgument` give
the same answer (or the same fault) when the argument is named `where`, while
an argument of another name is never split and never reaches
`FormatWhereArgument`.  So `FormatArgumentList` places the argument on its own
line exactly when the argument is rendered by `FormatWhereLogOpArgument`, and
in the inline list the argument is rendered as name, colon and inline value. -/
theorem C20_applicability_tests_agree (quote : String → String) (w : String)
    (opts : List FormatOption) (f : formatter) (a : Argument)
    (hs : f.optArgumentSplitted = (NewFormatter w opts).optArgumentSplitted)
    (hw : f.optWhereLogicalOps = (NewFormatter w opts).optWhereLogicalOps) :
    f.optArgumentSplitted = f.optWhereLogicalOps ∧
    formatter.FormatArgumentList.doSplitted f [a] =
      (if a.Name = "where" then formatter.FormatWhereArgument.useLogOp f a else .ok false) ∧
    (formatter.FormatArgumentList.doSplitted f [a] = .ok true ↔
      a.Name = "where" ∧ formatter.FormatWhereArgument.useLogOp f a = .ok true) ∧
    (a.derefOk = true →
      formatter.FormatArgumentList.doSplitted f [a] =
        .ok (decide (a.Name = "where") && (f.optWhereLogicalOps && whereQualifies a.Value))) ∧
    f.FormatArgumentList quote [a] = (do
      let b ← (if a.Name = "where" then formatter.FormatWhereArgument.useLogOp f a
               else .ok false)
      let f₁ ← f.NoPadding.WriteString "("
      let f₂ ←
        (if b = true then
           (f₁.WriteNewline.IncrementIndent.FormatWhereLogOpArgument quote a).map
             (fun g => g.WriteNewline.DecrementIndent)
         else f₁.inlineArgument quote a)
      let f₃ ← f₂.WriteString ")"
      .ok f₃.NeedPadding) := by
  have hf : f.optArgumentSplitted = f.optWhereLogicalOps := by
    rw [hs, hw]
    exact NewFormatter_gates w opts
  refine ⟨hf, doSplitted_agrees f hf a, ?_, ?_, FormatArgumentList_single quote f hf a⟩
  · rw [doSplitted_agrees f hf a]
    by_cases hn : a.Name = "where"
    · simp [hn]
    · simp [hn]
  · intro hd
    rw [doSplitted_agrees f hf a]
    by_cases hn : a.Name = "where"
    · simp [hn, useLogOp_eq f a hd]
    · simp [hn]

/-- Witness of C20 at a state of depth 1 of the formatter built with a tab as
indent unit and the argument `where:{and:{id:{greater_or_equals:20} id:{lt:28}}}`,
which is split. -/
theorem C20_applicability_tests_agree_witness :
    (NewFormatter "" [.WithIndent "\t"]).IncrementIndent.optArgumentSplitted =
      (NewFormatter "" [.WithIndent "\t"]).optArgumentSplitted ∧
    (NewFormatter "" [.WithIndent "\t"]).IncrementIndent.optWhereLogicalOps =
      (NewFormatter "" [.WithIndent "\t"]).optWhereLogicalOps ∧
    formatter.FormatArgumentList.doSplitted (NewFormatter "" [.WithIndent "\t"]).IncrementIndent
      [whereArgument "" "" .ObjectValue "and" testConditions] = .ok true :=
  ⟨rfl, rfl,
   ((C20_applicability_tests_agree id "" [.WithIndent "\t"]
      (NewFormatter "" [.WithIndent "\t"]).IncrementIndent
      (whereArgument "" "" .ObjectValue "and" testConditions) rfl rfl).2.2.2.1
        (by decide!)).trans (congrArg Except.ok (by decide!))⟩


/-- C16 fails on the code: in readable mode the filter layout writes a child
named and/or/not whose value is a scalar, a variable or a string without a
newline after it, so for `where:{and:{or:5,a:1}}` the children `or: 5` and
`a: 1` share the line `or: 5a: 1`, and for `where:{and:{a:1,not:$v}}` the
closing brace follows `not: $v` on the same line. -/
theorem C16_children_share_a_line :
    formatted id "" [] (some logicalScalarQuery) =
      .ok "query \x7b\n  f(\n    where: \x7b\n      and: \x7b\n        or: 5a: 1\n      \x7d\n    \x7d\n  )\n\x7d\n" ∧
    formatted id "" [] (some logicalLastQuery) =
      .ok "query \x7b\n  f(\n    where: \x7b\n      and: \x7b\n        a: 1\n        not: $v\x7d\n    \x7d\n  )\n\x7d\n" ∧
    (∀ (quote : String → String) (f f' : formatter) (name raw : String)
        (children : List (Option ChildValue)) (kind : ValueKind),
      kind = .IntValue ∨ kind = .FloatValue ∨ kind = .EnumValue ∨ kind = .BooleanValue ∨
        kind = .NullValue ∨ kind = .Variable ∨ kind = .StringValue ∨ kind = .BlockValue →
      f.FormatWhereLogOpChildValue quote (.mk name (some (.mk raw children kind))) = .ok f' →
      f'.lineHead = false) :=
  ⟨logicalScalarQuery_output.1, logicalScalarQuery_output.2,
    fun quote f f' name raw children kind hk h =>
      FormatWhereLogOpChildValue_scalar quote f f' name raw children kind hk h⟩


/-- C14, as stated, fails in both directions.  A `where` argument whose value
has no declared kind and qualifies for the filter layout is rendered without
fault in readable mode (the layout writes the braces itself and never examines
the kind), while the minified run of the same document faults on that kind.
A document that holds no value at all faults in both modes when a selection is
no field, fragment spread or inline fragment: `FormatSelection` panics in the
`default` branch of its type switch, a second explicit fault class.  And a
document whose only value is the nil value of a `where` argument faults in
readable mode with a nil dereference: the layout test reads the children of
the value without the nil check the rest of the formatter makes. -/
theorem C14_counterexample :
    (documentAllArguments (fun a => recognisedOpt a.Value) (some whereUnknownKindQuery) = false ∧
      formatted id "" [] (some whereUnknownKindQuery) =
        .ok "query \x7b\n  f(\n    where: \x7b\n      and: \x7b\n        a: 1\n        b: 2\n      \x7d\n    \x7d\n  )\n\x7d\n" ∧
      formatted id "" [.WithMinification] (some whereUnknownKindQuery) = .error .unknownKind) ∧
    (documentAllArguments (fun a => recognisedOpt a.Value) (some unknownSelectionQuery) = true ∧
      documentAllVariables (fun d => recognisedOpt d.DefaultValue)
        (some unknownSelectionQuery) = true ∧
      formatted id "" [] (some unknownSelectionQuery) = .error .unknownSelection ∧
      formatted id "" [.WithMinification] (some unknownSelectionQuery) =
        .error .unknownSelection) ∧
    (documentAllArguments (fun a => recognisedOpt a.Value) (some whereNilQuery) = true ∧
      formatted id "" [] (some whereNilQuery) = .error .nilDeref) :=
  ⟨whereUnknownKindQuery_output, unknownSelectionQuery_output.2,
    by decide!, whereNilQuery_output.1⟩

/-- C14, amended: the core has two explicit fault classes, a selection that is
no field, fragment spread or inline fragment (`FormatSelection` panics in its
`default` branch, the nil interface included) and a value of an undeclared
kind where the kind is examined (the value renderer and the filter layout
panic).  `FormatQueryDocument` completes without fault, in every
configuration, on every document whose selections are of the three types,
whose argument values and default values have declared kinds and no nil
element in a `Children` slice, and in which every `where` argument has the
pointers the layout test reads; absent values of other arguments and of
children are rendered as `<nil>`, absent default values, empty selection sets
and lists of length zero are handled.  Conversely a run that completes has met
no selection of another type and no value of an undeclared kind where the kind
is examined: in every value reached through list and object nodes from a
default value or an argument value, except the own kind of the value of a
`where` argument rendered in the filter layout.  The pointers to operations,
fragments, variable definitions and their types, directives, arguments,
fields, spreads and inline fragments are present in every document of the
model. -/
theorem C14_fault_classes (quote : String → String) (w : String) (opts : List FormatOption)
    (doc : Option QueryDocument) (hd : wellFormedDocument doc = true) :
    (∃ out, formatted quote w opts doc = .ok out) ∧
    (∀ (d : Option QueryDocument) (out : String), formatted quote w opts d = .ok out →
      documentKnownSelections d = true ∧
      documentAllArguments
        (Argument.examinedKnown (NewFormatter w opts).optWhereLogicalOps) d = true ∧
      documentAllVariables (fun v => examinedKnownOpt v.DefaultValue) d = true) ∧
    (∀ f : formatter, f.FormatSelection quote .other = .error .unknownSelection) ∧
    (∀ (f : formatter) (sets : List Selection),
      selectionsKnown sets = false → ∃ e, f.FormatSelectionSet quote sets = .error e) ∧
    (∀ f : formatter, GetValueString quote f none = .ok "<nil>") ∧
    (∀ (f : formatter) (raw : String) (children : List (Option ChildValue)),
      GetValueString quote f (some (.mk raw children .unsupported)) = .error .unknownKind) ∧
    (∀ (f : formatter) (name raw : String) (children : List (Option ChildValue)),
      ∃ e, f.FormatWhereLogOpChildValue quote
        (.mk name (some (.mk raw children .unsupported))) = .error e) ∧
    (∀ (f : formatter) (name raw : String) (children : List (Option ChildValue))
        (k₁ k₂ : ValueKind),
      f.FormatWhereLogOpArgument quote ⟨name, some (.mk raw children k₁)⟩ =
        f.FormatWhereLogOpArgument quote ⟨name, some (.mk raw children k₂)⟩) ∧
    formatted id "" [] (some absentValuesQuery) =
      .ok "query Q ($v:Int) \x7b\n  f(\n    x: <nil>\n    y: \x7b a: <nil> \x7d\n    z: [  ]\n  )\n\x7d\nmutation" ∧
    formatted id "" [.WithMinification] (some absentValuesQuery) =
      .ok "query Q($v:Int)\x7bf(x:<nil> y:\x7ba:<nil>\x7d z:[])\x7dmutation" ∧
    formatted quote w opts none = .ok w ∧
    formatted quote w opts (some ⟨[], []⟩) = .ok w :=
  ⟨formatted_completes quote w opts doc hd,
    fun d out h => ⟨formatted_known quote w opts d out h, formatted_examined quote w opts d out h⟩,
    fun f => by unfold formatter.FormatSelection; rfl,
    fun f sets h => FormatSelectionSet_unknown quote f sets h,
    fun _ => by simp [GetValueString],
    fun _ _ _ => by simp [GetValueString, GetValueString.value],
    fun f name raw children => FormatWhereLogOpChildValue_unknown quote f name raw children,
    fun _ _ _ _ _ _ => rfl,
    absentValuesQuery_output.1, absentValuesQuery_output.2,
    by simp [formatted, formatter.FormatQueryDocument, Except.map, NewFormatter_writer],
    by simp [formatted, formatter.FormatQueryDocument, formatter.FormatOperationList,
      formatter.FormatFragmentDefinitionList, Except.map, NewFormatter_writer]⟩

/-- Witness of C14 at the document with absent values, whose selections are
fields. -/
theorem C14_fault_classes_witness :
    wellFormedDocument (some absentValuesQuery) = true ∧
    ∃ out, formatted id "" [] (some absentValuesQuery) = .ok out :=
  ⟨by decide!, (C14_fault_classes id "" [] (some absentValuesQuery) (by decide!)).1⟩


/-- C19: the run of `FormatQueryDocument` that records the least indent depth
reached, started at depth 0 by a formatter of any configuration on any
document, is the run of `FormatQueryDocument` itself with the record still 0
at the end, or at the panic when the run panics: the depth is never negative
at any point, and when the run returns the depth is 0 again.  More generally a
run started at depth d never goes below d and returns at depth d, and a
selection set, an argument list and a filter layout return at the depth at
which they were entered. -/
theorem C19_indent_depth_invariant (quote : String → String) (w : String)
    (opts : List FormatOption) (doc : Option QueryDocument) :
    (NewFormatter w opts).indent = 0 ∧
    Tracked.FormatQueryDocument quote ⟨NewFormatter w opts, 0⟩ doc =
      withLow 0 ((NewFormatter w opts).FormatQueryDocument quote doc) ∧
    (∀ f, (NewFormatter w opts).FormatQueryDocument quote doc = .ok f → f.indent = 0) ∧
    (∀ (f : formatter) (l : Int), l ≤ f.indent →
      Tracked.FormatQueryDocument quote ⟨f, l⟩ doc =
        withLow l (f.FormatQueryDocument quote doc) ∧
      ∀ g, f.FormatQueryDocument quote doc = .ok g → g.indent = f.indent) ∧
    (∀ (f g : formatter) (sets : List Selection),
      f.FormatSelectionSet quote sets = .ok g → g.indent = f.indent) ∧
    (∀ (f g : formatter) (args : List Argument),
      f.FormatArgumentList quote args = .ok g → g.indent = f.indent) ∧
    (∀ (f g : formatter) (arg : Argument),
      f.FormatWhereLogOpArgument quote arg = .ok g → g.indent = f.indent) ∧
    (∀ t : Tracked, t.IncrementIndent.low = min t.low (t.state.indent + 1) ∧
      t.DecrementIndent.low = min t.low (t.state.indent - 1)) ∧
    ((Tracked.FormatQueryDocument id ⟨NewFormatter "" [], 0⟩ (some testQuery)).toOption.map
      fun t => (t.state.indent, t.low)) = some (0, 0) ∧
    (Tracked.DecrementIndent ⟨NewFormatter "" [], 0⟩).low = -1 := by
  have h0 := NewFormatter_indent w opts
  have key := lifts_FormatQueryDocument quote (le_refl (0 : Int)) h0 doc
  refine ⟨h0, lifts_eq key, lifts_indent key, fun f l hl => ?_, ?_, ?_, ?_, fun t => ⟨rfl, rfl⟩,
    tracked_testQuery⟩
  · have k := lifts_FormatQueryDocument quote hl rfl doc
    exact ⟨lifts_eq k, lifts_indent k⟩
  · intro f g sets e
    simpa using ((Ext.refl f).FormatSelectionSet quote sets g e).indent
  · intro f g args e
    simpa using ((Ext.refl f).FormatArgumentList quote args g e).indent
  · intro f g arg e
    simpa using ((Ext.refl f).FormatWhereLogOpArgument quote arg g e).indent


/-- C21, as stated, fails.  The filter layout writes braces around the single
child of the `where` value whatever the kind of the value: for a list value
with the child `and: {a: 1, b: 2}` the layout writes `where:{and:{a:1b:2}}`
and the inline rendering `where:[{a:1b:2}]`, up to white space and commas.
And the layout writes the indent unit at each line head: with the indent unit
`--` the text of the layout holds the indentation, the inline text none. -/
theorem C21_counterexample :
    (whereQualifies whereListArgument.Value = true ∧
      recognisedOpt whereListArgument.Value = true ∧
      ((NewFormatter "" []).FormatWhereLogOpArgument id whereListArgument).map
        (fun g => squeeze g.writer) = .ok "where:\x7band:\x7ba:1b:2\x7d\x7d" ∧
      ((NewFormatter "" []).inlineArgument id whereListArgument).map
        (fun g => squeeze g.writer) = .ok "where:[\x7ba:1b:2\x7d]") ∧
    (whereQualifies testWhereArgument.Value = true ∧
      recognisedOpt testWhereArgument.Value = true ∧
      (NewFormatter "" [.WithIndent "--"]).optCompressed = false ∧
      ((NewFormatter "" [.WithIndent "--"]).FormatWhereLogOpArgument id testWhereArgument).map
        (fun g => squeeze g.writer) =
        .ok "where:\x7b--and:\x7b----id:\x7bgreater_or_equals:20\x7d----id:\x7blt:28\x7d--\x7d\x7d" ∧
      ((NewFormatter "" [.WithIndent "--"]).inlineArgument id testWhereArgument).map
        (fun g => squeeze g.writer) =
        .ok "where:\x7band:\x7bid:\x7bgreater_or_equals:20\x7did:\x7blt:28\x7d\x7d\x7d") :=
  ⟨whereListArgument_texts,
    testWhereArgument_texts.1, testWhereArgument_texts.2.1, testWhereArgument_texts.2.2.1,
    testWhereArgument_texts.2.2.2.2.1, testWhereArgument_texts.2.2.2.2.2⟩

/-- C21, amended: from a readable state (not minified, colon separator `: `,
as `NewFormatter` builds it) whose indent unit consists of white space and
commas, for every argument that qualifies for the filter layout and whose
value is an object, the text written by `FormatWhereLogOpArgument` and the
text of the inline rendering (name, colon separator, `GetValueString` of the
value) are identical once all white space (the characters of
`unicode.IsSpace`) and all commas are removed from both; and both renderings
complete when the values have declared kinds, no child is nil and the depth is
not negative. -/
theorem C21_filter_layout_same_text (quote : String → String) (f : formatter)
    (arg : Argument)
    (hc : f.optCompressed = false) (hu : f.colonUnit = ": ")
    (hi : squeeze f.indentUnit = "")
    (hq : whereQualifies arg.Value = true)
    (hk : ∀ v, arg.Value = some v → v.Kind = .ObjectValue) :
    (∀ g g' : formatter, f.FormatWhereLogOpArgument quote arg = .ok g →
      f.inlineArgument quote arg = .ok g' →
      ∃ (t t' tv : String),
        g.writer = f.writer ++ t ∧ g'.writer = f.writer ++ t' ∧
        GetValueString quote f arg.Value = .ok tv ∧
        squeeze t = squeeze t' ∧
        squeeze t' = squeeze (arg.Name ++ f.colonUnit ++ tv)) ∧
    (0 ≤ f.indent → recognisedOpt arg.Value = true →
      ∃ g g' : formatter, f.FormatWhereLogOpArgument quote arg = .ok g ∧
        f.inlineArgument quote arg = .ok g') ∧
    (∀ w u : String,
      (NewFormatter w [.WithIndent u]).optCompressed = false ∧
      (NewFormatter w [.WithIndent u]).colonUnit = ": " ∧
      (NewFormatter w [.WithIndent u]).indentUnit = u ∧
      (NewFormatter w [.WithIndent u]).indent = 0 ∧
      (NewFormatter w []).optCompressed = false ∧
      (NewFormatter w []).colonUnit = ": " ∧
      (NewFormatter w []).indentUnit = "  " ∧
      (NewFormatter w []).indent = 0) :=
  ⟨filter_layout_same_text quote f arg hc hu hi hq hk,
    fun hd hr => filter_layout_completes quote f arg hd hq hr, NewFormatter_readable⟩

/-- Witness of C21 at the formatter with a tab as indent unit and the `where`
argument of the query of `TestFormatQueryWithIndent`: both renderings complete
and their texts agree up to white space and commas. -/
theorem C21_filter_layout_same_text_witness :
    (NewFormatter "" [.WithIndent "\t"]).optCompressed = false ∧
    (NewFormatter "" [.WithIndent "\t"]).colonUnit = ": " ∧
    squeeze (NewFormatter "" [.WithIndent "\t"]).indentUnit = "" ∧
    whereQualifies testWhereArgument.Value = true ∧
    (∀ v, testWhereArgument.Value = some v → v.Kind = .ObjectValue) ∧
    ∃ g g' : formatter,
      (NewFormatter "" [.WithIndent "\t"]).FormatWhereLogOpArgument id testWhereArgument =
        .ok g ∧
      (NewFormatter "" [.WithIndent "\t"]).inlineArgument id testWhereArgument = .ok g' ∧
      squeeze g.writer = squeeze g'.writer :=
  ⟨by decide!, by decide!, by decide!, by decide!, fun v h => by cases h; rfl, by
    have key := C21_filter_layout_same_text id (NewFormatter "" [.WithIndent "\t"])
      testWhereArgument (by decide!) (by decide!) (by decide!) (by decide!)
      (fun v h => by cases h; rfl)
    obtain ⟨g, g', e₁, e₂⟩ := key.2.1 (by decide!) (by decide!)
    obtain ⟨t, t', tv, ht, ht', _, hs, _⟩ := key.1 g g' e₁ e₂
    exact ⟨g, g', e₁, e₂, by rw [ht, ht', squeeze_append, squeeze_append, hs]⟩⟩


end Gqlformatter
